import Mathlib

/-!
# GlslangToSpv: layout engine, type lowering and call lowering

A shallow embedding of parts of `SPIRV/GlslangToSpv.cpp` (the glslang AST to
SPIR-V lowering pass) together with theorems about the embedded functions.

Conventions of the embedding:

* C++ `int` values are `Int`; none of the arithmetic modelled here relies on
  wrap-around.
* `assert(...)` is a no-op (release build behaviour).
* The traverser's mutable members are fields of `TGlslangToSpvTraverser`, threaded
  explicitly through every function that mutates them.
* A `std::unordered_map` that is only accessed through `operator[]` is a total
  function whose default is the value-initialised element (`0`, empty vector).
* The front-end types (`glslang::TType`, `TQualifier`, ...) and the module builder
  (`spv::Builder`) are declared outside `SPIRV/GlslangToSpv.cpp`; they are modelled
  here by the accessors and calls that file uses.
-/

namespace glslang

/-- Basic types switched on by `convertGlslangToSpvType`; `EbtNumTypes` stands for
every enumerator that reaches the `default:` label. -/
inductive TBasicType where
  | EbtVoid | EbtFloat | EbtDouble | EbtInt | EbtUint | EbtBool | EbtAtomicUint
  | EbtSampler | EbtStruct | EbtBlock | EbtNumTypes
  deriving DecidableEq, Repr

/-- Storage qualifiers named in `GlslangToSpv.cpp`. -/
inductive TStorageQualifier where
  | EvqTemporary | EvqGlobal | EvqConst | EvqVaryingIn | EvqVaryingOut | EvqUniform
  | EvqBuffer | EvqShared | EvqIn | EvqOut | EvqInOut | EvqConstReadOnly
  deriving DecidableEq, Repr

/-- Precision qualifiers. -/
inductive TPrecisionQualifier where
  | EpqNone | EpqLow | EpqMedium | EpqHigh
  deriving DecidableEq, Repr

/-- Packing policies; `ElpNone` is the enumerator with value `0`. -/
inductive TLayoutPacking where
  | ElpNone | ElpShared | ElpStd140 | ElpStd430 | ElpPacked
  deriving DecidableEq, Repr

/-- Matrix orientations. -/
inductive TLayoutMatrix where
  | ElmNone | ElmRowMajor | ElmColumnMajor
  deriving DecidableEq, Repr

/-- Sampler dimensionalities; `EsdNone` reaches the `default:` label of
`TranslateDimensionality`. -/
inductive TSamplerDim where
  | EsdNone | Esd1D | Esd2D | Esd3D | EsdCube | EsdRect | EsdBuffer
  deriving DecidableEq, Repr

/-- Built-in variable identities named in `TranslateBuiltInDecoration`; `EbvNone`
stands for every enumerator that reaches its `default:` label. -/
inductive TBuiltInVariable where
  | EbvNone | EbvPosition | EbvPointSize | EbvClipDistance | EbvCullDistance | EbvVertexId
  | EbvInstanceId | EbvBaseVertex | EbvBaseInstance | EbvDrawId | EbvPrimitiveId
  | EbvInvocationId | EbvLayer | EbvViewportIndex | EbvTessLevelInner | EbvTessLevelOuter
  | EbvTessCoord | EbvPatchVertices | EbvFragCoord | EbvPointCoord | EbvFace | EbvSampleId
  | EbvSamplePosition | EbvSampleMask | EbvFragDepth | EbvHelperInvocation
  | EbvNumWorkGroups | EbvWorkGroupSize | EbvWorkGroupId | EbvLocalInvocationId
  | EbvLocalInvocationIndex | EbvGlobalInvocationId
  deriving DecidableEq, Repr

/-- The members of `glslang::TQualifier` read by the embedded functions. Each
`hasX` or `isX` field is the result of the accessor `hasX()` or `isX()`. -/
structure TQualifier where
  storage : TStorageQualifier := .EvqTemporary
  precision : TPrecisionQualifier := .EpqNone
  builtIn : TBuiltInVariable := .EbvNone
  invariant : Bool := false
  smooth : Bool := false
  nopersp : Bool := false
  patch : Bool := false
  flat : Bool := false
  centroid : Bool := false
  sample : Bool := false
  layoutMatrix : TLayoutMatrix := .ElmNone
  layoutPacking : TLayoutPacking := .ElpNone
  hasOffset : Bool := false
  layoutOffset : Int := -1
  hasXfbOffset : Bool := false
  layoutXfbOffset : Int := 0
  hasLocation : Bool := false
  layoutLocation : Int := 0
  hasComponent : Bool := false
  layoutComponent : Int := 0
  hasStream : Bool := false
  layoutStream : Int := 0
  hasXfbStride : Bool := false
  layoutXfbStride : Int := 0
  hasXfbBuffer : Bool := false
  layoutXfbBuffer : Int := 0
  layoutFormat : Nat := 0
  hasIndex : Bool := false
  layoutIndex : Int := 0
  hasSet : Bool := false
  layoutSet : Int := 0
  hasBinding : Bool := false
  layoutBinding : Int := 0
  isPipeInput : Bool := false
  isPipeOutput : Bool := false
  isUniformOrBuffer : Bool := false
  deriving DecidableEq, Repr

/-- The members of `glslang::TSampler` read by `convertGlslangToSpvType`. -/
structure TSampler where
  type : TBasicType := .EbtFloat
  dim : TSamplerDim := .Esd2D
  shadow : Bool := false
  arrayed : Bool := false
  ms : Bool := false
  image : Bool := false
  deriving DecidableEq, Repr

/-- Modelled from the spec: a front-end type, `glslang::TType`, declared outside
`SPIRV/GlslangToSpv.cpp`, as seen through the accessors that file calls. `structId` is
the identity of the member list (`const TTypeList*`, what `getStruct()` returns) and `members` its elements;
`arraySizes` lists the array dimensions outermost first and is empty for a
non-array; `hidden` is the result of `hiddenMember()`. -/
inductive TType where
  | mk (basicType : TBasicType) (qualifier : TQualifier) (sampler : TSampler)
      (vectorSize matrixCols matrixRows : Nat) (arraySizes : List Nat) (hidden : Bool)
      (fieldName typeName : String) (structId : Nat) (members : List TType)

namespace TType

def getBasicType : TType → TBasicType
  | mk bt _ _ _ _ _ _ _ _ _ _ _ => bt

def getQualifier : TType → TQualifier
  | mk _ q _ _ _ _ _ _ _ _ _ _ => q

def getSampler : TType → TSampler
  | mk _ _ s _ _ _ _ _ _ _ _ _ => s

def getVectorSize : TType → Nat
  | mk _ _ _ vs _ _ _ _ _ _ _ _ => vs

def getMatrixCols : TType → Nat
  | mk _ _ _ _ mc _ _ _ _ _ _ _ => mc

def getMatrixRows : TType → Nat
  | mk _ _ _ _ _ mr _ _ _ _ _ _ => mr

def getArraySizes : TType → List Nat
  | mk _ _ _ _ _ _ as _ _ _ _ _ => as

def hiddenMember : TType → Bool
  | mk _ _ _ _ _ _ _ h _ _ _ _ => h

def getFieldName : TType → String
  | mk _ _ _ _ _ _ _ _ fn _ _ _ => fn

def getTypeName : TType → String
  | mk _ _ _ _ _ _ _ _ _ tn _ _ => tn

/-- Identity of the member list, the key of `structMap` and `memberRemapper`. -/
def getStructId : TType → Nat
  | mk _ _ _ _ _ _ _ _ _ _ sid _ => sid

def getStruct : TType → List TType
  | mk _ _ _ _ _ _ _ _ _ _ _ ms => ms

def isMatrix (t : TType) : Bool := t.getMatrixCols != 0

def isArray (t : TType) : Bool := !t.getArraySizes.isEmpty

/-- Modelled from the spec: the accessor `isStruct()`, true of the two aggregate kinds
("Structs/interface-blocks"). -/
def isStruct (t : TType) : Bool :=
  t.getBasicType == .EbtStruct || t.getBasicType == .EbtBlock

/-- Modelled from the spec: the accessor `isVector()`. -/
def isVector (t : TType) : Bool := decide (t.getVectorSize > 1)

def getOuterArraySize (t : TType) : Nat := t.getArraySizes.headD 0

/-- An array whose outermost dimension is unsized (size `0`). -/
def isRuntimeSizedArray (t : TType) : Bool := t.isArray && t.getOuterArraySize == 0

end TType

/-- Modelled from the spec: `glslang::RoundToPow2` is declared in the front end's
common header, outside `SPIRV/GlslangToSpv.cpp`. The layout contract reads "each
member's offset is the previous member's end, rounded up to the member's own
alignment": the least multiple of `powerOf2` that is at least `number`. -/
def RoundToPow2 (number powerOf2 : Int) : Int :=
  (number + powerOf2 - 1) / powerOf2 * powerOf2

/-- The part of `glslang::TIntermediate` the layout engine consumes: the front end's
query `getBaseAlignment(type, size, std140, rowMajor)`, returning the alignment and
writing `size`; here it returns the pair `(alignment, size)`. `getXfbMode` is the
accessor of the same name. -/
structure TIntermediate where
  getBaseAlignment : TType → Bool → Bool → Int × Int
  getXfbMode : Bool := false

end glslang

namespace spv

/-- IR handles. -/
abbrev Id := Nat

/-- Decorations used by the embedded functions; `BadValue` is `spv::BadValue`
cast to a decoration (also `spv::NoPrecision`). -/
inductive Decoration where
  | BadValue | RelaxedPrecision | Block | BufferBlock | RowMajor | ColMajor
  | ArrayStride | MatrixStride | GLSLShared | GLSLPacked | BuiltIn | NoPerspective
  | Flat | Patch | Centroid | Sample | Invariant | Stream | Location | Component
  | XfbBuffer | XfbStride | Offset | Index | DescriptorSet | Binding
  deriving DecidableEq, Repr

/-- Built-in identities returned by `TranslateBuiltInDecoration`. -/
inductive BuiltIn where
  | BadValue | Position | PointSize | ClipDistance | CullDistance | VertexId | InstanceId
  | PrimitiveId | InvocationId | Layer | ViewportIndex | TessLevelOuter | TessLevelInner
  | TessCoord | PatchVertices | FragCoord | PointCoord | FrontFacing | SampleId
  | SamplePosition | SampleMask | FragDepth | HelperInvocation | NumWorkgroups
  | WorkgroupSize | WorkgroupId | LocalInvocationId | GlobalInvocationId
  | LocalInvocationIndex
  deriving DecidableEq, Repr

/-- Image dimensionalities. -/
inductive Dim where
  | Dim1D | Dim2D | Dim3D | DimCube | DimRect | DimBuffer
  deriving DecidableEq, Repr

/-- A request to one of the builder's type constructors, named after the type
instruction it stands for. -/
inductive TypeRequest where
  | OpTypeVoid
  | OpTypeBool
  | OpTypeInt (width : Nat) (signed : Bool)
  | OpTypeFloat (width : Nat)
  | OpTypeVector (component : Id) (size : Nat)
  | OpTypeMatrix (component : Id) (cols rows : Nat)
  | OpTypeImage (sampledType : Id) (dim : Dim) (depth arrayed ms : Bool) (sampled : Nat)
      (format : Nat)
  | OpTypeSampledImage (imageType : Id)
  | OpTypeArray (element : Id) (size : Nat)
  | OpTypeRuntimeArray (element : Id)
  | OpTypeStruct (members : List Id) (name : String)
  deriving DecidableEq, Repr

/-- The optional literal of a decoration: absent, an `int`, or a built-in identity
(passed in the source as `(int)builtIn`). -/
inductive Operand where
  | none
  | num (n : Int)
  | builtIn (b : BuiltIn)
  deriving DecidableEq, Repr

/-- Names and decorations the builder has been asked to attach. `member` is the
`int` the traverser passes. -/
inductive Instruction where
  | OpMemberName (id : Id) (member : Int) (name : String)
  | OpMemberDecorate (id : Id) (member : Int) (dec : Decoration) (num : Operand)
  | OpDecorate (id : Id) (dec : Decoration) (num : Operand)
  deriving DecidableEq, Repr

/-- Modelled from the spec: the module builder (`spv::Builder`) is an external
collaborator declared outside `SPIRV/GlslangToSpv.cpp`. It mints handles ("opaque
integer identifier minted by the external module builder"), offers "type
constructors ... returning stable handles, memoizing identical requests itself only
where documented", and "a decoration API". `uniqueId` is the last handle minted,
`types` the type declarations made so far (newest first), `decorations` the
names and decorations attached so far (oldest first). -/
structure Builder where
  uniqueId : Nat := 0
  types : List (TypeRequest × Id) := []
  decorations : List Instruction := []
  deriving DecidableEq, Repr

namespace Builder

/-- Modelled from the spec: mint the next handle; handles are positive. -/
def getUniqueId (b : Builder) : Id × Builder :=
  (b.uniqueId + 1, { b with uniqueId := b.uniqueId + 1 })

/-- Modelled from the spec: declare a new type under a fresh handle. -/
def declareType (req : TypeRequest) (b : Builder) : Id × Builder :=
  let (id, b1) := b.getUniqueId
  (id, { b1 with types := (req, id) :: b1.types })

/-- Modelled from the spec: a memoizing type constructor returns the handle of an
identical earlier request when there is one. -/
def makeType (req : TypeRequest) (b : Builder) : Id × Builder :=
  match b.types.lookup req with
  | some id => (id, b)
  | none => b.declareType req

/-- Modelled from the spec: the scalar, vector, matrix, image and sized-array type
constructors memoize identical requests. -/
def makeVoidType (b : Builder) : Id × Builder := b.makeType .OpTypeVoid

def makeBoolType (b : Builder) : Id × Builder := b.makeType .OpTypeBool

def makeIntType (width : Nat) (b : Builder) : Id × Builder :=
  b.makeType (.OpTypeInt width true)

def makeUintType (width : Nat) (b : Builder) : Id × Builder :=
  b.makeType (.OpTypeInt width false)

def makeFloatType (width : Nat) (b : Builder) : Id × Builder :=
  b.makeType (.OpTypeFloat width)

def makeVectorType (component : Id) (size : Nat) (b : Builder) : Id × Builder :=
  b.makeType (.OpTypeVector component size)

def makeMatrixType (component : Id) (cols rows : Nat) (b : Builder) : Id × Builder :=
  b.makeType (.OpTypeMatrix component cols rows)

def makeImageType (sampledType : Id) (dim : Dim) (depth arrayed ms : Bool) (sampled : Nat)
    (format : Nat) (b : Builder) : Id × Builder :=
  b.makeType (.OpTypeImage sampledType dim depth arrayed ms sampled format)

def makeSampledImageType (imageType : Id) (b : Builder) : Id × Builder :=
  b.makeType (.OpTypeSampledImage imageType)

def makeArrayType (element : Id) (size : Nat) (b : Builder) : Id × Builder :=
  b.makeType (.OpTypeArray element size)

/-- Modelled from the spec: a runtime-sized array type is declared anew on each call. -/
def makeRuntimeArray (element : Id) (b : Builder) : Id × Builder :=
  b.declareType (.OpTypeRuntimeArray element)

/-- Modelled from the spec: the struct-type constructor does not look for an earlier
identical struct; it returns a fresh handle on each call. -/
def makeStructType (members : List Id) (name : String) (b : Builder) : Id × Builder :=
  b.declareType (.OpTypeStruct members name)

/-- Modelled from the spec: the name and decoration calls append one instruction each,
in call order. -/
def addMemberName (id : Id) (member : Int) (name : String) (b : Builder) : Builder :=
  { b with decorations := b.decorations ++ [.OpMemberName id member name] }

def addMemberDecoration (id : Id) (member : Int) (dec : Decoration) (num : Operand)
    (b : Builder) : Builder :=
  { b with decorations := b.decorations ++ [.OpMemberDecorate id member dec num] }

def addDecoration (id : Id) (dec : Decoration) (num : Operand) (b : Builder) : Builder :=
  { b with decorations := b.decorations ++ [.OpDecorate id dec num] }

end Builder

end spv

open glslang

/-! ## Helper functions translating glslang representations to SPIR-V enumerants -/

/-- Function `TranslateDimensionality` (GlslangToSpv.cpp:214). -/
def TranslateDimensionality (sampler : TSampler) : spv.Dim :=
  match sampler.dim with
  | .Esd1D => .Dim1D
  | .Esd2D => .Dim2D
  | .Esd3D => .Dim3D
  | .EsdCube => .DimCube
  | .EsdRect => .DimRect
  | .EsdBuffer => .DimBuffer
  | _ => .Dim2D

/-- Function `TranslatePrecisionDecoration` (GlslangToSpv.cpp:230); `spv::NoPrecision` is
`BadValue`. -/
def TranslatePrecisionDecoration (type : TType) : spv.Decoration :=
  match type.getQualifier.precision with
  | .EpqLow => .RelaxedPrecision
  | .EpqMedium => .RelaxedPrecision
  | .EpqHigh => .BadValue
  | _ => .BadValue

/-- Function `TranslateBlockDecoration` (GlslangToSpv.cpp:242). -/
def TranslateBlockDecoration (type : TType) : spv.Decoration :=
  if type.getBasicType = .EbtBlock then
    match type.getQualifier.storage with
    | .EvqUniform => .Block
    | .EvqBuffer => .BufferBlock
    | .EvqVaryingIn => .Block
    | .EvqVaryingOut => .Block
    | _ => .BadValue
  else .BadValue

/-- Function `TranslateLayoutDecoration` (GlslangToSpv.cpp:260). -/
def TranslateLayoutDecoration (type : TType) (matrixLayout : TLayoutMatrix) : spv.Decoration :=
  if type.isMatrix then
    match matrixLayout with
    | .ElmRowMajor => .RowMajor
    | .ElmColumnMajor => .ColMajor
    | _ => .BadValue
  else
    match type.getBasicType with
    | .EbtBlock =>
      match type.getQualifier.storage with
      | .EvqUniform | .EvqBuffer =>
        match type.getQualifier.layoutPacking with
        | .ElpShared => .GLSLShared
        | .ElpPacked => .GLSLPacked
        | _ => .BadValue
      | _ => .BadValue
    | _ => .BadValue

/-- Function `TranslateInterpolationDecoration` (GlslangToSpv.cpp:302). -/
def TranslateInterpolationDecoration (type : TType) : spv.Decoration :=
  if type.getQualifier.smooth then .BadValue
  else if type.getQualifier.nopersp then .NoPerspective
  else if type.getQualifier.patch then .Patch
  else if type.getQualifier.flat then .Flat
  else if type.getQualifier.centroid then .Centroid
  else if type.getQualifier.sample then .Sample
  else .BadValue

/-- Function `TranslateInvariantDecoration` (GlslangToSpv.cpp:323). -/
def TranslateInvariantDecoration (type : TType) : spv.Decoration :=
  if type.getQualifier.invariant then .Invariant else .BadValue

/-- Function `TranslateBuiltInDecoration` (GlslangToSpv.cpp:332). -/
def TranslateBuiltInDecoration (builtIn : TBuiltInVariable) : spv.BuiltIn :=
  match builtIn with
  | .EbvPosition => .Position
  | .EbvPointSize => .PointSize
  | .EbvClipDistance => .ClipDistance
  | .EbvCullDistance => .CullDistance
  | .EbvVertexId => .VertexId
  | .EbvInstanceId => .InstanceId
  | .EbvBaseVertex | .EbvBaseInstance | .EbvDrawId => .BadValue
  | .EbvPrimitiveId => .PrimitiveId
  | .EbvInvocationId => .InvocationId
  | .EbvLayer => .Layer
  | .EbvViewportIndex => .ViewportIndex
  | .EbvTessLevelInner => .TessLevelInner
  | .EbvTessLevelOuter => .TessLevelOuter
  | .EbvTessCoord => .TessCoord
  | .EbvPatchVertices => .PatchVertices
  | .EbvFragCoord => .FragCoord
  | .EbvPointCoord => .PointCoord
  | .EbvFace => .FrontFacing
  | .EbvSampleId => .SampleId
  | .EbvSamplePosition => .SamplePosition
  | .EbvSampleMask => .SampleMask
  | .EbvFragDepth => .FragDepth
  | .EbvHelperInvocation => .HelperInvocation
  | .EbvNumWorkGroups => .NumWorkgroups
  | .EbvWorkGroupSize => .WorkgroupSize
  | .EbvWorkGroupId => .WorkgroupId
  | .EbvLocalInvocationId => .LocalInvocationId
  | .EbvLocalInvocationIndex => .LocalInvocationIndex
  | .EbvGlobalInvocationId => .GlobalInvocationId
  | _ => .BadValue

/-- Function `TranslateImageFormat` (GlslangToSpv.cpp:374) renames each `Elf*` enumerator to
the `spv::ImageFormat*` enumerator of the same name; image formats are kept here as
the front end's enumerator. -/
def TranslateImageFormat (type : TType) : Nat := type.getQualifier.layoutFormat

/-! ## The traverser -/

/-- The members of `TGlslangToSpvTraverser` used by type lowering:
`builder`, `structMap[ElpCount][ElmCount]` and `memberRemapper`, the two maps keyed
by the identity of a member list. -/
structure TGlslangToSpvTraverser where
  builder : spv.Builder := {}
  structMap : TLayoutPacking → TLayoutMatrix → Nat → spv.Id := fun _ _ _ => 0
  memberRemapper : Nat → List Int := fun _ => []

namespace TGlslangToSpvTraverser

/-- Assignment `structMap[explicitLayout][matrixLayout][glslangStruct] = spvType`. -/
def setStructMap (self : TGlslangToSpvTraverser) (explicitLayout : TLayoutPacking)
    (matrixLayout : TLayoutMatrix) (glslangStruct : Nat) (spvType : spv.Id) :
    TGlslangToSpvTraverser :=
  { self with
    structMap := fun p m k =>
      if p = explicitLayout ∧ m = matrixLayout ∧ k = glslangStruct then spvType
      else self.structMap p m k }

/-- Call `memberRemapper[glslangStruct].resize(size)`: keeps the first `size` elements and
pads with `0`. -/
def resizeMemberRemapper (self : TGlslangToSpvTraverser) (glslangStruct : Nat) (size : Nat) :
    TGlslangToSpvTraverser :=
  { self with
    memberRemapper := fun k =>
      if k = glslangStruct then
        (self.memberRemapper k).take size ++
          List.replicate (size - (self.memberRemapper k).length) 0
      else self.memberRemapper k }

/-- Assignment `memberRemapper[glslangStruct][i] = value`. -/
def setMemberRemapper (self : TGlslangToSpvTraverser) (glslangStruct : Nat) (i : Nat)
    (value : Int) : TGlslangToSpvTraverser :=
  { self with
    memberRemapper := fun k =>
      if k = glslangStruct then (self.memberRemapper k).set i value
      else self.memberRemapper k }

/-- The traverser's `addDecoration(id, dec)` (GlslangToSpv.cpp:3193). -/
def addDecoration (self : TGlslangToSpvTraverser) (id : spv.Id) (dec : spv.Decoration) :
    TGlslangToSpvTraverser :=
  if dec ≠ .BadValue then { self with builder := self.builder.addDecoration id dec .none }
  else self

/-- The traverser's `addMemberDecoration(id, member, dec)` (GlslangToSpv.cpp:3207). -/
def addMemberDecoration (self : TGlslangToSpvTraverser) (id : spv.Id) (member : Int)
    (dec : spv.Decoration) : TGlslangToSpvTraverser :=
  if dec ≠ .BadValue then
    { self with builder := self.builder.addMemberDecoration id member dec .none }
  else self

/-- Function `getSampledType` (GlslangToSpv.cpp:1457). -/
def getSampledType (self : TGlslangToSpvTraverser) (sampler : TSampler) :
    spv.Id × TGlslangToSpvTraverser :=
  let r := match sampler.type with
    | .EbtFloat => self.builder.makeFloatType 32
    | .EbtInt => self.builder.makeIntType 32
    | .EbtUint => self.builder.makeUintType 32
    | _ => self.builder.makeFloatType 32
  (r.1, { self with builder := r.2 })

/-- Function `getExplicitLayout` (GlslangToSpv.cpp:1657): decide whether the type should be
decorated with offsets and strides, and under which rules. -/
def getExplicitLayout (type : TType) : TLayoutPacking :=
  if type.getBasicType ≠ .EbtBlock then .ElpNone
  else if type.getQualifier.storage ≠ .EvqUniform ∧ type.getQualifier.storage ≠ .EvqBuffer then
    .ElpNone
  else
    match type.getQualifier.layoutPacking with
    | .ElpStd140 => type.getQualifier.layoutPacking
    | .ElpStd430 => type.getQualifier.layoutPacking
    | _ => .ElpNone

/-- Function `getArrayStride` (GlslangToSpv.cpp:1679). -/
def getArrayStride (I : TIntermediate) (arrayType : TType) (explicitLayout : TLayoutPacking)
    (matrixLayout : TLayoutMatrix) : Int :=
  let stride :=
    (I.getBaseAlignment arrayType (explicitLayout == .ElpStd140) (matrixLayout == .ElmRowMajor)).1
  if arrayType.isMatrix then
    if matrixLayout = .ElmRowMajor then stride * arrayType.getMatrixRows
    else stride * arrayType.getMatrixCols
  else stride

/-- Function `getMatrixStride` (GlslangToSpv.cpp:1697). -/
def getMatrixStride (I : TIntermediate) (matrixType : TType) (explicitLayout : TLayoutPacking)
    (matrixLayout : TLayoutMatrix) : Int :=
  (I.getBaseAlignment matrixType (explicitLayout == .ElpStd140) (matrixLayout == .ElmRowMajor)).1

/-- The value an `int` holds when the result `x` of an addition is stored in it: `x`
itself when it is within `-2^31 .. 2^31 - 1`, and `x` reduced modulo `2^32` into that
range (two's-complement wraparound) when the addition overflows. -/
def wrapInt32 (x : Int) : Int :=
  (x + 2147483648) % 4294967296 - 2147483648

/-- Function `updateMemberOffset` (GlslangToSpv.cpp:1709). The reference parameters
`currentOffset` and `nextOffset` are returned as the pair
`(currentOffset, nextOffset)`; both are `int`, and the sum
`currentOffset + memberSize` is taken in `int`. -/
def updateMemberOffset (I : TIntermediate) (_structType memberType : TType)
    (currentOffset : Int) (explicitLayout : TLayoutPacking) (matrixLayout : TLayoutMatrix) :
    Int × Int :=
  let nextOffset : Int := -1
  let currentOffset :=
    if memberType.getQualifier.hasOffset then memberType.getQualifier.layoutOffset
    else currentOffset
  if explicitLayout = .ElpNone then
    let currentOffset := if !memberType.getQualifier.hasOffset then -1 else currentOffset
    (currentOffset, nextOffset)
  else
    let currentOffset := if currentOffset < 0 then 0 else currentOffset
    let r := I.getBaseAlignment memberType (explicitLayout == .ElpStd140)
      (matrixLayout == .ElmRowMajor)
    let memberAlignment := r.1
    let memberSize := r.2
    let currentOffset := RoundToPow2 currentOffset memberAlignment
    (currentOffset, wrapInt32 (currentOffset + memberSize))

/-- One iteration of the loop "Name and decorate the non-hidden members"
(GlslangToSpv.cpp:1556-1597) of `convertGlslangToSpvType`, for member `i` of
`type`; the running `offset` is threaded with the traverser. -/
def decorateMember (I : TIntermediate) (type : TType) (explicitLayout : TLayoutPacking)
    (matrixLayout : TLayoutMatrix) (spvType : spv.Id) (i : Nat) (glslangType : TType)
    (st : TGlslangToSpvTraverser × Int) : TGlslangToSpvTraverser × Int :=
  let self := st.1
  let offset := st.2
  let member : Int :=
    if type.getBasicType = .EbtBlock then (self.memberRemapper type.getStructId).getD i 0
    else i
  let subMatrixLayout :=
    if glslangType.getQualifier.layoutMatrix = .ElmNone then matrixLayout
    else glslangType.getQualifier.layoutMatrix
  if member ≥ 0 then
    let self := { self with
      builder := self.builder.addMemberName spvType member glslangType.getFieldName }
    let self := self.addMemberDecoration spvType member
      (TranslateLayoutDecoration glslangType subMatrixLayout)
    let self := self.addMemberDecoration spvType member (TranslatePrecisionDecoration glslangType)
    let self := self.addMemberDecoration spvType member
      (TranslateInterpolationDecoration glslangType)
    let self := self.addMemberDecoration spvType member (TranslateInvariantDecoration glslangType)
    let self :=
      if glslangType.getQualifier.hasLocation then
        { self with
          builder := self.builder.addMemberDecoration spvType member .Location
            (.num glslangType.getQualifier.layoutLocation) }
      else self
    let self :=
      if glslangType.getQualifier.hasComponent then
        { self with
          builder := self.builder.addMemberDecoration spvType member .Component
            (.num glslangType.getQualifier.layoutComponent) }
      else self
    let st : TGlslangToSpvTraverser × Int :=
      if glslangType.getQualifier.hasXfbOffset then
        ({ self with
           builder := self.builder.addMemberDecoration spvType member .Offset
            (.num glslangType.getQualifier.layoutXfbOffset) }, offset)
      else if explicitLayout ≠ .ElpNone then
        let r := updateMemberOffset I type glslangType offset explicitLayout subMatrixLayout
        let offset := r.1
        let nextOffset := r.2
        let self :=
          if offset ≥ 0 then
            { self with
              builder := 
                self.builder.addMemberDecoration spvType member .Offset (.num offset) }
          else self
        (self, nextOffset)
      else (self, offset)
    let self := st.1
    let offset := st.2
    let self :=
      if glslangType.isMatrix ∧ explicitLayout ≠ .ElpNone then
        { self with
          builder := self.builder.addMemberDecoration spvType member .MatrixStride
            (.num (getMatrixStride I glslangType explicitLayout subMatrixLayout)) }
      else self
    let builtIn := TranslateBuiltInDecoration glslangType.getQualifier.builtIn
    let self :=
      if builtIn ≠ .BadValue then
        { self with
          builder := 
            self.builder.addMemberDecoration spvType member .BuiltIn (.builtIn builtIn) }
      else self
    (self, offset)
  else (self, offset)

/-- The loop "Name and decorate the non-hidden members" (GlslangToSpv.cpp:1556-1597)
from index `i` on, over the remaining members. -/
def decorateMembers (I : TIntermediate) (type : TType) (explicitLayout : TLayoutPacking)
    (matrixLayout : TLayoutMatrix) (spvType : spv.Id) :
    Nat → List TType → TGlslangToSpvTraverser × Int → TGlslangToSpvTraverser × Int
  | _, [], st => st
  | i, glslangType :: rest, st =>
    decorateMembers I type explicitLayout matrixLayout spvType (i + 1) rest
      (decorateMember I type explicitLayout matrixLayout spvType i glslangType st)

/-- "Decorate the structure" (GlslangToSpv.cpp:1600-1609). -/
def decorateStructure (I : TIntermediate) (type : TType) (matrixLayout : TLayoutMatrix)
    (spvType : spv.Id) (self : TGlslangToSpvTraverser) : TGlslangToSpvTraverser :=
  let self := self.addDecoration spvType (TranslateLayoutDecoration type matrixLayout)
  let self := self.addDecoration spvType (TranslateBlockDecoration type)
  let self :=
    if type.getQualifier.hasStream then
      { self with
        builder := 
          self.builder.addDecoration spvType .Stream (.num type.getQualifier.layoutStream) }
    else self
  if I.getXfbMode then
    let self :=
      if type.getQualifier.hasXfbStride then
        { self with
          builder := self.builder.addDecoration spvType .XfbStride
            (.num type.getQualifier.layoutXfbStride) }
      else self
    if type.getQualifier.hasXfbBuffer then
      { self with
        builder := self.builder.addDecoration spvType .XfbBuffer
          (.num type.getQualifier.layoutXfbBuffer) }
    else self
  else self

/-- The tail of `convertGlslangToSpvType` after the `switch` (GlslangToSpv.cpp:1617-1651):
wrap the element type as a matrix or vector, then as an array, and decorate the array
with its stride when an explicit layout is in force. -/
def wrapType (I : TIntermediate) (type : TType) (explicitLayout : TLayoutPacking)
    (matrixLayout : TLayoutMatrix) (spvType : spv.Id) (self : TGlslangToSpvTraverser) :
    spv.Id × TGlslangToSpvTraverser :=
  let r : spv.Id × spv.Builder :=
    if type.isMatrix then
      self.builder.makeMatrixType spvType type.getMatrixCols type.getMatrixRows
    else if type.getVectorSize > 1 then
      self.builder.makeVectorType spvType type.getVectorSize
    else (spvType, self.builder)
  if type.isArray then
    -- all but the outer dimension, innermost first
    let r := type.getArraySizes.tail.reverse.foldl
      (fun (r : spv.Id × spv.Builder) dimSize => r.2.makeArrayType r.1 dimSize) r
    let r :=
      if type.isRuntimeSizedArray then r.2.makeRuntimeArray r.1
      else r.2.makeArrayType r.1 type.getOuterArraySize
    let b :=
      if explicitLayout ≠ .ElpNone ∧ type.getBasicType ≠ .EbtBlock then
        r.2.addDecoration r.1 .ArrayStride
          (.num (getArrayStride I type explicitLayout matrixLayout))
      else r.2
    (r.1, { self with builder := b })
  else (r.1, { self with builder := r.2 })

end TGlslangToSpvTraverser

namespace TGlslangToSpvTraverser

mutual

/-- The recursive `convertGlslangToSpvType(type, explicitLayout, matrixLayout)`
(GlslangToSpv.cpp:1479): full conversion of a glslang type to a SPIR-V type handle. -/
def convertGlslangToSpvType (I : TIntermediate) :
    TType → TLayoutPacking → TLayoutMatrix → TGlslangToSpvTraverser →
      spv.Id × TGlslangToSpvTraverser
  | .mk basicType qualifier sampler vectorSize matrixCols matrixRows arraySizes hidden
      fieldName typeName glslangStruct members, explicitLayout, matrixLayout, self =>
    let type := TType.mk basicType qualifier sampler vectorSize matrixCols matrixRows
      arraySizes hidden fieldName typeName glslangStruct members
    let r : spv.Id × TGlslangToSpvTraverser :=
      match basicType with
      | .EbtVoid =>
        let r := self.builder.makeVoidType
        (r.1, { self with builder := r.2 })
      | .EbtFloat =>
        let r := self.builder.makeFloatType 32
        (r.1, { self with builder := r.2 })
      | .EbtDouble =>
        let r := self.builder.makeFloatType 64
        (r.1, { self with builder := r.2 })
      | .EbtBool =>
        let r := self.builder.makeBoolType
        (r.1, { self with builder := r.2 })
      | .EbtInt =>
        let r := self.builder.makeIntType 32
        (r.1, { self with builder := r.2 })
      | .EbtUint =>
        let r := self.builder.makeUintType 32
        (r.1, { self with builder := r.2 })
      | .EbtAtomicUint =>
        let r := self.builder.makeUintType 32
        (r.1, { self with builder := r.2 })
      | .EbtSampler =>
        let st := self.getSampledType sampler
        let r := st.2.builder.makeImageType st.1 (TranslateDimensionality sampler)
          sampler.shadow sampler.arrayed sampler.ms (if sampler.image then 2 else 1)
          (TranslateImageFormat type)
        let r := if !sampler.image then r.2.makeSampledImageType r.1 else r
        (r.1, { st.2 with builder := r.2 })
      | .EbtStruct | .EbtBlock =>
        -- If we've seen this struct type, return it
        let spvType := self.structMap explicitLayout matrixLayout glslangStruct
        if spvType ≠ 0 then (spvType, self)
        else
          -- Create a vector of struct types for SPIR-V to consume
          let self :=
            if basicType = .EbtBlock then self.resizeMemberRemapper glslangStruct members.length
            else self
          let fs := convertStructFields I basicType glslangStruct explicitLayout matrixLayout
            members 0 0 [] self
          let structFields := fs.1
          let self := fs.2
          -- Make the SPIR-V type
          let r := self.builder.makeStructType structFields typeName
          let spvType := r.1
          let self := { self with builder := r.2 }
          let self := self.setStructMap explicitLayout matrixLayout glslangStruct spvType
          -- Name and decorate the non-hidden members
          let self :=
            (decorateMembers I type explicitLayout matrixLayout spvType 0 members (self, -1)).1
          -- Decorate the structure
          (spvType, decorateStructure I type matrixLayout spvType self)
      | .EbtNumTypes => (0, self)
    wrapType I type explicitLayout matrixLayout r.1 r.2

/-- The loop "Create a vector of struct types for SPIR-V to consume"
(GlslangToSpv.cpp:1534-1548) from index `i` on, over the remaining members;
`basicType` and `glslangStruct` are those of the enclosing type. -/
def convertStructFields (I : TIntermediate) (basicType : TBasicType) (glslangStruct : Nat)
    (explicitLayout : TLayoutPacking) (matrixLayout : TLayoutMatrix) :
    List TType → Nat → Int → List spv.Id → TGlslangToSpvTraverser →
      List spv.Id × TGlslangToSpvTraverser
  | [], _, _, structFields, self => (structFields, self)
  | glslangType :: rest, i, memberDelta, structFields, self =>
    if glslangType.hiddenMember then
      let memberDelta := memberDelta + 1
      let self :=
        if basicType = .EbtBlock then self.setMemberRemapper glslangStruct i (-1) else self
      convertStructFields I basicType glslangStruct explicitLayout matrixLayout rest (i + 1)
        memberDelta structFields self
    else
      let self :=
        if basicType = .EbtBlock then self.setMemberRemapper glslangStruct i (i - memberDelta)
        else self
      -- modify just the children's view of matrix layout, if there is one for this member
      let subMatrixLayout := glslangType.getQualifier.layoutMatrix
      let r := convertGlslangToSpvType I glslangType explicitLayout
        (if subMatrixLayout ≠ .ElmNone then subMatrixLayout else matrixLayout) self
      convertStructFields I basicType glslangStruct explicitLayout matrixLayout rest (i + 1)
        memberDelta (structFields ++ [r.1]) r.2

end

/-- The one-argument `convertGlslangToSpvType(type)` (GlslangToSpv.cpp:1472): establishes
the inherited layout state rooted from the top-level type. -/
def convertGlslangToSpvTypeTop (I : TIntermediate) (type : TType)
    (self : TGlslangToSpvTraverser) : spv.Id × TGlslangToSpvTraverser :=
  convertGlslangToSpvType I type (getExplicitLayout type) type.getQualifier.layoutMatrix self

end TGlslangToSpvTraverser

/-! ## User function calls

`handleUserFunctionCall` (GlslangToSpv.cpp:2037) is embedded as the sequence of calls
it makes on its collaborators (the AST traversal of an argument, type lowering, the
builder). A value returned by a collaborator is named by the position, in that
sequence, of the call that returned it. -/

namespace UserCall

/-- A call made by `handleUserFunctionCall`. Operands that are results of earlier
calls are given as the position of that call in the sequence. -/
inductive Event where
  -- `builder.clearAccessChain()`
  | clearAccessChain
  -- `glslangArgs[a]->traverse(this)`
  | traverse (a : Nat)
  -- `convertGlslangToSpvType(glslangArgs[a]->getAsTyped()->getType())`
  | convertGlslangToSpvType (a : Nat)
  -- `builder.getAccessChain()`
  | getAccessChain
  -- `builder.accessChainLoad(type)`
  | accessChainLoad (type : Nat)
  -- `builder.createVariable(spv::StorageClassFunction, type, "param")`
  | createVariable (type : Nat)
  -- `builder.setAccessChain(chain)`
  | setAccessChain (chain : Nat)
  -- `builder.createStore(rValue, lValue)`
  | createStore (rValue lValue : Nat)
  -- `builder.createFunctionCall(function, args)`
  | createFunctionCall (function : Nat) (args : List Nat)
  -- `builder.createLoad(lValue)`
  | createLoad (lValue : Nat)
  -- `builder.accessChainStore(rValue)`
  | accessChainStore (rValue : Nat)
  deriving DecidableEq, Repr

/-- The function-call node: the callee's name, the number of argument expressions
(`glslangArgs.size()`) and the qualifier list (`node->getQualifierList()`). -/
structure TIntermAggregate where
  name : String := ""
  numArgs : Nat := 0
  qualifierList : List TStorageQualifier := []
  deriving DecidableEq, Repr

/-- The locals of `handleUserFunctionCall` together with the calls made so far. -/
structure State where
  trace : List Event := []
  lValues : List Nat := []
  rValues : List Nat := []
  argTypes : List Nat := []
  spvArgs : List Nat := []
  lValueCount : Nat := 0
  rValueCount : Nat := 0
  deriving DecidableEq, Repr

/-- Make a collaborator call: record it and name its result by its position. -/
def call (e : Event) (s : State) : Nat × State :=
  (s.trace.length, { s with trace := s.trace ++ [e] })

/-- Read `qualifiers[a]`. -/
def qualifierAt (qualifiers : List TStorageQualifier) (a : Nat) : TStorageQualifier :=
  qualifiers.getD a .EvqTemporary

/-- One iteration of loop "1. Evaluate the arguments" (GlslangToSpv.cpp:2059-2072), for
argument `a`. -/
def evaluateArgument (qualifiers : List TStorageQualifier) (a : Nat) (s : State) : State :=
  -- build l-value
  let s := (call .clearAccessChain s).2
  let s := (call (.traverse a) s).2
  let r := call (.convertGlslangToSpvType a) s
  let s := { r.2 with argTypes := r.2.argTypes ++ [r.1] }
  -- keep outputs as l-values, evaluate input-only as r-values
  if qualifierAt qualifiers a ≠ .EvqConstReadOnly then
    -- save l-value
    let r := call .getAccessChain s
    { r.2 with lValues := r.2.lValues ++ [r.1] }
  else
    -- process r-value
    let r := call (.accessChainLoad (s.argTypes.getLastD 0)) s
    { r.2 with rValues := r.2.rValues ++ [r.1] }

/-- Loop "1. Evaluate the arguments", for the `n` arguments from index `a` on. -/
def evaluateArguments (qualifiers : List TStorageQualifier) : Nat → Nat → State → State
  | 0, _, s => s
  | n + 1, a, s => evaluateArguments qualifiers n (a + 1) (evaluateArgument qualifiers a s)

/-- One iteration of loop "2. Allocate space for anything needing a copy"
(GlslangToSpv.cpp:2081-2099), for argument `a`. -/
def copyInArgument (qualifiers : List TStorageQualifier) (a : Nat) (s : State) : State :=
  let r : Nat × State :=
    if qualifierAt qualifiers a ≠ .EvqConstReadOnly then
      -- need space to hold the copy
      let t := call (.convertGlslangToSpvType a) s
      let v := call (.createVariable t.1) t.2
      let arg := v.1
      let s := v.2
      let s :=
        if qualifierAt qualifiers a = .EvqIn ∨ qualifierAt qualifiers a = .EvqInOut then
          -- need to copy the input into output space
          let s := (call (.setAccessChain (s.lValues.getD s.lValueCount 0)) s).2
          let c := call (.accessChainLoad (s.argTypes.getD a 0)) s
          (call (.createStore c.1 arg) c.2).2
        else s
      (arg, { s with lValueCount := s.lValueCount + 1 })
    else
      (s.rValues.getD s.rValueCount 0, { s with rValueCount := s.rValueCount + 1 })
  { r.2 with spvArgs := r.2.spvArgs ++ [r.1] }

/-- Loop "2. Allocate space for anything needing a copy", for the `n` arguments from
index `a` on. -/
def copyIn (qualifiers : List TStorageQualifier) : Nat → Nat → State → State
  | 0, _, s => s
  | n + 1, a, s => copyIn qualifiers n (a + 1) (copyInArgument qualifiers a s)

/-- One iteration of loop "4. Copy back out an "out" arguments"
(GlslangToSpv.cpp:2106-2115), for argument `a`. -/
def copyOutArgument (qualifiers : List TStorageQualifier) (a : Nat) (s : State) : State :=
  if qualifierAt qualifiers a ≠ .EvqConstReadOnly then
    let s :=
      if qualifierAt qualifiers a = .EvqOut ∨ qualifierAt qualifiers a = .EvqInOut then
        let c := call (.createLoad (s.spvArgs.getD a 0)) s
        let s := (call (.setAccessChain (c.2.lValues.getD c.2.lValueCount 0)) c.2).2
        (call (.accessChainStore c.1) s).2
      else s
    { s with lValueCount := s.lValueCount + 1 }
  else s

/-- Loop "4. Copy back out an "out" arguments", for the `n` arguments from index `a`
on. -/
def copyOut (qualifiers : List TStorageQualifier) : Nat → Nat → State → State
  | 0, _, s => s
  | n + 1, a, s => copyOut qualifiers n (a + 1) (copyOutArgument qualifiers a s)

/-- Function `handleUserFunctionCall` (GlslangToSpv.cpp:2037). `functionMap` is the function
table (`none` is the null pointer a missing entry yields). Returns the result
(`none` for `return 0`, otherwise the position of the `createFunctionCall`) and the
calls made. -/
def handleUserFunctionCall (functionMap : String → Option Nat) (node : TIntermAggregate) :
    Option Nat × List Event :=
  -- Grab the function's pointer from the previously created function
  match functionMap node.name with
  | none => (none, [])
  | some function =>
    let qualifiers := node.qualifierList
    -- 1. Evaluate the arguments
    let s := evaluateArguments qualifiers node.numArgs 0 {}
    -- 2. Allocate space for anything needing a copy
    let s := copyIn qualifiers node.numArgs 0 { s with lValueCount := 0, rValueCount := 0 }
    -- 3. Make the call.
    let r := call (.createFunctionCall function s.spvArgs) s
    -- 4. Copy back out an "out" arguments.
    let s := copyOut qualifiers node.numArgs 0 { r.2 with lValueCount := 0 }
    (some r.1, s.trace)

end UserCall

/-! ## Observations and auxiliary definitions used in the proofs -/

namespace spv

/-- The handle an instruction names or decorates. -/
def Instruction.id : Instruction → Id
  | .OpMemberName id _ _ => id
  | .OpMemberDecorate id _ _ _ => id
  | .OpDecorate id _ _ => id

/-- An instruction that names or decorates a struct member. -/
def Instruction.isMember : Instruction → Bool
  | .OpMemberName _ _ _ => true
  | .OpMemberDecorate _ _ _ _ => true
  | .OpDecorate _ _ _ => false

/-- The decoration an instruction attaches (`BadValue` for a name). -/
def Instruction.decoration : Instruction → Decoration
  | .OpMemberName _ _ _ => .BadValue
  | .OpMemberDecorate _ _ dec _ => dec
  | .OpDecorate _ dec _ => dec

/-- The `(member, operand)` pair of an instruction that attaches the member decoration
`dec` to `id`. -/
def Instruction.memberDecoration? (id : Id) (dec : Decoration) :
    Instruction → Option (Int × Operand)
  | .OpMemberDecorate id' member dec' num =>
    if id' = id ∧ dec' = dec then some (member, num) else none
  | _ => none

/-- The `(member, operand)` pairs of the member decorations `dec` attached to `id`, in
call order. -/
def Builder.memberDecorations (b : Builder) (id : Id) (dec : Decoration) :
    List (Int × Operand) :=
  b.decorations.filterMap (Instruction.memberDecoration? id dec)

/-- A request for a struct type. -/
def TypeRequest.isStruct : TypeRequest → Bool
  | .OpTypeStruct _ _ => true
  | _ => false

/-- Every handle in the builder's tables has been minted, and no handle stands for two
different types. -/
structure Builder.WF (b : Builder) : Prop where
  decorations : ∀ d ∈ b.decorations, d.id ≤ b.uniqueId
  types : ∀ e ∈ b.types, e.2 ≤ b.uniqueId
  types_inj : ∀ r₁ r₂ id, (r₁, id) ∈ b.types → (r₂, id) ∈ b.types → r₁ = r₂

/-- A request the builder memoizes: every kind except structs and runtime arrays. -/
def TypeRequest.memoized : TypeRequest → Bool
  | .OpTypeStruct _ _ => false
  | .OpTypeRuntimeArray _ => false
  | _ => true

/-- Builder `b'` is `b` after some non-struct type declarations: names and
decorations are untouched, handles are only added, memoized requests keep their
handle, no struct type is declared, and a declared type stays declared. -/
structure Builder.Ext (b b' : Builder) : Prop where
  decorations : b'.decorations = b.decorations
  uniqueId : b.uniqueId ≤ b'.uniqueId
  wf : b.WF → b'.WF
  lookup : ∀ req id, req.memoized = true → b.types.lookup req = some id →
    b'.types.lookup req = some id
  structs : b'.types.filter (fun e => e.1.isStruct) = b.types.filter (fun e => e.1.isStruct)
  types_sub : ∀ e ∈ b.types, e ∈ b'.types

/-- A chain of memoizing type constructors, each applied to the handle the previous
one returned. -/
def Builder.chain (reqs : List (Id → TypeRequest)) (r : Id × Builder) : Id × Builder :=
  reqs.foldl (fun r f => r.2.makeType (f r.1)) r

end spv

namespace TGlslangToSpvTraverser

/-- The builder is well formed, every handle in the struct cache has been minted, and
the struct cache holds a different handle under each key it has filled in. -/
structure WF (s : TGlslangToSpvTraverser) : Prop where
  builder : s.builder.WF
  structMap_le : ∀ p m k, s.structMap p m k ≤ s.builder.uniqueId
  structMap_inj : ∀ p m k p' m' k', s.structMap p m k ≠ 0 →
    s.structMap p m k = s.structMap p' m' k' → p = p' ∧ m = m' ∧ k = k'

/-- Append names and decorations to the builder's list. -/
def emit (self : TGlslangToSpvTraverser) (l : List spv.Instruction) : TGlslangToSpvTraverser :=
  { self with builder := { self.builder with decorations := self.builder.decorations ++ l } }

/-- The instruction the traverser's `addMemberDecoration(id, member, dec)` issues, if any. -/
def optMemberDecorate (id : spv.Id) (member : Int) (dec : spv.Decoration) :
    List spv.Instruction :=
  if dec ≠ .BadValue then [.OpMemberDecorate id member dec .none] else []

/-- The matrix orientation in force for a member: its own when it declares one, the
inherited one otherwise. -/
def subMatrixLayout (glslangType : TType) (matrixLayout : TLayoutMatrix) : TLayoutMatrix :=
  if glslangType.getQualifier.layoutMatrix = .ElmNone then matrixLayout
  else glslangType.getQualifier.layoutMatrix

/-- The member's base alignment under the layout in force. -/
def memberAlignment (I : TIntermediate) (explicitLayout : TLayoutPacking)
    (matrixLayout : TLayoutMatrix) (glslangType : TType) : Int :=
  (I.getBaseAlignment glslangType (explicitLayout == .ElpStd140)
    (subMatrixLayout glslangType matrixLayout == .ElmRowMajor)).1

/-- The member's size under the layout in force. -/
def memberSize (I : TIntermediate) (explicitLayout : TLayoutPacking)
    (matrixLayout : TLayoutMatrix) (glslangType : TType) : Int :=
  (I.getBaseAlignment glslangType (explicitLayout == .ElpStd140)
    (subMatrixLayout glslangType matrixLayout == .ElmRowMajor)).2

/-- The offset part of one iteration of the decoration loop: the value of the `Offset`
decoration issued for the member, if any, and the running offset afterwards. -/
def offsetStep (I : TIntermediate) (type : TType) (explicitLayout : TLayoutPacking)
    (matrixLayout : TLayoutMatrix) (glslangType : TType) (offset : Int) : Option Int × Int :=
  if glslangType.getQualifier.hasXfbOffset then
    (some glslangType.getQualifier.layoutXfbOffset, offset)
  else if explicitLayout ≠ .ElpNone then
    let r := updateMemberOffset I type glslangType offset explicitLayout
      (subMatrixLayout glslangType matrixLayout)
    (if r.1 ≥ 0 then some r.1 else none, r.2)
  else (none, offset)

/-- The names and decorations one iteration of the decoration loop issues for a member
that is not skipped, with IR member index `member` and running offset `offset`. -/
def memberInstrs (I : TIntermediate) (type : TType) (explicitLayout : TLayoutPacking)
    (matrixLayout : TLayoutMatrix) (spvType : spv.Id) (member : Int) (glslangType : TType)
    (offset : Int) : List spv.Instruction :=
  [.OpMemberName spvType member glslangType.getFieldName]
  ++ optMemberDecorate spvType member
      (TranslateLayoutDecoration glslangType (subMatrixLayout glslangType matrixLayout))
  ++ optMemberDecorate spvType member (TranslatePrecisionDecoration glslangType)
  ++ optMemberDecorate spvType member (TranslateInterpolationDecoration glslangType)
  ++ optMemberDecorate spvType member (TranslateInvariantDecoration glslangType)
  ++ (if glslangType.getQualifier.hasLocation then
        [.OpMemberDecorate spvType member .Location (.num glslangType.getQualifier.layoutLocation)]
      else [])
  ++ (if glslangType.getQualifier.hasComponent then
        [.OpMemberDecorate spvType member .Component
          (.num glslangType.getQualifier.layoutComponent)]
      else [])
  ++ (match (offsetStep I type explicitLayout matrixLayout glslangType offset).1 with
      | some o => [.OpMemberDecorate spvType member .Offset (.num o)]
      | none => [])
  ++ (if glslangType.isMatrix ∧ explicitLayout ≠ .ElpNone then
        [.OpMemberDecorate spvType member .MatrixStride
          (.num (getMatrixStride I glslangType explicitLayout
            (subMatrixLayout glslangType matrixLayout)))]
      else [])
  ++ (if TranslateBuiltInDecoration glslangType.getQualifier.builtIn ≠ .BadValue then
        [.OpMemberDecorate spvType member .BuiltIn
          (.builtIn (TranslateBuiltInDecoration glslangType.getQualifier.builtIn))]
      else [])

/-- The IR member index the decoration loop uses for source member `i`: the remapped
index for a block, `i` itself otherwise. -/
def memberIndex (type : TType) (remap : List Int) (i : Nat) : Int :=
  if type.getBasicType = .EbtBlock then remap.getD i 0 else i

/-- The names and decorations the decoration loop issues from source index `i` on,
given the remapper entry `remap` of the struct. -/
def membersInstrs (I : TIntermediate) (type : TType) (explicitLayout : TLayoutPacking)
    (matrixLayout : TLayoutMatrix) (spvType : spv.Id) (remap : List Int) :
    Nat → List TType → Int → List spv.Instruction
  | _, [], _ => []
  | i, glslangType :: rest, offset =>
    if memberIndex type remap i ≥ 0 then
      memberInstrs I type explicitLayout matrixLayout spvType (memberIndex type remap i)
        glslangType offset
      ++ membersInstrs I type explicitLayout matrixLayout spvType remap (i + 1) rest
          (offsetStep I type explicitLayout matrixLayout glslangType offset).2
    else membersInstrs I type explicitLayout matrixLayout spvType remap (i + 1) rest offset

end TGlslangToSpvTraverser

namespace TGlslangToSpvTraverser

/-- The decorations "Decorate the structure" issues. -/
def structInstrs (I : TIntermediate) (type : TType) (matrixLayout : TLayoutMatrix)
    (spvType : spv.Id) : List spv.Instruction :=
  (if TranslateLayoutDecoration type matrixLayout ≠ .BadValue then
      [.OpDecorate spvType (TranslateLayoutDecoration type matrixLayout) .none]
    else [])
  ++ (if TranslateBlockDecoration type ≠ .BadValue then
        [.OpDecorate spvType (TranslateBlockDecoration type) .none]
      else [])
  ++ (if type.getQualifier.hasStream then
        [.OpDecorate spvType .Stream (.num type.getQualifier.layoutStream)]
      else [])
  ++ (if I.getXfbMode ∧ type.getQualifier.hasXfbStride then
        [.OpDecorate spvType .XfbStride (.num type.getQualifier.layoutXfbStride)]
      else [])
  ++ (if I.getXfbMode ∧ type.getQualifier.hasXfbBuffer then
        [.OpDecorate spvType .XfbBuffer (.num type.getQualifier.layoutXfbBuffer)]
      else [])

/-- The memoizing type-constructor requests `wrapType` issues, in order: the matrix or
vector wrap, then the array dimensions innermost first (the outermost one only when
it is sized). -/
def wrapReqs (type : TType) : List (spv.Id → spv.TypeRequest) :=
  (if type.isMatrix then [fun c => .OpTypeMatrix c type.getMatrixCols type.getMatrixRows]
    else if type.getVectorSize > 1 then [fun c => .OpTypeVector c type.getVectorSize]
    else [])
  ++ (if type.isArray then
        type.getArraySizes.tail.reverse.map (fun n e => .OpTypeArray e n)
        ++ (if type.isRuntimeSizedArray then []
            else [fun e => .OpTypeArray e type.getOuterArraySize])
      else [])

/-- The handle and builder `wrapType` ends with, before the stride decoration. -/
def wrapResult (type : TType) (spvType : spv.Id) (b : spv.Builder) : spv.Id × spv.Builder :=
  let r := spv.Builder.chain (wrapReqs type) (spvType, b)
  if type.isRuntimeSizedArray then r.2.makeRuntimeArray r.1 else r

/-- The stride decoration `wrapType` issues on the array handle `id`, if any. -/
def arrayStrideInstrs (I : TIntermediate) (type : TType) (explicitLayout : TLayoutPacking)
    (matrixLayout : TLayoutMatrix) (id : spv.Id) : List spv.Instruction :=
  if type.isArray ∧ explicitLayout ≠ .ElpNone ∧ type.getBasicType ≠ .EbtBlock then
    [.OpDecorate id .ArrayStride (.num (getArrayStride I type explicitLayout matrixLayout))]
  else []

end TGlslangToSpvTraverser

namespace TGlslangToSpvTraverser

/-- The handle and builder the `switch` of `convertGlslangToSpvType` ends with for a
type that is neither a struct nor a block. -/
def basicResult (type : TType) (b : spv.Builder) : spv.Id × spv.Builder :=
  match type.getBasicType with
  | .EbtVoid => b.makeVoidType
  | .EbtFloat => b.makeFloatType 32
  | .EbtDouble => b.makeFloatType 64
  | .EbtBool => b.makeBoolType
  | .EbtInt => b.makeIntType 32
  | .EbtUint => b.makeUintType 32
  | .EbtAtomicUint => b.makeUintType 32
  | .EbtSampler =>
    let st : spv.Id × spv.Builder :=
      match type.getSampler.type with
      | .EbtFloat => b.makeFloatType 32
      | .EbtInt => b.makeIntType 32
      | .EbtUint => b.makeUintType 32
      | _ => b.makeFloatType 32
    let r := st.2.makeImageType st.1 (TranslateDimensionality type.getSampler)
      type.getSampler.shadow type.getSampler.arrayed type.getSampler.ms
      (if type.getSampler.image then 2 else 1) (TranslateImageFormat type)
    if !type.getSampler.image then r.2.makeSampledImageType r.1 else r
  | _ => (0, b)

/-- The member handles and the traverser after the first loop of the struct case, on a
cache miss. -/
def fieldsLowered (I : TIntermediate) (type : TType) (explicitLayout : TLayoutPacking)
    (matrixLayout : TLayoutMatrix) (self : TGlslangToSpvTraverser) :
    List spv.Id × TGlslangToSpvTraverser :=
  convertStructFields I type.getBasicType type.getStructId explicitLayout matrixLayout
    type.getStruct 0 0 []
    (if type.getBasicType = .EbtBlock then
      self.resizeMemberRemapper type.getStructId type.getStruct.length
    else self)

/-- The handle of the struct type created on a cache miss. -/
def newStructId (I : TIntermediate) (type : TType) (explicitLayout : TLayoutPacking)
    (matrixLayout : TLayoutMatrix) (self : TGlslangToSpvTraverser) : spv.Id :=
  (fieldsLowered I type explicitLayout matrixLayout self).2.builder.uniqueId + 1

/-- The traverser right after the struct type has been created and cached. -/
def structCached (I : TIntermediate) (type : TType) (explicitLayout : TLayoutPacking)
    (matrixLayout : TLayoutMatrix) (self : TGlslangToSpvTraverser) : TGlslangToSpvTraverser :=
  ({ (fieldsLowered I type explicitLayout matrixLayout self).2 with
      builder := ((fieldsLowered I type explicitLayout matrixLayout self).2.builder.makeStructType
        (fieldsLowered I type explicitLayout matrixLayout self).1 type.getTypeName).2 }).setStructMap
    explicitLayout matrixLayout type.getStructId
    (newStructId I type explicitLayout matrixLayout self)

/-- The names and decorations the struct case issues on the new struct handle. -/
def structCaseInstrs (I : TIntermediate) (type : TType) (explicitLayout : TLayoutPacking)
    (matrixLayout : TLayoutMatrix) (self : TGlslangToSpvTraverser) : List spv.Instruction :=
  membersInstrs I type explicitLayout matrixLayout
    (newStructId I type explicitLayout matrixLayout self)
    ((fieldsLowered I type explicitLayout matrixLayout self).2.memberRemapper type.getStructId)
    0 type.getStruct (-1)
  ++ structInstrs I type matrixLayout (newStructId I type explicitLayout matrixLayout self)

end TGlslangToSpvTraverser

namespace TGlslangToSpvTraverser

/-- What lowering a type does to the traverser, whatever the type: handles are only
added, names and decorations are only appended, well-formedness is kept, a filled
entry of the struct cache is never changed, and a declared type stays declared. -/
structure Ext (s s' : TGlslangToSpvTraverser) : Prop where
  uniqueId : s.builder.uniqueId ≤ s'.builder.uniqueId
  decorations : ∃ l, s'.builder.decorations = s.builder.decorations ++ l
  wf : s.WF → s'.WF
  structMap : ∀ p m k, s.structMap p m k ≠ 0 → s'.structMap p m k = s.structMap p m k
  types : ∀ e ∈ s.builder.types, e ∈ s'.builder.types

end TGlslangToSpvTraverser

namespace glslang

mutual

/-- A type that is a block or has a block among its members, at any depth. -/
def TType.containsBlock : TType → Bool
  | .mk basicType _ _ _ _ _ _ _ _ _ _ members =>
    basicType == .EbtBlock || anyContainsBlock members

/-- Some type of the list contains a block. -/
def anyContainsBlock : List TType → Bool
  | [] => false
  | t :: ts => t.containsBlock || anyContainsBlock ts

end

end glslang

namespace TGlslangToSpvTraverser

/-- The remapper entries the first loop of the struct case writes for the remaining
members of a block, `k` being the next IR member index: `-1` for a hidden member, the
next index otherwise. -/
def remapFrom : Nat → List TType → List Int
  | _, [] => []
  | k, t :: ts => if t.hiddenMember then -1 :: remapFrom k ts else (k : Int) :: remapFrom (k + 1) ts

/-- The members the decoration loop names and decorates: the non-hidden members of a
block, every member of a struct. -/
def decoratedMembers (type : TType) : List TType :=
  if type.getBasicType = .EbtBlock then type.getStruct.filter (fun t => !t.hiddenMember)
  else type.getStruct

/-- The names and decorations issued for the decorated members, `k` being the IR index
of the first of them and `offset` the running offset. -/
def decoratedInstrs (I : TIntermediate) (type : TType) (explicitLayout : TLayoutPacking)
    (matrixLayout : TLayoutMatrix) (spvType : spv.Id) :
    Nat → List TType → Int → List spv.Instruction
  | _, [], _ => []
  | k, t :: rest, offset =>
    memberInstrs I type explicitLayout matrixLayout spvType (k : Int) t offset
    ++ decoratedInstrs I type explicitLayout matrixLayout spvType (k + 1) rest
        (offsetStep I type explicitLayout matrixLayout t offset).2

/-- The `Offset` decorations issued for the decorated members. -/
def offsetDecorations (I : TIntermediate) (type : TType) (explicitLayout : TLayoutPacking)
    (matrixLayout : TLayoutMatrix) : Nat → List TType → Int → List (Int × spv.Operand)
  | _, [], _ => []
  | k, t :: rest, offset =>
    (match (offsetStep I type explicitLayout matrixLayout t offset).1 with
      | some o => [((k : Int), spv.Operand.num o)]
      | none => [])
    ++ offsetDecorations I type explicitLayout matrixLayout (k + 1) rest
        (offsetStep I type explicitLayout matrixLayout t offset).2

/-- The offsets the layout rules give the members of a list, from running offset
`offset`: a member's own offset when it declares one, the running offset otherwise,
raised to `0` and rounded up to the member's alignment. -/
def layoutOffsets (I : TIntermediate) (explicitLayout : TLayoutPacking)
    (matrixLayout : TLayoutMatrix) : List TType → Int → List Int
  | [], _ => []
  | t :: rest, offset =>
    let o := RoundToPow2
      (max (if t.getQualifier.hasOffset then t.getQualifier.layoutOffset else offset) 0)
      (memberAlignment I explicitLayout matrixLayout t)
    o :: layoutOffsets I explicitLayout matrixLayout rest
      (o + memberSize I explicitLayout matrixLayout t)

end TGlslangToSpvTraverser

namespace TGlslangToSpvTraverser

/-- The member decorations `dec` found, after lowering `type` under
`(explicitLayout, matrixLayout)`, on the struct handle cached for its member list. -/
def loweredMemberDecorations (I : TIntermediate) (type : TType)
    (explicitLayout : TLayoutPacking) (matrixLayout : TLayoutMatrix)
    (self : TGlslangToSpvTraverser) (dec : spv.Decoration) : List (Int × spv.Operand) :=
  (convertGlslangToSpvType I type explicitLayout matrixLayout self).2.builder.memberDecorations
    ((convertGlslangToSpvType I type explicitLayout matrixLayout self).2.structMap
      explicitLayout matrixLayout type.getStructId) dec

end TGlslangToSpvTraverser

namespace spv

/-- The literal operand of a decoration (`none` for a name). -/
def Instruction.operand : Instruction → Operand
  | .OpMemberName _ _ _ => .none
  | .OpMemberDecorate _ _ _ num => num
  | .OpDecorate _ _ num => num

end spv

namespace glslang

mutual

/-- The member types of a type, at every depth. -/
def TType.descendants : TType → List TType
  | .mk _ _ _ _ _ _ _ _ _ _ _ members => descendantsOfList members

/-- The types of a list together with their member types at every depth. -/
def descendantsOfList : List TType → List TType
  | [] => []
  | t :: ts => t :: (t.descendants ++ descendantsOfList ts)

end

end glslang

namespace TGlslangToSpvTraverser

/-- What a lowering without explicit layout may issue: no `MatrixStride`, no
`ArrayStride`, and an `Offset` only with the transform-feedback offset of one of the
types in `sources` that carries one. -/
def NoLayout (sources : List TType) (d : spv.Instruction) : Prop :=
  d.decoration ≠ .MatrixStride ∧ d.decoration ≠ .ArrayStride ∧
  (d.decoration = .Offset →
    ∃ t ∈ sources, t.getQualifier.hasXfbOffset = true ∧
      d.operand = .num t.getQualifier.layoutXfbOffset)

/-- The names and decorations `s'` holds are those of `s` followed by instructions that
all satisfy `Q`. -/
def Emits (Q : spv.Instruction → Prop) (s s' : TGlslangToSpvTraverser) : Prop :=
  ∃ l, s'.builder.decorations = s.builder.decorations ++ l ∧ ∀ d ∈ l, Q d

end TGlslangToSpvTraverser

namespace UserCall

/-- The argument index of a traversal event. -/
def Event.traverse? : Event → Option Nat
  | .traverse a => some a
  | _ => none

/-- An event that allocates parameter storage or makes the call. -/
def Event.allocatesOrCalls : Event → Bool
  | .createVariable _ => true
  | .createFunctionCall _ _ => true
  | _ => false

end UserCall

/-! ## Worked examples -/

namespace Example

/-- A sample alignment query with std140-style values for float scalars, vectors and
matrices: four bytes per component, a three-component vector aligned like a
four-component one, a matrix aligned like a four-component vector and as large as
its rows (row-major) or columns (column-major) at that stride. -/
def getBaseAlignment (t : TType) (_std140 rowMajor : Bool) : Int × Int :=
  if t.isMatrix then
    (16, 16 * (if rowMajor then (t.getMatrixRows : Int) else (t.getMatrixCols : Int)))
  else
    match t.getVectorSize with
    | 1 => (4, 4)
    | 2 => (8, 8)
    | 3 => (16, 12)
    | _ => (16, 16)

/-- The front end of the examples. -/
def intermediate : TIntermediate := { getBaseAlignment := getBaseAlignment }

/-- A float vector member with `n` components (a scalar for `n = 1`). -/
def vec (n : Nat) (name : String) (q : TQualifier) : TType :=
  .mk .EbtFloat q {} n 0 0 [] false name "" 0 []

/-- A float matrix member with the given numbers of columns and rows. -/
def mat (cols rows : Nat) (name : String) (q : TQualifier) : TType :=
  .mk .EbtFloat q {} 0 cols rows [] false name "" 0 []

/-- A uniform block with the given packing, member-list identity and members. -/
def block (packing : TLayoutPacking) (structId : Nat) (members : List TType) : TType :=
  .mk .EbtBlock { storage := .EvqUniform, layoutPacking := packing } {} 1 0 0 [] false ""
    "Block" structId members

/-- A struct with the given member-list identity and members. -/
def struct (structId : Nat) (members : List TType) : TType :=
  .mk .EbtStruct {} {} 1 0 0 [] false "" "Struct" structId members

/-- A block `{ vec2 a; layout(row_major) mat3x4 b; float c; }`. -/
def vecMatBlock : TType :=
  block .ElpStd140 1
    [vec 2 "a" {}, mat 3 4 "b" { layoutMatrix := .ElmRowMajor }, vec 1 "c" {}]

/-- A block `{ float a; layout(offset = 4) vec4 b; }`: the explicit offset of `b` is
not a multiple of its alignment. -/
def misalignedOffsetBlock : TType :=
  block .ElpStd140 2 [vec 1 "a" {}, vec 4 "b" { hasOffset := true, layoutOffset := 4 }]

/-- A block `{ float a; float b; layout(offset = 0) float c; }`: the explicit offset of
`c` lies below its predecessor. -/
def backwardOffsetBlock : TType :=
  block .ElpStd140 3
    [vec 1 "a" {}, vec 1 "b" {}, vec 1 "c" { hasOffset := true, layoutOffset := 0 }]

/-- An output block `{ layout(xfb_offset = 16) vec4 a; }`, which gets no explicit
layout. -/
def xfbBlock : TType :=
  .mk .EbtBlock { storage := .EvqVaryingOut } {} 1 0 0 [] false "" "Out" 4
    [vec 4 "a" { hasXfbOffset := true, layoutXfbOffset := 16 }]

end Example

/-! ## User function calls: what is passed and what is copied -/

namespace UserCall

/-- Argument `a` is passed through a local variable: its qualifier is not
`EvqConstReadOnly`. -/
def needsVariable (qualifiers : List TStorageQualifier) (a : Nat) : Bool :=
  decide (qualifierAt qualifiers a ≠ .EvqConstReadOnly)

/-- Argument `a` is qualified `in` or `inout`. -/
def copiesIn (qualifiers : List TStorageQualifier) (a : Nat) : Bool :=
  decide (qualifierAt qualifiers a = .EvqIn ∨ qualifierAt qualifiers a = .EvqInOut)

/-- Argument `a` is qualified `out` or `inout`. -/
def copiesOut (qualifiers : List TStorageQualifier) (a : Nat) : Bool :=
  decide (qualifierAt qualifiers a = .EvqOut ∨ qualifierAt qualifiers a = .EvqInOut)

/-- The calls loop 1 makes for argument `a`, when it starts from the empty sequence:
the result of `convertGlslangToSpvType` is then named `4 * a + 2` and the captured
l-value (or the loaded r-value) `4 * a + 3`. -/
def evaluationEvents (qualifiers : List TStorageQualifier) (a : Nat) : List Event :=
  [.clearAccessChain, .traverse a, .convertGlslangToSpvType a,
    if needsVariable qualifiers a then .getAccessChain else .accessChainLoad (4 * a + 2)]

/-- The calls loop 2 makes for argument `a` when `p` calls have been made before. -/
def copyInEvents (qualifiers : List TStorageQualifier) (a p : Nat) : List Event :=
  if needsVariable qualifiers a then
    [.convertGlslangToSpvType a, .createVariable p] ++
      (if copiesIn qualifiers a then
        [.setAccessChain (4 * a + 3), .accessChainLoad (4 * a + 2), .createStore (p + 3) (p + 1)]
      else [])
  else []

/-- The actual argument loop 2 pushes for argument `a` when `p` calls have been made
before. -/
def copyInArg (qualifiers : List TStorageQualifier) (a p : Nat) : Nat :=
  if needsVariable qualifiers a then p + 1 else 4 * a + 3

/-- The calls loop 2 makes for the `n` arguments from index `a` on, when `p` calls have
been made before. -/
def copyInTrace (qualifiers : List TStorageQualifier) : Nat → Nat → Nat → List Event
  | 0, _, _ => []
  | n + 1, a, p =>
    copyInEvents qualifiers a p ++
      copyInTrace qualifiers n (a + 1) (p + (copyInEvents qualifiers a p).length)

/-- The actual arguments loop 2 pushes for the `n` arguments from index `a` on. -/
def copyInArgs (qualifiers : List TStorageQualifier) : Nat → Nat → Nat → List Nat
  | 0, _, _ => []
  | n + 1, a, p =>
    copyInArg qualifiers a p ::
      copyInArgs qualifiers n (a + 1) (p + (copyInEvents qualifiers a p).length)

/-- How argument `a` is passed, read off the calls `pre` made before the function call
and the whole sequence `T` of calls, `v` being the actual argument of the call. An
argument that is not `const` read-only is passed as the result `v` of a
`createVariable`; when it is `in` or `inout` the three calls after that one set the
access chain to the l-value captured for argument `a` (the result `4 * a + 3` of the
`getAccessChain` made after the traversal of argument `a`), load it and store the
loaded value into `v`; otherwise no call at all stores into `v`. A `const` read-only
argument is passed as the value loaded right after its traversal. -/
def Passed (qualifiers : List TStorageQualifier) (pre T : List Event) (a v : Nat) : Prop :=
  pre[4 * a + 1]? = some (.traverse a) ∧
  pre[4 * a + 2]? = some (.convertGlslangToSpvType a) ∧
  if needsVariable qualifiers a then
    pre[4 * a + 3]? = some .getAccessChain ∧
    (∃ type, pre[v]? = some (.createVariable type)) ∧
    if copiesIn qualifiers a then
      pre[v + 1]? = some (.setAccessChain (4 * a + 3)) ∧
      pre[v + 2]? = some (.accessChainLoad (4 * a + 2)) ∧
      pre[v + 3]? = some (.createStore (v + 2) v)
    else ∀ j rValue : Nat, T[j]? ≠ some (Event.createStore rValue v)
  else
    v = 4 * a + 3 ∧ pre[v]? = some (.accessChainLoad (4 * a + 2))

/-- The calls loop 4 makes for the arguments listed in `outs`, the first of them being
call number `p`: for each, a load of the argument's variable, the access chain set to
the l-value captured for that argument, and a store of the loaded value through it. -/
def copyBacks (spvArgs : List Nat) : List Nat → Nat → List Event
  | [], _ => []
  | a :: outs, p =>
    [.createLoad (spvArgs.getD a 0), .setAccessChain (4 * a + 3), .accessChainStore p] ++
      copyBacks spvArgs outs (p + 3)

/-- A `createVariable` call. -/
def Event.isCreateVariable : Event → Bool
  | .createVariable _ => true
  | _ => false

/-- A `createStore` call. -/
def Event.isCreateStore : Event → Bool
  | .createStore _ _ => true
  | _ => false

end UserCall

/-! ## Control flow and short-circuit lowering

The visit functions of the traverser (`visitSelection`, `visitSwitch`, `visitLoop`,
`visitBranch`, the logical case of `visitBinary`, `createShortCircuit`) are embedded
as the sequence of calls they make on their collaborators, together with the
traverser state they read and write: the two context stacks and the builder's access
chain. A value returned by a collaborator is named by the number of calls made so far,
the call that returned it included, so that no name is `0`, the null handle. -/

namespace glslang

/-- Modelled from the spec: the operators of the front end that the embedded functions
name or that the properties below speak about; the front end's enumeration is larger,
and every operator not listed behaves like `EOpNull` in the functions embedded here. -/
inductive TOperator where
  | EOpNull | EOpSequence | EOpFunctionCall
  | EOpNegative | EOpLogicalNot | EOpBitwiseNot
  | EOpPostIncrement | EOpPostDecrement | EOpPreIncrement | EOpPreDecrement
  | EOpConvIntToBool | EOpConvUintToBool | EOpConvFloatToBool | EOpConvDoubleToBool
  | EOpConvBoolToFloat | EOpConvIntToFloat
  | EOpAdd | EOpSub | EOpMul | EOpDiv | EOpMod
  | EOpEqual | EOpNotEqual | EOpLessThan | EOpGreaterThan | EOpLessThanEqual
  | EOpGreaterThanEqual | EOpComma
  | EOpLogicalOr | EOpLogicalXor | EOpLogicalAnd
  | EOpIndexDirect | EOpIndexIndirect | EOpIndexDirectStruct | EOpVectorSwizzle
  | EOpAny | EOpAll
  | EOpKill | EOpReturn | EOpBreak | EOpContinue | EOpCase | EOpDefault
  | EOpAssign | EOpAddAssign | EOpSubAssign | EOpMulAssign | EOpVectorTimesMatrixAssign
  | EOpVectorTimesScalarAssign | EOpMatrixTimesScalarAssign | EOpMatrixTimesMatrixAssign
  | EOpDivAssign | EOpModAssign | EOpAndAssign | EOpInclusiveOrAssign
  | EOpExclusiveOrAssign | EOpLeftShiftAssign | EOpRightShiftAssign
  | EOpFunction | EOpParameters | EOpLinkerObjects
  | EOpConvBoolToDouble | EOpConvBoolToInt | EOpConvBoolToUint | EOpConvIntToDouble
  | EOpConvUintToFloat | EOpConvUintToDouble | EOpConvDoubleToFloat | EOpConvFloatToDouble
  | EOpConvFloatToInt | EOpConvDoubleToInt | EOpConvUintToInt | EOpConvIntToUint
  | EOpConvFloatToUint | EOpConvDoubleToUint
  | EOpAtomicAdd | EOpAtomicMin | EOpAtomicMax | EOpAtomicAnd | EOpAtomicOr | EOpAtomicXor
  | EOpAtomicExchange | EOpAtomicCompSwap | EOpAtomicCounterIncrement
  | EOpAtomicCounterDecrement | EOpAtomicCounter
  | EOpImageAtomicAdd | EOpImageAtomicMin | EOpImageAtomicMax | EOpImageAtomicAnd
  | EOpImageAtomicOr | EOpImageAtomicXor | EOpImageAtomicExchange | EOpImageAtomicCompSwap
  | EOpMin | EOpModf | EOpMax | EOpPow | EOpDot | EOpAtan | EOpClamp | EOpMix | EOpStep
  | EOpSmoothStep | EOpDistance | EOpCross | EOpFaceForward | EOpReflect | EOpRefract
  | EOpInterpolateAtSample | EOpInterpolateAtOffset | EOpAddCarry | EOpSubBorrow
  | EOpUMulExtended | EOpIMulExtended | EOpBitfieldExtract | EOpBitfieldInsert | EOpFma
  | EOpFrexp | EOpLdexp
  | EOpImageLoad | EOpImageStore | EOpImageQuerySize | EOpTextureQuerySize
  | EOpImageQuerySamples | EOpTextureQuerySamples | EOpTextureQueryLod
  | EOpTextureQueryLevels | EOpTexture
  | EOpVectorTimesScalar | EOpVectorTimesMatrix | EOpMatrixTimesVector | EOpMatrixTimesScalar
  | EOpMatrixTimesMatrix | EOpOuterProduct | EOpRightShift | EOpLeftShift | EOpAnd
  | EOpInclusiveOr | EOpExclusiveOr | EOpVectorEqual | EOpVectorNotEqual
  deriving DecidableEq, Repr

/-- Modelled from the spec: a typed node of the front end's tree (`glslang::TIntermTyped`,
an expression), declared outside `SPIRV/GlslangToSpv.cpp`, as seen through the accessors
that file calls. `id` is the identity of the node (its address); `constantUnion` is a
`TIntermConstantUnion` with its first constant read as an integer, `symbol` a
`TIntermSymbol` with the storage qualifier of its type, `unary` and `binary` the
operator nodes, `aggregate` a `TIntermAggregate` (a call or a constructor), `selection`
a conditional expression. -/
inductive TIntermTyped where
  | constantUnion (id : Nat) (iConst : Int)
  | symbol (id : Nat) (storage : TStorageQualifier)
  | unary (id : Nat) (op : TOperator) (operand : TIntermTyped)
  | binary (id : Nat) (op : TOperator) (left right : TIntermTyped)
  | aggregate (id : Nat) (op : TOperator) (sequence : List TIntermTyped)
  | selection (id : Nat) (condition trueBlock falseBlock : TIntermTyped)

namespace TIntermTyped

/-- The identity of the node. -/
def id : TIntermTyped → Nat
  | constantUnion id _ => id
  | symbol id _ => id
  | unary id _ _ => id
  | binary id _ _ _ => id
  | aggregate id _ _ => id
  | selection id _ _ _ => id

/-- Result of `getAsBinaryNode()`: the operator and the two operands, `none` for the
null pointer. -/
def getAsBinaryNode : TIntermTyped → Option (TOperator × TIntermTyped × TIntermTyped)
  | binary _ op left right => some (op, left, right)
  | _ => none

/-- Result of `getAsUnaryNode()`: the operator and the operand, `none` for the null
pointer. -/
def getAsUnaryNode : TIntermTyped → Option (TOperator × TIntermTyped)
  | unary _ op operand => some (op, operand)
  | _ => none

/-- Result of `getAsConstantUnion()->getConstArray()[0].getIConst()`, read as `0` when
the node is not a constant. -/
def getIConst : TIntermTyped → Int
  | constantUnion _ iConst => iConst
  | _ => 0

/-- Result of `getAsOperator()->getOp()`; `EOpNull` for a node that is not an operator. -/
def getOp : TIntermTyped → TOperator
  | unary _ op _ => op
  | binary _ op _ _ => op
  | aggregate _ op _ => op
  | _ => .EOpNull

end TIntermTyped

end glslang

namespace Lowering

/-- Function `isTrivialLeaf` (GlslangToSpv.cpp:3317); `none` is the null pointer. -/
def isTrivialLeaf : Option TIntermTyped → Bool
  -- don't know what this is
  | none => false
  -- a constant is safe
  | some (.constantUnion _ _) => true
  -- a symbol, depends on what's being read
  | some (.symbol _ storage) =>
    match storage with
    | .EvqTemporary | .EvqGlobal | .EvqIn | .EvqInOut | .EvqConst | .EvqConstReadOnly
    | .EvqUniform => true
    | _ => false
  -- not a symbol means non-trivial
  | some _ => false

/-- Function `isTrivial` (GlslangToSpv.cpp:3349); `none` is the null pointer. -/
def isTrivial (node : Option TIntermTyped) : Bool :=
  match node with
  | none => false
  | some n =>
    -- symbols and constants are trivial
    if isTrivialLeaf node then true
    else
      -- otherwise, it needs to be a simple operation or one or two leaf nodes
      let binaryNode := n.getAsBinaryNode
      let unaryNode := n.getAsUnaryNode
      -- not a simple operation
      if binaryNode.isNone && unaryNode.isNone then false
      -- not on leaf nodes
      else if (match binaryNode with
          | some (_, left, right) => !isTrivialLeaf (some left) || !isTrivialLeaf (some right)
          | none => false) then false
      else if (match unaryNode with
          | some (_, operand) => !isTrivialLeaf (some operand)
          | none => false) then false
      else
        match n.getOp with
        | .EOpLogicalNot | .EOpConvIntToBool | .EOpConvUintToBool | .EOpConvFloatToBool
        | .EOpConvDoubleToBool | .EOpEqual | .EOpNotEqual | .EOpLessThan | .EOpGreaterThan
        | .EOpLessThanEqual | .EOpGreaterThanEqual | .EOpIndexDirect | .EOpIndexDirectStruct
        | .EOpLogicalXor | .EOpAny | .EOpAll => true
        | _ => false

/-- Modelled from the spec: a selector of the access chain ("constant indices, dynamic
indices, swizzle masks, component offsets"). -/
inductive Selector where
  | index (id : Nat)
  | swizzle (components : List Nat)
  | component (id : Nat)
  deriving DecidableEq, Repr

/-- Modelled from the spec: the builder's access chain, "`{ base: IRValueHandle|None,
selectors: [...], mode: LValue|RValue }`"; the default value is the cleared chain. -/
structure AccessChain where
  base : Option Nat := none
  selectors : List Selector := []
  isRValue : Bool := false
  deriving DecidableEq, Repr

/-- The node whose type a call of `convertGlslangToSpvType` converts, relative to the
node being visited: the node itself, one of its children, its argument with that index,
or, for a function definition, the parameter with that index; `constant` is the type
`createSpvConstant` is called with, the type of a constant or of a part of it. -/
inductive Operand where
  | node | condition | trueBlock | falseBlock | test | expression | left | right
  | argument (i : Nat)
  | parameter (p : Nat)
  | constant
  deriving DecidableEq, Repr

/-- The opcodes of `spv::Op` named by the embedded functions. -/
inductive Op where
  | OpLogicalNot | OpPhi | OpNop
  | OpFAdd | OpFSub | OpFMul | OpFDiv | OpMatrixTimesScalar | OpVectorTimesMatrix
  | OpMatrixTimesVector | OpMatrixTimesMatrix
  | OpINotEqual | OpFOrdNotEqual | OpSelect | OpConvertSToF | OpConvertUToF | OpFConvert
  | OpConvertFToS | OpBitcast | OpConvertFToU
  | OpAtomicIAdd | OpAtomicUMin | OpAtomicSMin | OpAtomicUMax | OpAtomicSMax | OpAtomicAnd
  | OpAtomicOr | OpAtomicXor | OpAtomicExchange | OpAtomicCompareExchange
  | OpAtomicIIncrement | OpAtomicIDecrement | OpAtomicLoad
  | OpDot | OpIAddCarry | OpISubBorrow | OpUMulExtended | OpSMulExtended
  | OpBitFieldUExtract | OpBitFieldSExtract | OpBitFieldInsert
  | OpImage | OpImageQuerySizeLod | OpImageQuerySize | OpImageQuerySamples
  | OpImageQueryLod | OpImageQueryLevels | OpImageRead | OpImageWrite
  | OpImageTexelPointer
  | OpIAdd | OpISub | OpIMul | OpVectorTimesScalar | OpOuterProduct | OpUDiv | OpSDiv
  | OpFMod | OpUMod | OpSMod | OpShiftRightLogical | OpShiftRightArithmetic
  | OpShiftLeftLogical | OpBitwiseAnd | OpLogicalAnd | OpBitwiseOr | OpLogicalOr
  | OpBitwiseXor | OpLogicalNotEqual
  | OpFOrdLessThan | OpULessThan | OpSLessThan | OpFOrdGreaterThan | OpUGreaterThan
  | OpSGreaterThan | OpFOrdLessThanEqual | OpULessThanEqual | OpSLessThanEqual
  | OpFOrdGreaterThanEqual | OpUGreaterThanEqual | OpSGreaterThanEqual
  | OpFOrdEqual | OpIEqual
  deriving DecidableEq, Repr

/-- The entry points of the standard library (`spv::GLSLstd450...`) named by
`createMiscOperation`. -/
inductive GLSLstd450 where
  | FMin | UMin | SMin | Modf | FMax | UMax | SMax | Pow | Atan2 | FClamp | UClamp
  | SClamp | FMix | IMix | Step | SmoothStep | Distance | Cross | FaceForward | Reflect
  | Refract | InterpolateAtSample | InterpolateAtOffset | Fma | FrexpStruct | Ldexp
  deriving DecidableEq, Repr

/-- The storage classes of `spv::StorageClass` named in `GlslangToSpv.cpp`. -/
inductive StorageClass where
  | Input | Output | Uniform | AtomicCounter | UniformConstant | Workgroup | Private
  | Function | Image
  deriving DecidableEq, Repr

/-- An unsigned literal passed to `makeUintConstant`: a number, or one of the
enumerators `spv::ScopeDevice` and `spv::MemorySemanticsMaskNone`, kept by name. -/
inductive Literal where
  | value (u : Nat)
  | ScopeDevice
  | MemorySemanticsMaskNone
  deriving DecidableEq, Repr

/-- Modelled from the spec: the enumerator `spv::ImageOperandsSampleMask`, which the
image functions push as an operand; its value is that of the IR's definition. -/
def ImageOperandsSampleMask : Nat := 64

/-- The members of `spv::Builder::TextureParameters` assigned by
`createImageTextureFunctionCall`; `0` is the handle of a parameter that is not set
(`params = { }`). -/
structure TextureParameters where
  sampler : Nat := 0
  coords : Nat := 0
  bias : Nat := 0
  lod : Nat := 0
  Dref : Nat := 0
  offset : Nat := 0
  offsets : Nat := 0
  gradX : Nat := 0
  gradY : Nat := 0
  sample : Nat := 0
  comp : Nat := 0
  deriving DecidableEq, Repr

/-- A call made by an embedded function on a collaborator. Operands that are results
of earlier calls are given by the name of that result. -/
inductive Event where
  -- `node->traverse(this)` for the typed node with that identity
  | traverse (node : Nat)
  -- `convertGlslangToSpvType(...->getType())`
  | convertGlslangToSpvType (of : Operand)
  -- `builder.clearAccessChain()`
  | clearAccessChain
  -- `builder.setAccessChainLValue(lValue)`
  | setAccessChainLValue (lValue : Nat)
  -- `builder.setAccessChainRValue(rValue)`
  | setAccessChainRValue (rValue : Nat)
  -- `builder.accessChainLoad(type)`, with the chain it resolves
  | accessChainLoad (chain : AccessChain) (type : Nat)
  -- `builder.createVariable(spv::StorageClassFunction, type)`
  | createVariable (type : Nat)
  -- `builder.createStore(rValue, lValue)`
  | createStore (rValue lValue : Nat)
  -- `builder.makeBoolType()`
  | makeBoolType
  -- `builder.createUnaryOp(opCode, typeId, operand)`
  | createUnaryOp (opCode : Op) (typeId operand : Nat)
  -- `builder.getBuildPoint()->getId()`
  | getBuildPoint
  -- `builder.createOp(opCode, typeId, operands)`
  | createOp (opCode : Op) (typeId : Nat) (operands : List Nat)
  -- `spv::Builder::If ifBuilder(condition, builder)`
  | makeIf (condition : Nat)
  -- `ifBuilder.makeBeginElse()`
  | makeBeginElse
  -- `ifBuilder.makeEndIf()`
  | makeEndIf
  -- `builder.makeSwitch(selector, numSegments, caseValues, valueIndexToSegment, defaultSegment, segmentBlocks)`
  | makeSwitch (selector numSegments : Nat) (caseValues valueIndexToSegment : List Int)
      (defaultSegment : Int)
  -- `builder.nextSwitchSegment(segmentBlocks, segment)`
  | nextSwitchSegment (segment : Nat)
  -- `builder.addSwitchBreak()`
  | addSwitchBreak
  -- `builder.endSwitch(segmentBlocks)`
  | endSwitch
  -- `builder.makeNewLoop(loopTestFirst)`
  | makeNewLoop (loopTestFirst : Bool)
  -- `builder.createLoopTestBranch(condition)`
  | createLoopTestBranch (condition : Nat)
  -- `builder.createBranchToBody()`
  | createBranchToBody
  -- `builder.closeLoop()`
  | closeLoop
  -- `builder.createLoopExit()`
  | createLoopExit
  -- `builder.createLoopContinue()`
  | createLoopContinue
  -- `builder.makeDiscard()`
  | makeDiscard
  -- `builder.makeReturn(false, retVal)`; `none` when called without a value
  | makeReturn (retVal : Option Nat)
  -- `builder.getAccessChain()`
  | getAccessChain
  -- `builder.setAccessChain(newChain)`
  | setAccessChain (newChain : AccessChain)
  -- `builder.accessChainStore(rvalue)`, with the chain it resolves
  | accessChainStore (chain : AccessChain) (rvalue : Nat)
  -- `createBinaryOperation(op, precision, typeId, left, right, typeProxy)`
  | createBinaryOperation (op : TOperator) (typeId left right : Nat)
  -- `builder.makeIntConstant(i)`
  | makeIntConstant (i : Int)
  -- `builder.accessChainPush(offset)`
  | accessChainPush (offset : Nat)
  -- `builder.accessChainPushSwizzle(swizzle, preSwizzleBaseType)`
  | accessChainPushSwizzle (swizzle : List Nat) (preSwizzleBaseType : Nat)
  -- `builder.accessChainGetLValue()`, with the chain it resolves
  | accessChainGetLValue (chain : AccessChain)
  -- `builder.makeUintConstant(u)`
  | makeUintConstant (u : Literal)
  -- `builder.makeFloatConstant(f)`; a floating-point value is given by an integer: the
  -- value of a literal of the embedded functions, all of which are integral, or the
  -- code of a value of the source program
  | makeFloatConstant (f : Int)
  -- `builder.makeDoubleConstant(d)`, the value given in the same way
  | makeDoubleConstant (d : Int)
  -- `builder.makeCompositeConstant(typeId, members)`
  | makeCompositeConstant (typeId : Nat) (members : List Nat)
  -- `builder.makeVectorType(component, size)`
  | makeVectorType (component size : Nat)
  -- `builder.makeIntegerType(width, hasSign)`
  | makeIntegerType (width : Nat) (hasSign : Bool)
  -- `builder.makeStructResultType(type0, type1)`
  | makeStructResultType (type0 type1 : Nat)
  -- `builder.makePointer(storageClass, pointee)`
  | makePointer (storageClass : StorageClass) (pointee : Nat)
  -- `builder.createBinOp(opCode, typeId, operand1, operand2)`
  | createBinOp (opCode : Op) (typeId operand1 operand2 : Nat)
  -- `builder.createTriOp(opCode, typeId, operand1, operand2, operand3)`
  | createTriOp (opCode : Op) (typeId operand1 operand2 operand3 : Nat)
  -- `builder.createNoResultOp(opCode, operands)`
  | createNoResultOp (opCode : Op) (operands : List Nat)
  -- `builder.createBuiltinCall(precision, resultType, stdBuiltins, entryPoint, args)`
  | createBuiltinCall (resultType : Nat) (entryPoint : GLSLstd450) (args : List Nat)
  -- `builder.createCompositeExtract(composite, typeId, index)`
  | createCompositeExtract (composite typeId index : Nat)
  -- `builder.createCompositeConstruct(typeId, constituents)`
  | createCompositeConstruct (typeId : Nat) (constituents : List Nat)
  -- `builder.smearScalar(precision, scalar, vectorType)`
  | smearScalar (scalar vectorType : Nat)
  -- `builder.promoteScalar(precision, left, right)`
  | promoteScalar (left right : Nat)
  -- `builder.setPrecision(id, precision)`
  | setPrecision (id : Nat)
  -- `builder.createTextureQueryCall(opCode, parameters)`
  | createTextureQueryCall (opCode : Op) (parameters : TextureParameters)
  -- `builder.createTextureCall(precision, resultType, fetch, proj, gather, parameters)`
  | createTextureCall (resultType : Nat) (fetch proj gather : Bool)
      (parameters : TextureParameters)
  -- `createSpvSpecConstant(*node)` for the symbol with that identity
  | createSpvSpecConstant (symbol : Nat)
  -- `builder.createVariable(storageClass, type, name)`
  | createVariableNamed (storageClass : StorageClass) (type : Nat) (name : String)
  -- `builder.addDecoration(id, decoration, num)`
  | addDecoration (id : Nat) (decoration : spv.Decoration) (num : spv.Operand)
  -- `builder.makeFunctionEntry(returnType, name, paramTypes, &functionBlock)`
  | makeFunctionEntry (returnType : Nat) (name : String) (paramTypes : List Nat)
  -- `builder.addName(id, name)`
  | addName (id : Nat) (name : String)
  -- `builder.setBuildPoint(shaderEntry->getLastBlock())`
  | setBuildPointLastBlock
  -- `entryPoint->addIdOperand(id)`
  | addIdOperand (id : Nat)
  -- `builder.dump(out)`
  | dump
  -- `builder.accessChainPushComponent(component, preSwizzleBaseType)`
  | accessChainPushComponent (component preSwizzleBaseType : Nat)
  -- `builder.makeBoolConstant(b)`
  | makeBoolConstant (b : Bool)
  -- `builder.createCompare(precision, value1, value2, equal)`
  | createCompare (value1 value2 : Nat) (equal : Bool)
  deriving Repr

set_option maxHeartbeats 4000000 in
/-- Equality of calls is decidable: two calls are equal when they are the same call on
equal operands. -/
instance Event.decEq : DecidableEq Event := fun a b => by
  cases a <;> cases b <;>
  first
  | exact isFalse (fun h => Event.noConfusion h)
  | exact isTrue rfl
  | (rename_i x₁ x₂ x₃ x₄ x₅ y₁ y₂ y₃ y₄ y₅
     refine decidable_of_iff (x₁ = y₁ ∧ x₂ = y₂ ∧ x₃ = y₃ ∧ x₄ = y₄ ∧ x₅ = y₅) ?_; simp)
  | (rename_i x₁ x₂ x₃ x₄ y₁ y₂ y₃ y₄
     refine decidable_of_iff (x₁ = y₁ ∧ x₂ = y₂ ∧ x₃ = y₃ ∧ x₄ = y₄) ?_; simp)
  | (rename_i x₁ x₂ x₃ y₁ y₂ y₃
     refine decidable_of_iff (x₁ = y₁ ∧ x₂ = y₂ ∧ x₃ = y₃) ?_; simp)
  | (rename_i x₁ x₂ y₁ y₂; refine decidable_of_iff (x₁ = y₁ ∧ x₂ = y₂) ?_; simp)
  | (rename_i x y; refine decidable_of_iff (x = y) ?_; simp)

/-- The traverser state the embedded functions read and write: the calls made so far,
the builder's access chain, the two context stacks `breakForLoop` ("false means
break for switch") and `loopTerminal` (top of the stack first; `none` is the null
pointer of a loop without terminal), and the members `sequenceDepth`, `linkageOnly`,
`iOSet` (a `std::set`, kept in ascending order without repetition), `symbolValues`,
`constReadOnlyParameters` and `functionMap` (a function object is its handle; `none` is
a key that is absent or mapped to the null pointer). -/
structure State where
  trace : List Event := []
  accessChain : AccessChain := {}
  breakForLoop : List Bool := []
  loopTerminal : List (Option TIntermTyped) := []
  sequenceDepth : Int := 0
  linkageOnly : Bool := false
  iOSet : List Nat := []
  symbolValues : Nat → Option Nat := fun _ => none
  constReadOnlyParameters : List Nat := []
  functionMap : String → Option Nat := fun _ => none

/-- Make a collaborator call: record it and name its result. -/
def call (e : Event) (s : State) : Nat × State :=
  (s.trace.length + 1, { s with trace := s.trace ++ [e] })

/-- Modelled from the spec: `clear()` "drop all state". -/
def clearAccessChain (s : State) : State :=
  { (call .clearAccessChain s).2 with accessChain := {} }

/-- Modelled from the spec: `setBase(handle, asLValue)` "anchor the chain", as an
l-value. -/
def setAccessChainLValue (lValue : Nat) (s : State) : State :=
  let s := (call (.setAccessChainLValue lValue) s).2
  { s with accessChain := { s.accessChain with base := some lValue, isRValue := false } }

/-- Modelled from the spec: `setBase(handle, asLValue)` "anchor the chain", as an
r-value. -/
def setAccessChainRValue (rValue : Nat) (s : State) : State :=
  let s := (call (.setAccessChainRValue rValue) s).2
  { s with accessChain := { s.accessChain with base := some rValue, isRValue := true } }

/-- Modelled from the spec: `load(type)` "Resolving a chain does not mutate it". -/
def accessChainLoad (type : Nat) (s : State) : Nat × State :=
  call (.accessChainLoad s.accessChain type) s

/-- Modelled from the spec: `save` the chain; the result is the chain and the state. -/
def getAccessChain (s : State) : AccessChain × State :=
  (s.accessChain, (call .getAccessChain s).2)

/-- Modelled from the spec: `restore` a saved chain. -/
def setAccessChain (newChain : AccessChain) (s : State) : State :=
  { (call (.setAccessChain newChain) s).2 with accessChain := newChain }

/-- Modelled from the spec: `store(value)` through the chain, which it does not
change. -/
def accessChainStore (rvalue : Nat) (s : State) : State :=
  (call (.accessChainStore s.accessChain rvalue) s).2

/-- Modelled from the spec: `push-index`, one more selector at the end of the chain. -/
def accessChainPush (offset : Nat) (s : State) : State :=
  let s := (call (.accessChainPush offset) s).2
  { s with accessChain :=
      { s.accessChain with selectors := s.accessChain.selectors ++ [.index offset] } }

/-- Modelled from the spec: `push-swizzle`, one more selector at the end of the chain. -/
def accessChainPushSwizzle (swizzle : List Nat) (preSwizzleBaseType : Nat) (s : State) :
    State :=
  let s := (call (.accessChainPushSwizzle swizzle preSwizzleBaseType) s).2
  { s with accessChain :=
      { s.accessChain with selectors := s.accessChain.selectors ++ [.swizzle swizzle] } }

/-- Modelled from the spec: `push-component`, "dynamic single-component selection into
a vector", one more selector at the end of the chain. -/
def accessChainPushComponent (component preSwizzleBaseType : Nat) (s : State) : State :=
  let s := (call (.accessChainPushComponent component preSwizzleBaseType) s).2
  { s with accessChain :=
      { s.accessChain with selectors := s.accessChain.selectors ++ [.component component] } }

/-- Modelled from the spec: the part of the traversal that is not embedded here. The
traversal of a typed node is recorded as one call; `accessChainAfter node name` is the
access chain that traversal, whose call is named `name`, leaves behind ("each node-kind
handler ... leaves the access-chain engine holding the current value for its parent to
consume"). -/
structure TIntermTraverser where
  accessChainAfter : Nat → Nat → AccessChain

/-- Call `node->traverse(this)` for a typed node. -/
def traverseTyped (T : TIntermTraverser) (node : TIntermTyped) (s : State) : State :=
  let r := call (.traverse node.id) s
  { r.2 with accessChain := T.accessChainAfter node.id r.1 }

/-- Read `top()` of a context stack; `top()` of an empty stack, undefined in C++, reads
as `d`. -/
def top {α : Type} (stack : List α) (d : α) : α := stack.headD d

/-- Statement `if (loopTerminal.top()) loopTerminal.top()->traverse(this);`, which
`visitLoop` (GlslangToSpv.cpp:1390) and `visitBranch` (GlslangToSpv.cpp:1415) both
execute. -/
def traverseLoopTerminal (T : TIntermTraverser) (s : State) : State :=
  match top s.loopTerminal none with
  | some terminal => traverseTyped T terminal s
  | none => s

/-- Function `createShortCircuit` (GlslangToSpv.cpp:3399). -/
def createShortCircuit (T : TIntermTraverser) (op : TOperator) (left right : TIntermTyped)
    (s : State) : Nat × State :=
  let b := call .makeBoolType s
  let boolTypeId := b.1
  -- emit left operand
  let s := clearAccessChain b.2
  let s := traverseTyped T left s
  let l := accessChainLoad boolTypeId s
  let leftId := l.1
  -- accumulate left operand's phi information
  let p := call .getBuildPoint l.2
  let phiOperands := [leftId, p.1]
  -- Make the two kinds of operation symmetric with a "!"
  let n : Nat × State :=
    if op = .EOpLogicalOr then call (.createUnaryOp .OpLogicalNot boolTypeId leftId) p.2
    else (leftId, p.2)
  let leftId := n.1
  -- make an "if" based on the left value
  let s := (call (.makeIf leftId) n.2).2
  -- emit right operand as the "then" part of the "if"
  let s := clearAccessChain s
  let s := traverseTyped T right s
  let r := accessChainLoad boolTypeId s
  let rightId := r.1
  -- accumulate left operand's phi information
  let p := call .getBuildPoint r.2
  let phiOperands := phiOperands ++ [rightId, p.1]
  -- finish the "if"
  let s := (call .makeEndIf p.2).2
  -- phi together the two results
  call (.createOp .OpPhi boolTypeId phiOperands) s

/-- Function `visitBinary` (GlslangToSpv.cpp:626), the assignment cases (lines 630-682)
and the case `EOpLogicalOr` / `EOpLogicalAnd` (lines 752-766). The result is the return
value and the state; `none` stands for the code of `visitBinary` that is not embedded
here: the other cases of the `switch` (the case `EOpIndexDirect` /
`EOpIndexDirectStruct` is embedded as `visitBinaryIndexDirect`, the case
`EOpIndexIndirect` as `visitBinaryIndexIndirect`) and the generic binary
operation after it, which `break` leads to when the right operand is trivial. -/
def visitBinary (T : TIntermTraverser) (op : TOperator) (left right : TIntermTyped)
    (s : State) : Option (Bool × State) :=
  match op with
  | .EOpAssign | .EOpAddAssign | .EOpSubAssign | .EOpMulAssign | .EOpVectorTimesMatrixAssign
  | .EOpVectorTimesScalarAssign | .EOpMatrixTimesScalarAssign | .EOpMatrixTimesMatrixAssign
  | .EOpDivAssign | .EOpModAssign | .EOpAndAssign | .EOpInclusiveOrAssign
  | .EOpExclusiveOrAssign | .EOpLeftShiftAssign | .EOpRightShiftAssign =>
    -- get the left l-value, save it away
    let s := clearAccessChain s
    let s := traverseTyped T left s
    let g := getAccessChain s
    let lValue := g.1
    -- evaluate the right
    let s := clearAccessChain g.2
    let s := traverseTyped T right s
    let t := call (.convertGlslangToSpvType .right) s
    let r := accessChainLoad t.1 t.2
    let v : Nat × State :=
      if op ≠ .EOpAssign then
        -- the left is also an r-value
        let s := setAccessChain lValue r.2
        let t := call (.convertGlslangToSpvType .left) s
        let leftRValue := accessChainLoad t.1 t.2
        -- do the operation
        let t := call (.convertGlslangToSpvType .node) leftRValue.2
        call (.createBinaryOperation op t.1 leftRValue.1 r.1) t.2
      else r
    let rValue := v.1
    -- store the result
    let s := setAccessChain lValue v.2
    let s := accessChainStore rValue s
    -- assignments are expressions having an rValue after they are evaluated...
    let s := clearAccessChain s
    let s := setAccessChainRValue rValue s
    some (false, s)
  | .EOpLogicalOr | .EOpLogicalAnd =>
    -- These may require short circuiting, but can sometimes be done as straight
    -- binary operations.
    if isTrivial (some right) then none
    else
      -- otherwise, we need to do dynamic short circuiting on the right operand
      let r := createShortCircuit T op left right s
      let s := clearAccessChain r.2
      let s := setAccessChainRValue r.1 s
      some (false, s)
  | _ => none

/-- Function `visitBinary` (GlslangToSpv.cpp:626), case `EOpIndexDirect` /
`EOpIndexDirectStruct` (lines 684-712). `leftType` is `node->getLeft()->getType()` and
`memberRemapper` the traverser's member of that name, keyed by the identity of a member
list; a read outside a remapper, undefined in C++, reads as `0`. -/
def visitBinaryIndexDirect (T : TIntermTraverser) (memberRemapper : Nat → List Int)
    (op : TOperator) (left : TIntermTyped) (leftType : TType) (right : TIntermTyped)
    (s : State) : Bool × State :=
  -- Get the left part of the access chain.
  let s := traverseTyped T left s
  -- Add the next element in the chain
  let index := right.getIConst
  let index :=
    if leftType.getBasicType = .EbtBlock ∧ op = .EOpIndexDirectStruct then
      -- This may be, e.g., an anonymous block-member selection, which generally need
      -- index remapping due to hidden members in anonymous blocks.
      let remapper := memberRemapper leftType.getStructId
      if 0 ≤ index then remapper.getD index.toNat 0 else 0
    else index
  let s :=
    if ¬ leftType.isArray ∧ leftType.isVector ∧ op = .EOpIndexDirect then
      -- This is essentially a hard-coded vector swizzle of size 1,
      -- so short circuit the access-chain stuff with a swizzle.
      let swizzle := [(right.getIConst % 4294967296).toNat]
      let t := call (.convertGlslangToSpvType .left) s
      accessChainPushSwizzle swizzle t.1 t.2
    else
      -- normal case for indexing array or structure or block
      let c := call (.makeIntConstant index) s
      accessChainPush c.1 c.2
  (false, s)

/-- Function `visitBinary` (GlslangToSpv.cpp:626), case `EOpIndexIndirect` (lines
714-741). `leftType` is `node->getLeft()->getType()`; the local `saved` is the local
`partial` of the source. -/
def visitBinaryIndexIndirect (T : TIntermTraverser) (left : TIntermTyped) (leftType : TType)
    (right : TIntermTyped) (s : State) : Bool × State :=
  -- This adapter is building access chains left to right.
  -- Set up the access chain to the left.
  let s := traverseTyped T left s
  -- save it so that computing the right side doesn't trash it
  let g := getAccessChain s
  let saved := g.1
  -- compute the next index in the chain
  let s := clearAccessChain g.2
  let s := traverseTyped T right s
  let t := call (.convertGlslangToSpvType .right) s
  let index := accessChainLoad t.1 t.2
  -- restore the saved access chain
  let s := setAccessChain saved index.2
  let s :=
    if ¬ leftType.isArray ∧ leftType.isVector then
      let t := call (.convertGlslangToSpvType .left) s
      accessChainPushComponent index.1 t.1 t.2
    else accessChainPush index.1 s
  (false, s)

/-- A child node as a visit function sees it through a `TIntermNode*`: `flowOp` is
`getAsBranchNode()->getFlowOp()` (`none` when the child is not a branch node), `iConst`
the integer constant of the expression of a `case` label, and `traverse` is
`child->traverse(this)`. -/
structure Child where
  flowOp : Option TOperator
  iConst : Int
  traverse : State → State

/-- Function `visitSelection` (GlslangToSpv.cpp:1262). `basicType` is
`node->getBasicType()`, the blocks are given by their traversal, `none` for a null
block. -/
def visitSelection (T : TIntermTraverser) (basicType : TBasicType) (condition : TIntermTyped)
    (trueBlock falseBlock : Option (State → State)) (s : State) : Bool × State :=
  -- This path handles both if-then-else and ?:
  let v : Nat × State :=
    if basicType ≠ .EbtVoid then
      let t := call (.convertGlslangToSpvType .node) s
      call (.createVariable t.1) t.2
    else (0, s)
  let result := v.1
  -- emit the condition before doing anything with selection
  let s := traverseTyped T condition v.2
  -- make an "if" based on the value created by the condition
  let t := call (.convertGlslangToSpvType .condition) s
  let c := accessChainLoad t.1 t.2
  let s := (call (.makeIf c.1) c.2).2
  let s :=
    match trueBlock with
    | some traverse =>
      -- emit the "then" statement
      let s := traverse s
      if result ≠ 0 then
        let t := call (.convertGlslangToSpvType .trueBlock) s
        let l := accessChainLoad t.1 t.2
        (call (.createStore l.1 result) l.2).2
      else s
    | none => s
  let s :=
    match falseBlock with
    | some traverse =>
      let s := (call .makeBeginElse s).2
      -- emit the "else" statement
      let s := traverse s
      if result ≠ 0 then
        let t := call (.convertGlslangToSpvType .falseBlock) s
        let l := accessChainLoad t.1 t.2
        (call (.createStore l.1 result) l.2).2
      else s
    | none => s
  let s := (call .makeEndIf s).2
  let s := if result ≠ 0 then setAccessChainLValue result (clearAccessChain s) else s
  (false, s)

/-- The locals of `visitSwitch` filled in by the loop that browses the children:
`codeSegments` holds the children that are code, `none` being the null pointer. -/
structure CodeSegments where
  defaultSegment : Int := -1
  codeSegments : List (Option Child) := []
  caseValues : List Int := []
  valueIndexToSegment : List Int := []

/-- One iteration of the loop "browse the children to sort out code segments"
(GlslangToSpv.cpp:1321-1330). -/
def sortChild (c : CodeSegments) (child : Child) : CodeSegments :=
  if child.flowOp = some .EOpDefault then
    { c with defaultSegment := c.codeSegments.length }
  else if child.flowOp = some .EOpCase then
    { c with
      valueIndexToSegment :=
        c.valueIndexToSegment.set c.caseValues.length (c.codeSegments.length : Int)
      caseValues := c.caseValues ++ [child.iConst] }
  else
    { c with codeSegments := c.codeSegments ++ [some child] }

/-- The loop "browse the children to sort out code segments", from the initial values
of the locals; `valueIndexToSegment` starts with one zero per child. -/
def sortCodeSegments (sequence : List Child) : CodeSegments :=
  sequence.foldl sortChild { valueIndexToSegment := List.replicate sequence.length 0 }

/-- The fix-up "handle the case where the last code segment is missing"
(GlslangToSpv.cpp:1332-1336). -/
def addMissingSegment (c : CodeSegments) : CodeSegments :=
  if (c.caseValues.length ≠ 0 ∧
        (c.codeSegments.length : Int) =
          c.valueIndexToSegment.getD (c.caseValues.length - 1) 0) ∨
      (c.codeSegments.length : Int) = c.defaultSegment then
    { c with codeSegments := c.codeSegments ++ [none] }
  else c

/-- The loop "emit all the code in the segments" (GlslangToSpv.cpp:1343-1349), from
segment number `segment` on. -/
def emitSegments : List (Option Child) → Nat → State → State
  | [], _, s => s
  | codeSegment :: rest, segment, s =>
    let s := (call (.nextSwitchSegment segment) s).2
    let s :=
      match codeSegment with
      | some child => child.traverse s
      | none => (call .addSwitchBreak s).2
    emitSegments rest (segment + 1) s

/-- Function `visitSwitch` (GlslangToSpv.cpp:1309); `sequence` is
`node->getBody()->getSequence()`. -/
def visitSwitch (T : TIntermTraverser) (condition : TIntermTyped) (sequence : List Child)
    (s : State) : Bool × State :=
  -- emit and get the condition before doing anything with switch
  let s := traverseTyped T condition s
  let t := call (.convertGlslangToSpvType .condition) s
  let selector := accessChainLoad t.1 t.2
  -- browse the children to sort out code segments
  let c := sortCodeSegments sequence
  -- handle the case where the last code segment is missing
  let c := addMissingSegment c
  -- make the switch statement
  let s := (call (.makeSwitch selector.1 c.codeSegments.length c.caseValues
    c.valueIndexToSegment c.defaultSegment) selector.2).2
  -- emit all the code in the segments
  let s := { s with breakForLoop := false :: s.breakForLoop }
  let s := emitSegments c.codeSegments 0 s
  let s := { s with breakForLoop := s.breakForLoop.tail }
  let s := (call .endSwitch s).2
  (false, s)

/-- Function `visitLoop` (GlslangToSpv.cpp:1367); the body is given by its traversal,
`none` for a null pointer. -/
def visitLoop (T : TIntermTraverser) (testFirst : Bool) (test : Option TIntermTyped)
    (body : Option (State → State)) (terminal : Option TIntermTyped) (s : State) :
    Bool × State :=
  -- body emission needs to know what the for-loop terminal is when it sees a "continue"
  let s := { s with loopTerminal := terminal :: s.loopTerminal }
  let s := (call (.makeNewLoop testFirst) s).2
  let s :=
    match test with
    | some test =>
      let s := traverseTyped T test s
      -- the AST only contained the test computation, not the branch, we have to add it
      let t := call (.convertGlslangToSpvType .test) s
      let condition := accessChainLoad t.1 t.2
      (call (.createLoopTestBranch condition.1) condition.2).2
    | none => (call .createBranchToBody s).2
  let s :=
    match body with
    | some traverse =>
      let s := { s with breakForLoop := true :: s.breakForLoop }
      let s := traverse s
      { s with breakForLoop := s.breakForLoop.tail }
    | none => s
  let s := traverseLoopTerminal T s
  let s := (call .closeLoop s).2
  let s := { s with loopTerminal := s.loopTerminal.tail }
  (false, s)

/-- Function `visitBranch` (GlslangToSpv.cpp:1399). -/
def visitBranch (T : TIntermTraverser) (flowOp : TOperator) (expression : Option TIntermTyped)
    (s : State) : Bool × State :=
  let s :=
    match expression with
    | some e => traverseTyped T e s
    | none => s
  let s :=
    match flowOp with
    | .EOpKill => (call .makeDiscard s).2
    | .EOpBreak =>
      if top s.breakForLoop false then (call .createLoopExit s).2
      else (call .addSwitchBreak s).2
    | .EOpContinue =>
      let s := traverseLoopTerminal T s
      (call .createLoopContinue s).2
    | .EOpReturn =>
      let s :=
        match expression with
        | some _ =>
          let t := call (.convertGlslangToSpvType .expression) s
          let l := accessChainLoad t.1 t.2
          (call (.makeReturn (some l.1)) l.2).2
        | none => (call (.makeReturn none) s).2
      clearAccessChain s
    | _ => s
  (false, s)

end Lowering

namespace glslang

/-- Modelled from the spec: a node of the front end's tree held through a
`TIntermNode*` (a statement, or an expression in statement position), declared outside
`SPIRV/GlslangToSpv.cpp`: `typed` is a typed node, whose traversal is not followed;
`aggregate` a sequence (`EOpSequence`) nested in a function body; `selection` a
`TIntermSelection` with its basic type (`EbtVoid` for an `if` statement); `switch` a
`TIntermSwitch` with the children of its body; `loop` a `TIntermLoop`; `branch` a
`TIntermBranch`. Conditions, tests, terminals and branch expressions are typed nodes
(`TIntermTyped*`); `none` is a null pointer. -/
inductive TIntermNode where
  | typed (node : TIntermTyped)
  | aggregate (sequence : List TIntermNode)
  | selection (basicType : TBasicType) (condition : TIntermTyped)
      (trueBlock falseBlock : Option TIntermNode)
  | switch (condition : TIntermTyped) (body : List TIntermNode)
  | loop (testFirst : Bool) (test : Option TIntermTyped) (body : Option TIntermNode)
      (terminal : Option TIntermTyped)
  | branch (flowOp : TOperator) (expression : Option TIntermTyped)

namespace TIntermNode

/-- Result of `getAsBranchNode()->getFlowOp()`, `none` when the node is not a branch
node. -/
def getFlowOp : TIntermNode → Option TOperator
  | branch flowOp _ => some flowOp
  | _ => none

/-- Result of
`getAsBranchNode()->getExpression()->getAsConstantUnion()->getConstArray()[0].getIConst()`,
read as `0` when there is no such constant. -/
def getIConst : TIntermNode → Int
  | branch _ (some (.constantUnion _ iConst)) => iConst
  | _ => 0

end TIntermNode

end glslang

namespace Lowering

mutual

/-- Call `node->traverse(this)` for a node held through a `TIntermNode*`: the front
end calls the visit function of the node's kind; every visit function embedded here
returns `false`, so the front end does not visit the children itself. For a nested
sequence `visitAggregate` makes no call on the builder and returns `true`, and the front
end traverses the children in order. -/
def traverse (T : TIntermTraverser) : TIntermNode → State → State
  | .typed node, s => traverseTyped T node s
  | .aggregate sequence, s => traverseSequence T sequence s
  | .selection basicType condition trueBlock falseBlock, s =>
    (visitSelection T basicType condition
      (match trueBlock with
        | some node => some (traverse T node)
        | none => none)
      (match falseBlock with
        | some node => some (traverse T node)
        | none => none) s).2
  | .switch condition body, s => (visitSwitch T condition (children T body) s).2
  | .loop testFirst test body terminal, s =>
    (visitLoop T testFirst test
      (match body with
        | some node => some (traverse T node)
        | none => none) terminal s).2
  | .branch flowOp expression, s => (visitBranch T flowOp expression s).2

/-- Traverse the children of a sequence in order. -/
def traverseSequence (T : TIntermTraverser) : List TIntermNode → State → State
  | [], s => s
  | node :: rest, s => traverseSequence T rest (traverse T node s)

/-- The children of a switch body as `visitSwitch` sees them. -/
def children (T : TIntermTraverser) : List TIntermNode → List Child
  | [] => []
  | node :: rest =>
    { flowOp := node.getFlowOp, iConst := node.getIConst, traverse := traverse T node } ::
      children T rest

end

end Lowering

/-! ## Control flow: observations used in the proofs -/

namespace glslang

namespace TOperator

/-- The operators `isTrivial` accepts: logical not, the conversions to bool, the six
comparisons, constant array or struct indexing, logical xor, `any` and `all`. -/
def isSimple : TOperator → Bool
  | .EOpLogicalNot | .EOpConvIntToBool | .EOpConvUintToBool | .EOpConvFloatToBool
  | .EOpConvDoubleToBool | .EOpEqual | .EOpNotEqual | .EOpLessThan | .EOpGreaterThan
  | .EOpLessThanEqual | .EOpGreaterThanEqual | .EOpIndexDirect | .EOpIndexDirectStruct
  | .EOpLogicalXor | .EOpAny | .EOpAll => true
  | _ => false

/-- An assignment, plain or compound. -/
def isAssignment : TOperator → Bool
  | .EOpAssign | .EOpAddAssign | .EOpSubAssign | .EOpMulAssign | .EOpVectorTimesMatrixAssign
  | .EOpVectorTimesScalarAssign | .EOpMatrixTimesScalarAssign | .EOpMatrixTimesMatrixAssign
  | .EOpDivAssign | .EOpModAssign | .EOpAndAssign | .EOpInclusiveOrAssign
  | .EOpExclusiveOrAssign | .EOpLeftShiftAssign | .EOpRightShiftAssign => true
  | _ => false

/-- An increment or a decrement. -/
def isIncrementOrDecrement : TOperator → Bool
  | .EOpPostIncrement | .EOpPostDecrement | .EOpPreIncrement | .EOpPreDecrement => true
  | _ => false

/-- An operator with a side effect: an assignment, an increment or decrement, or a
function call. -/
def hasEffect (op : TOperator) : Bool :=
  op.isAssignment || op.isIncrementOrDecrement || op == .EOpFunctionCall

end TOperator

namespace TIntermTyped

/-- A constant or symbol node. -/
def isLeaf : TIntermTyped → Bool
  | constantUnion _ _ => true
  | symbol _ _ => true
  | _ => false

mutual

/-- The expression contains, at any depth, an assignment, an increment or decrement, or
a function call. -/
def containsEffect : TIntermTyped → Bool
  | constantUnion _ _ => false
  | symbol _ _ => false
  | unary _ op operand => op.hasEffect || containsEffect operand
  | binary _ op left right => op.hasEffect || containsEffect left || containsEffect right
  | aggregate _ op sequence => op.hasEffect || anyContainsEffect sequence
  | selection _ condition trueBlock falseBlock =>
    containsEffect condition || containsEffect trueBlock || containsEffect falseBlock

/-- One of the expressions contains an assignment, an increment or decrement, or a
function call. -/
def anyContainsEffect : List TIntermTyped → Bool
  | [] => false
  | node :: rest => containsEffect node || anyContainsEffect rest

end

end TIntermTyped

namespace TIntermNode

/-- A `case` label. -/
def isCase (node : TIntermNode) : Bool := node.getFlowOp == some .EOpCase

/-- A `default` label. -/
def isDefault (node : TIntermNode) : Bool := node.getFlowOp == some .EOpDefault

/-- A child of a switch body that is code: not a label. -/
def isCode (node : TIntermNode) : Bool := !node.isCase && !node.isDefault

/-- A `case` or `default` label. -/
def isLabel (node : TIntermNode) : Bool :=
  node.getFlowOp == some .EOpCase || node.getFlowOp == some .EOpDefault

/-- The children of a node that are held through a `TIntermNode*`. -/
def childNodes : TIntermNode → List TIntermNode
  | typed _ => []
  | aggregate sequence => sequence
  | selection _ _ trueBlock falseBlock => trueBlock.toList ++ falseBlock.toList
  | switch _ body => body
  | loop _ _ body _ => body.toList
  | branch _ _ => []

mutual

/-- The number of `continue` statements in the node that are not inside a loop nested
in it. -/
def continuesOutsideLoops : TIntermNode → Nat
  | typed _ => 0
  | aggregate sequence => continuesOutsideLoopsIn sequence
  | selection _ _ trueBlock falseBlock =>
    (match trueBlock with
      | some node => continuesOutsideLoops node
      | none => 0) +
    (match falseBlock with
      | some node => continuesOutsideLoops node
      | none => 0)
  | switch _ body => continuesOutsideLoopsIn body
  | loop _ _ _ _ => 0
  | branch flowOp _ => if flowOp = .EOpContinue then 1 else 0

/-- The number of `continue` statements in the nodes that are not inside a loop nested
in them. -/
def continuesOutsideLoopsIn : List TIntermNode → Nat
  | [] => 0
  | node :: rest => continuesOutsideLoops node + continuesOutsideLoopsIn rest

end

mutual

/-- The identities of the typed nodes (conditions, tests, terminals, branch
expressions, expressions in statement position) anywhere in the node. -/
def operandIds : TIntermNode → List Nat
  | typed node => [node.id]
  | aggregate sequence => operandIdsIn sequence
  | selection _ condition trueBlock falseBlock =>
    condition.id ::
      ((match trueBlock with
        | some node => operandIds node
        | none => []) ++
      (match falseBlock with
        | some node => operandIds node
        | none => []))
  | switch condition body => condition.id :: operandIdsIn body
  | loop _ test body terminal =>
    (test.map TIntermTyped.id).toList ++
      ((match body with
        | some node => operandIds node
        | none => []) ++
      (terminal.map TIntermTyped.id).toList)
  | branch _ expression => (expression.map TIntermTyped.id).toList

/-- The identities of the typed nodes anywhere in the nodes. -/
def operandIdsIn : List TIntermNode → List Nat
  | [] => []
  | node :: rest => operandIds node ++ operandIdsIn rest

end

/-- The body of a switch ends with a label, so that `visitSwitch` adds an empty last
segment. -/
def endsWithLabel (body : List TIntermNode) : Bool :=
  match body.getLast? with
  | some node => node.isLabel
  | none => false

end TIntermNode

end glslang

namespace Lowering

/-- State `x` comes from state `s` by adding calls, and its two context stacks are
`breakForLoop` and `loopTerminal`. -/
def Keeps (s x : State) (breakForLoop : List Bool) (loopTerminal : List (Option TIntermTyped)) :
    Prop :=
  (∃ l, x.trace = s.trace ++ l) ∧ x.breakForLoop = breakForLoop ∧
    x.loopTerminal = loopTerminal

/-- A traversal that only adds calls and leaves the two context stacks as it found
them. -/
def Steady (f : State → State) : Prop := ∀ s, Keeps s (f s) s.breakForLoop s.loopTerminal

/-- State `x` comes from state `s` by adding calls of which those selected by `P`
are `l`, and its two context stacks are `breakForLoop` and `loopTerminal`. -/
def Obs (P : Event → Bool) (s x : State) (breakForLoop : List Bool)
    (loopTerminal : List (Option TIntermTyped)) (l : List Event) : Prop :=
  x.trace.filter P = s.trace.filter P ++ l ∧ x.breakForLoop = breakForLoop ∧
    x.loopTerminal = loopTerminal

/-- A traversal that leaves the two context stacks as it found them and adds calls of
which those selected by `P` are `E breakForLoop loopTerminal`, by the stacks it is
started with. -/
def Emits (P : Event → Bool) (f : State → State)
    (E : List Bool → List (Option TIntermTyped) → List Event) : Prop :=
  ∀ s, Obs P s (f s) s.breakForLoop s.loopTerminal (E s.breakForLoop s.loopTerminal)

/-- A call that is neither the traversal of a typed node, nor a loop exit, nor a
switch break. -/
def Event.isQuiet : Event → Bool
  | .traverse _ => false
  | .createLoopExit => false
  | .addSwitchBreak => false
  | _ => true

/-- The call that traverses a typed node, when there is one. -/
def traversal (node : Option TIntermTyped) : List Event :=
  match node with
  | some node => [.traverse node.id]
  | none => []

/-- The calls `visitLoop` makes for the test of a loop after `n` calls: the traversal of
the test, the load of its value and the test branch, or the branch to the body when
the loop has no test. -/
def testCalls (T : TIntermTraverser) (test : Option TIntermTyped) (n : Nat) : List Event :=
  match test with
  | some e =>
    [.traverse e.id, .convertGlslangToSpvType .test,
      .accessChainLoad (T.accessChainAfter e.id (n + 1)) (n + 2),
      .createLoopTestBranch (n + 3)]
  | none => [.createBranchToBody]

/-- The state in which `visitLoop` traverses the body of a loop: the terminal is
pushed, the new loop and the test are emitted, and `true` is pushed on `breakForLoop`. -/
def loopEntry (T : TIntermTraverser) (testFirst : Bool) (test : Option TIntermTyped)
    (terminal : Option TIntermTyped) (s : State) : State :=
  let s := { s with loopTerminal := terminal :: s.loopTerminal }
  let s := (call (.makeNewLoop testFirst) s).2
  let s :=
    match test with
    | some test =>
      let s := traverseTyped T test s
      let t := call (.convertGlslangToSpvType .test) s
      let condition := accessChainLoad t.1 t.2
      (call (.createLoopTestBranch condition.1) condition.2).2
    | none => (call .createBranchToBody s).2
  { s with breakForLoop := true :: s.breakForLoop }

/-- The call a `break` statement lowers to: a loop exit when the innermost enclosing
construct among loop bodies and switch bodies is a loop body (`enclosing = true`), a
switch break when it is a switch body. -/
def breakLowering (enclosing : Bool) : Event :=
  if enclosing then .createLoopExit else .addSwitchBreak

mutual

/-- The loop exits and switch breaks expected from the structure of a node, in source
order: one `breakLowering` per `break` statement, according to the innermost construct
enclosing it (`enclosing` for a `break` that no construct inside the node encloses),
and one switch break for the empty last segment of a switch whose body ends with a
label. -/
def breakLowerings (enclosing : Bool) : TIntermNode → List Event
  | .typed _ => []
  | .aggregate sequence => breakLoweringsIn enclosing sequence
  | .selection _ _ trueBlock falseBlock =>
    (match trueBlock with
      | some node => breakLowerings enclosing node
      | none => []) ++
    (match falseBlock with
      | some node => breakLowerings enclosing node
      | none => [])
  | .switch _ body =>
    breakLoweringsOfSegments body ++
      (if TIntermNode.endsWithLabel body then [.addSwitchBreak] else [])
  | .loop _ _ body _ =>
    (match body with
      | some node => breakLowerings true node
      | none => [])
  | .branch flowOp _ => if flowOp = .EOpBreak then [breakLowering enclosing] else []

/-- The expected loop exits and switch breaks of the nodes of a sequence. -/
def breakLoweringsIn (enclosing : Bool) : List TIntermNode → List Event
  | [] => []
  | node :: rest => breakLowerings enclosing node ++ breakLoweringsIn enclosing rest

/-- The expected loop exits and switch breaks of the code segments of a switch body:
the labels are not code, every other child is a segment enclosed by the switch. -/
def breakLoweringsOfSegments : List TIntermNode → List Event
  | [] => []
  | node :: rest =>
    (if node.isLabel then [] else breakLowerings false node) ++ breakLoweringsOfSegments rest

end

/-- A loop exit or a switch break. -/
def Event.isBreak : Event → Bool
  | .createLoopExit => true
  | .addSwitchBreak => true
  | _ => false

/-- The traversal of the typed node of identity `id`. -/
def Event.isTraverseOf (id : Nat) : Event → Bool
  | .traverse node => node == id
  | _ => false

/-- A `case` label, as `visitSwitch` sees the child. -/
def Child.isCase (child : Child) : Bool := child.flowOp == some .EOpCase

/-- A `default` label, as `visitSwitch` sees the child. -/
def Child.isDefault (child : Child) : Bool := child.flowOp == some .EOpDefault

/-- A child that is code: neither a `case` nor a `default` label. -/
def Child.isCode (child : Child) : Bool := !child.isCase && !child.isDefault

/-- The children of a switch body end with a label. -/
def Child.endsWithLabel (sequence : List Child) : Bool :=
  match sequence.getLast? with
  | some child => !child.isCode
  | none => false

namespace Example

/-- A traverser whose typed nodes leave an r-value chain based at the name of their
traversal. -/
def traverser : TIntermTraverser :=
  ⟨fun _ name => { base := some name, selectors := [], isRValue := true }⟩

/-- The expression `i++`, which is not trivial. -/
def increment : TIntermTyped := .unary 2 .EOpPostIncrement (.symbol 3 .EvqTemporary)

/-- A loop `do x; while (test)` with test 1, body 2 and a terminal 3. -/
def doWhile : TIntermNode :=
  .loop false (some (.symbol 1 .EvqTemporary)) (some (.typed (.symbol 2 .EvqTemporary)))
    (some (.symbol 3 .EvqTemporary))

/-- The body `{ if (c) continue; x; continue; }` of a loop. -/
def body : TIntermNode :=
  .aggregate
    [.selection .EbtVoid (.symbol 4 .EvqTemporary) (some (.branch .EOpContinue none)) none,
      .typed (.symbol 5 .EvqTemporary), .branch .EOpContinue none]

/-- The conditional expression `c ? a : b` of type float. -/
def conditional : TIntermNode :=
  .selection .EbtFloat (.symbol 6 .EvqTemporary) (some (.typed (.symbol 7 .EvqTemporary)))
    (some (.typed (.symbol 8 .EvqTemporary)))

/-- The statement `if (c) (c ? a : b);`. -/
def ifStatement : TIntermNode :=
  .selection .EbtVoid (.symbol 9 .EvqTemporary) (some conditional) none

end Example

end Lowering
/-! ## Operators, texture functions, symbols and function declarations

The operator functions (`createConversion`, `createAtomicOperation`,
`createMiscOperation`, `createBinaryMatrixOperation`, `createImageTextureFunctionCall`)
and the functions that declare symbols and functions (`visitSymbol`, `getSymbolId`,
`makeFunctions`, the `EOpSequence` case of `visitAggregate`, `dumpSpv`) are embedded in
the same way as the control flow: as the sequence of calls they make, over the same
traverser state. The precision decoration, which every function passes through
unchanged, is left out of the recorded calls. A `std::vector` of handles is a list; a
read past its end, undefined in C++, reads as `0`. -/

namespace glslang

/-- Modelled from the spec: the flags of `glslang::TCrackedTextureOp`, which the front
end's `crackTexture` derives "from the sampler type and operator tag". -/
structure TCrackedTextureOp where
  query : Bool := false
  proj : Bool := false
  lod : Bool := false
  fetch : Bool := false
  offset : Bool := false
  offsets : Bool := false
  gather : Bool := false
  grad : Bool := false
  deriving DecidableEq, Repr

/-- Modelled from the spec: a symbol node (`glslang::TIntermSymbol`), declared outside
`SPIRV/GlslangToSpv.cpp`, as seen through the accessors that file calls: `getId()`,
`getType()` (whose qualifier is `getQualifier()`), `getName()`, and the result of
`glslang::IsAnonymous` on that name. -/
structure TIntermSymbol where
  getId : Nat
  getType : TType
  getName : String := ""
  isAnonymous : Bool := false

/-- Modelled from the spec: an operator node (`glslang::TIntermOperator`) that
`createImageTextureFunctionCall` is given: its operator, the results of `isImage()` and
`isTexture()`, whether `getAsAggregate()` is non-null (the node is a unary node
otherwise), its arguments (the sequence of the aggregate, or the operand of the unary
node), and `getBasicType()`. -/
structure TIntermOperator where
  getOp : TOperator
  isImage : Bool
  isTexture : Bool
  isAggregate : Bool := true
  arguments : List TIntermTyped
  getBasicType : TBasicType := .EbtFloat

end glslang

namespace Lowering

/-- Modelled from the spec: the answers of the builder to the queries the embedded
functions make about a handle ("opaque integer identifier minted by the external module
builder"); a handle keeps its answers for as long as it exists. `promoteScalar name left
right` is the pair of handles the call of `promoteScalar` named `name` leaves in its two
reference arguments, and `getParamId function p` is `function->getParamId(p)`. -/
structure Queries where
  isMatrix : Nat → Bool
  isScalar : Nat → Bool
  getNumColumns : Nat → Nat
  getNumRows : Nat → Nat
  getNumComponents : Nat → Nat
  getTypeId : Nat → Nat
  getScalarTypeId : Nat → Nat
  isVectorType : Nat → Bool
  getNumTypeComponents : Nat → Nat
  isSampledImage : Nat → Bool
  getImageType : Nat → Nat
  isPointer : Nat → Bool
  getStorageClass : Nat → StorageClass
  promoteScalar : Nat → Nat → Nat → Nat × Nat
  getParamId : Nat → Nat → Nat
  isVector : Nat → Bool := fun _ => false
  isAggregate : Nat → Bool := fun _ => false

/-- The handle `spv::NoResult`. -/
def NoResult : Nat := 0

/-! ### Conversions -/

/-- Function `makeSmearedConstant` (GlslangToSpv.cpp:2811). -/
def makeSmearedConstant (B : Queries) (constant vectorSize : Nat) (s : State) : Nat × State :=
  if vectorSize = 0 then (constant, s)
  else
    let vectorTypeId := call (.makeVectorType (B.getTypeId constant) vectorSize) s
    let components := List.replicate vectorSize constant
    call (.makeCompositeConstant vectorTypeId.1 components) vectorTypeId.2

/-- The locals `convOp`, `zero` and `one` of `createConversion` after its `switch`. -/
structure ConversionLocals where
  convOp : Op := .OpNop
  zero : Nat := 0
  one : Nat := 0
  s : State

/-- Function `createConversion` (GlslangToSpv.cpp:2716). -/
def createConversion (B : Queries) (op : TOperator) (destType operand : Nat) (s : State) :
    Nat × State :=
  let vectorSize := if B.isVectorType destType then B.getNumTypeComponents destType else 0
  match op with
  | .EOpConvIntToBool | .EOpConvUintToBool =>
    let zero := call (.makeUintConstant (.value 0)) s
    let zero := makeSmearedConstant B zero.1 vectorSize zero.2
    call (.createBinOp .OpINotEqual destType operand zero.1) zero.2
  | .EOpConvFloatToBool =>
    let zero := call (.makeFloatConstant 0) s
    let zero := makeSmearedConstant B zero.1 vectorSize zero.2
    call (.createBinOp .OpFOrdNotEqual destType operand zero.1) zero.2
  | .EOpConvDoubleToBool =>
    let zero := call (.makeDoubleConstant 0) s
    let zero := makeSmearedConstant B zero.1 vectorSize zero.2
    call (.createBinOp .OpFOrdNotEqual destType operand zero.1) zero.2
  | _ =>
    let l : ConversionLocals :=
      match op with
      | .EOpConvBoolToFloat =>
        let zero := call (.makeFloatConstant 0) s
        let one := call (.makeFloatConstant 1) zero.2
        { convOp := .OpSelect, zero := zero.1, one := one.1, s := one.2 }
      | .EOpConvBoolToDouble =>
        let zero := call (.makeDoubleConstant 0) s
        let one := call (.makeDoubleConstant 1) zero.2
        { convOp := .OpSelect, zero := zero.1, one := one.1, s := one.2 }
      | .EOpConvBoolToInt =>
        let zero := call (.makeIntConstant 0) s
        let one := call (.makeIntConstant 1) zero.2
        { convOp := .OpSelect, zero := zero.1, one := one.1, s := one.2 }
      | .EOpConvBoolToUint =>
        let zero := call (.makeUintConstant (.value 0)) s
        let one := call (.makeUintConstant (.value 1)) zero.2
        { convOp := .OpSelect, zero := zero.1, one := one.1, s := one.2 }
      | .EOpConvIntToFloat | .EOpConvIntToDouble => { convOp := .OpConvertSToF, s := s }
      | .EOpConvUintToFloat | .EOpConvUintToDouble => { convOp := .OpConvertUToF, s := s }
      | .EOpConvDoubleToFloat | .EOpConvFloatToDouble => { convOp := .OpFConvert, s := s }
      | .EOpConvFloatToInt | .EOpConvDoubleToInt => { convOp := .OpConvertFToS, s := s }
      | .EOpConvUintToInt | .EOpConvIntToUint => { convOp := .OpBitcast, s := s }
      | .EOpConvFloatToUint | .EOpConvDoubleToUint => { convOp := .OpConvertFToU, s := s }
      | _ => { s := s }
    if l.convOp = .OpNop then (0, l.s)
    else
      let result : Nat × State :=
        if l.convOp = .OpSelect then
          let zero := makeSmearedConstant B l.zero vectorSize l.s
          let one := makeSmearedConstant B l.one vectorSize zero.2
          call (.createTriOp l.convOp destType operand one.1 zero.1) one.2
        else call (.createUnaryOp l.convOp destType operand) l.s
      let s := (call (.setPrecision result.1) result.2).2
      (result.1, s)

/-! ### Atomics -/

/-- The first `switch` of `createAtomicOperation` (GlslangToSpv.cpp:2828-2873): the value
of `opCode` after it; `OpNop` is the initial value, which `default:` keeps. -/
def atomicOpCode (op : TOperator) (typeProxy : TBasicType) : Op :=
  match op with
  | .EOpAtomicAdd | .EOpImageAtomicAdd => .OpAtomicIAdd
  | .EOpAtomicMin | .EOpImageAtomicMin =>
    if typeProxy = .EbtUint then .OpAtomicUMin else .OpAtomicSMin
  | .EOpAtomicMax | .EOpImageAtomicMax =>
    if typeProxy = .EbtUint then .OpAtomicUMax else .OpAtomicSMax
  | .EOpAtomicAnd | .EOpImageAtomicAnd => .OpAtomicAnd
  | .EOpAtomicOr | .EOpImageAtomicOr => .OpAtomicOr
  | .EOpAtomicXor | .EOpImageAtomicXor => .OpAtomicXor
  | .EOpAtomicExchange | .EOpImageAtomicExchange => .OpAtomicExchange
  | .EOpAtomicCompSwap | .EOpImageAtomicCompSwap => .OpAtomicCompareExchange
  | .EOpAtomicCounterIncrement => .OpAtomicIIncrement
  | .EOpAtomicCounterDecrement => .OpAtomicIDecrement
  | .EOpAtomicCounter => .OpAtomicLoad
  | _ => .OpNop

/-- Function `createAtomicOperation` (GlslangToSpv.cpp:2824). The iterator `opIt` is the
index it points at; the closing loop copies the operands from that index on. -/
def createAtomicOperation (op : TOperator) (typeId : Nat) (operands : List Nat)
    (typeProxy : TBasicType) (s : State) : Nat × State :=
  let opCode : Op := atomicOpCode op typeProxy
  -- Sort out the operands
  --  - mapping from glslang -> SPV
  --  - there are extra SPV operands with no glslang source
  --  - compare-exchange swaps the value and comparator
  --  - compare-exchange has an extra memory semantics
  let spvAtomicOperands := [operands.getD 0 0]
  let opIt := 1
  let scope := call (.makeUintConstant .ScopeDevice) s
  let spvAtomicOperands := spvAtomicOperands ++ [scope.1]
  let semantics := call (.makeUintConstant .MemorySemanticsMaskNone) scope.2
  let spvAtomicOperands := spvAtomicOperands ++ [semantics.1]
  let x : List Nat × Nat × State :=
    if opCode = .OpAtomicCompareExchange then
      -- There are 2 memory semantics for compare-exchange. And the operand order of
      -- "comparator" and "new value" in GLSL differs from that in SPIR-V.
      let semantics := call (.makeUintConstant .MemorySemanticsMaskNone) semantics.2
      (spvAtomicOperands ++ [semantics.1] ++ [operands.getD (opIt + 1) 0] ++
          [operands.getD opIt 0], opIt + 2, semantics.2)
    else (spvAtomicOperands, opIt, semantics.2)
  -- Add the rest of the operands, skipping any that were dealt with above.
  let spvAtomicOperands := x.1 ++ operands.drop x.2.1
  call (.createOp opCode typeId spvAtomicOperands) x.2.2

/-! ### Multi-result and other intrinsics -/

/-- The locals of `createMiscOperation` after its first `switch`: `libCall` is `none`
for `-1`, and `operands` is the caller's vector, which `promoteScalar` writes through
its reference arguments. -/
structure MiscLocals where
  opCode : Op := .OpNop
  libCall : Option GLSLstd450 := none
  typeId : Nat
  consumedOperands : Nat
  frexpIntType : Nat := 0
  operands : List Nat
  s : State

/-- Call `builder.promoteScalar(precision, operands[i], operands[j])`; the two
references are written back left first. -/
def promoteScalar (B : Queries) (i j : Nat) (l : MiscLocals) : MiscLocals :=
  let left := l.operands.getD i 0
  let right := l.operands.getD j 0
  let r := call (.promoteScalar left right) l.s
  let p := B.promoteScalar r.1 left right
  { l with operands := (l.operands.set i p.1).set j p.2, s := r.2 }

/-- Function `createMiscOperation` (GlslangToSpv.cpp:2901). -/
def createMiscOperation (B : Queries) (op : TOperator) (typeId : Nat) (operands : List Nat)
    (typeProxy : TBasicType) (s : State) : Nat × State :=
  let isUnsigned : Bool := typeProxy = .EbtUint
  let isFloat : Bool := typeProxy = .EbtFloat ∨ typeProxy = .EbtDouble
  let consumedOperands := operands.length
  let typeId0 := if consumedOperands > 0 then B.getTypeId (operands.getD 0 0) else 0
  let l : MiscLocals :=
    { typeId := typeId, consumedOperands := consumedOperands, operands := operands, s := s }
  let back := operands.length - 1
  let sw : Option MiscLocals :=
    match op with
    | .EOpMin =>
      let libCall : GLSLstd450 := if isFloat then .FMin else if isUnsigned then .UMin else .SMin
      some (promoteScalar B 0 back { l with libCall := some libCall })
    | .EOpModf => some { l with libCall := some .Modf }
    | .EOpMax =>
      let libCall : GLSLstd450 := if isFloat then .FMax else if isUnsigned then .UMax else .SMax
      some (promoteScalar B 0 back { l with libCall := some libCall })
    | .EOpPow => some { l with libCall := some .Pow }
    | .EOpDot => some { l with opCode := .OpDot }
    | .EOpAtan => some { l with libCall := some .Atan2 }
    | .EOpClamp =>
      let libCall : GLSLstd450 :=
        if isFloat then .FClamp else if isUnsigned then .UClamp else .SClamp
      some (promoteScalar B 0 2 (promoteScalar B 0 1 { l with libCall := some libCall }))
    | .EOpMix =>
      let libCall : GLSLstd450 := if isFloat then .FMix else .IMix
      some (promoteScalar B 0 back { l with libCall := some libCall })
    | .EOpStep => some (promoteScalar B 0 back { l with libCall := some .Step })
    | .EOpSmoothStep =>
      some (promoteScalar B 1 2 (promoteScalar B 0 2 { l with libCall := some .SmoothStep }))
    | .EOpDistance => some { l with libCall := some .Distance }
    | .EOpCross => some { l with libCall := some .Cross }
    | .EOpFaceForward => some { l with libCall := some .FaceForward }
    | .EOpReflect => some { l with libCall := some .Reflect }
    | .EOpRefract => some { l with libCall := some .Refract }
    | .EOpInterpolateAtSample => some { l with libCall := some .InterpolateAtSample }
    | .EOpInterpolateAtOffset => some { l with libCall := some .InterpolateAtOffset }
    | .EOpAddCarry =>
      let t := call (.makeStructResultType typeId0 typeId0) s
      some { l with opCode := .OpIAddCarry, typeId := t.1, consumedOperands := 2, s := t.2 }
    | .EOpSubBorrow =>
      let t := call (.makeStructResultType typeId0 typeId0) s
      some { l with opCode := .OpISubBorrow, typeId := t.1, consumedOperands := 2, s := t.2 }
    | .EOpUMulExtended =>
      let t := call (.makeStructResultType typeId0 typeId0) s
      some { l with opCode := .OpUMulExtended, typeId := t.1, consumedOperands := 2, s := t.2 }
    | .EOpIMulExtended =>
      let t := call (.makeStructResultType typeId0 typeId0) s
      some { l with opCode := .OpSMulExtended, typeId := t.1, consumedOperands := 2, s := t.2 }
    | .EOpBitfieldExtract =>
      some { l with opCode := if isUnsigned then .OpBitFieldUExtract else .OpBitFieldSExtract }
    | .EOpBitfieldInsert => some { l with opCode := .OpBitFieldInsert }
    | .EOpFma => some { l with libCall := some .Fma }
    | .EOpFrexp =>
      let frexpIntType : Nat × State :=
        if B.getNumComponents (operands.getD 0 0) = 1 then call (.makeIntegerType 32 true) s
        else
          let i := call (.makeIntegerType 32 true) s
          call (.makeVectorType i.1 (B.getNumComponents (operands.getD 0 0))) i.2
      let t := call (.makeStructResultType typeId0 frexpIntType.1) frexpIntType.2
      some { l with
        libCall := some .FrexpStruct, frexpIntType := frexpIntType.1, typeId := t.1,
        consumedOperands := 1, s := t.2 }
    | .EOpLdexp => some { l with libCall := some .Ldexp }
    | _ => none
  match sw with
  | none => (0, s)
  | some l =>
    let operands := l.operands
    let made : Option (Nat × State) :=
      match l.libCall with
      | some libCall =>
        -- Use an extended instruction from the standard library.
        -- Construct the call arguments, without modifying the original operands vector.
        -- We might need the remaining arguments, e.g. in the EOpFrexp case.
        let callArguments := operands.take l.consumedOperands
        some (call (.createBuiltinCall l.typeId libCall callArguments) l.s)
      | none =>
        match l.consumedOperands with
        | 0 => none
        | 1 => none
        | 2 =>
          some (call (.createBinOp l.opCode l.typeId (operands.getD 0 0) (operands.getD 1 0))
            l.s)
        | _ => some (call (.createOp l.opCode l.typeId operands) l.s)
    match made with
    | none => (0, l.s)
    | some id =>
      -- Decode the return types that were structures
      let d : Nat × State :=
        match op with
        | .EOpAddCarry | .EOpSubBorrow =>
          let e := call (.createCompositeExtract id.1 typeId0 1) id.2
          let s := (call (.createStore e.1 (operands.getD 2 0)) e.2).2
          call (.createCompositeExtract id.1 typeId0 0) s
        | .EOpUMulExtended | .EOpIMulExtended =>
          let e := call (.createCompositeExtract id.1 typeId0 0) id.2
          let s := (call (.createStore e.1 (operands.getD 3 0)) e.2).2
          let e := call (.createCompositeExtract id.1 typeId0 1) s
          let s := (call (.createStore e.1 (operands.getD 2 0)) e.2).2
          (id.1, s)
        | .EOpFrexp =>
          let e := call (.createCompositeExtract id.1 l.frexpIntType 1) id.2
          let s := (call (.createStore e.1 (operands.getD 1 0)) e.2).2
          call (.createCompositeExtract id.1 typeId0 0) s
        | _ => id
      let s := (call (.setPrecision d.1) d.2).2
      (d.1, s)

/-! ### Matrix operations -/

/-- The locals `firstClass`, `op`, `left` and `right` of `createBinaryMatrixOperation`
after its first `switch`. -/
structure MatrixLocals where
  firstClass : Bool
  op : Op
  left : Nat
  right : Nat
  s : State

/-- One iteration of the loop "do each vector op" (GlslangToSpv.cpp:2426-2433) of
`createBinaryMatrixOperation`, for column `c`; the results so far are threaded with the
state. -/
def columnOperation (op : Op) (vecType left right smearVec : Nat) (leftMat rightMat : Bool)
    (c : Nat) (r : List Nat × State) : List Nat × State :=
  let leftVec : Nat × State :=
    if leftMat then call (.createCompositeExtract left vecType c) r.2 else (smearVec, r.2)
  let rightVec : Nat × State :=
    if rightMat then call (.createCompositeExtract right vecType c) leftVec.2
    else (smearVec, leftVec.2)
  let b := call (.createBinOp op vecType leftVec.1 rightVec.1) rightVec.2
  let s := (call (.setPrecision b.1) b.2).2
  (r.1 ++ [b.1], s)

/-- Function `createBinaryMatrixOperation` (GlslangToSpv.cpp:2355). -/
def createBinaryMatrixOperation (B : Queries) (op : Op) (typeId left right : Nat)
    (s : State) : Nat × State :=
  -- First, handle first-class matrix operations (* and matrix/scalar)
  let l : MatrixLocals :=
    match op with
    | .OpFDiv =>
      if B.isMatrix left ∧ B.isScalar right then
        -- turn matrix / scalar into a multiply...
        let one := call (.makeFloatConstant 1) s
        let r := call (.createBinOp .OpFDiv (B.getTypeId right) one.1 right) one.2
        { firstClass := true, op := .OpMatrixTimesScalar, left := left, right := r.1, s := r.2 }
      else { firstClass := false, op := op, left := left, right := right, s := s }
    | .OpMatrixTimesScalar =>
      if B.isMatrix right then
        { firstClass := true, op := op, left := right, right := left, s := s }
      else { firstClass := true, op := op, left := left, right := right, s := s }
    | .OpVectorTimesMatrix | .OpMatrixTimesVector | .OpMatrixTimesMatrix =>
      { firstClass := true, op := op, left := left, right := right, s := s }
    | _ => { firstClass := false, op := op, left := left, right := right, s := s }
  if l.firstClass then
    let id := call (.createBinOp l.op typeId l.left l.right) l.s
    let s := (call (.setPrecision id.1) id.2).2
    (id.1, s)
  else
    -- Handle component-wise +, -, *, and / for all combinations of type.
    -- The result type of all of them is the same type as the (a) matrix operand.
    -- The algorithm is to:
    --   - break the matrix(es) into vectors
    --   - smear any scalar to a vector
    --   - do vector operations
    --   - make a matrix out the vector results
    match l.op with
    | .OpFAdd | .OpFSub | .OpFDiv | .OpFMul =>
      -- one time set up...
      let leftMat := B.isMatrix l.left
      let rightMat := B.isMatrix l.right
      let numCols := if leftMat then B.getNumColumns l.left else B.getNumColumns l.right
      let numRows := if leftMat then B.getNumRows l.left else B.getNumRows l.right
      let scalarType := B.getScalarTypeId typeId
      let vecType := call (.makeVectorType scalarType numRows) l.s
      let smearVec : Nat × State :=
        if B.isScalar l.left then call (.smearScalar l.left vecType.1) vecType.2
        else if B.isScalar l.right then call (.smearScalar l.right vecType.1) vecType.2
        else (NoResult, vecType.2)
      -- do each vector op
      let r := (List.range numCols).foldl
        (fun r c => columnOperation l.op vecType.1 l.left l.right smearVec.1 leftMat rightMat c r)
        ([], smearVec.2)
      -- put the pieces together
      let id := call (.createCompositeConstruct typeId r.1) r.2
      let s := (call (.setPrecision id.1) id.2).2
      (id.1, s)
    | _ => (NoResult, l.s)

/-- The locals of `createBinaryOperation` after its first `switch`; `left` and `right`
are the parameters of these names, which the case of `EOpVectorTimesScalar` may swap. -/
structure BinaryLocals where
  binOp : Op := .OpNop
  needMatchingVectors : Bool := true
  comparison : Bool := false
  left : Nat
  right : Nat

/-- The first `switch` of `createBinaryOperation` (GlslangToSpv.cpp:2130-2257), which
maps the operator to an opcode. -/
def binaryLocals (B : Queries) (op : TOperator) (left right : Nat) (typeProxy : TBasicType) :
    BinaryLocals :=
  let isUnsigned : Bool := typeProxy = .EbtUint
  let isFloat : Bool := typeProxy = .EbtFloat ∨ typeProxy = .EbtDouble
  match op with
  | .EOpAdd | .EOpAddAssign =>
    { binOp := if isFloat then .OpFAdd else .OpIAdd, left := left, right := right }
  | .EOpSub | .EOpSubAssign =>
    { binOp := if isFloat then .OpFSub else .OpISub, left := left, right := right }
  | .EOpMul | .EOpMulAssign =>
    { binOp := if isFloat then .OpFMul else .OpIMul, left := left, right := right }
  | .EOpVectorTimesScalar | .EOpVectorTimesScalarAssign =>
    if isFloat then
      if B.isVector right then
        { binOp := .OpVectorTimesScalar, needMatchingVectors := false,
          left := right, right := left }
      else
        { binOp := .OpVectorTimesScalar, needMatchingVectors := false,
          left := left, right := right }
    else { binOp := .OpIMul, left := left, right := right }
  | .EOpVectorTimesMatrix | .EOpVectorTimesMatrixAssign =>
    { binOp := .OpVectorTimesMatrix, left := left, right := right }
  | .EOpMatrixTimesVector => { binOp := .OpMatrixTimesVector, left := left, right := right }
  | .EOpMatrixTimesScalar | .EOpMatrixTimesScalarAssign =>
    { binOp := .OpMatrixTimesScalar, left := left, right := right }
  | .EOpMatrixTimesMatrix | .EOpMatrixTimesMatrixAssign =>
    { binOp := .OpMatrixTimesMatrix, left := left, right := right }
  | .EOpOuterProduct =>
    { binOp := .OpOuterProduct, needMatchingVectors := false, left := left, right := right }
  | .EOpDiv | .EOpDivAssign =>
    { binOp := if isFloat then .OpFDiv else if isUnsigned then .OpUDiv else .OpSDiv,
      left := left, right := right }
  | .EOpMod | .EOpModAssign =>
    { binOp := if isFloat then .OpFMod else if isUnsigned then .OpUMod else .OpSMod,
      left := left, right := right }
  | .EOpRightShift | .EOpRightShiftAssign =>
    { binOp := if isUnsigned then .OpShiftRightLogical else .OpShiftRightArithmetic,
      left := left, right := right }
  | .EOpLeftShift | .EOpLeftShiftAssign =>
    { binOp := .OpShiftLeftLogical, left := left, right := right }
  | .EOpAnd | .EOpAndAssign => { binOp := .OpBitwiseAnd, left := left, right := right }
  | .EOpLogicalAnd =>
    { binOp := .OpLogicalAnd, needMatchingVectors := false, left := left, right := right }
  | .EOpInclusiveOr | .EOpInclusiveOrAssign =>
    { binOp := .OpBitwiseOr, left := left, right := right }
  | .EOpLogicalOr =>
    { binOp := .OpLogicalOr, needMatchingVectors := false, left := left, right := right }
  | .EOpExclusiveOr | .EOpExclusiveOrAssign =>
    { binOp := .OpBitwiseXor, left := left, right := right }
  | .EOpLogicalXor =>
    { binOp := .OpLogicalNotEqual, needMatchingVectors := false, left := left,
      right := right }
  | .EOpLessThan | .EOpGreaterThan | .EOpLessThanEqual | .EOpGreaterThanEqual | .EOpEqual
  | .EOpNotEqual | .EOpVectorEqual | .EOpVectorNotEqual =>
    { comparison := true, left := left, right := right }
  | _ => { left := left, right := right }

/-- Function `createBinaryOperation` (GlslangToSpv.cpp:2119). -/
def createBinaryOperation (B : Queries) (op : TOperator) (typeId left right : Nat)
    (typeProxy : TBasicType) (reduceComparison : Bool) (s : State) : Nat × State :=
  let isUnsigned : Bool := typeProxy = .EbtUint
  let isFloat : Bool := typeProxy = .EbtFloat ∨ typeProxy = .EbtDouble
  let l := binaryLocals B op left right typeProxy
  -- handle mapped binary operations (should be non-comparison)
  if l.binOp ≠ .OpNop then
    if B.isMatrix l.left ∨ B.isMatrix l.right then
      createBinaryMatrixOperation B l.binOp typeId l.left l.right s
    else
      -- No matrix involved; make both operands be the same number of components, if needed
      let p : (Nat × Nat) × State :=
        if l.needMatchingVectors then
          let r := call (.promoteScalar l.left l.right) s
          (B.promoteScalar r.1 l.left l.right, r.2)
        else ((l.left, l.right), s)
      let id := call (.createBinOp l.binOp typeId p.1.1 p.1.2) p.2
      let s := (call (.setPrecision id.1) id.2).2
      (id.1, s)
  else if ¬ l.comparison then (0, s)
  else if reduceComparison ∧
      (B.isVector l.left ∨ B.isMatrix l.left ∨ B.isAggregate l.left) then
    -- Handle comparison instructions
    call (.createCompare l.left l.right (op = .EOpEqual)) s
  else
    let binOp : Op :=
      match op with
      | .EOpLessThan =>
        if isFloat then .OpFOrdLessThan else if isUnsigned then .OpULessThan
        else .OpSLessThan
      | .EOpGreaterThan =>
        if isFloat then .OpFOrdGreaterThan else if isUnsigned then .OpUGreaterThan
        else .OpSGreaterThan
      | .EOpLessThanEqual =>
        if isFloat then .OpFOrdLessThanEqual else if isUnsigned then .OpULessThanEqual
        else .OpSLessThanEqual
      | .EOpGreaterThanEqual =>
        if isFloat then .OpFOrdGreaterThanEqual
        else if isUnsigned then .OpUGreaterThanEqual
        else .OpSGreaterThanEqual
      | .EOpEqual | .EOpVectorEqual => if isFloat then .OpFOrdEqual else .OpIEqual
      | .EOpNotEqual | .EOpVectorNotEqual => if isFloat then .OpFOrdNotEqual else .OpINotEqual
      | _ => .OpNop
    if binOp ≠ .OpNop then
      let id := call (.createBinOp binOp typeId l.left l.right) s
      let s := (call (.setPrecision id.1) id.2).2
      (id.1, s)
    else (0, s)

/-! ### Texture and image functions -/

/-- One iteration of the loop of `translateArguments` (GlslangToSpv.cpp:1835), for
argument `i` of a node with operator `op`. -/
def translateArgument (T : TIntermTraverser) (op : TOperator) (i : Nat)
    (argument : TIntermTyped) (s : State) : Nat × State :=
  let s := clearAccessChain s
  let s := traverseTyped T argument s
  -- Special case l-value operands
  let lvalue : Bool :=
    match op with
    | .EOpImageAtomicAdd | .EOpImageAtomicMin | .EOpImageAtomicMax | .EOpImageAtomicAnd
    | .EOpImageAtomicOr | .EOpImageAtomicXor | .EOpImageAtomicExchange
    | .EOpImageAtomicCompSwap => i == 0
    | _ => false
  if lvalue then call (.accessChainGetLValue s.accessChain) s
  else
    let t := call (.convertGlslangToSpvType (.argument i)) s
    accessChainLoad t.1 t.2

/-- Function `translateArguments` (GlslangToSpv.cpp:1835) for an aggregate, from
argument `i` on; the vector `arguments` is threaded with the state. -/
def translateArguments (T : TIntermTraverser) (op : TOperator) :
    Nat → List TIntermTyped → List Nat × State → List Nat × State
  | _, [], r => r
  | i, argument :: rest, r =>
    let a := translateArgument T op i argument r.2
    translateArguments T op (i + 1) rest (r.1 ++ [a.1], a.2)

/-- Function `translateArguments` (GlslangToSpv.cpp:1867) for a unary node. -/
def translateArgumentsUnary (T : TIntermTraverser) (operand : Option TIntermTyped)
    (r : List Nat × State) : List Nat × State :=
  match operand with
  | none => r
  | some operand =>
    let s := clearAccessChain r.2
    let s := traverseTyped T operand s
    let t := call (.convertGlslangToSpvType (.argument 0)) s
    let a := accessChainLoad t.1 t.2
    (r.1 ++ [a.1], a.2)

/-- The part "Check for queries" of `createImageTextureFunctionCall`
(GlslangToSpv.cpp:1897-1921): the value returned, or `none` with the parameters and the
state when control leaves the `switch` through `default:`. -/
def textureQuery (B : Queries) (op : TOperator) (arguments : List Nat)
    (params : TextureParameters) (s : State) :
    Option (Nat × State) × TextureParameters × State :=
  -- a sampled image needs to have the image extracted first
  let p : TextureParameters × State :=
    if B.isSampledImage params.sampler then
      let i := call (.createUnaryOp .OpImage (B.getImageType params.sampler) params.sampler) s
      ({ params with sampler := i.1 }, i.2)
    else (params, s)
  let params := p.1
  let s := p.2
  match op with
  | .EOpImageQuerySize | .EOpTextureQuerySize =>
    if arguments.length > 1 then
      let params := { params with lod := arguments.getD 1 0 }
      (some (call (.createTextureQueryCall .OpImageQuerySizeLod params) s), params, s)
    else (some (call (.createTextureQueryCall .OpImageQuerySize params) s), params, s)
  | .EOpImageQuerySamples | .EOpTextureQuerySamples =>
    (some (call (.createTextureQueryCall .OpImageQuerySamples params) s), params, s)
  | .EOpTextureQueryLod =>
    let params := { params with coords := arguments.getD 1 0 }
    (some (call (.createTextureQueryCall .OpImageQueryLod params) s), params, s)
  | .EOpTextureQueryLevels =>
    (some (call (.createTextureQueryCall .OpImageQueryLevels params) s), params, s)
  | _ => (none, params, s)

/-- The part "Check for image functions other than queries" of
`createImageTextureFunctionCall` (GlslangToSpv.cpp:1924-1961). -/
def imageFunction (node : TIntermOperator) (sampler : TSampler) (arguments : List Nat)
    (s : State) : Nat × State :=
  let operands := [arguments.getD 0 0, arguments.getD 1 0]
  let opIt := 2
  if node.getOp = .EOpImageLoad then
    let operands :=
      if sampler.ms then operands ++ [ImageOperandsSampleMask, arguments.getD opIt 0]
      else operands
    let t := call (.convertGlslangToSpvType .node) s
    call (.createOp .OpImageRead t.1 operands) t.2
  else if node.getOp = .EOpImageStore then
    let operands :=
      if sampler.ms then
        operands ++ [arguments.getD (opIt + 1) 0, ImageOperandsSampleMask, arguments.getD opIt 0]
      else operands ++ [arguments.getD opIt 0]
    let s := (call (.createNoResultOp .OpImageWrite operands) s).2
    (NoResult, s)
  else
    -- Process image atomic operations
    -- GLSL "IMAGE_PARAMS" will involve in constructing an image texel pointer and this
    -- pointer, as the first source operand, is required by SPIR-V atomic operations.
    -- For non-MS, the value should be 0
    let operands := operands ++ [if sampler.ms then arguments.getD opIt 0 else 0]
    let opIt := if sampler.ms then opIt + 1 else opIt
    let t := call (.convertGlslangToSpvType .node) s
    let resultTypeId := call (.makePointer .Image t.1) t.2
    let pointer := call (.createOp .OpImageTexelPointer resultTypeId.1 operands) resultTypeId.2
    let operands := [pointer.1] ++ arguments.drop opIt
    let t := call (.convertGlslangToSpvType .node) pointer.2
    createAtomicOperation node.getOp t.1 operands node.getBasicType t.2

/-- The locals `params` and `extraArgs` of the part "Check for texture functions other
than queries", with the state. -/
structure TextureLocals where
  params : TextureParameters
  extraArgs : Nat := 0
  s : State

/-- The part "Check for texture functions other than queries" of
`createImageTextureFunctionCall` (GlslangToSpv.cpp:1963-2034). -/
def textureFunction (B : Queries) (sampler : TSampler) (cracked : TCrackedTextureOp)
    (arguments : List Nat) (params : TextureParameters) (s : State) : Nat × State :=
  let cubeCompare : Bool := sampler.dim = .EsdCube ∧ sampler.arrayed ∧ sampler.shadow
  -- check for bias argument
  let bias : Bool :=
    if ¬ cracked.lod ∧ ¬ cracked.gather ∧ ¬ cracked.grad ∧ ¬ cracked.fetch ∧ ¬ cubeCompare then
      let nonBiasArgCount := 2
      let nonBiasArgCount := if cracked.offset then nonBiasArgCount + 1 else nonBiasArgCount
      let nonBiasArgCount := if cracked.grad then nonBiasArgCount + 2 else nonBiasArgCount
      decide (arguments.length > nonBiasArgCount)
    else false
  -- set the rest of the arguments
  let l : TextureLocals :=
    { params := { params with coords := arguments.getD 1 0 }, extraArgs := 0, s := s }
  -- sort out where Dref is coming from
  let l : TextureLocals :=
    if sampler.shadow ∧ sampler.dim = .EsdCube ∧ sampler.arrayed then
      { l with params := { l.params with Dref := arguments.getD 2 0 } }
    else if sampler.shadow ∧ cracked.gather then
      { l with
        params := { l.params with Dref := arguments.getD 2 0 }, extraArgs := l.extraArgs + 1 }
    else if sampler.shadow then
      let comp : Int :=
        if cracked.proj then
          -- "The resulting 3rd component of P in the shadow forms is used as Dref"
          2
        else (B.getNumComponents l.params.coords : Int) - 1
      let dref := call (.createCompositeExtract l.params.coords
        (B.getScalarTypeId (B.getTypeId l.params.coords)) (comp % 4294967296).toNat) l.s
      { l with params := { l.params with Dref := dref.1 }, s := dref.2 }
    else l
  let l : TextureLocals :=
    if cracked.lod then
      { l with
        params := { l.params with lod := arguments.getD 2 0 }, extraArgs := l.extraArgs + 1 }
    else if sampler.ms then
      -- For MS, "sample" should be specified
      { l with
        params := { l.params with sample := arguments.getD 2 0 }, extraArgs := l.extraArgs + 1 }
    else l
  let l : TextureLocals :=
    if cracked.grad then
      { l with
        params := { l.params with
          gradX := arguments.getD (2 + l.extraArgs) 0,
          gradY := arguments.getD (3 + l.extraArgs) 0 },
        extraArgs := l.extraArgs + 2 }
    else l
  let l : TextureLocals :=
    if cracked.offset then
      { l with
        params := { l.params with offset := arguments.getD (2 + l.extraArgs) 0 },
        extraArgs := l.extraArgs + 1 }
    else if cracked.offsets then
      { l with
        params := { l.params with offsets := arguments.getD (2 + l.extraArgs) 0 },
        extraArgs := l.extraArgs + 1 }
    else l
  let l : TextureLocals :=
    if bias then
      { l with
        params := { l.params with bias := arguments.getD (2 + l.extraArgs) 0 },
        extraArgs := l.extraArgs + 1 }
    else l
  let l : TextureLocals :=
    if cracked.gather ∧ ¬ sampler.shadow then
      -- default component is 0, if missing, otherwise an argument
      if 2 + l.extraArgs < arguments.length then
        { l with
          params := { l.params with comp := arguments.getD (2 + l.extraArgs) 0 },
          extraArgs := l.extraArgs + 1 }
      else
        let zero := call (.makeIntConstant 0) l.s
        { l with params := { l.params with comp := zero.1 }, s := zero.2 }
    else l
  let t := call (.convertGlslangToSpvType .node) l.s
  call (.createTextureCall t.1 cracked.fetch cracked.proj cracked.gather l.params) t.2

/-- Function `createImageTextureFunctionCall` (GlslangToSpv.cpp:1874). `sampler` is the
sampler of the type of the first argument and `cracked` the result of
`node->crackTexture(sampler, cracked)`. -/
def createImageTextureFunctionCall (T : TIntermTraverser) (B : Queries)
    (node : TIntermOperator) (sampler : TSampler) (cracked : TCrackedTextureOp) (s : State) :
    Nat × State :=
  if ¬ node.isImage ∧ ¬ node.isTexture then (NoResult, s)
  else
    -- Process a GLSL texturing op (will be SPV image)
    let a : List Nat × State :=
      if node.isAggregate then translateArguments T node.getOp 0 node.arguments ([], s)
      else translateArgumentsUnary T node.arguments.head? ([], s)
    let arguments := a.1
    let params : TextureParameters := { sampler := arguments.getD 0 0 }
    -- Check for queries
    let q : Option (Nat × State) × TextureParameters × State :=
      if cracked.query then textureQuery B node.getOp arguments params a.2
      else (none, params, a.2)
    match q.1 with
    | some result => result
    | none =>
      -- Check for image functions other than queries
      if node.isImage then imageFunction node sampler arguments q.2.2
      else textureFunction B sampler cracked arguments q.2.1 q.2.2

/-! ### Symbols -/

/-- Function `TranslateStorageClass` (GlslangToSpv.cpp:186). -/
def TranslateStorageClass (type : TType) : StorageClass :=
  if type.getQualifier.isPipeInput then .Input
  else if type.getQualifier.isPipeOutput then .Output
  else if type.getQualifier.isUniformOrBuffer then
    if type.getBasicType = .EbtBlock then .Uniform
    else if type.getBasicType = .EbtAtomicUint then .AtomicCounter
    else .UniformConstant
  else
    match type.getQualifier.storage with
    | .EvqShared => .Workgroup
    | .EvqGlobal => .Private
    | .EvqConstReadOnly => .Function
    | .EvqTemporary => .Function
    | _ => .Function

/-- Function `createSpvVariable` (GlslangToSpv.cpp:1436); `createSpvSpecConstant` is
recorded as one call. -/
def createSpvVariable (node : TIntermSymbol) (s : State) : Nat × State :=
  -- First, steer off constants, which are not SPIR-V variables, but
  -- can still have a mapping to a SPIR-V Id.
  if node.getType.getQualifier.storage = .EvqConst then
    call (.createSpvSpecConstant node.getId) s
  else
    -- Now, handle actual variables
    let storageClass := TranslateStorageClass node.getType
    let spvType := call (.convertGlslangToSpvType .node) s
    let name := if node.isAnonymous then "" else node.getName
    call (.createVariableNamed storageClass spvType.1 name) spvType.2

/-- Function `addDecoration` (GlslangToSpv.cpp:3188): "If 'dec' is valid, add no-operand
decoration to an object". -/
def addDecoration (id : Nat) (dec : spv.Decoration) (s : State) : State :=
  if dec ≠ .BadValue then (call (.addDecoration id dec .none) s).2 else s

/-- Call `builder.addDecoration(id, dec, num)` when `condition` holds. -/
def addDecorationIf (condition : Bool) (id : Nat) (dec : spv.Decoration) (num : Int)
    (s : State) : State :=
  if condition then (call (.addDecoration id dec (.num num)) s).2 else s

/-- Function `getSymbolId` (GlslangToSpv.cpp:3138). -/
def getSymbolId (I : TIntermediate) (symbol : TIntermSymbol) (s : State) : Nat × State :=
  match s.symbolValues symbol.getId with
  | some id => (id, s)
  | none =>
    -- it was not found, create it
    let v := createSpvVariable symbol s
    let id := v.1
    let s := { v.2 with
      symbolValues := fun k => if k = symbol.getId then some id else v.2.symbolValues k }
    let q := symbol.getType.getQualifier
    let s :=
      if ¬ symbol.getType.isStruct then
        let s := addDecoration id (TranslatePrecisionDecoration symbol.getType) s
        let s := addDecoration id (TranslateInterpolationDecoration symbol.getType) s
        let s := addDecorationIf q.hasLocation id .Location q.layoutLocation s
        let s := addDecorationIf q.hasIndex id .Index q.layoutIndex s
        let s := addDecorationIf q.hasComponent id .Component q.layoutComponent s
        if I.getXfbMode then
          let s := addDecorationIf q.hasXfbStride id .XfbStride q.layoutXfbStride s
          let s := addDecorationIf q.hasXfbBuffer id .XfbBuffer q.layoutXfbBuffer s
          addDecorationIf q.hasXfbOffset id .Offset q.layoutXfbOffset s
        else s
      else s
    let s := addDecoration id (TranslateInvariantDecoration symbol.getType) s
    let s := addDecorationIf q.hasStream id .Stream q.layoutStream s
    let s := addDecorationIf q.hasSet id .DescriptorSet q.layoutSet s
    let s := addDecorationIf q.hasBinding id .Binding q.layoutBinding s
    let s :=
      if I.getXfbMode then
        let s := addDecorationIf q.hasXfbStride id .XfbStride q.layoutXfbStride s
        addDecorationIf q.hasXfbBuffer id .XfbBuffer q.layoutXfbBuffer s
      else s
    -- built-in variable decorations
    let builtIn := TranslateBuiltInDecoration q.builtIn
    let s :=
      if builtIn ≠ .BadValue then (call (.addDecoration id .BuiltIn (.builtIn builtIn)) s).2
      else s
    (id, s)

/-- Call `iOSet.insert(id)` on a `std::set`: the elements stay in ascending order and
an element that is present is not inserted again. -/
def insert (id : Nat) (set : List Nat) : List Nat :=
  if id ∈ set then set else set.orderedInsert (fun a b => a ≤ b) id

/-- Function `visitSymbol` (GlslangToSpv.cpp:593). -/
def visitSymbol (I : TIntermediate) (B : Queries) (symbol : TIntermSymbol) (s : State) :
    State :=
  -- getSymbolId() will set up all the IO decorations on the first call.
  -- Formal function parameters were mapped during makeFunctions().
  let r := getSymbolId I symbol s
  let id := r.1
  let s := r.2
  -- Include all "static use" and "linkage only" interface variables on the OpEntryPoint
  -- instruction
  let s :=
    if B.isPointer id then
      let sc := B.getStorageClass id
      if sc = .Input ∨ sc = .Output then { s with iOSet := insert id s.iOSet } else s
    else s
  -- Only process non-linkage-only nodes for generating actual static uses
  if ¬ s.linkageOnly then
    -- Prepare to generate code for the access
    let s := clearAccessChain s
    -- For now, we consider all user variables as being in memory, so they are pointers,
    -- except for "const in" arguments to a function, which are an intermediate object.
    let qualifier := symbol.getType.getQualifier.storage
    if qualifier = .EvqConstReadOnly ∧ symbol.getId ∈ s.constReadOnlyParameters then
      setAccessChainRValue id s
    else setAccessChainLValue id s
  else s

/-- Function `dumpSpv` (GlslangToSpv.cpp:559). -/
def dumpSpv (s : State) : State :=
  -- finish off the entry-point SPV instruction by adding the Input/Output <id>
  let s := s.iOSet.foldl (fun s it => (call (.addIdOperand it) s).2) s
  (call .dump s).2

/-! ### Function declarations -/

/-- A child of a sequence as `makeFunctions`, `makeGlobalInitializers` and
`visitFunctions` see it through a `TIntermNode*`: `getOp` is `getAsAggregate()->getOp()`
(`none` when the child is not an aggregate), `getName` the name of the aggregate,
`parameters` the symbols of `getSequence()[0]->getAsAggregate()->getSequence()`, and
`traverse` is `child->traverse(this)`. -/
structure Definition where
  getOp : Option TOperator
  getName : String := ""
  parameters : List TIntermSymbol := []
  traverse : State → State

/-- Function `isShaderEntrypoint` (GlslangToSpv.cpp:1743). -/
def isShaderEntrypoint (node : Definition) : Bool := node.getName == "main("

/-- The first loop over the parameters in `makeFunctions` (GlslangToSpv.cpp:1776-1783),
from parameter `p` on; the vector `paramTypes` is threaded with the state. -/
def makeParamTypes : Nat → List TIntermSymbol → List Nat × State → List Nat × State
  | _, [], r => r
  | p, parameter :: rest, r =>
    let paramType := parameter.getType
    let typeId := call (.convertGlslangToSpvType (.parameter p)) r.2
    let t : Nat × State :=
      if paramType.getQualifier.storage ≠ .EvqConstReadOnly then
        call (.makePointer .Function typeId.1) typeId.2
      else
        (typeId.1, { typeId.2 with
          constReadOnlyParameters := parameter.getId :: typeId.2.constReadOnlyParameters })
    makeParamTypes (p + 1) rest (r.1 ++ [t.1], t.2)

/-- The loop "Set the parameter id's" in `makeFunctions` (GlslangToSpv.cpp:1793-1797),
from parameter `p` on. -/
def setParamIds (B : Queries) (function : Nat) : Nat → List TIntermSymbol → State → State
  | _, [], s => s
  | p, parameter :: rest, s =>
    let s := { s with
      symbolValues := fun k =>
        if k = parameter.getId then some (B.getParamId function p) else s.symbolValues k }
    -- give a name too
    let s := (call (.addName (B.getParamId function p) parameter.getName) s).2
    setParamIds B function (p + 1) rest s

/-- One iteration of the loop of `makeFunctions` (GlslangToSpv.cpp:1752). -/
def makeFunction (B : Queries) (glslFunction : Definition) (s : State) : State :=
  if glslFunction.getOp ≠ some .EOpFunction ∨ isShaderEntrypoint glslFunction then s
  else
    -- We're on a user function.  Set up the basic interface for the function now,
    -- so that it's available to call.
    -- Translating the body will happen later.
    let parameters := glslFunction.parameters
    let paramTypes := makeParamTypes 0 parameters ([], s)
    let returnType := call (.convertGlslangToSpvType .node) paramTypes.2
    let function :=
      call (.makeFunctionEntry returnType.1 glslFunction.getName paramTypes.1) returnType.2
    -- Track function to emit/call later
    let s := { function.2 with
      functionMap := fun k =>
        if k = glslFunction.getName then some function.1 else function.2.functionMap k }
    -- Set the parameter id's
    setParamIds B function.1 0 parameters s

/-- Function `makeFunctions` (GlslangToSpv.cpp:1750): "Make all the functions,
skeletally, without actually visiting their bodies." -/
def makeFunctions (B : Queries) : List Definition → State → State
  | [], s => s
  | glslFunction :: rest, s => makeFunctions B rest (makeFunction B glslFunction s)

/-- The loop of `makeGlobalInitializers` (GlslangToSpv.cpp:1805). -/
def traverseInitializers : List Definition → State → State
  | [], s => s
  | initializer :: rest, s =>
    let s :=
      match initializer.getOp with
      | some op =>
        if op ≠ .EOpFunction ∧ op ≠ .EOpLinkerObjects then
          -- We're on a top-level node that's not a function.  Treat as an initializer,
          -- whose code goes into the beginning of main.
          initializer.traverse s
        else s
      | none => s
    traverseInitializers rest s

/-- Function `makeGlobalInitializers` (GlslangToSpv.cpp:1802): "Process all the
initializers, while skipping the functions and link objects". -/
def makeGlobalInitializers (initializers : List Definition) (s : State) : State :=
  let s := (call .setBuildPointLastBlock s).2
  traverseInitializers initializers s

/-- Function `visitFunctions` (GlslangToSpv.cpp:1817): "Process all the functions, while
skipping initializers." -/
def visitFunctions : List Definition → State → State
  | [], s => s
  | node :: rest, s =>
    let s :=
      match node.getOp with
      | some op => if op = .EOpFunction ∨ op = .EOpLinkerObjects then node.traverse s else s
      | none => s
    visitFunctions rest s

/-- The value the constructor `TGlslangToSpvTraverser` (GlslangToSpv.cpp:427) gives the
member `preVisit` of its base, `TIntermTraverser(true, false, true)`; nothing assigns it
afterwards. -/
def preVisit : Bool := true

/-- Function `visitAggregate` (GlslangToSpv.cpp:934), case `EOpSequence` (lines
944-969), with the member `preVisit` of the traverser as a parameter; `sequence` is
`node->getAsAggregate()->getSequence()`. -/
def visitAggregateSequence (preVisit : Bool) (B : Queries) (sequence : List Definition)
    (s : State) : Bool × State :=
  let s :=
    if preVisit then { s with sequenceDepth := s.sequenceDepth + 1 }
    else { s with sequenceDepth := s.sequenceDepth - 1 }
  if s.sequenceDepth = 1 then
    -- If this is the parent node of all the functions, we want to see them
    -- early, so all call points have actual SPIR-V functions to reference.
    let s := makeFunctions B sequence s
    -- Also, we want all globals initializers to go into the entry of main(), before
    -- anything else gets there, so visit out of order, doing them all now.
    let s := makeGlobalInitializers sequence s
    -- Initializers are done, don't want to visit again, but functions link objects need
    -- to be processed, so do them manually.
    let s := visitFunctions sequence s
    (false, s)
  else (true, s)

end Lowering
/-! ## Operators, symbols and function declarations: observations used in the proofs -/

namespace glslang

namespace TOperator

/-- A conversion from a numeric type to bool. -/
def isConversionToBool : TOperator → Bool
  | .EOpConvIntToBool | .EOpConvUintToBool | .EOpConvFloatToBool | .EOpConvDoubleToBool => true
  | _ => false

end TOperator

end glslang

namespace TGlslangToSpvTraverser

/-- The handle and the traverser `convertGlslangToSpvType` has after its `switch`,
before the tail that wraps the type as a matrix, vector or array: the cached or the new
struct handle for a struct or block, the handle of the scalar type otherwise. -/
def elementLowered (I : TIntermediate) (type : TType) (explicitLayout : TLayoutPacking)
    (matrixLayout : TLayoutMatrix) (self : TGlslangToSpvTraverser) :
    spv.Id × TGlslangToSpvTraverser :=
  if type.getBasicType = .EbtStruct ∨ type.getBasicType = .EbtBlock then
    if self.structMap explicitLayout matrixLayout type.getStructId = 0 then
      (newStructId I type explicitLayout matrixLayout self,
        (structCached I type explicitLayout matrixLayout self).emit
          (structCaseInstrs I type explicitLayout matrixLayout self))
    else (self.structMap explicitLayout matrixLayout type.getStructId, self)
  else
    ((basicResult type self.builder).1,
      { self with builder := (basicResult type self.builder).2 })

end TGlslangToSpvTraverser

namespace Example

/-- A float member that is hidden. -/
def hidden (name : String) : TType :=
  .mk .EbtFloat {} {} 1 0 0 [] true name "" 0 []

/-- An anonymous block `{ float a; (hidden) h; float c; }`. -/
def hiddenMemberBlock : TType :=
  block .ElpStd140 5 [vec 1 "a" {}, hidden "h", vec 1 "c" {}]

/-- An array `float a[2][3]`. -/
def floatArray2D : TType :=
  .mk .EbtFloat {} {} 1 0 0 [2, 3] false "a" "" 0 []

end Example

namespace Lowering

/-- The state after the calls `events` have been made from `s`. -/
def State.after (s : State) (events : List Event) : State :=
  { s with trace := s.trace ++ events }

/-- The call that makes the zero a conversion to bool compares its operand with: an
unsigned zero for a signed and for an unsigned integer, a float zero for a float, a
double zero for a double. -/
def zeroConstant : TOperator → Event
  | .EOpConvFloatToBool => .makeFloatConstant 0
  | .EOpConvDoubleToBool => .makeDoubleConstant 0
  | _ => .makeUintConstant (.value 0)

/-- The comparison of a conversion to bool: integer not-equal for the two integer
types, ordered float not-equal for float and double. -/
def notEqual : TOperator → Op
  | .EOpConvFloatToBool | .EOpConvDoubleToBool => .OpFOrdNotEqual
  | _ => .OpINotEqual

/-- The number of calls `createBinaryMatrixOperation` makes for one column: one
extraction for each operand that is a matrix, the vector operation, and the precision
of its result. -/
def columnCalls (leftMat rightMat : Bool) : Nat :=
  (if leftMat then 1 else 0) + (if rightMat then 1 else 0) + 2

/-- The name of the result of the vector operation of column `c`, when `n` calls were
made before the first column. -/
def columnResult (leftMat rightMat : Bool) (n c : Nat) : Nat :=
  n + c * columnCalls leftMat rightMat + (if leftMat then 1 else 0) +
    (if rightMat then 1 else 0) + 1

/-- The calls made for column `c`, when `n` calls were made before the first column:
column `c` of each matrix operand is extracted, left first, and one vector operation is
made on the extracted columns, with `smearVec` in the place of an operand that is not a
matrix. -/
def columnEvents (op : Op) (vecType left right smearVec : Nat) (leftMat rightMat : Bool)
    (n c : Nat) : List Event :=
  (if leftMat then [.createCompositeExtract left vecType c] else []) ++
    (if rightMat then [.createCompositeExtract right vecType c] else []) ++
    [.createBinOp op vecType
        (if leftMat then n + c * columnCalls leftMat rightMat + 1 else smearVec)
        (if rightMat then n + c * columnCalls leftMat rightMat + (if leftMat then 1 else 0) + 1
          else smearVec),
      .setPrecision (columnResult leftMat rightMat n c)]

/-- A component-wise opcode: `+`, `-`, `*` or `/` on floats. -/
def Op.isComponentWise : Op → Bool
  | .OpFAdd | .OpFSub | .OpFMul | .OpFDiv => true
  | _ => false

/-- The roles a trailing argument of a texture call can play. -/
inductive Role where
  | lod | gradX | gradY | offset | offsets | bias | comp
  deriving DecidableEq, Repr

/-- The texture parameter of a role. -/
def TextureParameters.role (params : TextureParameters) : Role → Nat
  | .lod => params.lod
  | .gradX => params.gradX
  | .gradY => params.gradY
  | .offset => params.offset
  | .offsets => params.offsets
  | .bias => params.bias
  | .comp => params.comp

/-- Set the texture parameter of a role. -/
def TextureParameters.setRole (params : TextureParameters) (r : Role) (value : Nat) :
    TextureParameters :=
  match r with
  | .lod => { params with lod := value }
  | .gradX => { params with gradX := value }
  | .gradY => { params with gradY := value }
  | .offset => { params with offset := value }
  | .offsets => { params with offsets := value }
  | .bias => { params with bias := value }
  | .comp => { params with comp := value }

/-- Give each role of a list, in order, the argument with the next index, from index
`i` on. -/
def assignRoles (arguments : List Nat) :
    List Role → Nat → TextureParameters → TextureParameters
  | [], _, params => params
  | r :: rest, i, params =>
    assignRoles arguments rest (i + 1) (params.setRole r (arguments.getD i 0))

/-- A call on a sampler without depth comparison has a bias argument: it has no explicit
level of detail, is no gather, has no gradient, is no fetch, and has more arguments than
the sampler, the coordinate and the offset. -/
def hasBias (cracked : TCrackedTextureOp) (numArguments : Nat) : Bool :=
  !cracked.lod && !cracked.gather && !cracked.grad && !cracked.fetch &&
    decide (numArguments > 2 + (if cracked.offset then 1 else 0))

/-- The roles other than the gather component that are present in a texture call on a
sampler without depth comparison and without multisampling, in the fixed order. -/
def leadingRoles (cracked : TCrackedTextureOp) (numArguments : Nat) : List Role :=
  (if cracked.lod then [.lod] else []) ++
    (if cracked.grad then [.gradX, .gradY] else []) ++
    (if cracked.offset then [.offset] else if cracked.offsets then [.offsets] else []) ++
    (if hasBias cracked numArguments then [.bias] else [])

/-- A gather has an explicit component: an argument is left after the leading roles. -/
def hasComponent (cracked : TCrackedTextureOp) (numArguments : Nat) : Bool :=
  cracked.gather && decide (2 + (leadingRoles cracked numArguments).length < numArguments)

/-- The roles that are present in a texture call on a sampler without depth comparison
and without multisampling, in the fixed order. -/
def roles (cracked : TCrackedTextureOp) (numArguments : Nat) : List Role :=
  leadingRoles cracked numArguments ++
    (if hasComponent cracked numArguments then [.comp] else [])

/-- A handle is an interface variable: a pointer in the Input or the Output storage
class. -/
def Queries.isInterface (B : Queries) (id : Nat) : Bool :=
  B.isPointer id && (B.getStorageClass id == .Input || B.getStorageClass id == .Output)

/-- A step of a traversal: the visit of a symbol, in ordinary code or in the linker
objects, or any other step, given by what it does to the traverser. -/
inductive Visit where
  | symbol (symbol : TIntermSymbol)
  | other (step : State → State)

/-- Run one step of a traversal. -/
def Visit.run (I : TIntermediate) (B : Queries) : Visit → State → State
  | .symbol node, s => visitSymbol I B node s
  | .other step, s => step s

/-- A step other than the visit of a symbol leaves `iOSet` as it is: the only statement
that writes `iOSet` is in `visitSymbol`. -/
def Visit.keepsInterface : Visit → Prop
  | .symbol _ => True
  | .other step => ∀ s, (step s).iOSet = s.iOSet

/-- Run the steps of a traversal in order. -/
def visitAll (I : TIntermediate) (B : Queries) (visits : List Visit) (s : State) : State :=
  visits.foldl (fun s v => v.run I B s) s

/-- The handles of the symbols visited in a traversal from `s`, each as `getSymbolId`
returns it at the visit. -/
def visitedIds (I : TIntermediate) (B : Queries) : List Visit → State → List Nat
  | [], _ => []
  | .symbol node :: rest, s =>
    (getSymbolId I node s).1 :: visitedIds I B rest (visitSymbol I B node s)
  | .other step :: rest, s => visitedIds I B rest (step s)

/-- A definition of a function other than the entry point. -/
def Definition.isUserFunction (d : Definition) : Bool :=
  d.getOp == some .EOpFunction && !isShaderEntrypoint d

/-- Every function of the sequence other than the entry point is in the function table
of `s`, and each of its parameters is in the symbol table. -/
def Declared (sequence : List Definition) (s : State) : Prop :=
  ∀ d ∈ sequence, d.isUserFunction = true →
    s.functionMap d.getName ≠ none ∧ ∀ p ∈ d.parameters, s.symbolValues p.getId ≠ none

/-- The traversal of a child takes no entry out of the function table or the symbol
table: the traverser only ever adds to the two tables. -/
def Definition.keepsDeclarations (d : Definition) : Prop :=
  ∀ s, (∀ name, s.functionMap name ≠ none → (d.traverse s).functionMap name ≠ none) ∧
    (∀ id, s.symbolValues id ≠ none → (d.traverse s).symbolValues id ≠ none)

namespace Example

/-- A builder in which handles 10 and 11 are matrices of 2 columns and 3 rows, handle
12 is a scalar, type 7 is a vector type of 3 components, every handle has type 20, and
handles 2 and 6 are pointers, 2 in the Input storage class and 6 in the Function
storage class. -/
def queries : Queries where
  isMatrix := fun id => id == 10 || id == 11
  isScalar := fun id => id == 12
  getNumColumns := fun _ => 2
  getNumRows := fun _ => 3
  getNumComponents := fun _ => 1
  getTypeId := fun _ => 20
  getScalarTypeId := fun _ => 21
  isVectorType := fun id => id == 7
  getNumTypeComponents := fun _ => 3
  isSampledImage := fun _ => false
  getImageType := fun _ => 0
  isPointer := fun id => id == 2 || id == 6
  getStorageClass := fun id => if id == 2 then .Input else .Function
  promoteScalar := fun _ left right => (left, right)
  getParamId := fun function p => 100 * function + p

/-- A call `textureLodOffset(sampler, coord, lod, offset)`. -/
def textureLodOffset : TIntermOperator where
  getOp := .EOpTexture
  isImage := false
  isTexture := true
  arguments := [.symbol 1 .EvqUniform, .symbol 2 .EvqTemporary, .symbol 3 .EvqTemporary,
    .constantUnion 4 1]

/-- The flags of `textureLodOffset`: an explicit level of detail and an offset. -/
def lodOffset : TCrackedTextureOp := { lod := true, offset := true }

/-- An input variable `in vec4 position`. -/
def position : TIntermSymbol where
  getId := 1
  getType :=
    (.mk .EbtFloat { storage := .EvqVaryingIn, isPipeInput := true } {} 4 0 0 [] false "" ""
      0 [])
  getName := "position"

/-- A local variable `float x`. -/
def temporary : TIntermSymbol where
  getId := 2
  getType := (.mk .EbtFloat {} {} 1 0 0 [] false "" "" 0 [])
  getName := "x"

/-- A traversal that visits `position`, `x`, then the linker objects, where it visits
`position` again. -/
def visits : List Visit :=
  [.symbol position, .symbol temporary, .other (fun s => { s with linkageOnly := true }),
    .symbol position]

/-- A root sequence `void main() { f(x); }  void f(float a) { }`, whose bodies do
nothing to the traverser. -/
def functions : List Definition :=
  [{ getOp := some .EOpFunction, getName := "main(", traverse := fun s => s },
    { getOp := some .EOpFunction, getName := "f(f1;",
      parameters :=
        [{ getId := 3, getName := "a",
            getType := (.mk .EbtFloat { storage := .EvqIn } {} 1 0 0 [] false "" "" 0 []) }],
      traverse := fun s => s }]

end Example

end Lowering

/-! ## Constants and the traversal of sequences -/

namespace glslang

namespace TType

end TType

end glslang

namespace Lowering

/-! ### Constants -/

/-- Modelled from the spec: a node of the tree as the traversal of its sequences sees it
("a single top-level driver traverses the AST once, depth-first, pre-order with
selective post-order hooks"). `sequence` is an aggregate with operator `EOpSequence` and
its children. `other` is any other node: the operator, the name and the parameters that
`makeFunctions` reads from it when it is a child of the root sequence (`getOp` is `none`
for a node that is no aggregate), the work `enter` its traversal does before its
children are traversed, its children, and the work `leave` it does after them. -/
inductive Node where
  | sequence (children : List Node)
  | other (getOp : Option TOperator) (getName : String) (parameters : List TIntermSymbol)
      (enter : State → State) (children : List Node) (leave : State → State)

namespace Node

/-- Result of `getOp()` on the node as an aggregate, `none` when it is no aggregate. -/
def getOp : Node → Option TOperator
  | sequence _ => some .EOpSequence
  | other getOp _ _ _ _ _ => getOp

/-- Result of `getName()`. -/
def getName : Node → String
  | sequence _ => ""
  | other _ getName _ _ _ _ => getName

/-- The parameters of a function definition. -/
def parameters : Node → List TIntermSymbol
  | sequence _ => []
  | other _ _ parameters _ _ _ => parameters

end Node

mutual

/-- Modelled from the spec: `node->traverse(it)` of the front end, for a traverser that
is constructed with the pre-visit and the post-visit on
(`TIntermTraverser(true, false, true)`, GlslangToSpv.cpp:428): a sequence is visited,
its children are traversed when that visit returns true, and it is then visited again.
`visitSequence` is the virtual function `visitAggregate` of the traverser on a sequence
node. -/
def traverseNode (visitSequence : List Definition → State → Bool × State) :
    Node → State → State
  | .sequence children, s =>
    let visit := visitSequence (definitions visitSequence children) s
    if visit.1 then
      let s := traverseNodes visitSequence children visit.2
      (visitSequence (definitions visitSequence children) s).2
    else visit.2
  | .other _ _ _ enter children leave, s =>
    leave (traverseNodes visitSequence children (enter s))

/-- Traverse the children of a node in order. -/
def traverseNodes (visitSequence : List Definition → State → Bool × State) :
    List Node → State → State
  | [], s => s
  | node :: rest, s =>
    traverseNodes visitSequence rest (traverseNode visitSequence node s)

/-- The children of a sequence as `visitAggregate` sees them. -/
def definitions (visitSequence : List Definition → State → Bool × State) :
    List Node → List Definition
  | [] => []
  | node :: rest =>
    { getOp := node.getOp, getName := node.getName, parameters := node.parameters,
      traverse := traverseNode visitSequence node } :: definitions visitSequence rest

end

/-- The virtual function `visitAggregate` of `TGlslangToSpvTraverser` on a sequence node
(GlslangToSpv.cpp:944-969). -/
def visitSequence (B : Queries) : List Definition → State → Bool × State :=
  visitAggregateSequence preVisit B

end Lowering

/-! ## Constants, sequences, textures and binary operations: observations used in the proofs -/

namespace glslang

namespace TOperator

/-- The fourteen compound-assignment operators `visitBinary` handles: the operators of
its first case, `EOpAssign` apart. -/
def isCompoundAssignment : TOperator → Bool
  | .EOpAddAssign | .EOpSubAssign | .EOpMulAssign | .EOpVectorTimesMatrixAssign
  | .EOpVectorTimesScalarAssign | .EOpMatrixTimesScalarAssign | .EOpMatrixTimesMatrixAssign
  | .EOpDivAssign | .EOpModAssign | .EOpAndAssign | .EOpInclusiveOrAssign
  | .EOpExclusiveOrAssign | .EOpLeftShiftAssign | .EOpRightShiftAssign => true
  | _ => false

/-- The plain, non-assigning counterpart of a compound-assignment operator; any other
operator is its own counterpart. -/
def plain : TOperator → TOperator
  | .EOpAddAssign => .EOpAdd
  | .EOpSubAssign => .EOpSub
  | .EOpMulAssign => .EOpMul
  | .EOpVectorTimesMatrixAssign => .EOpVectorTimesMatrix
  | .EOpVectorTimesScalarAssign => .EOpVectorTimesScalar
  | .EOpMatrixTimesScalarAssign => .EOpMatrixTimesScalar
  | .EOpMatrixTimesMatrixAssign => .EOpMatrixTimesMatrix
  | .EOpDivAssign => .EOpDiv
  | .EOpModAssign => .EOpMod
  | .EOpAndAssign => .EOpAnd
  | .EOpInclusiveOrAssign => .EOpInclusiveOr
  | .EOpExclusiveOrAssign => .EOpExclusiveOr
  | .EOpLeftShiftAssign => .EOpLeftShift
  | .EOpRightShiftAssign => .EOpRightShift
  | op => op

end TOperator

mutual

/-- The basic types of the scalars of a type, in the depth-first order in which
`createSpvConstant` reaches them: the elements of an array outermost dimension first,
the columns of a matrix, the members of a struct, the components of a vector. -/
def TType.scalars : TType → List TBasicType
  | .mk basicType _ _ vectorSize matrixCols matrixRows arraySizes _ _ _ _ members =>
    arraySizes.foldr (fun size part => (List.replicate size part).flatten)
      (if basicType = .EbtStruct ∨ basicType = .EbtBlock then
        if matrixCols ≠ 0 then (List.replicate matrixCols (scalarsOfFirst members)).flatten
        else scalarsOfAll members
      else if matrixCols ≠ 0 then
        (List.replicate matrixCols
          (List.replicate (if matrixRows > 1 then matrixRows else 1) basicType)).flatten
      else List.replicate (if vectorSize > 1 then vectorSize else 1) basicType)

/-- The scalars of the members of a struct, in order. -/
def scalarsOfAll : List TType → List TBasicType
  | [] => []
  | t :: ts => t.scalars ++ scalarsOfAll ts

/-- The scalars of the first member of a member list. -/
def scalarsOfFirst : List TType → List TBasicType
  | [] => [.EbtVoid]
  | t :: _ => t.scalars

end

mutual

/-- The depth of the recursion of `createSpvConstant` on a type: one level for each
array dimension, for a matrix, for a struct, and for the scalar or vector that is
reached last. -/
def TType.depth : TType → Nat
  | .mk basicType _ _ _ matrixCols _ arraySizes _ _ _ _ members =>
    arraySizes.length +
      (if basicType = .EbtStruct ∨ basicType = .EbtBlock then
        if matrixCols ≠ 0 then 1 + depthOfFirst members else 1 + depthOfAll members
      else if matrixCols ≠ 0 then 2
      else 1)

/-- The greatest depth of a member. -/
def depthOfAll : List TType → Nat
  | [] => 0
  | t :: ts => max t.depth (depthOfAll ts)

/-- The depth of the first member of a member list. -/
def depthOfFirst : List TType → Nat
  | [] => 1
  | t :: _ => t.depth

end

end glslang

namespace spv

/-- The member index of a member name or a member decoration. -/
def Instruction.member? : Instruction → Option Int
  | .OpMemberName _ member _ => some member
  | .OpMemberDecorate _ member _ _ => some member
  | _ => none

/-- The names and decorations of the members of the struct type `id`, in the order in
which they were issued. -/
def Builder.memberInstructions (b : Builder) (id : Id) : List Instruction :=
  b.decorations.filter (fun d => d.isMember && decide (d.id = id))

end spv

namespace Lowering

/-! ### Constants -/

/-- A visit of a sequence that only counts it: it runs no pass, and tells the front end
to go on with the children. -/
def countingVisit : List Definition → State → Bool × State :=
  fun _ s => (true, { s with sequenceDepth := s.sequenceDepth + 1 })

mutual

/-- No work of a node other than a sequence, at any depth, changes the member
`sequenceDepth`, which only the `EOpSequence` case of `visitAggregate` assigns. -/
def Node.KeepsDepth : Node → Prop
  | .sequence children => KeepsDepthAll children
  | .other _ _ _ enter children leave =>
    (∀ s, (enter s).sequenceDepth = s.sequenceDepth) ∧
      (∀ s, (leave s).sequenceDepth = s.sequenceDepth) ∧ KeepsDepthAll children

/-- Every node of a list keeps the depth. -/
def KeepsDepthAll : List Node → Prop
  | [] => True
  | node :: rest => node.KeepsDepth ∧ KeepsDepthAll rest

end

mutual

/-- The number of sequence nodes in a node, the node itself included. -/
def Node.sequences : Node → Nat
  | .sequence children => 1 + sequencesIn children
  | .other _ _ _ _ children _ => sequencesIn children

/-- The number of sequence nodes in a list of nodes. -/
def sequencesIn : List Node → Nat
  | [] => 0
  | node :: rest => node.sequences + sequencesIn rest

end

/-! ### Texture parameters -/

/-- A call that ends the test of a loop: the test branch, or the branch to the body of a
loop without test. -/
def Event.isTestBranch : Event → Bool
  | .createLoopTestBranch _ => true
  | .createBranchToBody => true
  | _ => false

/-- Split a list of calls behind the first call that ends the test of a loop. -/
def splitTest : List Event → List Event × List Event
  | [] => ([], [])
  | e :: rest =>
    if e.isTestBranch then ([e], rest)
    else (e :: (splitTest rest).1, (splitTest rest).2)

/-- Modelled from the spec: the loop region of the builder ("loop region (test-first
flag)"), declared outside `SPIRV/GlslangToSpv.cpp`. Given the calls made for one loop,
from `makeNewLoop` to `closeLoop`, the result is the calls between the two in the order
in which their code runs in an iteration entered at the header: "States:
`Header → {TestBranch → Body → Terminal → Header}` for test-first;
`Header → Body → Terminal → TestBranch → (Header|Exit)` otherwise". The test and its
branch are the calls up to the first call that ends the test; the other calls are those
of the body and the terminal. -/
def loopIteration : List Event → List Event
  | .makeNewLoop loopTestFirst :: calls =>
    if loopTestFirst then (splitTest calls.dropLast).1 ++ (splitTest calls.dropLast).2
    else (splitTest calls.dropLast).2 ++ (splitTest calls.dropLast).1
  | _ => []

/-! ### Context stacks -/

/-- What `visitLoop` does after the traversal of the body: pop `breakForLoop`, traverse
the terminal, close the loop and pop `loopTerminal`. -/
def loopExit (T : TIntermTraverser) (s : State) : State :=
  let s := { s with breakForLoop := s.breakForLoop.tail }
  let s := traverseLoopTerminal T s
  let s := (call .closeLoop s).2
  { s with loopTerminal := s.loopTerminal.tail }

/-- The state in which `visitSwitch` starts to emit the code segments: the selector is
loaded, the switch is made, and `false` is pushed on `breakForLoop`. -/
def switchEntry (T : TIntermTraverser) (condition : TIntermTyped) (sequence : List Child)
    (s : State) : State :=
  let s := traverseTyped T condition s
  let t := call (.convertGlslangToSpvType .condition) s
  let selector := accessChainLoad t.1 t.2
  let c := addMissingSegment (sortCodeSegments sequence)
  let s := (call (.makeSwitch selector.1 c.codeSegments.length c.caseValues
    c.valueIndexToSegment c.defaultSegment) selector.2).2
  { s with breakForLoop := false :: s.breakForLoop }

/-- The state in which the code of segment `k` is traversed, `entry` being the state in
which the first segment is started. -/
def segmentEntry (codeSegments : List (Option Child)) (k : Nat) (entry : State) : State :=
  (call (.nextSwitchSegment k) (emitSegments (codeSegments.take k) 0 entry)).2

/-- What `visitSwitch` does after the last segment: pop `breakForLoop` and end the
switch. -/
def switchExit (s : State) : State :=
  (call .endSwitch { s with breakForLoop := s.breakForLoop.tail }).2

namespace Example

/-- A builder in which no handle is a matrix and handle 2 is a vector. -/
def vectors : Queries :=
  { queries with isMatrix := fun _ => false, isVector := fun id => id == 2 }

/-- The function definition `void main() { { } }`: a node with one child, the sequence of
its body, which holds one nested sequence. -/
def mainFunction : Node :=
  .other (some .EOpFunction) "main(" [] (fun s => (call .setBuildPointLastBlock s).2)
    [.sequence [.sequence []]] (fun s => s)

end Example

end Lowering

/-! ## The builder -/

namespace spv.Builder

theorem lookup_mem {α β : Type} [BEq α] [LawfulBEq α] (l : List (α × β)) (k : α) (v : β)
    (h : l.lookup k = some v) : (k, v) ∈ l := by
  induction l with
  | nil => simp at h
  | cons e l ih =>
    obtain ⟨k', v'⟩ := e
    by_cases hk : k = k'
    · subst hk
      simp [List.lookup] at h
      simp [h]
    · have hk' : (k == k') = false := by simpa using hk
      simp [List.lookup, hk'] at h
      exact List.mem_cons_of_mem _ (ih h)

theorem Ext.sameBuilder (b : Builder) : Ext b b :=
  ⟨rfl, le_refl _, id, fun _ _ _ h => h, rfl, fun _ h => h⟩

theorem Ext.thenBuilder {a b c : Builder} (h₁ : Ext a b) (h₂ : Ext b c) : Ext a c :=
  ⟨h₂.decorations.trans h₁.decorations, le_trans h₁.uniqueId h₂.uniqueId,
    fun h => h₂.wf (h₁.wf h), fun req id hm h => h₂.lookup req id hm (h₁.lookup req id hm h),
    h₂.structs.trans h₁.structs, fun e h => h₂.types_sub e (h₁.types_sub e h)⟩

theorem declareType_fst (req : TypeRequest) (b : Builder) :
    (b.declareType req).1 = b.uniqueId + 1 := rfl

theorem declareType_uniqueId (req : TypeRequest) (b : Builder) :
    (b.declareType req).2.uniqueId = b.uniqueId + 1 := rfl

theorem declareType_decorations (req : TypeRequest) (b : Builder) :
    (b.declareType req).2.decorations = b.decorations := rfl

theorem declareType_types (req : TypeRequest) (b : Builder) :
    (b.declareType req).2.types = (req, b.uniqueId + 1) :: b.types := rfl

theorem declareType_wf (req : TypeRequest) (b : Builder) (h : b.WF) :
    (b.declareType req).2.WF := by
  constructor
  · intro d hd
    rw [declareType_uniqueId]
    rw [declareType_decorations] at hd
    exact Nat.le_succ_of_le (h.decorations d hd)
  · intro e he
    rw [declareType_uniqueId]
    rw [declareType_types] at he
    rcases List.mem_cons.1 he with rfl | he
    · exact le_refl _
    · exact Nat.le_succ_of_le (h.types e he)
  · intro r₁ r₂ id h₁ h₂
    rw [declareType_types] at h₁ h₂
    rcases List.mem_cons.1 h₁ with e₁ | h₁ <;> rcases List.mem_cons.1 h₂ with e₂ | h₂
    · rw [(Prod.mk.inj e₁).1, (Prod.mk.inj e₂).1]
    · have := h.types _ h₂
      rw [(Prod.mk.inj e₁).2] at this
      exact absurd this (by simp)
    · have := h.types _ h₁
      rw [(Prod.mk.inj e₂).2] at this
      exact absurd this (by simp)
    · exact h.types_inj r₁ r₂ id h₁ h₂

theorem declareType_ext (req : TypeRequest) (b : Builder) (hs : req.isStruct = false)
    (hl : req.memoized = true → b.types.lookup req = none) : Ext b (b.declareType req).2 := by
  refine ⟨rfl, Nat.le_succ _, declareType_wf req b, ?_, ?_,
    fun e he => List.mem_cons_of_mem _ he⟩
  · intro req' id hm h
    rw [declareType_types]
    by_cases hr : req' = req
    · subst hr
      rw [hl hm] at h
      simp at h
    · have hr' : (req' == req) = false := by simpa using hr
      simp [List.lookup, hr', h]
  · rw [declareType_types]
    simp [List.filter, hs]

theorem makeType_ext (req : TypeRequest) (b : Builder) (hs : req.isStruct = false) :
    Ext b (b.makeType req).2 := by
  unfold makeType
  cases h : b.types.lookup req with
  | some id => exact Ext.sameBuilder b
  | none => exact declareType_ext req b hs (fun _ => h)

theorem makeType_lookup (req : TypeRequest) (b : Builder) :
    (b.makeType req).2.types.lookup req = some (b.makeType req).1 := by
  unfold makeType
  cases h : b.types.lookup req with
  | some id => simpa using h
  | none => simp [declareType_types, declareType_fst, List.lookup]

theorem makeType_le (req : TypeRequest) (b : Builder) (h : b.WF) :
    (b.makeType req).1 ≤ (b.makeType req).2.uniqueId := by
  unfold makeType
  cases hl : b.types.lookup req with
  | some id => exact h.types _ (lookup_mem _ _ _ hl)
  | none => exact le_refl _

theorem makeType_of_lookup (req : TypeRequest) (b : Builder) (id : Id)
    (h : b.types.lookup req = some id) : b.makeType req = (id, b) := by
  simp [makeType, h]

theorem chain_nil (r : Id × Builder) : chain [] r = r := rfl

theorem chain_cons (f : Id → TypeRequest) (fs : List (Id → TypeRequest)) (r : Id × Builder) :
    chain (f :: fs) r = chain fs (r.2.makeType (f r.1)) := rfl

theorem chain_append (fs gs : List (Id → TypeRequest)) (r : Id × Builder) :
    chain (fs ++ gs) r = chain gs (chain fs r) := by
  simp [chain, List.foldl_append]

theorem chain_ext (fs : List (Id → TypeRequest)) (hs : ∀ f ∈ fs, ∀ id, (f id).isStruct = false)
    (r : Id × Builder) : Ext r.2 (chain fs r).2 := by
  induction fs generalizing r with
  | nil => exact Ext.sameBuilder _
  | cons f fs ih =>
    rw [chain_cons]
    exact (makeType_ext _ _ (hs f (List.mem_cons_self _ _) _)).thenBuilder
      (ih (fun g hg => hs g (List.mem_cons_of_mem _ hg)) _)

/-- Replaying a chain of memoizing constructors on a builder that still knows every
request of the first run returns the same handle and declares nothing. -/
theorem chain_replay (fs : List (Id → TypeRequest))
    (hs : ∀ f ∈ fs, ∀ id, (f id).isStruct = false ∧ (f id).memoized = true)
    (r : Id × Builder) (b' : Builder)
    (h : ∀ req id, req.memoized = true → (chain fs r).2.types.lookup req = some id →
      b'.types.lookup req = some id) :
    chain fs (r.1, b') = ((chain fs r).1, b') := by
  induction fs generalizing r with
  | nil => rfl
  | cons f fs ih =>
    have hs' : ∀ g ∈ fs, ∀ id, (g id).isStruct = false ∧ (g id).memoized = true :=
      fun g hg => hs g (List.mem_cons_of_mem _ hg)
    have hf := hs f (List.mem_cons_self _ _) r.1
    rw [chain_cons, chain_cons]
    have hstep : b'.makeType (f r.1) = ((r.2.makeType (f r.1)).1, b') := by
      apply makeType_of_lookup
      apply h _ _ hf.2
      rw [chain_cons]
      exact (chain_ext fs (fun g hg id => (hs' g hg id).1) _).lookup _ _ hf.2
        (makeType_lookup _ _)
    show chain fs (b'.makeType (f r.1)) = _
    rw [hstep]
    exact ih hs' (r.2.makeType (f r.1)) (by rw [chain_cons] at h; exact h)

theorem makeType_mem (req : TypeRequest) (b : Builder) :
    (req, (b.makeType req).1) ∈ (b.makeType req).2.types :=
  lookup_mem _ _ _ (makeType_lookup req b)

/-- Two chains of memoizing constructors started from different handles end in
different handles, when the second runs on a builder that knows every type of the
first. -/
theorem chain_distinct (fs : List (Id → TypeRequest))
    (hs : ∀ f ∈ fs, ∀ id, (f id).isStruct = false)
    (hinj : ∀ f ∈ fs, ∀ a b, f a = f b → a = b) (r₁ r₂ : Id × Builder)
    (hsub : ∀ e ∈ (chain fs r₁).2.types, e ∈ r₂.2.types) (hw : r₂.2.WF)
    (hne : r₁.1 ≠ r₂.1) : (chain fs r₁).1 ≠ (chain fs r₂).1 := by
  induction fs generalizing r₁ r₂ with
  | nil => exact hne
  | cons f fs ih =>
    have hs' : ∀ g ∈ fs, ∀ id, (g id).isStruct = false :=
      fun g hg => hs g (List.mem_cons_of_mem _ hg)
    have he := makeType_ext (f r₂.1) r₂.2 (hs f (List.mem_cons_self _ _) _)
    rw [chain_cons] at hsub ⊢
    rw [chain_cons]
    refine ih hs' (fun g hg => hinj g (List.mem_cons_of_mem _ hg)) _ _
      (fun e h => he.types_sub e (hsub e h)) (he.wf hw) ?_
    intro heq
    have m₁ : (f r₁.1, (r₁.2.makeType (f r₁.1)).1) ∈ (r₂.2.makeType (f r₂.1)).2.types :=
      he.types_sub _ (hsub _ ((chain_ext fs hs' _).types_sub _ (makeType_mem _ _)))
    have m₂ := makeType_mem (f r₂.1) r₂.2
    rw [← heq] at m₂
    exact hne (hinj f (List.mem_cons_self _ _) _ _ ((he.wf hw).types_inj _ _ _ m₁ m₂))

end spv.Builder

/-! ## Names and decorations as appended lists -/

namespace TGlslangToSpvTraverser

@[simp] theorem emit_structMap (self : TGlslangToSpvTraverser) (l : List spv.Instruction) :
    (self.emit l).structMap = self.structMap := rfl

@[simp] theorem emit_memberRemapper (self : TGlslangToSpvTraverser) (l : List spv.Instruction) :
    (self.emit l).memberRemapper = self.memberRemapper := rfl

@[simp] theorem emit_decorations (self : TGlslangToSpvTraverser) (l : List spv.Instruction) :
    (self.emit l).builder.decorations = self.builder.decorations ++ l := rfl

@[simp] theorem emit_uniqueId (self : TGlslangToSpvTraverser) (l : List spv.Instruction) :
    (self.emit l).builder.uniqueId = self.builder.uniqueId := rfl

@[simp] theorem emit_types (self : TGlslangToSpvTraverser) (l : List spv.Instruction) :
    (self.emit l).builder.types = self.builder.types := rfl

theorem emit_nil (self : TGlslangToSpvTraverser) : self.emit [] = self := by
  simp [emit]

theorem emit_emit (self : TGlslangToSpvTraverser) (l₁ l₂ : List spv.Instruction) :
    (self.emit l₁).emit l₂ = self.emit (l₁ ++ l₂) := by
  simp [emit, List.append_assoc]

theorem addMemberDecoration_eq_emit (self : TGlslangToSpvTraverser) (id : spv.Id) (member : Int)
    (dec : spv.Decoration) :
    self.addMemberDecoration id member dec = self.emit (optMemberDecorate id member dec) := by
  unfold addMemberDecoration optMemberDecorate
  split <;> simp [emit, spv.Builder.addMemberDecoration]

theorem addDecoration_eq_emit (self : TGlslangToSpvTraverser) (id : spv.Id)
    (dec : spv.Decoration) :
    self.addDecoration id dec =
      self.emit (if dec ≠ .BadValue then [.OpDecorate id dec .none] else []) := by
  unfold addDecoration
  split <;> simp [emit, spv.Builder.addDecoration]

theorem builder_addMemberDecoration_eq_emit (self : TGlslangToSpvTraverser) (id : spv.Id)
    (member : Int) (dec : spv.Decoration) (num : spv.Operand) :
    { self with builder := self.builder.addMemberDecoration id member dec num }
      = self.emit [.OpMemberDecorate id member dec num] := by
  simp [emit, spv.Builder.addMemberDecoration]

theorem builder_addDecoration_eq_emit (self : TGlslangToSpvTraverser) (id : spv.Id)
    (dec : spv.Decoration) (num : spv.Operand) :
    { self with builder := self.builder.addDecoration id dec num }
      = self.emit [.OpDecorate id dec num] := by
  simp [emit, spv.Builder.addDecoration]

theorem builder_addMemberName_eq_emit (self : TGlslangToSpvTraverser) (id : spv.Id)
    (member : Int) (name : String) :
    { self with builder := self.builder.addMemberName id member name }
      = self.emit [.OpMemberName id member name] := by
  simp [emit, spv.Builder.addMemberName]

theorem ite_emit (self : TGlslangToSpvTraverser) (c : Prop) [Decidable c]
    (l : List spv.Instruction) :
    (if c then self.emit l else self) = self.emit (if c then l else []) := by
  split <;> simp [emit_nil]

theorem decorateMember_eq (I : TIntermediate) (type : TType) (explicitLayout : TLayoutPacking)
    (matrixLayout : TLayoutMatrix) (spvType : spv.Id) (i : Nat) (glslangType : TType)
    (self : TGlslangToSpvTraverser) (offset : Int) :
    decorateMember I type explicitLayout matrixLayout spvType i glslangType (self, offset) =
      if memberIndex type (self.memberRemapper type.getStructId) i ≥ 0 then
        (self.emit (memberInstrs I type explicitLayout matrixLayout spvType
            (memberIndex type (self.memberRemapper type.getStructId) i) glslangType offset),
          (offsetStep I type explicitLayout matrixLayout glslangType offset).2)
      else (self, offset) := by
  unfold decorateMember
  simp -zeta only [builder_addMemberName_eq_emit, addMemberDecoration_eq_emit,
    builder_addMemberDecoration_eq_emit, ite_emit]
  by_cases hx : glslangType.getQualifier.hasXfbOffset = true
  · simp only [hx, emit_emit, memberInstrs, offsetStep, memberIndex, subMatrixLayout, if_true,
      List.append_assoc]
  · by_cases hp : explicitLayout = .ElpNone
    · simp only [hx, hp, emit_emit, memberInstrs, offsetStep, memberIndex, subMatrixLayout,
        List.append_assoc, ne_eq, not_true_eq_false, if_false, and_false, emit_nil,
        List.nil_append, Bool.false_eq_true]
    · simp only [hx, hp, emit_emit, memberInstrs, offsetStep, memberIndex, subMatrixLayout,
        List.append_assoc, ne_eq, not_false_eq_true, if_true, if_false, and_true,
        Bool.false_eq_true]
      split_ifs <;> rfl

theorem decorateMembers_eq (I : TIntermediate) (type : TType) (explicitLayout : TLayoutPacking)
    (matrixLayout : TLayoutMatrix) (spvType : spv.Id) (members : List TType) (i : Nat)
    (self : TGlslangToSpvTraverser) (offset : Int) :
    (decorateMembers I type explicitLayout matrixLayout spvType i members (self, offset)).1 =
      self.emit (membersInstrs I type explicitLayout matrixLayout spvType
        (self.memberRemapper type.getStructId) i members offset) := by
  induction members generalizing i self offset with
  | nil => simp [decorateMembers, membersInstrs, emit_nil]
  | cons t rest ih =>
    rw [decorateMembers, decorateMember_eq, membersInstrs]
    split
    · rw [ih, emit_emit, emit_memberRemapper]
    · rw [ih]

theorem decorateStructure_eq (I : TIntermediate) (type : TType) (matrixLayout : TLayoutMatrix)
    (spvType : spv.Id) (self : TGlslangToSpvTraverser) :
    decorateStructure I type matrixLayout spvType self =
      self.emit (structInstrs I type matrixLayout spvType) := by
  unfold decorateStructure
  simp -zeta only [addDecoration_eq_emit, builder_addDecoration_eq_emit, ite_emit]
  by_cases hx : I.getXfbMode = true
  · simp only [hx, emit_emit, structInstrs, if_true, true_and, List.append_assoc]
  · simp only [hx, emit_emit, structInstrs, if_false, false_and, List.append_assoc,
      List.append_nil, Bool.false_eq_true]

theorem foldl_makeArrayType (dims : List Nat) (r : spv.Id × spv.Builder) :
    dims.foldl (fun (r : spv.Id × spv.Builder) dimSize => r.2.makeArrayType r.1 dimSize) r =
      spv.Builder.chain (dims.map (fun n e => .OpTypeArray e n)) r := by
  induction dims generalizing r with
  | nil => rfl
  | cons n dims ih => simp only [List.foldl_cons, List.map_cons, spv.Builder.chain_cons]; exact ih _

theorem wrapType_eq (I : TIntermediate) (type : TType) (explicitLayout : TLayoutPacking)
    (matrixLayout : TLayoutMatrix) (spvType : spv.Id) (self : TGlslangToSpvTraverser) :
    wrapType I type explicitLayout matrixLayout spvType self =
      ((wrapResult type spvType self.builder).1,
        ({ self with builder := (wrapResult type spvType self.builder).2 }).emit
          (arrayStrideInstrs I type explicitLayout matrixLayout
            (wrapResult type spvType self.builder).1)) := by
  have h1 : (if type.isMatrix = true then
        self.builder.makeMatrixType spvType type.getMatrixCols type.getMatrixRows
      else if type.getVectorSize > 1 then self.builder.makeVectorType spvType type.getVectorSize
      else (spvType, self.builder)) =
      spv.Builder.chain
        (if type.isMatrix = true then
          [fun c => .OpTypeMatrix c type.getMatrixCols type.getMatrixRows]
        else if type.getVectorSize > 1 then [fun c => .OpTypeVector c type.getVectorSize]
        else []) (spvType, self.builder) := by
    split_ifs <;> rfl
  unfold wrapType wrapResult wrapReqs arrayStrideInstrs
  simp -zeta only [h1, foldl_makeArrayType, spv.Builder.chain_append]
  by_cases ha : type.isArray = true
  · by_cases hr : type.isRuntimeSizedArray = true
    · by_cases hd : explicitLayout ≠ .ElpNone ∧ type.getBasicType ≠ .EbtBlock
      · simp [ha, hr, hd, spv.Builder.chain_nil, emit, spv.Builder.addDecoration]
      · simp [ha, hr, hd, spv.Builder.chain_nil, emit, spv.Builder.addDecoration]
    · by_cases hd : explicitLayout ≠ .ElpNone ∧ type.getBasicType ≠ .EbtBlock
      · simp [ha, hr, hd, spv.Builder.chain_nil, spv.Builder.chain_cons, emit, spv.Builder.chain_append,
          spv.Builder.addDecoration, spv.Builder.makeArrayType]
      · simp [ha, hr, hd, spv.Builder.chain_nil, spv.Builder.chain_cons, emit, spv.Builder.chain_append,
          spv.Builder.addDecoration, spv.Builder.makeArrayType]
  · have hr : type.isRuntimeSizedArray = false := by
      simp [TType.isRuntimeSizedArray, ha]
    simp [ha, hr, spv.Builder.chain_nil, emit]

end TGlslangToSpvTraverser

/-! ## Unfolding `convertGlslangToSpvType` -/

namespace glslang

/-- Induction over a type and its members. -/
theorem TType.induct {P : TType → Prop} (h : ∀ t, (∀ t' ∈ t.getStruct, P t') → P t) :
    ∀ t, P t := by
  intro t
  refine TType.rec (motive_1 := P) (motive_2 := fun ms => ∀ t ∈ ms, P t) ?_ ?_ ?_ t
  · intro bt q s vs mc mr as hd fn tn sid ms ih
    exact h _ ih
  · intro t ht
    simp at ht
  · intro hd tl ih1 ih2 t ht
    rcases List.mem_cons.1 ht with rfl | ht
    · exact ih1
    · exact ih2 t ht

end glslang

namespace TGlslangToSpvTraverser

theorem convert_basic (I : TIntermediate) (type : TType) (explicitLayout : TLayoutPacking)
    (matrixLayout : TLayoutMatrix) (self : TGlslangToSpvTraverser)
    (hs : type.getBasicType ≠ .EbtStruct) (hb : type.getBasicType ≠ .EbtBlock) :
    convertGlslangToSpvType I type explicitLayout matrixLayout self =
      wrapType I type explicitLayout matrixLayout (basicResult type self.builder).1
        { self with builder := (basicResult type self.builder).2 } := by
  obtain ⟨bt, q, s, vs, mc, mr, as, hd, fn, tn, sid, ms⟩ := type
  cases bt <;> simp [TType.getBasicType] at hs hb <;>
    simp [convertGlslangToSpvType, basicResult, TType.getBasicType, TType.getSampler,
      getSampledType]

theorem convert_hit (I : TIntermediate) (type : TType) (explicitLayout : TLayoutPacking)
    (matrixLayout : TLayoutMatrix) (self : TGlslangToSpvTraverser)
    (hs : type.getBasicType = .EbtStruct ∨ type.getBasicType = .EbtBlock)
    (hit : self.structMap explicitLayout matrixLayout type.getStructId ≠ 0) :
    convertGlslangToSpvType I type explicitLayout matrixLayout self =
      wrapType I type explicitLayout matrixLayout
        (self.structMap explicitLayout matrixLayout type.getStructId) self := by
  obtain ⟨bt, q, s, vs, mc, mr, as, hd, fn, tn, sid, ms⟩ := type
  simp only [TType.getBasicType, TType.getStructId] at hs hit
  rcases hs with rfl | rfl <;> simp [convertGlslangToSpvType, hit, TType.getStructId]

theorem convert_miss (I : TIntermediate) (type : TType) (explicitLayout : TLayoutPacking)
    (matrixLayout : TLayoutMatrix) (self : TGlslangToSpvTraverser)
    (hs : type.getBasicType = .EbtStruct ∨ type.getBasicType = .EbtBlock)
    (miss : self.structMap explicitLayout matrixLayout type.getStructId = 0) :
    convertGlslangToSpvType I type explicitLayout matrixLayout self =
      wrapType I type explicitLayout matrixLayout
        (newStructId I type explicitLayout matrixLayout self)
        ((structCached I type explicitLayout matrixLayout self).emit
          (structCaseInstrs I type explicitLayout matrixLayout self)) := by
  obtain ⟨bt, q, s, vs, mc, mr, as, hd, fn, tn, sid, ms⟩ := type
  simp only [TType.getBasicType, TType.getStructId] at hs miss
  rcases hs with rfl | rfl <;>
    simp [convertGlslangToSpvType, miss, TType.getStructId, decorateMembers_eq,
      decorateStructure_eq, structCached, structCaseInstrs, newStructId, fieldsLowered, emit_emit,
      TType.getBasicType, TType.getStruct, TType.getTypeName, spv.Builder.makeStructType,
      spv.Builder.declareType_fst, setStructMap]

end TGlslangToSpvTraverser

/-! ## Invariants of type lowering -/

namespace TGlslangToSpvTraverser

theorem Ext.refl (self : TGlslangToSpvTraverser) : Ext self self :=
  ⟨le_refl _, ⟨[], by simp⟩, id, fun _ _ _ _ => rfl, fun _ h => h⟩

theorem Ext.trans {a b c : TGlslangToSpvTraverser} (h₁ : Ext a b) (h₂ : Ext b c) : Ext a c := by
  refine ⟨le_trans h₁.uniqueId h₂.uniqueId, ?_, fun h => h₂.wf (h₁.wf h), ?_,
    fun e h => h₂.types e (h₁.types e h)⟩
  · obtain ⟨l₁, e₁⟩ := h₁.decorations
    obtain ⟨l₂, e₂⟩ := h₂.decorations
    exact ⟨l₁ ++ l₂, by rw [e₂, e₁, List.append_assoc]⟩
  · intro p m k hk
    have e₁ := h₁.structMap p m k hk
    rw [h₂.structMap p m k (by rw [e₁]; exact hk), e₁]

theorem Ext.ofEq {self self' : TGlslangToSpvTraverser} (hb : self'.builder = self.builder)
    (hs : self'.structMap = self.structMap) : Ext self self' := by
  refine ⟨by rw [hb], ⟨[], by rw [hb]; simp⟩, ?_, fun p m k _ => by rw [hs],
    fun e h => by rw [hb]; exact h⟩
  intro h
  exact ⟨by rw [hb]; exact h.builder, by rw [hb, hs]; exact h.structMap_le,
    by rw [hs]; exact h.structMap_inj⟩

theorem Ext.of_builder (self : TGlslangToSpvTraverser) (b' : spv.Builder)
    (h : spv.Builder.Ext self.builder b') : Ext self { self with builder := b' } := by
  refine ⟨h.uniqueId, ⟨[], by simp [h.decorations]⟩, ?_, fun _ _ _ _ => rfl, h.types_sub⟩
  intro hw
  exact ⟨h.wf hw.builder, fun p m k => le_trans (hw.structMap_le p m k) h.uniqueId,
    hw.structMap_inj⟩

theorem Ext.ofEmit (self : TGlslangToSpvTraverser) (l : List spv.Instruction)
    (h : self.builder.WF → ∀ d ∈ l, d.id ≤ self.builder.uniqueId) : Ext self (self.emit l) := by
  refine ⟨le_refl _, ⟨l, rfl⟩, ?_, fun _ _ _ _ => rfl, fun _ h => h⟩
  intro hw
  refine ⟨⟨?_, hw.builder.types, hw.builder.types_inj⟩, hw.structMap_le, hw.structMap_inj⟩
  intro d hd
  rcases List.mem_append.1 hd with hd | hd
  · exact hw.builder.decorations d hd
  · exact h hw.builder d hd

theorem memberInstrs_id (I : TIntermediate) (type : TType) (explicitLayout : TLayoutPacking)
    (matrixLayout : TLayoutMatrix) (spvType : spv.Id) (member : Int) (glslangType : TType)
    (offset : Int) :
    ∀ d ∈ memberInstrs I type explicitLayout matrixLayout spvType member glslangType offset,
      d.id = spvType ∧ d.isMember = true := by
  intro d hd
  simp only [memberInstrs, optMemberDecorate, List.mem_append, List.mem_singleton] at hd
  rcases hd with ((((((((hd | hd) | hd) | hd) | hd) | hd) | hd) | hd) | hd) | hd
  · subst hd; exact ⟨rfl, rfl⟩
  all_goals (split at hd <;> simp at hd; subst hd; exact ⟨rfl, rfl⟩)

theorem membersInstrs_id (I : TIntermediate) (type : TType) (explicitLayout : TLayoutPacking)
    (matrixLayout : TLayoutMatrix) (spvType : spv.Id) (remap : List Int) (members : List TType)
    (i : Nat) (offset : Int) :
    ∀ d ∈ membersInstrs I type explicitLayout matrixLayout spvType remap i members offset,
      d.id = spvType ∧ d.isMember = true := by
  induction members generalizing i offset with
  | nil => intro d hd; simp [membersInstrs] at hd
  | cons t rest ih =>
    intro d hd
    rw [membersInstrs] at hd
    split at hd
    · rcases List.mem_append.1 hd with hd | hd
      · exact memberInstrs_id _ _ _ _ _ _ _ _ d hd
      · exact ih _ _ d hd
    · exact ih _ _ d hd

theorem structInstrs_id (I : TIntermediate) (type : TType) (matrixLayout : TLayoutMatrix)
    (spvType : spv.Id) :
    ∀ d ∈ structInstrs I type matrixLayout spvType, d.id = spvType ∧ d.isMember = false := by
  intro d hd
  simp only [structInstrs, List.mem_append] at hd
  rcases hd with (((hd | hd) | hd) | hd) | hd <;>
    (split at hd <;> simp at hd; subst hd; exact ⟨rfl, rfl⟩)

theorem arrayStrideInstrs_id (I : TIntermediate) (type : TType) (explicitLayout : TLayoutPacking)
    (matrixLayout : TLayoutMatrix) (id : spv.Id) :
    ∀ d ∈ arrayStrideInstrs I type explicitLayout matrixLayout id,
      d.id = id ∧ d.isMember = false ∧ type.isArray = true ∧ d.decoration = .ArrayStride := by
  intro d hd
  unfold arrayStrideInstrs at hd
  split at hd
  · next h => simp at hd; subst hd; exact ⟨rfl, rfl, h.1, rfl⟩
  · simp at hd

theorem Ext.trans_emit {self s' : TGlslangToSpvTraverser} (h : Ext self s')
    (l : List spv.Instruction)
    (hl : self.WF → ∀ d ∈ l, d.id ≤ s'.builder.uniqueId) : Ext self (s'.emit l) := by
  refine ⟨h.uniqueId, ?_, ?_, h.structMap, h.types⟩
  · obtain ⟨l₁, e₁⟩ := h.decorations
    exact ⟨l₁ ++ l, by rw [emit_decorations, e₁, List.append_assoc]⟩
  · intro hw
    exact (Ext.ofEmit s' l (fun _ => hl hw)).wf (h.wf hw)

theorem wrapReqs_memoized (type : TType) :
    ∀ f ∈ wrapReqs type, ∀ id, (f id).isStruct = false ∧ (f id).memoized = true := by
  intro f hf id
  simp only [wrapReqs, List.mem_append] at hf
  rcases hf with hf | hf
  · split_ifs at hf <;> simp at hf <;> subst hf <;> exact ⟨rfl, rfl⟩
  · split_ifs at hf
    · simp only [List.append_nil, List.mem_map] at hf
      obtain ⟨n, -, rfl⟩ := hf; exact ⟨rfl, rfl⟩
    · simp only [List.mem_append, List.mem_map, List.mem_singleton] at hf
      rcases hf with ⟨n, -, rfl⟩ | rfl <;> exact ⟨rfl, rfl⟩
    · simp at hf

theorem wrapResult_ext (type : TType) (id : spv.Id) (b : spv.Builder) :
    spv.Builder.Ext b (wrapResult type id b).2 := by
  have hc := spv.Builder.chain_ext (wrapReqs type)
    (fun f hf id => (wrapReqs_memoized type f hf id).1) (id, b)
  unfold wrapResult
  split
  · exact hc.thenBuilder (spv.Builder.declareType_ext _ _ rfl
      (fun h => by simp [spv.TypeRequest.memoized] at h))
  · exact hc

theorem wrapResult_le (type : TType) (id : spv.Id) (b : spv.Builder)
    (ha : type.isArray = true) (h : b.WF) :
    (wrapResult type id b).1 ≤ (wrapResult type id b).2.uniqueId := by
  unfold wrapResult
  split
  · exact le_refl _
  · next hr =>
    obtain ⟨l, f, hl⟩ : ∃ l f, wrapReqs type = l ++ [f] :=
      ⟨(if type.isMatrix then [fun c => .OpTypeMatrix c type.getMatrixCols type.getMatrixRows]
          else if type.getVectorSize > 1 then [fun c => .OpTypeVector c type.getVectorSize]
          else []) ++ type.getArraySizes.tail.reverse.map (fun n e => .OpTypeArray e n),
        fun e => .OpTypeArray e type.getOuterArraySize,
        by simp only [wrapReqs, ha, hr, if_true, if_false, Bool.false_eq_true,
          List.append_assoc]⟩
    have hm := wrapReqs_memoized type
    rw [hl] at hm ⊢
    rw [spv.Builder.chain_append, spv.Builder.chain_cons, spv.Builder.chain_nil]
    apply spv.Builder.makeType_le
    exact (spv.Builder.chain_ext l
      (fun g hg id' => (hm g (List.mem_append_left _ hg) id').1) (id, b)).wf h

theorem wrapType_ext (I : TIntermediate) (type : TType) (explicitLayout : TLayoutPacking)
    (matrixLayout : TLayoutMatrix) (id : spv.Id) (self : TGlslangToSpvTraverser) :
    Ext self (wrapType I type explicitLayout matrixLayout id self).2 := by
  rw [wrapType_eq]
  refine (Ext.of_builder self _ (wrapResult_ext type id self.builder)).trans_emit _ ?_
  intro hw d hd
  obtain ⟨h1, -, ha, -⟩ := arrayStrideInstrs_id _ _ _ _ _ d hd
  rw [h1]
  exact wrapResult_le type id self.builder ha hw.builder

theorem basicResult_ext (type : TType) (b : spv.Builder) :
    spv.Builder.Ext b (basicResult type b).2 := by
  have key : ∀ st : spv.Id × spv.Builder, spv.Builder.Ext b st.2 →
      spv.Builder.Ext b
        (if (!type.getSampler.image) = true then
          (st.2.makeImageType st.1 (TranslateDimensionality type.getSampler)
            type.getSampler.shadow type.getSampler.arrayed type.getSampler.ms
            (if type.getSampler.image then 2 else 1)
            (TranslateImageFormat type)).2.makeSampledImageType
            (st.2.makeImageType st.1 (TranslateDimensionality type.getSampler)
              type.getSampler.shadow type.getSampler.arrayed type.getSampler.ms
              (if type.getSampler.image then 2 else 1) (TranslateImageFormat type)).1
        else
          st.2.makeImageType st.1 (TranslateDimensionality type.getSampler)
            type.getSampler.shadow type.getSampler.arrayed type.getSampler.ms
            (if type.getSampler.image then 2 else 1) (TranslateImageFormat type)).2 := by
    intro st hst
    simp only [spv.Builder.makeImageType, spv.Builder.makeSampledImageType]
    split
    · exact hst.thenBuilder ((spv.Builder.makeType_ext _ _ (by rfl)).thenBuilder
        (spv.Builder.makeType_ext _ _ (by rfl)))
    · exact hst.thenBuilder (spv.Builder.makeType_ext _ _ (by rfl))
  unfold basicResult
  simp only [spv.Builder.makeVoidType, spv.Builder.makeFloatType, spv.Builder.makeBoolType,
    spv.Builder.makeIntType, spv.Builder.makeUintType]
  split
  any_goals exact spv.Builder.makeType_ext _ _ (by rfl)
  · apply key
    split <;> exact spv.Builder.makeType_ext _ _ (by rfl)
  · exact spv.Builder.Ext.sameBuilder b

theorem fields_ext (I : TIntermediate) (basicType : TBasicType) (glslangStruct : Nat)
    (explicitLayout : TLayoutPacking) (matrixLayout : TLayoutMatrix) (members : List TType)
    (ih : ∀ t ∈ members, ∀ p m self, Ext self (convertGlslangToSpvType I t p m self).2) :
    ∀ i memberDelta structFields self,
      Ext self (convertStructFields I basicType glslangStruct explicitLayout matrixLayout
        members i memberDelta structFields self).2 := by
  induction members with
  | nil => intro i d f self; simp only [convertStructFields]; exact Ext.refl self
  | cons t rest ihr =>
    intro i d f self
    have ihr' := ihr (fun t' ht' => ih t' (List.mem_cons_of_mem _ ht'))
    have hset : ∀ v, Ext self
        (if basicType = .EbtBlock then self.setMemberRemapper glslangStruct i v else self) := by
      intro v
      split
      · exact Ext.ofEq rfl rfl
      · exact Ext.refl self
    rw [convertStructFields]
    split
    · exact (hset _).trans (ihr' _ _ _ _)
    · exact ((hset _).trans (ih t (List.mem_cons_self _ _) _ _ _)).trans (ihr' _ _ _ _)

theorem fieldsLowered_ext (I : TIntermediate) (type : TType) (explicitLayout : TLayoutPacking)
    (matrixLayout : TLayoutMatrix) (self : TGlslangToSpvTraverser)
    (ih : ∀ t ∈ type.getStruct, ∀ p m self, Ext self (convertGlslangToSpvType I t p m self).2) :
    Ext self (fieldsLowered I type explicitLayout matrixLayout self).2 := by
  unfold fieldsLowered
  refine Ext.trans ?_ (fields_ext I _ _ _ _ _ ih _ _ _ _)
  split
  · exact Ext.ofEq rfl rfl
  · exact Ext.refl self

@[simp] theorem structCached_uniqueId (I : TIntermediate) (type : TType)
    (explicitLayout : TLayoutPacking) (matrixLayout : TLayoutMatrix)
    (self : TGlslangToSpvTraverser) :
    (structCached I type explicitLayout matrixLayout self).builder.uniqueId =
      newStructId I type explicitLayout matrixLayout self := rfl

@[simp] theorem structCached_decorations (I : TIntermediate) (type : TType)
    (explicitLayout : TLayoutPacking) (matrixLayout : TLayoutMatrix)
    (self : TGlslangToSpvTraverser) :
    (structCached I type explicitLayout matrixLayout self).builder.decorations =
      (fieldsLowered I type explicitLayout matrixLayout self).2.builder.decorations := rfl

@[simp] theorem structCached_memberRemapper (I : TIntermediate) (type : TType)
    (explicitLayout : TLayoutPacking) (matrixLayout : TLayoutMatrix)
    (self : TGlslangToSpvTraverser) :
    (structCached I type explicitLayout matrixLayout self).memberRemapper =
      (fieldsLowered I type explicitLayout matrixLayout self).2.memberRemapper := rfl

theorem structCached_structMap (I : TIntermediate) (type : TType)
    (explicitLayout : TLayoutPacking) (matrixLayout : TLayoutMatrix)
    (self : TGlslangToSpvTraverser) (p : TLayoutPacking) (m : TLayoutMatrix) (k : Nat) :
    (structCached I type explicitLayout matrixLayout self).structMap p m k =
      if p = explicitLayout ∧ m = matrixLayout ∧ k = type.getStructId then
        newStructId I type explicitLayout matrixLayout self
      else (fieldsLowered I type explicitLayout matrixLayout self).2.structMap p m k := rfl

theorem structCached_ext (I : TIntermediate) (type : TType) (explicitLayout : TLayoutPacking)
    (matrixLayout : TLayoutMatrix) (self : TGlslangToSpvTraverser)
    (miss : self.structMap explicitLayout matrixLayout type.getStructId = 0)
    (hf : Ext self (fieldsLowered I type explicitLayout matrixLayout self).2) :
    Ext self (structCached I type explicitLayout matrixLayout self) := by
  refine ⟨?_, ?_, ?_, ?_, fun e he => List.mem_cons_of_mem _ (hf.types e he)⟩
  · rw [structCached_uniqueId]
    exact Nat.le_succ_of_le hf.uniqueId
  · rw [structCached_decorations]
    exact hf.decorations
  · intro hw
    have hw' := hf.wf hw
    refine ⟨?_, ?_, ?_⟩
    · exact spv.Builder.declareType_wf _ _ hw'.builder
    · intro p m k
      rw [structCached_structMap, structCached_uniqueId]
      split
      · exact le_refl _
      · exact Nat.le_succ_of_le (hw'.structMap_le p m k)
    · intro p m k p' m' k'
      rw [structCached_structMap, structCached_structMap]
      have hlt : ∀ p m k, (fieldsLowered I type explicitLayout matrixLayout self).2.structMap p m k
          < newStructId I type explicitLayout matrixLayout self :=
        fun p m k => Nat.lt_succ_of_le (hw'.structMap_le p m k)
      split <;> split
      · next h1 h2 =>
        intro _ _
        exact ⟨h1.1.trans h2.1.symm, h1.2.1.trans h2.2.1.symm, h1.2.2.trans h2.2.2.symm⟩
      · intro _ he
        exact absurd he (Nat.ne_of_gt (hlt p' m' k'))
      · intro _ he
        exact absurd he (Nat.ne_of_lt (hlt p m k))
      · exact hw'.structMap_inj p m k p' m' k'
  · intro p m k hk
    rw [structCached_structMap]
    split
    · next h =>
      obtain ⟨rfl, rfl, rfl⟩ := h
      exact absurd miss hk
    · exact hf.structMap p m k hk

/-- Lowering any type extends the traverser: handles and decorations are only added,
well-formedness is kept, filled cache entries are kept. -/
theorem convert_ext (I : TIntermediate) :
    ∀ (type : TType) (explicitLayout : TLayoutPacking) (matrixLayout : TLayoutMatrix)
      (self : TGlslangToSpvTraverser),
      Ext self (convertGlslangToSpvType I type explicitLayout matrixLayout self).2 := by
  intro type
  induction type using TType.induct with
  | h type ih =>
    intro p m self
    by_cases hs : type.getBasicType = .EbtStruct ∨ type.getBasicType = .EbtBlock
    · by_cases hit : self.structMap p m type.getStructId = 0
      · rw [convert_miss I _ p m self hs hit]
        refine Ext.trans ?_ (wrapType_ext _ _ _ _ _ _)
        refine (structCached_ext I _ p m self hit (fieldsLowered_ext I _ p m self ih)).trans_emit
          _ ?_
        intro _ d hd
        rw [structCached_uniqueId]
        simp only [structCaseInstrs, List.mem_append] at hd
        rcases hd with hd | hd
        · exact le_of_eq (membersInstrs_id _ _ _ _ _ _ _ _ _ d hd).1
        · exact le_of_eq (structInstrs_id _ _ _ _ d hd).1
      · rw [convert_hit I _ p m self hs hit]
        exact wrapType_ext _ _ _ _ _ _
    · rw [convert_basic I _ p m self (fun h => hs (Or.inl h)) (fun h => hs (Or.inr h))]
      exact (Ext.of_builder self _ (basicResult_ext _ _)).trans (wrapType_ext _ _ _ _ _ _)

end TGlslangToSpvTraverser

/-! ## The member-index remapper -/

namespace TGlslangToSpvTraverser

theorem containsBlock_false (t : TType) (h : t.containsBlock = false) :
    t.getBasicType ≠ .EbtBlock ∧ anyContainsBlock t.getStruct = false := by
  obtain ⟨bt, q, s, vs, mc, mr, as, hd, fn, tn, sid, ms⟩ := t
  simp only [TType.containsBlock, Bool.or_eq_false_iff, beq_eq_false_iff_ne, ne_eq] at h
  exact ⟨h.1, h.2⟩

theorem anyContainsBlock_false (ms : List TType) (h : anyContainsBlock ms = false) :
    ∀ t ∈ ms, t.containsBlock = false := by
  induction ms with
  | nil => intro t ht; simp at ht
  | cons t ms ih =>
    simp only [anyContainsBlock, Bool.or_eq_false_iff] at h
    intro t' ht'
    rcases List.mem_cons.1 ht' with rfl | ht'
    · exact h.1
    · exact ih h.2 t' ht'

@[simp] theorem wrapType_memberRemapper (I : TIntermediate) (type : TType)
    (explicitLayout : TLayoutPacking) (matrixLayout : TLayoutMatrix) (id : spv.Id)
    (self : TGlslangToSpvTraverser) :
    (wrapType I type explicitLayout matrixLayout id self).2.memberRemapper =
      self.memberRemapper := by
  rw [wrapType_eq]; rfl

@[simp] theorem wrapType_structMap (I : TIntermediate) (type : TType)
    (explicitLayout : TLayoutPacking) (matrixLayout : TLayoutMatrix) (id : spv.Id)
    (self : TGlslangToSpvTraverser) :
    (wrapType I type explicitLayout matrixLayout id self).2.structMap = self.structMap := by
  rw [wrapType_eq]; rfl

theorem fields_memberRemapper (I : TIntermediate) (basicType : TBasicType)
    (glslangStruct : Nat) (explicitLayout : TLayoutPacking) (matrixLayout : TLayoutMatrix)
    (members : List TType) (hb : basicType ≠ .EbtBlock)
    (ih : ∀ t ∈ members, ∀ p m self,
      (convertGlslangToSpvType I t p m self).2.memberRemapper = self.memberRemapper) :
    ∀ i memberDelta structFields self,
      (convertStructFields I basicType glslangStruct explicitLayout matrixLayout
        members i memberDelta structFields self).2.memberRemapper = self.memberRemapper := by
  induction members with
  | nil => intro i d f self; simp only [convertStructFields]
  | cons t rest ihr =>
    intro i d f self
    have ihr' := ihr (fun t' ht' => ih t' (List.mem_cons_of_mem _ ht'))
    rw [convertStructFields]
    simp only [hb, if_false]
    split
    · exact ihr' _ _ _ _
    · rw [ihr', ih t (List.mem_cons_self _ _)]

/-- Lowering a type that contains no block leaves the member-index remapper alone. -/
theorem convert_memberRemapper (I : TIntermediate) :
    ∀ (type : TType), type.containsBlock = false →
      ∀ (explicitLayout : TLayoutPacking) (matrixLayout : TLayoutMatrix)
        (self : TGlslangToSpvTraverser),
        (convertGlslangToSpvType I type explicitLayout matrixLayout self).2.memberRemapper =
          self.memberRemapper := by
  intro type
  induction type using TType.induct with
  | h type ih =>
    intro hc p m self
    obtain ⟨hnb, hms⟩ := containsBlock_false type hc
    by_cases hs : type.getBasicType = .EbtStruct ∨ type.getBasicType = .EbtBlock
    · by_cases hit : self.structMap p m type.getStructId = 0
      · rw [convert_miss I _ p m self hs hit, wrapType_memberRemapper, emit_memberRemapper,
          structCached_memberRemapper]
        unfold fieldsLowered
        rw [fields_memberRemapper I _ _ _ _ _ hnb
          (fun t ht => ih t ht (anyContainsBlock_false _ hms t ht))]
        simp only [hnb, if_false]
      · rw [convert_hit I _ p m self hs hit, wrapType_memberRemapper]
    · rw [convert_basic I _ p m self (fun h => hs (Or.inl h)) (fun h => hs (Or.inr h)),
        wrapType_memberRemapper]

theorem fields_remap (I : TIntermediate) (glslangStruct : Nat)
    (explicitLayout : TLayoutPacking) (matrixLayout : TLayoutMatrix) (members : List TType)
    (hc : anyContainsBlock members = false) :
    ∀ (i : Nat) (memberDelta : Int) (k : Nat) (structFields : List spv.Id)
      (self : TGlslangToSpvTraverser) (done pad : List Int),
      (i : Int) - memberDelta = k → done.length = i → pad.length = members.length →
      self.memberRemapper glslangStruct = done ++ pad →
      (convertStructFields I .EbtBlock glslangStruct explicitLayout matrixLayout
        members i memberDelta structFields self).2.memberRemapper glslangStruct =
        done ++ remapFrom k members := by
  induction members with
  | nil =>
    intro i d k f self done pad _ _ hp hm
    simp only [convertStructFields, remapFrom]
    rw [hm, List.length_eq_zero.1 hp]
  | cons t rest ihr =>
    intro i d k f self done pad hk hd hp hm
    simp only [anyContainsBlock, Bool.or_eq_false_iff] at hc
    obtain ⟨x, pad', rfl⟩ : ∃ x pad', pad = x :: pad' := by
      cases pad with
      | nil => simp at hp
      | cons x pad' => exact ⟨x, pad', rfl⟩
    have hp' : pad'.length = rest.length := by simpa using hp
    have hset : ∀ v, (self.setMemberRemapper glslangStruct i v).memberRemapper glslangStruct =
        (done ++ [v]) ++ pad' := by
      intro v
      simp only [setMemberRemapper, if_true, hm]
      rw [← hd, List.set_append_right _ _ (le_refl _)]
      simp
    rw [convertStructFields, remapFrom]
    simp only [if_true]
    split
    · rw [ihr hc.2 (i + 1) (d + 1) k _ _ (done ++ [-1]) pad' (by push_cast; omega) (by simp [hd]) hp'
        (hset _)]
      simp
    · rw [ihr hc.2 (i + 1) d (k + 1) _ _ (done ++ [(k : Int)]) pad' (by push_cast; omega)
        (by simp [hd]) hp'
        (by rw [convert_memberRemapper I t hc.1, ← hk]; exact hset _)]
      simp

theorem fieldsLowered_remap (I : TIntermediate) (type : TType) (explicitLayout : TLayoutPacking)
    (matrixLayout : TLayoutMatrix) (self : TGlslangToSpvTraverser)
    (hb : type.getBasicType = .EbtBlock) (hc : anyContainsBlock type.getStruct = false) :
    (fieldsLowered I type explicitLayout matrixLayout self).2.memberRemapper type.getStructId =
      remapFrom 0 type.getStruct := by
  unfold fieldsLowered
  simp only [hb, if_true]
  have := fields_remap I type.getStructId explicitLayout matrixLayout type.getStruct hc 0 0 0 []
    (self.resizeMemberRemapper type.getStructId type.getStruct.length) []
    ((self.memberRemapper type.getStructId).take type.getStruct.length ++
      List.replicate (type.getStruct.length - (self.memberRemapper type.getStructId).length) 0)
    (by simp) rfl (by simp; omega) (by simp [resizeMemberRemapper])
  simpa using this

end TGlslangToSpvTraverser

/-! ## What a cache miss attaches to the new struct type -/

namespace TGlslangToSpvTraverser

theorem membersInstrs_struct (I : TIntermediate) (type : TType) (explicitLayout : TLayoutPacking)
    (matrixLayout : TLayoutMatrix) (spvType : spv.Id) (remap : List Int)
    (hb : type.getBasicType ≠ .EbtBlock) (members : List TType) (i : Nat) (offset : Int) :
    membersInstrs I type explicitLayout matrixLayout spvType remap i members offset =
      decoratedInstrs I type explicitLayout matrixLayout spvType i members offset := by
  induction members generalizing i offset with
  | nil => rfl
  | cons t rest ih =>
    have hi : memberIndex type remap i = (i : Int) := by simp [memberIndex, hb]
    rw [membersInstrs, decoratedInstrs, hi, if_pos (by positivity), ih]

theorem getD_append_length (done : List Int) (x : Int) (rest : List Int) :
    (done ++ x :: rest).getD done.length 0 = x := by
  induction done with
  | nil => rfl
  | cons y done ih => simpa using ih

theorem membersInstrs_block (I : TIntermediate) (type : TType) (explicitLayout : TLayoutPacking)
    (matrixLayout : TLayoutMatrix) (spvType : spv.Id)
    (hb : type.getBasicType = .EbtBlock) (members : List TType) (done : List Int) (k : Nat)
    (offset : Int) :
    membersInstrs I type explicitLayout matrixLayout spvType (done ++ remapFrom k members)
        done.length members offset =
      decoratedInstrs I type explicitLayout matrixLayout spvType k
        (members.filter (fun t => !t.hiddenMember)) offset := by
  induction members generalizing done k offset with
  | nil => rfl
  | cons t rest ih =>
    rw [membersInstrs]
    by_cases hh : t.hiddenMember = true
    · have hi : memberIndex type (done ++ remapFrom k (t :: rest)) done.length = -1 := by
        simp only [memberIndex, hb, remapFrom, hh, if_true]
        exact getD_append_length _ _ _
      have := ih (done ++ [-1]) k offset
      simp only [List.length_append, List.length_singleton, List.append_assoc,
        List.singleton_append] at this
      rw [hi, if_neg (by decide), List.filter_cons_of_neg (by simp [hh])]
      rw [remapFrom, if_pos hh]
      exact this
    · have hi : memberIndex type (done ++ remapFrom k (t :: rest)) done.length = (k : Int) := by
        simp only [memberIndex, hb, remapFrom, hh, if_true, if_false, Bool.false_eq_true]
        exact getD_append_length _ _ _
      have := ih (done ++ [(k : Int)]) (k + 1)
        (offsetStep I type explicitLayout matrixLayout t offset).2
      simp only [List.length_append, List.length_singleton, List.append_assoc,
        List.singleton_append] at this
      rw [hi, if_pos (by positivity), List.filter_cons_of_pos (by simp [hh]), decoratedInstrs]
      rw [remapFrom, if_neg hh]
      rw [this]

theorem structCaseInstrs_eq (I : TIntermediate) (type : TType) (explicitLayout : TLayoutPacking)
    (matrixLayout : TLayoutMatrix) (self : TGlslangToSpvTraverser)
    (hc : type.getBasicType = .EbtBlock → anyContainsBlock type.getStruct = false) :
    structCaseInstrs I type explicitLayout matrixLayout self =
      decoratedInstrs I type explicitLayout matrixLayout
        (newStructId I type explicitLayout matrixLayout self) 0 (decoratedMembers type) (-1)
      ++ structInstrs I type matrixLayout (newStructId I type explicitLayout matrixLayout self) := by
  unfold structCaseInstrs decoratedMembers
  by_cases hb : type.getBasicType = .EbtBlock
  · rw [fieldsLowered_remap I type explicitLayout matrixLayout self hb (hc hb), if_pos hb]
    have := membersInstrs_block I type explicitLayout matrixLayout
      (newStructId I type explicitLayout matrixLayout self) hb type.getStruct [] 0 (-1)
    simp only [List.nil_append, List.length_nil] at this
    rw [this]
  · rw [membersInstrs_struct I type explicitLayout matrixLayout _ _ hb, if_neg hb]

theorem filterMap_memberDecoration_of_id_lt (id : spv.Id) (dec : spv.Decoration)
    (l : List spv.Instruction) (h : ∀ d ∈ l, d.id < id) :
    l.filterMap (spv.Instruction.memberDecoration? id dec) = [] := by
  rw [List.filterMap_eq_nil_iff]
  intro d hd
  have := h d hd
  cases d with
  | OpMemberName _ _ _ => rfl
  | OpDecorate _ _ _ => rfl
  | OpMemberDecorate id' mem dec' num =>
    simp only [spv.Instruction.id] at this
    simp [spv.Instruction.memberDecoration?, Nat.ne_of_lt this]

theorem filterMap_memberDecoration_of_not_member (id : spv.Id) (dec : spv.Decoration)
    (l : List spv.Instruction) (h : ∀ d ∈ l, d.isMember = false) :
    l.filterMap (spv.Instruction.memberDecoration? id dec) = [] := by
  rw [List.filterMap_eq_nil_iff]
  intro d hd
  have := h d hd
  cases d with
  | OpMemberName _ _ _ => rfl
  | OpDecorate _ _ _ => rfl
  | OpMemberDecorate id' mem dec' num => simp [spv.Instruction.isMember] at this

/-- On a cache miss the lowering caches a fresh struct handle, and the names and
decorations in the builder afterwards are those present after the member types were
lowered, then those of the decorated members, then those of the structure, then the
array stride. -/
theorem convert_miss_state (I : TIntermediate) (type : TType) (explicitLayout : TLayoutPacking)
    (matrixLayout : TLayoutMatrix) (self : TGlslangToSpvTraverser)
    (hs : type.getBasicType = .EbtStruct ∨ type.getBasicType = .EbtBlock)
    (miss : self.structMap explicitLayout matrixLayout type.getStructId = 0)
    (hc : type.getBasicType = .EbtBlock → anyContainsBlock type.getStruct = false) :
    (convertGlslangToSpvType I type explicitLayout matrixLayout self).2.structMap explicitLayout
        matrixLayout type.getStructId = newStructId I type explicitLayout matrixLayout self ∧
    ∃ tail, (∀ d ∈ tail, d.isMember = false) ∧
      (convertGlslangToSpvType I type explicitLayout matrixLayout self).2.builder.decorations =
        (fieldsLowered I type explicitLayout matrixLayout self).2.builder.decorations
        ++ decoratedInstrs I type explicitLayout matrixLayout
            (newStructId I type explicitLayout matrixLayout self) 0 (decoratedMembers type) (-1)
        ++ tail := by
  rw [convert_miss I type explicitLayout matrixLayout self hs miss]
  constructor
  · rw [wrapType_structMap, emit_structMap, structCached_structMap]
    simp
  · rw [wrapType_eq]
    refine ⟨structInstrs I type matrixLayout (newStructId I type explicitLayout matrixLayout self)
      ++ arrayStrideInstrs I type explicitLayout matrixLayout
        (wrapResult type (newStructId I type explicitLayout matrixLayout self)
          ((structCached I type explicitLayout matrixLayout self).emit
            (structCaseInstrs I type explicitLayout matrixLayout self)).builder).1, ?_, ?_⟩
    · intro d hd
      rcases List.mem_append.1 hd with hd | hd
      · exact (structInstrs_id _ _ _ _ d hd).2
      · exact (arrayStrideInstrs_id _ _ _ _ _ d hd).2.1
    · simp only [emit_decorations, (wrapResult_ext _ _ _).decorations,
        structCached_decorations, structCaseInstrs_eq I type explicitLayout matrixLayout self hc,
        List.append_assoc]

/-- The member decorations of kind `dec` a cache miss leaves on the new struct handle
are exactly those issued for the decorated members. -/
theorem lowered_memberDecorations (I : TIntermediate) (type : TType)
    (explicitLayout : TLayoutPacking) (matrixLayout : TLayoutMatrix)
    (self : TGlslangToSpvTraverser) (dec : spv.Decoration)
    (hs : type.getBasicType = .EbtStruct ∨ type.getBasicType = .EbtBlock)
    (hw : self.WF)
    (miss : self.structMap explicitLayout matrixLayout type.getStructId = 0)
    (hc : type.getBasicType = .EbtBlock → anyContainsBlock type.getStruct = false) :
    (convertGlslangToSpvType I type explicitLayout matrixLayout self).2.builder.memberDecorations
        ((convertGlslangToSpvType I type explicitLayout matrixLayout self).2.structMap
          explicitLayout matrixLayout type.getStructId) dec =
      (decoratedInstrs I type explicitLayout matrixLayout
        ((convertGlslangToSpvType I type explicitLayout matrixLayout self).2.structMap
          explicitLayout matrixLayout type.getStructId) 0 (decoratedMembers type) (-1)).filterMap
        (spv.Instruction.memberDecoration? ((convertGlslangToSpvType I type explicitLayout
          matrixLayout self).2.structMap explicitLayout matrixLayout type.getStructId) dec) := by
  obtain ⟨h1, tail, ht, h2⟩ := convert_miss_state I type explicitLayout matrixLayout self hs miss hc
  rw [h1]
  unfold spv.Builder.memberDecorations
  rw [h2, List.filterMap_append, List.filterMap_append,
    filterMap_memberDecoration_of_not_member _ _ tail ht, List.append_nil]
  rw [filterMap_memberDecoration_of_id_lt, List.nil_append]
  intro d hd
  have hf := (fieldsLowered_ext I type explicitLayout matrixLayout self
    (fun t _ p m s => convert_ext I t p m s)).wf hw
  exact Nat.lt_succ_of_le (hf.builder.decorations d hd)

end TGlslangToSpvTraverser

/-! ## Rounding -/

namespace glslang

theorem RoundToPow2_le (n a : Int) (ha : 0 < a) : n ≤ RoundToPow2 n a := by
  unfold RoundToPow2
  have h := Int.lt_ediv_add_one_mul_self (n + a - 1) ha
  linarith

theorem RoundToPow2_lt (n a : Int) (ha : 0 < a) : RoundToPow2 n a < n + a := by
  unfold RoundToPow2
  have h := Int.ediv_mul_le (n + a - 1) (Int.ne_of_gt ha)
  linarith

theorem RoundToPow2_dvd (n a : Int) : a ∣ RoundToPow2 n a :=
  Dvd.intro_left _ rfl

theorem RoundToPow2_of_dvd (n a : Int) (ha : 0 < a) (h : a ∣ n) : RoundToPow2 n a = n := by
  obtain ⟨c, rfl⟩ := h
  obtain ⟨q, hq⟩ := RoundToPow2_dvd (a * c) a
  have h1 := RoundToPow2_le (a * c) a ha
  have h2 := RoundToPow2_lt (a * c) a ha
  rw [hq] at h1 h2 ⊢
  have h3 : c ≤ q := le_of_mul_le_mul_left h1 ha
  have h4 : q < c + 1 := by
    apply lt_of_mul_lt_mul_left _ (le_of_lt ha)
    linarith
  have : q = c := by omega
  rw [this]

theorem RoundToPow2_nonneg (n a : Int) (ha : 0 < a) (hn : 0 ≤ n) : 0 ≤ RoundToPow2 n a :=
  le_trans hn (RoundToPow2_le n a ha)

end glslang

/-! ## Offsets and matrix strides of the decorated members -/

namespace TGlslangToSpvTraverser

theorem optMemberDecorate_filterMap (id : spv.Id) (member : Int) (dec dec' : spv.Decoration)
    (h : dec' ≠ dec) :
    (optMemberDecorate id member dec').filterMap (spv.Instruction.memberDecoration? id dec) =
      [] := by
  unfold optMemberDecorate
  split <;> simp [spv.Instruction.memberDecoration?, h]

theorem TranslateLayoutDecoration_ne (t : TType) (m : TLayoutMatrix) :
    TranslateLayoutDecoration t m ≠ .Offset ∧ TranslateLayoutDecoration t m ≠ .MatrixStride := by
  unfold TranslateLayoutDecoration
  repeat' split
  all_goals exact ⟨by decide, by decide⟩

theorem TranslatePrecisionDecoration_ne (t : TType) :
    TranslatePrecisionDecoration t ≠ .Offset ∧ TranslatePrecisionDecoration t ≠ .MatrixStride := by
  unfold TranslatePrecisionDecoration
  split <;> exact ⟨by decide, by decide⟩

theorem TranslateInterpolationDecoration_ne (t : TType) :
    TranslateInterpolationDecoration t ≠ .Offset ∧
      TranslateInterpolationDecoration t ≠ .MatrixStride := by
  unfold TranslateInterpolationDecoration
  split_ifs <;> exact ⟨by decide, by decide⟩

theorem TranslateInvariantDecoration_ne (t : TType) :
    TranslateInvariantDecoration t ≠ .Offset ∧ TranslateInvariantDecoration t ≠ .MatrixStride := by
  unfold TranslateInvariantDecoration
  split <;> exact ⟨by decide, by decide⟩

theorem memberInstrs_offset (I : TIntermediate) (type : TType) (explicitLayout : TLayoutPacking)
    (matrixLayout : TLayoutMatrix) (spvType : spv.Id) (member : Int) (t : TType) (offset : Int) :
    (memberInstrs I type explicitLayout matrixLayout spvType member t offset).filterMap
        (spv.Instruction.memberDecoration? spvType .Offset) =
      match (offsetStep I type explicitLayout matrixLayout t offset).1 with
      | some o => [(member, spv.Operand.num o)]
      | none => [] := by
  unfold memberInstrs
  simp only [List.filterMap_append,
    optMemberDecorate_filterMap _ _ _ _ (TranslateLayoutDecoration_ne _ _).1,
    optMemberDecorate_filterMap _ _ _ _ (TranslatePrecisionDecoration_ne _).1,
    optMemberDecorate_filterMap _ _ _ _ (TranslateInterpolationDecoration_ne _).1,
    optMemberDecorate_filterMap _ _ _ _ (TranslateInvariantDecoration_ne _).1]
  cases (offsetStep I type explicitLayout matrixLayout t offset).1 <;>
    split_ifs <;> simp [spv.Instruction.memberDecoration?]

theorem memberInstrs_matrixStride (I : TIntermediate) (type : TType)
    (explicitLayout : TLayoutPacking) (matrixLayout : TLayoutMatrix) (spvType : spv.Id)
    (member : Int) (t : TType) (offset : Int) :
    (memberInstrs I type explicitLayout matrixLayout spvType member t offset).filterMap
        (spv.Instruction.memberDecoration? spvType .MatrixStride) =
      if t.isMatrix ∧ explicitLayout ≠ .ElpNone then
        [(member, spv.Operand.num (memberAlignment I explicitLayout matrixLayout t))]
      else [] := by
  unfold memberInstrs
  simp only [List.filterMap_append,
    optMemberDecorate_filterMap _ _ _ _ (TranslateLayoutDecoration_ne _ _).2,
    optMemberDecorate_filterMap _ _ _ _ (TranslatePrecisionDecoration_ne _).2,
    optMemberDecorate_filterMap _ _ _ _ (TranslateInterpolationDecoration_ne _).2,
    optMemberDecorate_filterMap _ _ _ _ (TranslateInvariantDecoration_ne _).2]
  cases (offsetStep I type explicitLayout matrixLayout t offset).1 <;>
    split_ifs <;> simp [spv.Instruction.memberDecoration?, getMatrixStride, memberAlignment]

theorem decoratedInstrs_offset (I : TIntermediate) (type : TType)
    (explicitLayout : TLayoutPacking) (matrixLayout : TLayoutMatrix) (spvType : spv.Id)
    (members : List TType) (k : Nat) (offset : Int) :
    (decoratedInstrs I type explicitLayout matrixLayout spvType k members offset).filterMap
        (spv.Instruction.memberDecoration? spvType .Offset) =
      offsetDecorations I type explicitLayout matrixLayout k members offset := by
  induction members generalizing k offset with
  | nil => rfl
  | cons t rest ih =>
    rw [decoratedInstrs, offsetDecorations, List.filterMap_append, memberInstrs_offset, ih]

theorem decoratedInstrs_matrixStride (I : TIntermediate) (type : TType)
    (explicitLayout : TLayoutPacking) (matrixLayout : TLayoutMatrix) (spvType : spv.Id)
    (hp : explicitLayout ≠ .ElpNone) (members : List TType) (k : Nat) (offset : Int) :
    (decoratedInstrs I type explicitLayout matrixLayout spvType k members offset).filterMap
        (spv.Instruction.memberDecoration? spvType .MatrixStride) =
      ((members.enumFrom k).filter (fun e => e.2.isMatrix)).map
        (fun e => ((e.1 : Int), spv.Operand.num (memberAlignment I explicitLayout matrixLayout e.2)))
    := by
  induction members generalizing k offset with
  | nil => rfl
  | cons t rest ih =>
    rw [decoratedInstrs, List.filterMap_append, memberInstrs_matrixStride, ih, List.enumFrom_cons]
    by_cases hm : t.isMatrix = true
    · simp [hm, hp]
    · simp [hm]

end TGlslangToSpvTraverser

/-! ## Offsets under std140 and std430 -/

namespace TGlslangToSpvTraverser

theorem WF_init : ({} : TGlslangToSpvTraverser).WF := by
  refine ⟨⟨?_, ?_, ?_⟩, ?_, ?_⟩
  · intro d hd; cases hd
  · intro e he; cases he
  · intro r₁ r₂ id h; cases h
  · intro p m k; exact le_refl _
  · intro p m k p' m' k' h; exact absurd rfl h

theorem wrapInt32_of_fits (x : Int) (h₁ : -2147483648 ≤ x) (h₂ : x < 2147483648) :
    wrapInt32 x = x := by
  unfold wrapInt32
  omega

theorem offsetStep_std (I : TIntermediate) (type : TType) (explicitLayout : TLayoutPacking)
    (matrixLayout : TLayoutMatrix) (t : TType) (offset : Int)
    (hp : explicitLayout ≠ .ElpNone) (hx : t.getQualifier.hasXfbOffset = false)
    (ha : 0 < memberAlignment I explicitLayout matrixLayout t) :
    offsetStep I type explicitLayout matrixLayout t offset =
      (some (RoundToPow2
          (max (if t.getQualifier.hasOffset then t.getQualifier.layoutOffset else offset) 0)
          (memberAlignment I explicitLayout matrixLayout t)),
        wrapInt32 (RoundToPow2
          (max (if t.getQualifier.hasOffset then t.getQualifier.layoutOffset else offset) 0)
          (memberAlignment I explicitLayout matrixLayout t)
        + memberSize I explicitLayout matrixLayout t)) := by
  have hmax : ∀ c : Int, (if c < 0 then 0 else c) = max c 0 := by
    intro c
    split
    · rw [max_eq_right (by omega)]
    · rw [max_eq_left (by omega)]
  simp only [offsetStep, updateMemberOffset, hx, hp, Bool.false_eq_true, if_false, ne_eq,
    not_false_eq_true, if_true, hmax]
  have h0 := RoundToPow2_nonneg
    (max (if t.getQualifier.hasOffset then t.getQualifier.layoutOffset else offset) 0)
    (memberAlignment I explicitLayout matrixLayout t) ha (le_max_right _ _)
  simp only [memberAlignment, memberSize] at h0 ⊢
  rw [if_pos h0]

theorem offsetDecorations_eq_layoutOffsets (I : TIntermediate) (type : TType)
    (explicitLayout : TLayoutPacking) (matrixLayout : TLayoutMatrix)
    (hp : explicitLayout ≠ .ElpNone) (members : List TType)
    (h : ∀ t ∈ members, t.getQualifier.hasXfbOffset = false ∧
      0 < memberAlignment I explicitLayout matrixLayout t) (k : Nat) (offset : Int)
    (hfit : ∀ p ∈ members.zip (layoutOffsets I explicitLayout matrixLayout members offset),
      -2147483648 ≤ p.2 + memberSize I explicitLayout matrixLayout p.1 ∧
      p.2 + memberSize I explicitLayout matrixLayout p.1 < 2147483648) :
    offsetDecorations I type explicitLayout matrixLayout k members offset =
      ((layoutOffsets I explicitLayout matrixLayout members offset).enumFrom k).map
        (fun e => ((e.1 : Int), spv.Operand.num e.2)) := by
  induction members generalizing k offset with
  | nil => rfl
  | cons t rest ih =>
    obtain ⟨hx, ha⟩ := h t (List.mem_cons_self _ _)
    simp only [layoutOffsets, List.zip_cons_cons, List.mem_cons, forall_eq_or_imp] at hfit
    rw [offsetDecorations, offsetStep_std I type explicitLayout matrixLayout t offset hp hx ha,
      wrapInt32_of_fits _ hfit.1.1 hfit.1.2,
      ih (fun t' ht' => h t' (List.mem_cons_of_mem _ ht')) _ _ hfit.2, layoutOffsets]
    simp [List.enumFrom_cons]

/-- The offsets the layout rules give are not negative. -/
theorem layoutOffsets_nonneg (I : TIntermediate) (explicitLayout : TLayoutPacking)
    (matrixLayout : TLayoutMatrix) (members : List TType)
    (hal : ∀ t ∈ members, 0 < memberAlignment I explicitLayout matrixLayout t) (offset : Int) :
    ∀ p ∈ members.zip (layoutOffsets I explicitLayout matrixLayout members offset),
      0 ≤ p.2 := by
  induction members generalizing offset with
  | nil => intro p hp; simp [layoutOffsets] at hp
  | cons t rest ih =>
    intro p hp
    simp only [layoutOffsets, List.zip_cons_cons, List.mem_cons] at hp
    rcases hp with rfl | hp
    · exact RoundToPow2_nonneg _ _ (hal t (List.mem_cons_self _ _)) (le_max_right _ _)
    · exact ih (fun x hx => hal x (List.mem_cons_of_mem _ hx)) _ p hp

/-- When the end of every member under the layout rules is below `2^31` (alignments
positive, sizes not negative), every sum of an offset and a size fits an `int`. -/
theorem layoutOffsets_fit (I : TIntermediate) (explicitLayout : TLayoutPacking)
    (matrixLayout : TLayoutMatrix) (members : List TType)
    (hal : ∀ t ∈ members, 0 < memberAlignment I explicitLayout matrixLayout t ∧
      0 ≤ memberSize I explicitLayout matrixLayout t) (offset : Int)
    (hfit : ∀ p ∈ members.zip (layoutOffsets I explicitLayout matrixLayout members offset),
      p.2 + memberSize I explicitLayout matrixLayout p.1 < 2147483648) :
    ∀ p ∈ members.zip (layoutOffsets I explicitLayout matrixLayout members offset),
      -2147483648 ≤ p.2 + memberSize I explicitLayout matrixLayout p.1 ∧
      p.2 + memberSize I explicitLayout matrixLayout p.1 < 2147483648 := by
  intro p hp
  have h₁ := layoutOffsets_nonneg I explicitLayout matrixLayout members
    (fun t ht => (hal t ht).1) offset p hp
  have h₂ := (hal p.1 (List.of_mem_zip hp).1).2
  exact ⟨by omega, hfit p hp⟩

theorem layoutOffsets_length (I : TIntermediate) (explicitLayout : TLayoutPacking)
    (matrixLayout : TLayoutMatrix) (members : List TType) (offset : Int) :
    (layoutOffsets I explicitLayout matrixLayout members offset).length = members.length := by
  induction members generalizing offset with
  | nil => rfl
  | cons t rest ih => simp [layoutOffsets, ih]

/-- A member without an explicit offset is never placed below its predecessor. -/
theorem layoutOffsets_monotone (I : TIntermediate) (explicitLayout : TLayoutPacking)
    (matrixLayout : TLayoutMatrix) (members : List TType)
    (hal : ∀ t ∈ members, 0 < memberAlignment I explicitLayout matrixLayout t ∧
      0 ≤ memberSize I explicitLayout matrixLayout t) (offset : Int) :
    List.Chain' (fun a b : TType × Int => b.1.getQualifier.hasOffset = false → a.2 ≤ b.2)
      (members.zip (layoutOffsets I explicitLayout matrixLayout members offset)) := by
  induction members generalizing offset with
  | nil => exact List.chain'_nil
  | cons t rest ih =>
    cases rest with
    | nil => simp [layoutOffsets]
    | cons t' rest' =>
      have ih' := ih (fun x hx => hal x (List.mem_cons_of_mem _ hx))
      obtain ⟨ha, hsz⟩ := hal t (List.mem_cons_self _ _)
      obtain ⟨ha', -⟩ := hal t' (List.mem_cons_of_mem _ (List.mem_cons_self _ _))
      simp only [layoutOffsets, List.zip_cons_cons] at ih' ⊢
      refine List.Chain'.cons ?_ (ih' _)
      intro hn'
      simp only [hn', Bool.false_eq_true, if_false]
      have h1 := RoundToPow2_le (max (RoundToPow2
          (max (if t.getQualifier.hasOffset then t.getQualifier.layoutOffset else offset) 0)
          (memberAlignment I explicitLayout matrixLayout t)
            + memberSize I explicitLayout matrixLayout t) 0)
        (memberAlignment I explicitLayout matrixLayout t') ha'
      have h2 := le_max_left (RoundToPow2
          (max (if t.getQualifier.hasOffset then t.getQualifier.layoutOffset else offset) 0)
          (memberAlignment I explicitLayout matrixLayout t)
            + memberSize I explicitLayout matrixLayout t) 0
      linarith

theorem lowered_offsets (I : TIntermediate) (type : TType)
    (explicitLayout : TLayoutPacking) (matrixLayout : TLayoutMatrix)
    (self : TGlslangToSpvTraverser)
    (hs : type.getBasicType = .EbtStruct ∨ type.getBasicType = .EbtBlock)
    (hw : self.WF)
    (miss : self.structMap explicitLayout matrixLayout type.getStructId = 0)
    (hc : type.getBasicType = .EbtBlock → anyContainsBlock type.getStruct = false) :
    loweredMemberDecorations I type explicitLayout matrixLayout self .Offset =
      offsetDecorations I type explicitLayout matrixLayout 0 (decoratedMembers type) (-1) := by
  unfold loweredMemberDecorations
  rw [lowered_memberDecorations I type explicitLayout matrixLayout self _ hs hw miss hc,
    decoratedInstrs_offset]

theorem offsetDecorations_index (I : TIntermediate) (type : TType)
    (explicitLayout : TLayoutPacking) (matrixLayout : TLayoutMatrix) (members : List TType)
    (k : Nat) (offset : Int) :
    ∀ e ∈ offsetDecorations I type explicitLayout matrixLayout k members offset,
      (k : Int) ≤ e.1 ∧ e.1 < (k : Int) + members.length := by
  induction members generalizing k offset with
  | nil => intro e he; simp [offsetDecorations] at he
  | cons t rest ih =>
    intro e he
    rw [offsetDecorations] at he
    rcases List.mem_append.1 he with he | he
    · split at he
      · simp only [List.mem_singleton] at he
        subst he
        simp only [List.length_cons]
        constructor <;> push_cast <;> omega
      · cases he
    · have := ih _ _ e he
      simp only [List.length_cons]
      push_cast at this ⊢
      omega

theorem offsetDecorations_append (I : TIntermediate) (type : TType)
    (explicitLayout : TLayoutPacking) (matrixLayout : TLayoutMatrix) (pre post : List TType)
    (k : Nat) (offset : Int) :
    ∃ offset', offsetDecorations I type explicitLayout matrixLayout k (pre ++ post) offset =
      offsetDecorations I type explicitLayout matrixLayout k pre offset
      ++ offsetDecorations I type explicitLayout matrixLayout (k + pre.length) post offset' := by
  induction pre generalizing k offset with
  | nil => exact ⟨offset, by simp [offsetDecorations]⟩
  | cons t rest ih =>
    obtain ⟨o', ho'⟩ := ih (k + 1) (offsetStep I type explicitLayout matrixLayout t offset).2
    refine ⟨o', ?_⟩
    have hk : k + 1 + rest.length = k + (rest.length + 1) := by omega
    rw [List.cons_append, offsetDecorations, offsetDecorations, ho', List.append_assoc,
      List.length_cons, hk]

end TGlslangToSpvTraverser

/-! ## Lowering without explicit layout -/

namespace TGlslangToSpvTraverser

theorem Emits.nothing (Q : spv.Instruction → Prop) (s : TGlslangToSpvTraverser) : Emits Q s s :=
  ⟨[], by simp, fun d hd => by cases hd⟩

theorem Emits.ofDecorationsEq (Q : spv.Instruction → Prop) {s s' : TGlslangToSpvTraverser}
    (h : s'.builder.decorations = s.builder.decorations) : Emits Q s s' :=
  ⟨[], by simp [h], fun d hd => by cases hd⟩

theorem Emits.append {Q : spv.Instruction → Prop} {a b c : TGlslangToSpvTraverser}
    (h₁ : Emits Q a b) (h₂ : Emits Q b c) : Emits Q a c := by
  obtain ⟨l₁, e₁, q₁⟩ := h₁
  obtain ⟨l₂, e₂, q₂⟩ := h₂
  refine ⟨l₁ ++ l₂, by rw [e₂, e₁, List.append_assoc], ?_⟩
  intro d hd
  rcases List.mem_append.1 hd with hd | hd
  · exact q₁ d hd
  · exact q₂ d hd

theorem Emits.weaken {Q Q' : spv.Instruction → Prop} {a b : TGlslangToSpvTraverser}
    (h : Emits Q a b) (hq : ∀ d, Q d → Q' d) : Emits Q' a b := by
  obtain ⟨l, e, q⟩ := h
  exact ⟨l, e, fun d hd => hq d (q d hd)⟩

theorem Emits.ofList {Q : spv.Instruction → Prop} (s : TGlslangToSpvTraverser)
    (l : List spv.Instruction) (h : ∀ d ∈ l, Q d) : Emits Q s (s.emit l) :=
  ⟨l, rfl, h⟩

theorem mem_descendantsOfList (ms : List TType) (t : TType) (ht : t ∈ ms) :
    t ∈ descendantsOfList ms ∧ ∀ t' ∈ t.descendants, t' ∈ descendantsOfList ms := by
  induction ms with
  | nil => cases ht
  | cons x xs ih =>
    rw [descendantsOfList]
    rcases List.mem_cons.1 ht with rfl | ht
    · exact ⟨List.mem_cons_self _ _, fun t' ht' =>
        List.mem_cons_of_mem _ (List.mem_append_left _ ht')⟩
    · exact ⟨List.mem_cons_of_mem _ (List.mem_append_right _ (ih ht).1), fun t' ht' =>
        List.mem_cons_of_mem _ (List.mem_append_right _ ((ih ht).2 t' ht'))⟩

theorem descendants_eq (t : TType) : t.descendants = descendantsOfList t.getStruct := by
  obtain ⟨bt, q, s, vs, mc, mr, as, hd, fn, tn, sid, ms⟩ := t
  rfl

theorem NoLayout.sources_mono {S S' : List TType} (h : ∀ t ∈ S, t ∈ S') (d : spv.Instruction)
    (hd : NoLayout S d) : NoLayout S' d := by
  refine ⟨hd.1, hd.2.1, fun ho => ?_⟩
  obtain ⟨t, ht, hx⟩ := hd.2.2 ho
  exact ⟨t, h t ht, hx⟩

theorem Translate_ne_arrayStride (t : TType) (m : TLayoutMatrix) :
    TranslateLayoutDecoration t m ≠ .ArrayStride ∧
    TranslatePrecisionDecoration t ≠ .ArrayStride ∧
    TranslateInterpolationDecoration t ≠ .ArrayStride ∧
    TranslateInvariantDecoration t ≠ .ArrayStride ∧
    TranslateBlockDecoration t ≠ .ArrayStride ∧
    TranslateBlockDecoration t ≠ .Offset ∧
    TranslateBlockDecoration t ≠ .MatrixStride := by
  refine ⟨?_, ?_, ?_, ?_, ?_, ?_, ?_⟩
  · unfold TranslateLayoutDecoration
    repeat' split
    all_goals decide
  · unfold TranslatePrecisionDecoration
    split <;> decide
  · unfold TranslateInterpolationDecoration
    split_ifs <;> decide
  · unfold TranslateInvariantDecoration
    split <;> decide
  all_goals
    unfold TranslateBlockDecoration
    repeat' split
    all_goals decide

theorem optMemberDecorate_noLayout (S : List TType) (id : spv.Id) (member : Int)
    (dec : spv.Decoration) (h1 : dec ≠ .Offset) (h2 : dec ≠ .MatrixStride)
    (h3 : dec ≠ .ArrayStride) : ∀ d ∈ optMemberDecorate id member dec, NoLayout S d := by
  intro d hd
  unfold optMemberDecorate at hd
  split at hd
  · simp only [List.mem_singleton] at hd
    subst hd
    exact ⟨h2, h3, fun h => absurd h h1⟩
  · cases hd

theorem memberInstrs_noLayout (I : TIntermediate) (type : TType) (matrixLayout : TLayoutMatrix)
    (spvType : spv.Id) (member : Int) (t : TType) (offset : Int) :
    ∀ d ∈ memberInstrs I type .ElpNone matrixLayout spvType member t offset, NoLayout [t] d := by
  intro d hd
  have hA := Translate_ne_arrayStride t (subMatrixLayout t matrixLayout)
  simp only [memberInstrs, List.mem_append] at hd
  rcases hd with ((((((((hd | hd) | hd) | hd) | hd) | hd) | hd) | hd) | hd) | hd
  · simp only [List.mem_singleton] at hd
    subst hd
    exact ⟨by simp [spv.Instruction.decoration], by simp [spv.Instruction.decoration],
      fun h => by simp [spv.Instruction.decoration] at h⟩
  · exact optMemberDecorate_noLayout _ _ _ _ (TranslateLayoutDecoration_ne _ _).1
      (TranslateLayoutDecoration_ne _ _).2 hA.1 d hd
  · exact optMemberDecorate_noLayout _ _ _ _ (TranslatePrecisionDecoration_ne _).1
      (TranslatePrecisionDecoration_ne _).2 hA.2.1 d hd
  · exact optMemberDecorate_noLayout _ _ _ _ (TranslateInterpolationDecoration_ne _).1
      (TranslateInterpolationDecoration_ne _).2 hA.2.2.1 d hd
  · exact optMemberDecorate_noLayout _ _ _ _ (TranslateInvariantDecoration_ne _).1
      (TranslateInvariantDecoration_ne _).2 hA.2.2.2.1 d hd
  · split at hd <;> simp at hd
    subst hd
    exact ⟨by simp [spv.Instruction.decoration], by simp [spv.Instruction.decoration],
      fun h => by simp [spv.Instruction.decoration] at h⟩
  · split at hd <;> simp at hd
    subst hd
    exact ⟨by simp [spv.Instruction.decoration], by simp [spv.Instruction.decoration],
      fun h => by simp [spv.Instruction.decoration] at h⟩
  · unfold offsetStep at hd
    by_cases hx : t.getQualifier.hasXfbOffset = true
    · simp only [hx, if_true, List.mem_singleton] at hd
      subst hd
      exact ⟨by simp [spv.Instruction.decoration], by simp [spv.Instruction.decoration],
        fun _ => ⟨t, List.mem_singleton.2 rfl, hx, rfl⟩⟩
    · simp [hx] at hd
  · simp at hd
  · split at hd <;> simp at hd
    subst hd
    exact ⟨by simp [spv.Instruction.decoration], by simp [spv.Instruction.decoration],
      fun h => by simp [spv.Instruction.decoration] at h⟩

theorem membersInstrs_noLayout (I : TIntermediate) (type : TType) (matrixLayout : TLayoutMatrix)
    (spvType : spv.Id) (remap : List Int) (members : List TType) (i : Nat) (offset : Int) :
    ∀ d ∈ membersInstrs I type .ElpNone matrixLayout spvType remap i members offset,
      NoLayout members d := by
  induction members generalizing i offset with
  | nil => intro d hd; simp [membersInstrs] at hd
  | cons t rest ih =>
    intro d hd
    rw [membersInstrs] at hd
    have hrest : ∀ d, NoLayout rest d → NoLayout (t :: rest) d :=
      NoLayout.sources_mono (fun x hx => List.mem_cons_of_mem _ hx)
    split at hd
    · rcases List.mem_append.1 hd with hd | hd
      · exact NoLayout.sources_mono (fun x hx => by
          rw [List.mem_singleton.1 hx]; exact List.mem_cons_self _ _) d
          (memberInstrs_noLayout _ _ _ _ _ _ _ d hd)
      · exact hrest d (ih _ _ d hd)
    · exact hrest d (ih _ _ d hd)

theorem structInstrs_noLayout (I : TIntermediate) (type : TType) (matrixLayout : TLayoutMatrix)
    (spvType : spv.Id) (S : List TType) :
    ∀ d ∈ structInstrs I type matrixLayout spvType, NoLayout S d := by
  intro d hd
  have hA := Translate_ne_arrayStride type matrixLayout
  have hL := TranslateLayoutDecoration_ne type matrixLayout
  simp only [structInstrs, List.mem_append] at hd
  rcases hd with (((hd | hd) | hd) | hd) | hd
  · split at hd <;> simp at hd
    subst hd
    exact ⟨hL.2, hA.1, fun h => absurd h hL.1⟩
  · split at hd <;> simp at hd
    subst hd
    exact ⟨hA.2.2.2.2.2.2, hA.2.2.2.2.1, fun h => absurd h hA.2.2.2.2.2.1⟩
  all_goals
    split at hd <;> simp at hd
    subst hd
    exact ⟨by simp [spv.Instruction.decoration], by simp [spv.Instruction.decoration],
      fun h => by simp [spv.Instruction.decoration] at h⟩

theorem wrapType_emits_none (I : TIntermediate) (type : TType) (matrixLayout : TLayoutMatrix)
    (id : spv.Id) (self : TGlslangToSpvTraverser) :
    (wrapType I type .ElpNone matrixLayout id self).2.builder.decorations =
      self.builder.decorations := by
  rw [wrapType_eq]
  simp [arrayStrideInstrs, (wrapResult_ext type id self.builder).decorations]

theorem fields_noLayout (I : TIntermediate) (basicType : TBasicType) (glslangStruct : Nat)
    (matrixLayout : TLayoutMatrix) (members : List TType) (S : List TType)
    (ih : ∀ t ∈ members, ∀ m self,
      Emits (NoLayout S) self (convertGlslangToSpvType I t .ElpNone m self).2) :
    ∀ i memberDelta structFields self,
      Emits (NoLayout S) self (convertStructFields I basicType glslangStruct .ElpNone
        matrixLayout members i memberDelta structFields self).2 := by
  induction members with
  | nil => intro i d f self; simp only [convertStructFields]; exact Emits.nothing _ self
  | cons t rest ihr =>
    intro i d f self
    have ihr' := ihr (fun t' ht' => ih t' (List.mem_cons_of_mem _ ht'))
    have hset : ∀ v, Emits (NoLayout S) self
        (if basicType = .EbtBlock then self.setMemberRemapper glslangStruct i v else self) := by
      intro v
      split
      · exact Emits.ofDecorationsEq _ rfl
      · exact Emits.nothing _ self
    rw [convertStructFields]
    split
    · exact (hset _).append (ihr' _ _ _ _)
    · exact ((hset _).append (ih t (List.mem_cons_self _ _) _ _)).append (ihr' _ _ _ _)

/-- Without explicit layout, lowering a type issues no `MatrixStride`, no `ArrayStride`,
and an `Offset` only for a member that carries a transform-feedback offset. -/
theorem convert_noLayout (I : TIntermediate) :
    ∀ (type : TType) (matrixLayout : TLayoutMatrix) (self : TGlslangToSpvTraverser),
      Emits (NoLayout type.descendants) self
        (convertGlslangToSpvType I type .ElpNone matrixLayout self).2 := by
  intro type
  induction type using TType.induct with
  | h type ih =>
    intro m self
    by_cases hs : type.getBasicType = .EbtStruct ∨ type.getBasicType = .EbtBlock
    · by_cases hit : self.structMap .ElpNone m type.getStructId = 0
      · rw [convert_miss I _ _ m self hs hit]
        refine Emits.append ?_ (Emits.ofDecorationsEq _ (wrapType_emits_none _ _ _ _ _))
        have hf : Emits (NoLayout type.descendants) self
            (fieldsLowered I type .ElpNone m self).2 := by
          unfold fieldsLowered
          refine Emits.append ?_ (fields_noLayout I _ _ _ _ _ (fun t ht m' s' =>
            (ih t ht m' s').weaken (NoLayout.sources_mono (fun x hx => by
              rw [descendants_eq type]
              exact (mem_descendantsOfList _ t ht).2 x hx))) _ _ _ _)
          split
          · exact Emits.ofDecorationsEq _ rfl
          · exact Emits.nothing _ self
        refine (hf.append (Emits.ofDecorationsEq _ (structCached_decorations _ _ _ _ _))).append
          (Emits.ofList _ _ ?_)
        intro d hd
        simp only [structCaseInstrs, List.mem_append] at hd
        rcases hd with hd | hd
        · exact NoLayout.sources_mono (fun x hx => by
            rw [descendants_eq type]
            exact (mem_descendantsOfList _ x hx).1) d
            (membersInstrs_noLayout _ _ _ _ _ _ _ _ d hd)
        · exact structInstrs_noLayout _ _ _ _ _ d hd
      · rw [convert_hit I _ _ m self hs hit]
        exact Emits.ofDecorationsEq _ (wrapType_emits_none _ _ _ _ _)
    · rw [convert_basic I _ _ m self (fun h => hs (Or.inl h)) (fun h => hs (Or.inr h))]
      refine Emits.ofDecorationsEq _ ?_
      rw [wrapType_emits_none]
      exact (basicResult_ext _ _).decorations

end TGlslangToSpvTraverser

/-! ## The struct cache -/

namespace TGlslangToSpvTraverser

/-- Lowering a struct or block is, in both cache cases, the wrap of the handle its
cache entry holds afterwards, and that handle is not `0`. -/
theorem convert_struct_eq_wrap (I : TIntermediate) (type : TType)
    (explicitLayout : TLayoutPacking) (matrixLayout : TLayoutMatrix)
    (self : TGlslangToSpvTraverser)
    (hs : type.getBasicType = .EbtStruct ∨ type.getBasicType = .EbtBlock) :
    ∃ s : TGlslangToSpvTraverser,
      s.structMap explicitLayout matrixLayout type.getStructId ≠ 0 ∧
      convertGlslangToSpvType I type explicitLayout matrixLayout self =
        wrapType I type explicitLayout matrixLayout
          (s.structMap explicitLayout matrixLayout type.getStructId) s := by
  by_cases hit : self.structMap explicitLayout matrixLayout type.getStructId = 0
  · refine ⟨(structCached I type explicitLayout matrixLayout self).emit
      (structCaseInstrs I type explicitLayout matrixLayout self), ?_, ?_⟩
    · rw [emit_structMap, structCached_structMap]
      simp [newStructId]
    · rw [convert_miss I type explicitLayout matrixLayout self hs hit, emit_structMap,
        structCached_structMap]
      simp
  · exact ⟨self, hit, convert_hit I type explicitLayout matrixLayout self hs hit⟩

theorem convert_struct_cached (I : TIntermediate) (type : TType)
    (explicitLayout : TLayoutPacking) (matrixLayout : TLayoutMatrix)
    (self : TGlslangToSpvTraverser)
    (hs : type.getBasicType = .EbtStruct ∨ type.getBasicType = .EbtBlock) :
    (convertGlslangToSpvType I type explicitLayout matrixLayout self).2.structMap explicitLayout
      matrixLayout type.getStructId ≠ 0 := by
  obtain ⟨s, h0, he⟩ := convert_struct_eq_wrap I type explicitLayout matrixLayout self hs
  rw [he, wrapType_structMap]
  exact h0

theorem with_builder_self (s : TGlslangToSpvTraverser) : { s with builder := s.builder } = s := rfl

/-- Wrapping the same handle a second time. -/
theorem wrapType_twice (I : TIntermediate) (type : TType) (explicitLayout : TLayoutPacking)
    (matrixLayout : TLayoutMatrix) (id : spv.Id) (s : TGlslangToSpvTraverser) :
    (type.isRuntimeSizedArray = false →
      (wrapType I type explicitLayout matrixLayout id
        (wrapType I type explicitLayout matrixLayout id s).2).1 =
        (wrapType I type explicitLayout matrixLayout id s).1 ∧
      (wrapType I type explicitLayout matrixLayout id
        (wrapType I type explicitLayout matrixLayout id s).2).2.builder.types =
        (wrapType I type explicitLayout matrixLayout id s).2.builder.types ∧
      (wrapType I type explicitLayout matrixLayout id
        (wrapType I type explicitLayout matrixLayout id s).2).2.builder.uniqueId =
        (wrapType I type explicitLayout matrixLayout id s).2.builder.uniqueId) ∧
    (type.isArray = false →
      wrapType I type explicitLayout matrixLayout id
        (wrapType I type explicitLayout matrixLayout id s).2 =
        wrapType I type explicitLayout matrixLayout id s) := by
  have key : type.isRuntimeSizedArray = false →
      wrapResult type id (wrapType I type explicitLayout matrixLayout id s).2.builder =
        ((wrapResult type id s.builder).1,
          (wrapType I type explicitLayout matrixLayout id s).2.builder) := by
    intro hr
    have hrep := spv.Builder.chain_replay (wrapReqs type) (wrapReqs_memoized type)
      (id, s.builder) (wrapType I type explicitLayout matrixLayout id s).2.builder
      (by
        intro req id' _ h
        rw [wrapType_eq]
        simp only [emit_types, wrapResult, hr, Bool.false_eq_true, if_false]
        exact h)
    simp only [wrapResult, hr, Bool.false_eq_true, if_false]
    exact hrep
  constructor
  · intro hr
    have hk := key hr
    refine ⟨?_, ?_, ?_⟩
    · rw [wrapType_eq I type explicitLayout matrixLayout id
        (wrapType I type explicitLayout matrixLayout id s).2, hk, wrapType_eq]
    · rw [wrapType_eq I type explicitLayout matrixLayout id
        (wrapType I type explicitLayout matrixLayout id s).2, hk]
      rfl
    · rw [wrapType_eq I type explicitLayout matrixLayout id
        (wrapType I type explicitLayout matrixLayout id s).2, hk]
      rfl
  · intro ha
    have hr : type.isRuntimeSizedArray = false := by simp [TType.isRuntimeSizedArray, ha]
    have hk := key hr
    rw [wrapType_eq I type explicitLayout matrixLayout id
        (wrapType I type explicitLayout matrixLayout id s).2, hk]
    have hno : ∀ x, arrayStrideInstrs I type explicitLayout matrixLayout x = [] := by
      intro x; simp [arrayStrideInstrs, ha]
    rw [hno, emit_nil, with_builder_self]
    rw [wrapType_eq]

theorem wrapType_decorations (I : TIntermediate) (type : TType)
    (explicitLayout : TLayoutPacking) (matrixLayout : TLayoutMatrix) (id : spv.Id)
    (s : TGlslangToSpvTraverser) :
    (∃ extra, (wrapType I type explicitLayout matrixLayout id s).2.builder.decorations =
        s.builder.decorations ++ extra ∧
      ∀ d ∈ extra, d.isMember = false ∧ d.decoration = .ArrayStride ∧ type.isArray = true) ∧
    (wrapType I type explicitLayout matrixLayout id s).2.builder.types.filter
        (fun e => e.1.isStruct) = s.builder.types.filter (fun e => e.1.isStruct) := by
  rw [wrapType_eq]
  constructor
  · refine ⟨arrayStrideInstrs I type explicitLayout matrixLayout
      (wrapResult type id s.builder).1, ?_, fun d hd => ?_⟩
    · rw [emit_decorations, (wrapResult_ext type id s.builder).decorations]
    · obtain ⟨-, h1, h2, h3⟩ := arrayStrideInstrs_id _ _ _ _ _ d hd
      exact ⟨h1, h3, h2⟩
  · exact (wrapResult_ext type id s.builder).structs

theorem wrapReqs_injective (type : TType) :
    ∀ f ∈ wrapReqs type, ∀ a b, f a = f b → a = b := by
  intro f hf a b hab
  simp only [wrapReqs, List.mem_append] at hf
  rcases hf with hf | hf
  · split_ifs at hf <;> simp at hf <;> subst hf <;> simpa using hab
  · split_ifs at hf
    · simp only [List.append_nil, List.mem_map] at hf
      obtain ⟨n, -, rfl⟩ := hf
      simpa using hab
    · simp only [List.mem_append, List.mem_map, List.mem_singleton] at hf
      rcases hf with ⟨n, -, rfl⟩ | rfl <;> simpa using hab
    · simp at hf

/-- Wrapping two different handles gives two different handles, when the second wrap
runs on a builder that knows every type of the first. -/
theorem wrapResult_distinct (type : TType) (h₁ h₂ : spv.Id) (b₁ b₂ : spv.Builder)
    (hsub : ∀ e ∈ (wrapResult type h₁ b₁).2.types, e ∈ b₂.types) (hw : b₂.WF)
    (hne : h₁ ≠ h₂) : (wrapResult type h₁ b₁).1 ≠ (wrapResult type h₂ b₂).1 := by
  have hs : ∀ f ∈ wrapReqs type, ∀ id, (f id).isStruct = false :=
    fun f hf id => (wrapReqs_memoized type f hf id).1
  by_cases hr : type.isRuntimeSizedArray = true
  · simp only [wrapResult, hr, if_true, spv.Builder.makeRuntimeArray,
      spv.Builder.declareType_fst, spv.Builder.declareType_types] at hsub ⊢
    have h1 := hw.types _ (hsub _ (List.mem_cons_self _ _))
    have h2 := (spv.Builder.chain_ext (wrapReqs type) hs (h₂, b₂)).uniqueId
    intro heq
    rw [heq] at h1
    have h3 : (spv.Builder.chain (wrapReqs type) (h₂, b₂)).2.uniqueId + 1 ≤
        (spv.Builder.chain (wrapReqs type) (h₂, b₂)).2.uniqueId := le_trans h1 h2
    omega
  · simp only [wrapResult, hr, if_false] at hsub ⊢
    exact spv.Builder.chain_distinct (wrapReqs type) hs (wrapReqs_injective type) (h₁, b₁)
      (h₂, b₂) hsub hw hne

/-- Lowering a struct or block is the wrap of the handle its cache entry holds, taken
in a traverser that extends the one the lowering started from. -/
theorem convert_struct_eq_wrap_ext (I : TIntermediate) (type : TType)
    (explicitLayout : TLayoutPacking) (matrixLayout : TLayoutMatrix)
    (self : TGlslangToSpvTraverser)
    (hs : type.getBasicType = .EbtStruct ∨ type.getBasicType = .EbtBlock) :
    ∃ s : TGlslangToSpvTraverser, Ext self s ∧
      s.structMap explicitLayout matrixLayout type.getStructId ≠ 0 ∧
      convertGlslangToSpvType I type explicitLayout matrixLayout self =
        wrapType I type explicitLayout matrixLayout
          (s.structMap explicitLayout matrixLayout type.getStructId) s := by
  by_cases hit : self.structMap explicitLayout matrixLayout type.getStructId = 0
  · refine ⟨(structCached I type explicitLayout matrixLayout self).emit
      (structCaseInstrs I type explicitLayout matrixLayout self), ?_, ?_, ?_⟩
    · refine (structCached_ext I _ explicitLayout matrixLayout self hit
        (fieldsLowered_ext I _ explicitLayout matrixLayout self
          (fun t _ => convert_ext I t))).trans_emit _ ?_
      intro _ d hd
      rw [structCached_uniqueId]
      simp only [structCaseInstrs, List.mem_append] at hd
      rcases hd with hd | hd
      · exact le_of_eq (membersInstrs_id _ _ _ _ _ _ _ _ _ d hd).1
      · exact le_of_eq (structInstrs_id _ _ _ _ d hd).1
    · rw [emit_structMap, structCached_structMap]
      simp [newStructId]
    · rw [convert_miss I type explicitLayout matrixLayout self hs hit, emit_structMap,
        structCached_structMap]
      simp
  · exact ⟨self, Ext.refl self, hit, convert_hit I type explicitLayout matrixLayout self hs hit⟩

/-- Lowering one struct or block type under two different (packing, orientation) pairs
returns two different handles. -/
theorem convert_struct_distinct (I : TIntermediate) (type : TType)
    (p₁ p₂ : TLayoutPacking) (m₁ m₂ : TLayoutMatrix) (self : TGlslangToSpvTraverser)
    (hs : type.getBasicType = .EbtStruct ∨ type.getBasicType = .EbtBlock)
    (hw : self.WF) (hne : p₁ ≠ p₂ ∨ m₁ ≠ m₂) :
    (convertGlslangToSpvType I type p₁ m₁ self).1 ≠
      (convertGlslangToSpvType I type p₂ m₂
        (convertGlslangToSpvType I type p₁ m₁ self).2).1 := by
  have e₁ := convert_ext I type p₁ m₁ self
  have c₁ := convert_struct_cached I type p₁ m₁ self hs
  obtain ⟨s₁, -, -, he₁⟩ := convert_struct_eq_wrap_ext I type p₁ m₁ self hs
  obtain ⟨s₂, x₂, h0₂, he₂⟩ := convert_struct_eq_wrap_ext I type p₂ m₂
    (convertGlslangToSpvType I type p₁ m₁ self).2 hs
  have hw₂ := x₂.wf (e₁.wf hw)
  have hk := x₂.structMap p₁ m₁ type.getStructId c₁
  have hsub := x₂.types
  rw [he₂]
  rw [he₁, wrapType_structMap] at hk
  rw [he₁] at hsub ⊢
  rw [wrapType_eq] at hsub ⊢
  rw [wrapType_eq I type p₂ m₂]
  simp only [emit_types] at hsub
  refine wrapResult_distinct type _ _ _ _ hsub hw₂.builder ?_
  rw [← hk]
  intro heq
  have := hw₂.structMap_inj p₁ m₁ type.getStructId p₂ m₂ type.getStructId
    (by rw [hk]; rw [he₁, wrapType_structMap] at c₁; exact c₁) heq
  rcases hne with h | h
  · exact h this.1
  · exact h this.2.1

end TGlslangToSpvTraverser

/-! ## User function calls -/

namespace UserCall

theorem evaluateArgument_trace (qualifiers : List TStorageQualifier) (a : Nat) (s : State) :
    ∃ l, (evaluateArgument qualifiers a s).trace = s.trace ++ l ∧
      l.filterMap Event.traverse? = [a] ∧ ∀ e ∈ l, e.allocatesOrCalls = false := by
  unfold evaluateArgument
  split
  · simp only [call, List.append_assoc]
    exact ⟨_, rfl, by simp [Event.traverse?], by simp [Event.allocatesOrCalls]⟩
  · simp only [call, List.append_assoc]
    exact ⟨_, rfl, by simp [Event.traverse?], by simp [Event.allocatesOrCalls]⟩

theorem evaluateArguments_trace (qualifiers : List TStorageQualifier) (n a : Nat) (s : State) :
    ∃ l, (evaluateArguments qualifiers n a s).trace = s.trace ++ l ∧
      l.filterMap Event.traverse? = List.range' a n ∧
      ∀ e ∈ l, e.allocatesOrCalls = false := by
  induction n generalizing a s with
  | zero => exact ⟨[], by simp [evaluateArguments], rfl, fun e he => by cases he⟩
  | succ n ih =>
    rw [evaluateArguments]
    obtain ⟨l₁, e1, f1, q1⟩ := evaluateArgument_trace qualifiers a s
    obtain ⟨l₂, e2, f2, q2⟩ := ih (a + 1) (evaluateArgument qualifiers a s)
    refine ⟨l₁ ++ l₂, by rw [e2, e1, List.append_assoc], ?_, ?_⟩
    · rw [List.filterMap_append, f1, f2]
      rfl
    · intro x hx
      rcases List.mem_append.1 hx with hx | hx
      · exact q1 x hx
      · exact q2 x hx

theorem copyInArgument_trace (qualifiers : List TStorageQualifier) (a : Nat) (s : State) :
    ∃ l, (copyInArgument qualifiers a s).trace = s.trace ++ l ∧
      ∀ e ∈ l, e.traverse? = none := by
  unfold copyInArgument
  split
  · split
    · simp only [call, List.append_assoc]
      exact ⟨_, rfl, by simp [Event.traverse?]⟩
    · simp only [call, List.append_assoc]
      exact ⟨_, rfl, by simp [Event.traverse?]⟩
  · exact ⟨[], by simp, fun e he => by cases he⟩

theorem copyIn_trace (qualifiers : List TStorageQualifier) (n a : Nat) (s : State) :
    ∃ l, (copyIn qualifiers n a s).trace = s.trace ++ l ∧ ∀ e ∈ l, e.traverse? = none := by
  induction n generalizing a s with
  | zero => exact ⟨[], by simp [copyIn], fun e he => by cases he⟩
  | succ n ih =>
    rw [copyIn]
    obtain ⟨l₁, h1, q1⟩ := copyInArgument_trace qualifiers a s
    obtain ⟨l₂, h2, q2⟩ := ih (a + 1) (copyInArgument qualifiers a s)
    refine ⟨l₁ ++ l₂, by rw [h2, h1, List.append_assoc], ?_⟩
    intro e he
    rcases List.mem_append.1 he with he | he
    · exact q1 e he
    · exact q2 e he

theorem copyOutArgument_trace (qualifiers : List TStorageQualifier) (a : Nat) (s : State) :
    ∃ l, (copyOutArgument qualifiers a s).trace = s.trace ++ l ∧
      ∀ e ∈ l, e.traverse? = none := by
  unfold copyOutArgument
  split
  · split
    · simp only [call, List.append_assoc]
      exact ⟨_, rfl, by simp [Event.traverse?]⟩
    · exact ⟨[], by simp, fun e he => by cases he⟩
  · exact ⟨[], by simp, fun e he => by cases he⟩

theorem copyOut_trace (qualifiers : List TStorageQualifier) (n a : Nat) (s : State) :
    ∃ l, (copyOut qualifiers n a s).trace = s.trace ++ l ∧ ∀ e ∈ l, e.traverse? = none := by
  induction n generalizing a s with
  | zero => exact ⟨[], by simp [copyOut], fun e he => by cases he⟩
  | succ n ih =>
    rw [copyOut]
    obtain ⟨l₁, h1, q1⟩ := copyOutArgument_trace qualifiers a s
    obtain ⟨l₂, h2, q2⟩ := ih (a + 1) (copyOutArgument qualifiers a s)
    refine ⟨l₁ ++ l₂, by rw [h2, h1, List.append_assoc], ?_⟩
    intro e he
    rcases List.mem_append.1 he with he | he
    · exact q1 e he
    · exact q2 e he

end UserCall

/-! ## User function calls: the calls made, in closed form -/

namespace UserCall

theorem evaluateArgument_eq (qualifiers : List TStorageQualifier) (a : Nat) (s : State)
    (h : s.trace.length = 4 * a) :
    evaluateArgument qualifiers a s =
      { s with
        trace := s.trace ++ evaluationEvents qualifiers a
        argTypes := s.argTypes ++ [4 * a + 2]
        lValues := s.lValues ++ (if needsVariable qualifiers a then [4 * a + 3] else [])
        rValues := s.rValues ++ (if needsVariable qualifiers a then [] else [4 * a + 3]) } := by
  unfold evaluateArgument evaluationEvents needsVariable
  by_cases hq : qualifierAt qualifiers a = .EvqConstReadOnly
  · simp [call, hq, h]
  · simp [call, hq, h]

theorem evaluateArguments_eq (qualifiers : List TStorageQualifier) :
    ∀ (n a : Nat) (s : State), s.trace.length = 4 * a →
      evaluateArguments qualifiers n a s =
        { s with
          trace := s.trace ++ (List.range' a n).flatMap (evaluationEvents qualifiers)
          argTypes := s.argTypes ++ (List.range' a n).map (fun b => 4 * b + 2)
          lValues := s.lValues ++
            ((List.range' a n).filter (needsVariable qualifiers)).map (fun b => 4 * b + 3)
          rValues := s.rValues ++
            ((List.range' a n).filter (fun b => !needsVariable qualifiers b)).map
              (fun b => 4 * b + 3) } := by
  intro n
  induction n with
  | zero => intro a s _; simp [evaluateArguments]
  | succ n ih =>
    intro a s h
    rw [evaluateArguments, evaluateArgument_eq qualifiers a s h, ih (a + 1) _ (by
      simp [evaluationEvents, h]; omega)]
    by_cases hq : needsVariable qualifiers a = true
    · simp [List.range'_succ, List.filter_cons, hq, List.append_assoc]
    · simp [List.range'_succ, List.filter_cons, hq, List.append_assoc]

theorem getD_of_drop_eq_cons {α : Type} (l : List α) (c : Nat) (x d : α) (r : List α)
    (h : l.drop c = x :: r) : l.getD c d = x ∧ l.drop (c + 1) = r := by
  have hc : c < l.length := by
    by_contra hc
    rw [List.drop_eq_nil_of_le (by omega)] at h
    cases h
  rw [List.drop_eq_getElem_cons hc] at h
  injection h with h₁ h₂
  exact ⟨by simp [List.getD, List.getElem?_eq_getElem hc, h₁], h₂⟩

theorem copyInArgument_eq (qualifiers : List TStorageQualifier) (a : Nat) (s : State)
    (hL : needsVariable qualifiers a = true → s.lValues.getD s.lValueCount 0 = 4 * a + 3)
    (hR : needsVariable qualifiers a = false → s.rValues.getD s.rValueCount 0 = 4 * a + 3)
    (hT : s.argTypes.getD a 0 = 4 * a + 2) :
    copyInArgument qualifiers a s =
      { s with
        trace := s.trace ++ copyInEvents qualifiers a s.trace.length
        spvArgs := s.spvArgs ++ [copyInArg qualifiers a s.trace.length]
        lValueCount := s.lValueCount + (if needsVariable qualifiers a then 1 else 0)
        rValueCount := s.rValueCount + (if needsVariable qualifiers a then 0 else 1) } := by
  unfold copyInArgument copyInEvents copyInArg
  by_cases hq : needsVariable qualifiers a = true
  · have hq' : qualifierAt qualifiers a ≠ .EvqConstReadOnly := by
      simpa [needsVariable] using hq
    have hL' := hL hq
    by_cases hc : copiesIn qualifiers a = true
    · have hc' : qualifierAt qualifiers a = .EvqIn ∨ qualifierAt qualifiers a = .EvqInOut := by
        simpa [copiesIn] using hc
      simp only [hq', hc', hq, hc, call, ne_eq, not_false_eq_true, if_true]
      simp [List.append_assoc]
      exact ⟨by simpa using hL', by simpa using hT⟩
    · have hc' : ¬ (qualifierAt qualifiers a = .EvqIn ∨ qualifierAt qualifiers a = .EvqInOut) := by
        simpa [copiesIn] using hc
      simp only [hq', hc', hq, hc, call, ne_eq, not_false_eq_true, if_true, if_false]
      simp [List.append_assoc]
  · have hq' : qualifierAt qualifiers a = .EvqConstReadOnly := by
      simpa [needsVariable] using hq
    have hq'' : needsVariable qualifiers a = false := by simpa using hq
    simp [hq', hq'']
    simpa using hR hq''

theorem copyIn_eq (qualifiers : List TStorageQualifier) :
    ∀ (n a : Nat) (s : State),
      s.lValues.drop s.lValueCount =
        ((List.range' a n).filter (needsVariable qualifiers)).map (fun b => 4 * b + 3) →
      s.rValues.drop s.rValueCount =
        ((List.range' a n).filter (fun b => !needsVariable qualifiers b)).map
          (fun b => 4 * b + 3) →
      (∀ b, a ≤ b → b < a + n → s.argTypes.getD b 0 = 4 * b + 2) →
      copyIn qualifiers n a s =
        { s with
          trace := s.trace ++ copyInTrace qualifiers n a s.trace.length
          spvArgs := s.spvArgs ++ copyInArgs qualifiers n a s.trace.length
          lValueCount := s.lValueCount +
            ((List.range' a n).filter (needsVariable qualifiers)).length
          rValueCount := s.rValueCount +
            ((List.range' a n).filter (fun b => !needsVariable qualifiers b)).length } := by
  intro n
  induction n with
  | zero => intro a s _ _ _; simp [copyIn, copyInTrace, copyInArgs]
  | succ n ih =>
    intro a s hL hR hT
    rw [List.range'_succ] at hL hR
    by_cases hq : needsVariable qualifiers a = true
    · simp only [List.filter_cons, hq, if_true, List.map_cons, Bool.not_true,
        Bool.false_eq_true, if_false] at hL hR
      obtain ⟨hL₁, hL₂⟩ := getD_of_drop_eq_cons _ _ _ 0 _ hL
      rw [copyIn, copyInArgument_eq qualifiers a s (fun _ => hL₁)
        (fun h => by rw [hq] at h; cases h) (hT a (le_refl _) (by omega))]
      rw [ih (a + 1) _ (by simpa [hq] using hL₂) (by simpa [hq] using hR)
        (fun b h₁ h₂ => by simpa using hT b (by omega) (by omega))]
      simp [List.range'_succ, List.filter_cons, hq, copyInTrace, copyInArgs, List.append_assoc,
        Nat.add_assoc, Nat.add_comm 1]
    · have hq' : needsVariable qualifiers a = false := by simpa using hq
      simp only [List.filter_cons, hq', if_true, List.map_cons, Bool.not_false,
        Bool.false_eq_true, if_false] at hL hR
      obtain ⟨hR₁, hR₂⟩ := getD_of_drop_eq_cons _ _ _ 0 _ hR
      rw [copyIn, copyInArgument_eq qualifiers a s (fun h => by rw [hq'] at h; cases h)
        (fun _ => hR₁) (hT a (le_refl _) (by omega))]
      rw [ih (a + 1) _ (by simpa [hq'] using hL) (by simpa [hq'] using hR₂)
        (fun b h₁ h₂ => by simpa using hT b (by omega) (by omega))]
      simp [List.range'_succ, List.filter_cons, hq', copyInTrace, copyInArgs, List.append_assoc,
        Nat.add_assoc, Nat.add_comm 1]

theorem copiesOut_needsVariable (qualifiers : List TStorageQualifier) (a : Nat)
    (h : copiesOut qualifiers a = true) : needsVariable qualifiers a = true := by
  simp only [copiesOut, needsVariable, decide_eq_true_eq] at h ⊢
  rcases h with h | h <;> rw [h] <;> decide

theorem copiesIn_needsVariable (qualifiers : List TStorageQualifier) (a : Nat)
    (h : copiesIn qualifiers a = true) : needsVariable qualifiers a = true := by
  simp only [copiesIn, needsVariable, decide_eq_true_eq] at h ⊢
  rcases h with h | h <;> rw [h] <;> decide

theorem copyOutArgument_eq (qualifiers : List TStorageQualifier) (a : Nat) (s : State)
    (hL : needsVariable qualifiers a = true → s.lValues.getD s.lValueCount 0 = 4 * a + 3) :
    copyOutArgument qualifiers a s =
      { s with
        trace := s.trace ++
          copyBacks s.spvArgs (if copiesOut qualifiers a then [a] else []) s.trace.length
        lValueCount := s.lValueCount + (if needsVariable qualifiers a then 1 else 0) } := by
  unfold copyOutArgument
  by_cases hq : needsVariable qualifiers a = true
  · have hq' : qualifierAt qualifiers a ≠ .EvqConstReadOnly := by
      simpa [needsVariable] using hq
    have hL' := hL hq
    by_cases hc : copiesOut qualifiers a = true
    · have hc' : qualifierAt qualifiers a = .EvqOut ∨ qualifierAt qualifiers a = .EvqInOut := by
        simpa [copiesOut] using hc
      simp only [hq', hc', hq, hc, call, ne_eq, not_false_eq_true, if_true, copyBacks]
      simp [List.append_assoc]
      simpa using hL'
    · have hc' : ¬ (qualifierAt qualifiers a = .EvqOut ∨ qualifierAt qualifiers a = .EvqInOut) := by
        simpa [copiesOut] using hc
      simp only [hq', hc', hq, hc, ne_eq, not_false_eq_true, if_true, if_false, copyBacks]
      simp
  · have hq' : qualifierAt qualifiers a = .EvqConstReadOnly := by
      simpa [needsVariable] using hq
    have hq'' : needsVariable qualifiers a = false := by simpa using hq
    have hc : copiesOut qualifiers a = false := by
      by_contra hc
      exact hq (copiesOut_needsVariable qualifiers a (by simpa using hc))
    simp [hq', hq'', hc, copyBacks]

theorem copyBacks_append (spvArgs : List Nat) (l₁ l₂ : List Nat) (p : Nat) :
    copyBacks spvArgs (l₁ ++ l₂) p =
      copyBacks spvArgs l₁ p ++ copyBacks spvArgs l₂ (p + 3 * l₁.length) := by
  induction l₁ generalizing p with
  | nil => simp [copyBacks]
  | cons a l₁ ih =>
    have h : p + 3 + 3 * l₁.length = p + 3 * (l₁.length + 1) := by omega
    rw [List.cons_append, copyBacks, copyBacks, ih, List.length_cons, h]
    simp

theorem copyBacks_length (spvArgs : List Nat) (l : List Nat) (p : Nat) :
    (copyBacks spvArgs l p).length = 3 * l.length := by
  induction l generalizing p with
  | nil => simp [copyBacks]
  | cons a l ih => simp [copyBacks, ih]; omega

theorem copyOut_eq (qualifiers : List TStorageQualifier) :
    ∀ (n a : Nat) (s : State),
      s.lValues.drop s.lValueCount =
        ((List.range' a n).filter (needsVariable qualifiers)).map (fun b => 4 * b + 3) →
      (copyOut qualifiers n a s).trace =
        s.trace ++
          copyBacks s.spvArgs ((List.range' a n).filter (copiesOut qualifiers)) s.trace.length := by
  intro n
  induction n with
  | zero => intro a s _; simp [copyOut, copyBacks]
  | succ n ih =>
    intro a s hL
    rw [List.range'_succ] at hL
    have key : ∀ (h₁ : needsVariable qualifiers a = true →
          s.lValues.getD s.lValueCount 0 = 4 * a + 3)
        (_ : (List.drop (s.lValueCount + if needsVariable qualifiers a = true then 1 else 0)
            s.lValues) =
          ((List.range' (a + 1) n).filter (needsVariable qualifiers)).map (fun b => 4 * b + 3)),
        (copyOut qualifiers (n + 1) a s).trace =
          s.trace ++ copyBacks s.spvArgs
            ((List.range' a (n + 1)).filter (copiesOut qualifiers)) s.trace.length := by
      intro h₁ h₂
      rw [copyOut, copyOutArgument_eq qualifiers a s h₁, ih (a + 1) _ h₂, List.range'_succ,
        List.filter_cons]
      by_cases hc : copiesOut qualifiers a = true
      · simp only [hc, if_true, List.append_assoc, List.length_append, copyBacks_length,
          List.length_singleton]
        rw [show a :: (List.range' (a + 1) n).filter (copiesOut qualifiers) =
          [a] ++ (List.range' (a + 1) n).filter (copiesOut qualifiers) from rfl,
          copyBacks_append]
        simp
      · simp [hc, copyBacks]
    by_cases hq : needsVariable qualifiers a = true
    · simp only [List.filter_cons, hq, if_true, List.map_cons] at hL
      obtain ⟨hL₁, hL₂⟩ := getD_of_drop_eq_cons _ _ _ 0 _ hL
      exact key (fun _ => hL₁) (by simpa [hq] using hL₂)
    · have hq' : needsVariable qualifiers a = false := by simpa using hq
      simp only [List.filter_cons, hq', Bool.false_eq_true, if_false] at hL
      exact key (fun h => by rw [hq'] at h; cases h) (by simpa [hq'] using hL)

theorem evaluationEvents_length (qualifiers : List TStorageQualifier) (a : Nat) :
    (evaluationEvents qualifiers a).length = 4 := rfl

theorem flatMap_evaluationEvents_length (qualifiers : List TStorageQualifier) (a n : Nat) :
    ((List.range' a n).flatMap (evaluationEvents qualifiers)).length = 4 * n := by
  induction n generalizing a with
  | zero => simp
  | succ n ih => simp [List.range'_succ, ih, evaluationEvents_length]; omega

/-- The calls `handleUserFunctionCall` makes when the callee is in the function table,
in closed form. -/
theorem handleUserFunctionCall_eq (functionMap : String → Option Nat)
    (node : TIntermAggregate) (function : Nat) (hf : functionMap node.name = some function) :
    (handleUserFunctionCall functionMap node).2 =
      ((List.range' 0 node.numArgs).flatMap (evaluationEvents node.qualifierList) ++
        copyInTrace node.qualifierList node.numArgs 0 (4 * node.numArgs)) ++
      [.createFunctionCall function
        (copyInArgs node.qualifierList node.numArgs 0 (4 * node.numArgs))] ++
      copyBacks (copyInArgs node.qualifierList node.numArgs 0 (4 * node.numArgs))
        ((List.range' 0 node.numArgs).filter (copiesOut node.qualifierList))
        (4 * node.numArgs +
          (copyInTrace node.qualifierList node.numArgs 0 (4 * node.numArgs)).length + 1) := by
  have hlen := flatMap_evaluationEvents_length node.qualifierList 0 node.numArgs
  unfold handleUserFunctionCall
  rw [hf]
  simp only
  rw [evaluateArguments_eq node.qualifierList node.numArgs 0 {} rfl]
  rw [copyIn_eq node.qualifierList node.numArgs 0 _ (by simp only [List.nil_append, List.drop_zero])
    (by simp only [List.nil_append, List.drop_zero]) (by
    intro b _ hb
    simp only [List.nil_append, List.getD_eq_getElem?_getD]
    rw [List.getElem?_map, List.getElem?_range' _ _ (by omega)]
    simp)]
  rw [copyOut_eq node.qualifierList node.numArgs 0 _ (by
    simp only [call, List.nil_append, List.drop_zero])]
  simp only [call, List.nil_append, List.length_append, hlen, List.length_singleton,
    List.append_assoc, Nat.add_assoc]

theorem copyInArgs_length (qualifiers : List TStorageQualifier) (n a p : Nat) :
    (copyInArgs qualifiers n a p).length = n := by
  induction n generalizing a p with
  | zero => rfl
  | succ n ih => simp [copyInArgs, ih]

theorem getElem?_append_add {α : Type} (l₁ l₂ : List α) (k : Nat) :
    (l₁ ++ l₂)[l₁.length + k]? = l₂[k]? := by
  rw [List.getElem?_append_right (by omega)]
  congr 1
  omega

/-- Where loop 2 puts the calls for an argument that needs a variable. -/
theorem copyInTrace_variable (qualifiers : List TStorageQualifier) :
    ∀ (n a p i : Nat), i < n → needsVariable qualifiers (a + i) = true →
      ∃ k, (copyInArgs qualifiers n a p)[i]? = some (p + k + 1) ∧
        (copyInTrace qualifiers n a p)[k]? = some (.convertGlslangToSpvType (a + i)) ∧
        (copyInTrace qualifiers n a p)[k + 1]? = some (.createVariable (p + k)) ∧
        (copiesIn qualifiers (a + i) = true →
          (copyInTrace qualifiers n a p)[k + 2]? = some (.setAccessChain (4 * (a + i) + 3)) ∧
          (copyInTrace qualifiers n a p)[k + 3]? = some (.accessChainLoad (4 * (a + i) + 2)) ∧
          (copyInTrace qualifiers n a p)[k + 4]? = some (.createStore (p + k + 3) (p + k + 1))) := by
  intro n
  induction n with
  | zero => intro a p i hi; omega
  | succ n ih =>
    intro a p i hi hq
    cases i with
    | zero =>
      simp only [Nat.add_zero] at hq ⊢
      refine ⟨0, by simp [copyInArgs, copyInArg, hq], by simp [copyInTrace, copyInEvents, hq],
        by simp [copyInTrace, copyInEvents, hq], ?_⟩
      intro hc
      simp [copyInTrace, copyInEvents, hq, hc]
    | succ i =>
      have hq' : needsVariable qualifiers (a + 1 + i) = true := by
        rw [show a + 1 + i = a + (i + 1) by omega]; exact hq
      obtain ⟨k, h₀, h₁, h₂, h₃⟩ :=
        ih (a + 1) (p + (copyInEvents qualifiers a p).length) i (by omega) hq'
      have e : a + 1 + i = a + (i + 1) := by omega
      rw [e] at h₁ h₃
      refine ⟨(copyInEvents qualifiers a p).length + k, ?_, ?_, ?_, ?_⟩
      · rw [copyInArgs, List.getElem?_cons_succ, h₀]
        congr 1
        omega
      · rw [copyInTrace, getElem?_append_add, h₁]
      · rw [copyInTrace, Nat.add_assoc, getElem?_append_add, h₂]
        congr 2
        omega
      · intro hc
        obtain ⟨g₁, g₂, g₃⟩ := h₃ hc
        refine ⟨?_, ?_, ?_⟩
        · rw [copyInTrace, Nat.add_assoc, getElem?_append_add, g₁]
        · rw [copyInTrace, Nat.add_assoc, getElem?_append_add, g₂]
        · rw [copyInTrace, Nat.add_assoc, getElem?_append_add, g₃]
          congr 2 <;> omega

/-- A `const` read-only argument is passed as the value loaded in loop 1. -/
theorem copyInArgs_const (qualifiers : List TStorageQualifier) :
    ∀ (n a p i : Nat), i < n → needsVariable qualifiers (a + i) = false →
      (copyInArgs qualifiers n a p)[i]? = some (4 * (a + i) + 3) := by
  intro n
  induction n with
  | zero => intro a p i hi; omega
  | succ n ih =>
    intro a p i hi hq
    cases i with
    | zero =>
      simp only [Nat.add_zero] at hq ⊢
      simp [copyInArgs, copyInArg, hq]
    | succ i =>
      have hq' : needsVariable qualifiers (a + 1 + i) = false := by
        rw [show a + 1 + i = a + (i + 1) by omega]; exact hq
      rw [copyInArgs, List.getElem?_cons_succ, ih (a + 1) _ i (by omega) hq']
      congr 2
      omega

theorem copyInEvents_store (qualifiers : List TStorageQualifier) (a p j rValue v : Nat)
    (h : (copyInEvents qualifiers a p)[j]? = some (.createStore rValue v)) :
    v = p + 1 ∧ needsVariable qualifiers a = true ∧ copiesIn qualifiers a = true ∧
      (copyInEvents qualifiers a p).length = 5 := by
  unfold copyInEvents at h ⊢
  by_cases hq : needsVariable qualifiers a = true
  · by_cases hc : copiesIn qualifiers a = true
    · simp only [hq, hc, if_true] at h ⊢
      match j, h with
      | 0, h => simp at h
      | 1, h => simp at h
      | 2, h => simp at h
      | 3, h => simp at h
      | 4, h =>
        simp at h
        exact ⟨h.2.symm, trivial, trivial, rfl⟩
      | j + 5, h => simp at h
    · simp only [hq, hc, if_true, Bool.false_eq_true, if_false] at h ⊢
      match j, h with
      | 0, h => simp at h
      | 1, h => simp at h
      | j + 2, h => simp at h
  · simp [hq] at h

/-- Every store of loop 2 goes into a variable created by loop 2. -/
theorem copyInTrace_store_lt (qualifiers : List TStorageQualifier) :
    ∀ (n a p j rValue v : Nat),
      (copyInTrace qualifiers n a p)[j]? = some (.createStore rValue v) → p < v := by
  intro n
  induction n with
  | zero => intro a p j r v h; simp [copyInTrace] at h
  | succ n ih =>
    intro a p j r v h
    rw [copyInTrace] at h
    by_cases hj : j < (copyInEvents qualifiers a p).length
    · rw [List.getElem?_append_left hj] at h
      have := (copyInEvents_store qualifiers a p j r v h).1
      omega
    · rw [List.getElem?_append_right (by omega)] at h
      have := ih _ _ _ _ _ h
      omega

theorem copyInEvents_length_of_needsVariable (qualifiers : List TStorageQualifier) (a p : Nat)
    (hq : needsVariable qualifiers a = true) : 2 ≤ (copyInEvents qualifiers a p).length := by
  unfold copyInEvents
  by_cases hc : copiesIn qualifiers a = true <;> simp [hq, hc]

/-- No store of loop 2 goes into the variable of an argument that is not `in` or
`inout`. -/
theorem copyInTrace_no_store (qualifiers : List TStorageQualifier) :
    ∀ (n a p i v : Nat), i < n → needsVariable qualifiers (a + i) = true →
      copiesIn qualifiers (a + i) = false → (copyInArgs qualifiers n a p)[i]? = some v →
      ∀ j rValue : Nat,
        (copyInTrace qualifiers n a p)[j]? ≠ some (Event.createStore rValue v) := by
  intro n
  induction n with
  | zero => intro a p i v hi; omega
  | succ n ih =>
    intro a p i v hi hq hc hv j r h
    rw [copyInTrace] at h
    cases i with
    | zero =>
      simp only [Nat.add_zero] at hq hc
      simp only [copyInArgs, copyInArg, hq, if_true, List.getElem?_cons_zero,
        Option.some.injEq] at hv
      by_cases hj : j < (copyInEvents qualifiers a p).length
      · rw [List.getElem?_append_left hj] at h
        have := (copyInEvents_store qualifiers a p j r v h).2.2.1
        rw [hc] at this
        cases this
      · rw [List.getElem?_append_right (by omega)] at h
        have h₁ := copyInTrace_store_lt qualifiers _ _ _ _ _ _ h
        have h₂ := copyInEvents_length_of_needsVariable qualifiers a p hq
        omega
    | succ i =>
      have e : a + 1 + i = a + (i + 1) := by omega
      rw [copyInArgs, List.getElem?_cons_succ] at hv
      by_cases hj : j < (copyInEvents qualifiers a p).length
      · rw [List.getElem?_append_left hj] at h
        obtain ⟨h₁, -, -, -⟩ := copyInEvents_store qualifiers a p j r v h
        obtain ⟨k, hk, -⟩ := copyInTrace_variable qualifiers n (a + 1)
          (p + (copyInEvents qualifiers a p).length) i (by omega) (by rw [e]; exact hq)
        rw [hk] at hv
        injection hv with hv
        obtain ⟨-, -, -, h₅⟩ := copyInEvents_store qualifiers a p j r v h
        omega
      · rw [List.getElem?_append_right (by omega)] at h
        exact ih (a + 1) _ i v (by omega) (by rw [e]; exact hq) (by rw [e]; exact hc) hv _ _ h

theorem flatMap_evaluationEvents_getElem? (qualifiers : List TStorageQualifier) :
    ∀ (n a k i : Nat), k < n → i < 4 →
      ((List.range' a n).flatMap (evaluationEvents qualifiers))[4 * k + i]? =
        (evaluationEvents qualifiers (a + k))[i]? := by
  intro n
  induction n with
  | zero => intro a k i hk; omega
  | succ n ih =>
    intro a k i hk hi
    rw [List.range'_succ, List.flatMap_cons]
    cases k with
    | zero =>
      rw [List.getElem?_append_left (by simpa [evaluationEvents_length] using hi)]
      simp
    | succ k =>
      rw [show 4 * (k + 1) + i = (evaluationEvents qualifiers a).length + (4 * k + i) by
        rw [evaluationEvents_length]; omega, getElem?_append_add, ih (a + 1) k i (by omega) hi,
        show a + 1 + k = a + (k + 1) by omega]

theorem flatMap_evaluationEvents_mem (qualifiers : List TStorageQualifier) (n a : Nat)
    (e : Event) (h : e ∈ (List.range' a n).flatMap (evaluationEvents qualifiers)) :
    e.isCreateStore = false ∧ e.isCreateVariable = false := by
  obtain ⟨b, -, hb⟩ := List.mem_flatMap.1 h
  simp only [evaluationEvents, List.mem_cons, List.mem_singleton, List.not_mem_nil,
    or_false] at hb
  rcases hb with rfl | rfl | rfl | rfl
  · exact ⟨rfl, rfl⟩
  · exact ⟨rfl, rfl⟩
  · exact ⟨rfl, rfl⟩
  · split <;> exact ⟨rfl, rfl⟩

theorem copyBacks_mem (spvArgs : List Nat) (outs : List Nat) (p : Nat) (e : Event)
    (h : e ∈ copyBacks spvArgs outs p) :
    e.isCreateStore = false ∧ e.isCreateVariable = false := by
  induction outs generalizing p with
  | nil => simp [copyBacks] at h
  | cons a outs ih =>
    simp only [copyBacks, List.cons_append, List.nil_append, List.mem_cons] at h
    rcases h with rfl | rfl | rfl | h
    · exact ⟨rfl, rfl⟩
    · exact ⟨rfl, rfl⟩
    · exact ⟨rfl, rfl⟩
    · exact ih _ h

/-- Loop 2 creates one variable for each argument that needs one. -/
theorem copyInTrace_countP (qualifiers : List TStorageQualifier) (n a p : Nat) :
    (copyInTrace qualifiers n a p).countP Event.isCreateVariable =
      ((List.range' a n).filter (needsVariable qualifiers)).length := by
  induction n generalizing a p with
  | zero => rfl
  | succ n ih =>
    rw [copyInTrace, List.countP_append, ih, List.range'_succ, List.filter_cons]
    unfold copyInEvents
    by_cases hq : needsVariable qualifiers a = true
    · by_cases hc : copiesIn qualifiers a = true
      · simp [hq, hc, Event.isCreateVariable, List.countP_cons]
        omega
      · simp [hq, hc, Event.isCreateVariable, List.countP_cons]
        omega
    · simp [hq]

/-- The variables of later arguments are created later. -/
theorem copyInArgs_lt (qualifiers : List TStorageQualifier) :
    ∀ (n a p i i' v v' : Nat), i < i' → i' < n →
      needsVariable qualifiers (a + i) = true → needsVariable qualifiers (a + i') = true →
      (copyInArgs qualifiers n a p)[i]? = some v →
      (copyInArgs qualifiers n a p)[i']? = some v' → v < v' := by
  intro n
  induction n with
  | zero => intro a p i i' v v' _ hi; omega
  | succ n ih =>
    intro a p i i' v v' hlt hi' hq hq' hv hv'
    obtain ⟨i', rfl⟩ : ∃ k, i' = k + 1 := ⟨i' - 1, by omega⟩
    have e' : a + 1 + i' = a + (i' + 1) := by omega
    rw [copyInArgs, List.getElem?_cons_succ] at hv'
    obtain ⟨k', hk', -⟩ := copyInTrace_variable qualifiers n (a + 1)
      (p + (copyInEvents qualifiers a p).length) i' (by omega) (by rw [e']; exact hq')
    rw [hk'] at hv'
    injection hv' with hv'
    cases i with
    | zero =>
      simp only [Nat.add_zero] at hq
      simp only [copyInArgs, copyInArg, hq, if_true, List.getElem?_cons_zero,
        Option.some.injEq] at hv
      have := copyInEvents_length_of_needsVariable qualifiers a p hq
      omega
    | succ i =>
      have e : a + 1 + i = a + (i + 1) := by omega
      rw [copyInArgs, List.getElem?_cons_succ] at hv
      exact ih (a + 1) _ i i' v v' (by omega) (by omega) (by rw [e]; exact hq)
        (by rw [e']; exact hq') hv (by rw [hk', hv'])

/-- How each argument is passed, read off the closed form of the calls. -/
theorem passed_closed (qualifiers : List TStorageQualifier) (n function a v : Nat)
    (outs : List Nat) (p : Nat) (ha : a < n)
    (hv : (copyInArgs qualifiers n 0 (4 * n))[a]? = some v) :
    Passed qualifiers
      ((List.range' 0 n).flatMap (evaluationEvents qualifiers) ++
        copyInTrace qualifiers n 0 (4 * n))
      (((List.range' 0 n).flatMap (evaluationEvents qualifiers) ++
          copyInTrace qualifiers n 0 (4 * n)) ++
        [.createFunctionCall function (copyInArgs qualifiers n 0 (4 * n))] ++
        copyBacks (copyInArgs qualifiers n 0 (4 * n)) outs p) a v := by
  have hlen := flatMap_evaluationEvents_length qualifiers 0 n
  have hE : ∀ i, i < 4 →
      ((List.range' 0 n).flatMap (evaluationEvents qualifiers) ++
        copyInTrace qualifiers n 0 (4 * n))[4 * a + i]? =
        (evaluationEvents qualifiers a)[i]? := by
    intro i hi
    rw [List.getElem?_append_left (by rw [hlen]; omega),
      flatMap_evaluationEvents_getElem? qualifiers n 0 a i ha hi, Nat.zero_add]
  have hC : ∀ k,
      ((List.range' 0 n).flatMap (evaluationEvents qualifiers) ++
        copyInTrace qualifiers n 0 (4 * n))[4 * n + k]? =
        (copyInTrace qualifiers n 0 (4 * n))[k]? := by
    intro k
    rw [← hlen, getElem?_append_add]
  refine ⟨by rw [hE 1 (by omega)]; rfl, by rw [hE 2 (by omega)]; rfl, ?_⟩
  by_cases hq : needsVariable qualifiers a = true
  · rw [if_pos hq]
    obtain ⟨k, h₀, -, h₂, h₃⟩ := copyInTrace_variable qualifiers n 0 (4 * n) a ha
      (by rw [Nat.zero_add]; exact hq)
    rw [Nat.zero_add] at h₃
    rw [h₀] at hv
    injection hv with hv
    subst hv
    refine ⟨by rw [hE 3 (by omega)]; simp [evaluationEvents, hq], ⟨_, by
      rw [show 4 * n + k + 1 = 4 * n + (k + 1) by omega, hC, h₂]⟩, ?_⟩
    by_cases hc : copiesIn qualifiers a = true
    · rw [if_pos hc]
      obtain ⟨g₁, g₂, g₃⟩ := h₃ hc
      refine ⟨?_, ?_, ?_⟩
      · rw [show 4 * n + k + 1 + 1 = 4 * n + (k + 2) by omega, hC, g₁]
      · rw [show 4 * n + k + 1 + 2 = 4 * n + (k + 3) by omega, hC, g₂]
      · rw [show 4 * n + k + 1 + 3 = 4 * n + (k + 4) by omega, hC, g₃]
    · rw [if_neg hc]
      intro j r hj
      have hmem := List.getElem?_mem hj
      simp only [List.mem_append, List.mem_singleton] at hmem
      rcases hmem with ((hmem | hmem) | hmem) | hmem
      · exact absurd (flatMap_evaluationEvents_mem qualifiers n 0 _ hmem).1 (by
          simp [Event.isCreateStore])
      · obtain ⟨j', hj'⟩ := List.mem_iff_getElem?.1 hmem
        exact copyInTrace_no_store qualifiers n 0 (4 * n) a (4 * n + k + 1) ha
          (by rw [Nat.zero_add]; exact hq) (by rw [Nat.zero_add]; simpa using hc) h₀ j' r hj'
      · cases hmem
      · exact absurd (copyBacks_mem _ _ _ _ hmem).1 (by simp [Event.isCreateStore])
  · rw [if_neg hq]
    have hq' : needsVariable qualifiers a = false := by simpa using hq
    have h₀ := copyInArgs_const qualifiers n 0 (4 * n) a ha (by rw [Nat.zero_add]; exact hq')
    rw [Nat.zero_add] at h₀
    rw [h₀] at hv
    injection hv with hv
    subst hv
    exact ⟨rfl, by rw [hE 3 (by omega)]; simp [evaluationEvents, hq']⟩

end UserCall

/-! ## Control flow: the traversal only adds calls and keeps the context stacks -/

namespace glslang

/-- Induction over a node held through a `TIntermNode*`, with the property assumed
for the children. -/
theorem TIntermNode.induction {P : TIntermNode → Prop}
    (h : ∀ node, (∀ child ∈ node.childNodes, P child) → P node) : ∀ node, P node := by
  intro node
  refine TIntermNode.rec (motive_1 := P) (motive_2 := fun l => ∀ n ∈ l, P n)
    (motive_3 := fun o => ∀ n ∈ o.toList, P n) ?_ ?_ ?_ ?_ ?_ ?_ ?_ ?_ ?_ ?_ node
  · intro e
    exact h _ (fun c hc => by simp [TIntermNode.childNodes] at hc)
  · intro sequence ih
    exact h _ (fun c hc => ih c (by simpa [TIntermNode.childNodes] using hc))
  · intro bt c t f iht ihf
    refine h _ (fun c hc => ?_)
    simp only [TIntermNode.childNodes, List.mem_append] at hc
    rcases hc with hc | hc
    · exact iht c hc
    · exact ihf c hc
  · intro c body ih
    exact h _ (fun c hc => ih c (by simpa [TIntermNode.childNodes] using hc))
  · intro tf test body term ih
    exact h _ (fun c hc => ih c (by simpa [TIntermNode.childNodes] using hc))
  · intro op e
    exact h _ (fun c hc => by simp [TIntermNode.childNodes] at hc)
  · intro n hn
    cases hn
  · intro head tail ihh iht n hn
    rcases List.mem_cons.1 hn with rfl | hn
    · exact ihh
    · exact iht n hn
  · intro n hn
    simp at hn
  · intro val ih n hn
    simp only [Option.toList_some, List.mem_singleton] at hn
    subst hn
    exact ih

end glslang

namespace Lowering

theorem traverseSequence_eq_foldl (T : TIntermTraverser) (sequence : List TIntermNode)
    (s : State) :
    traverseSequence T sequence s = sequence.foldl (fun s node => traverse T node s) s := by
  induction sequence generalizing s with
  | nil => simp [traverseSequence]
  | cons node rest ih => simp [traverseSequence, ih]

theorem children_eq_map (T : TIntermTraverser) (body : List TIntermNode) :
    children T body = body.map (fun node =>
      { flowOp := node.getFlowOp, iConst := node.getIConst, traverse := traverse T node }) := by
  induction body with
  | nil => simp [children]
  | cons node rest ih => simp [children, ih]

@[simp] theorem call_trace (e : Event) (s : State) : (call e s).2.trace = s.trace ++ [e] := rfl

@[simp] theorem call_fst (e : Event) (s : State) : (call e s).1 = s.trace.length + 1 := rfl

@[simp] theorem call_breakForLoop (e : Event) (s : State) :
    (call e s).2.breakForLoop = s.breakForLoop := rfl

@[simp] theorem call_loopTerminal (e : Event) (s : State) :
    (call e s).2.loopTerminal = s.loopTerminal := rfl

@[simp] theorem call_accessChain (e : Event) (s : State) :
    (call e s).2.accessChain = s.accessChain := rfl

@[simp] theorem traverseTyped_trace (T : TIntermTraverser) (node : TIntermTyped) (s : State) :
    (traverseTyped T node s).trace = s.trace ++ [.traverse node.id] := rfl

@[simp] theorem traverseTyped_breakForLoop (T : TIntermTraverser) (node : TIntermTyped)
    (s : State) : (traverseTyped T node s).breakForLoop = s.breakForLoop := rfl

@[simp] theorem traverseTyped_loopTerminal (T : TIntermTraverser) (node : TIntermTyped)
    (s : State) : (traverseTyped T node s).loopTerminal = s.loopTerminal := rfl

@[simp] theorem traverseTyped_accessChain (T : TIntermTraverser) (node : TIntermTyped)
    (s : State) :
    (traverseTyped T node s).accessChain = T.accessChainAfter node.id (s.trace.length + 1) := rfl

@[simp] theorem clearAccessChain_trace (s : State) :
    (clearAccessChain s).trace = s.trace ++ [.clearAccessChain] := rfl

@[simp] theorem clearAccessChain_breakForLoop (s : State) :
    (clearAccessChain s).breakForLoop = s.breakForLoop := rfl

@[simp] theorem clearAccessChain_loopTerminal (s : State) :
    (clearAccessChain s).loopTerminal = s.loopTerminal := rfl

@[simp] theorem clearAccessChain_accessChain (s : State) :
    (clearAccessChain s).accessChain = {} := rfl

@[simp] theorem setAccessChainLValue_trace (lValue : Nat) (s : State) :
    (setAccessChainLValue lValue s).trace = s.trace ++ [.setAccessChainLValue lValue] := rfl

@[simp] theorem setAccessChainLValue_breakForLoop (lValue : Nat) (s : State) :
    (setAccessChainLValue lValue s).breakForLoop = s.breakForLoop := rfl

@[simp] theorem setAccessChainLValue_loopTerminal (lValue : Nat) (s : State) :
    (setAccessChainLValue lValue s).loopTerminal = s.loopTerminal := rfl

@[simp] theorem setAccessChainLValue_accessChain (lValue : Nat) (s : State) :
    (setAccessChainLValue lValue s).accessChain =
      { s.accessChain with base := some lValue, isRValue := false } := rfl

@[simp] theorem setAccessChainRValue_trace (rValue : Nat) (s : State) :
    (setAccessChainRValue rValue s).trace = s.trace ++ [.setAccessChainRValue rValue] := rfl

@[simp] theorem setAccessChainRValue_accessChain (rValue : Nat) (s : State) :
    (setAccessChainRValue rValue s).accessChain =
      { s.accessChain with base := some rValue, isRValue := true } := rfl

@[simp] theorem accessChainLoad_trace (type : Nat) (s : State) :
    (accessChainLoad type s).2.trace = s.trace ++ [.accessChainLoad s.accessChain type] := rfl

@[simp] theorem accessChainLoad_fst (type : Nat) (s : State) :
    (accessChainLoad type s).1 = s.trace.length + 1 := rfl

@[simp] theorem accessChainLoad_breakForLoop (type : Nat) (s : State) :
    (accessChainLoad type s).2.breakForLoop = s.breakForLoop := rfl

@[simp] theorem accessChainLoad_loopTerminal (type : Nat) (s : State) :
    (accessChainLoad type s).2.loopTerminal = s.loopTerminal := rfl

@[simp] theorem accessChainLoad_accessChain (type : Nat) (s : State) :
    (accessChainLoad type s).2.accessChain = s.accessChain := rfl

/-- What a steady traversal adds to the calls. -/
theorem Steady.trace {f : State → State} (h : Steady f) (s : State) :
    (f s).trace = s.trace ++ (f s).trace.drop s.trace.length := by
  obtain ⟨l, hl⟩ := (h s).1
  rw [hl]
  simp

theorem Steady.breakForLoop {f : State → State} (h : Steady f) (s : State) :
    (f s).breakForLoop = s.breakForLoop := (h s).2.1

theorem Steady.loopTerminal {f : State → State} (h : Steady f) (s : State) :
    (f s).loopTerminal = s.loopTerminal := (h s).2.2

section
variable {s x : State} {b : List Bool} {t : List (Option TIntermTyped)}

theorem keeps_refl (s : State) : Keeps s s s.breakForLoop s.loopTerminal :=
  ⟨⟨[], by simp⟩, rfl, rfl⟩

theorem keeps_call (e : Event) (h : Keeps s x b t) : Keeps s (call e x).2 b t := by
  obtain ⟨⟨l, h₁⟩, h₂, h₃⟩ := h
  exact ⟨⟨l ++ [e], by rw [call_trace, h₁, List.append_assoc]⟩, h₂, h₃⟩

theorem keeps_traverseTyped (T : TIntermTraverser) (node : TIntermTyped) (h : Keeps s x b t) :
    Keeps s (traverseTyped T node x) b t := by
  obtain ⟨⟨l, h₁⟩, h₂, h₃⟩ := h
  exact ⟨⟨l ++ [.traverse node.id], by rw [traverseTyped_trace, h₁, List.append_assoc]⟩, h₂, h₃⟩

theorem keeps_clearAccessChain (h : Keeps s x b t) : Keeps s (clearAccessChain x) b t := by
  obtain ⟨⟨l, h₁⟩, h₂, h₃⟩ := h
  exact ⟨⟨l ++ [.clearAccessChain], by rw [clearAccessChain_trace, h₁, List.append_assoc]⟩,
    h₂, h₃⟩

theorem keeps_setAccessChainLValue (lValue : Nat) (h : Keeps s x b t) :
    Keeps s (setAccessChainLValue lValue x) b t := by
  obtain ⟨⟨l, h₁⟩, h₂, h₃⟩ := h
  exact ⟨⟨l ++ [.setAccessChainLValue lValue], by
    rw [setAccessChainLValue_trace, h₁, List.append_assoc]⟩, h₂, h₃⟩

theorem keeps_accessChainLoad (type : Nat) (h : Keeps s x b t) :
    Keeps s (accessChainLoad type x).2 b t := by
  obtain ⟨⟨l, h₁⟩, h₂, h₃⟩ := h
  exact ⟨⟨l ++ [.accessChainLoad x.accessChain type], by
    rw [accessChainLoad_trace, h₁, List.append_assoc]⟩, h₂, h₃⟩

theorem keeps_steady {f : State → State} (hf : Steady f) (h : Keeps s x b t) :
    Keeps s (f x) b t := by
  obtain ⟨⟨l, h₁⟩, h₂, h₃⟩ := h
  obtain ⟨⟨l', g₁⟩, g₂, g₃⟩ := hf x
  exact ⟨⟨l ++ l', by rw [g₁, h₁, List.append_assoc]⟩, by rw [g₂, h₂], by rw [g₃, h₃]⟩

theorem keeps_traverseLoopTerminal (T : TIntermTraverser) (h : Keeps s x b t) :
    Keeps s (traverseLoopTerminal T x) b t := by
  unfold traverseLoopTerminal
  split
  · exact keeps_traverseTyped T _ h
  · exact h

theorem keeps_pushBreak (v : Bool) (h : Keeps s x b t) :
    Keeps s { x with breakForLoop := v :: x.breakForLoop } (v :: b) t := by
  obtain ⟨⟨l, h₁⟩, h₂, h₃⟩ := h
  exact ⟨⟨l, h₁⟩, by simp [h₂], h₃⟩

theorem keeps_popBreak (v : Bool) (h : Keeps s x (v :: b) t) :
    Keeps s { x with breakForLoop := x.breakForLoop.tail } b t := by
  obtain ⟨⟨l, h₁⟩, h₂, h₃⟩ := h
  exact ⟨⟨l, h₁⟩, by simp [h₂], h₃⟩

theorem keeps_pushTerminal (v : Option TIntermTyped) (h : Keeps s x b t) :
    Keeps s { x with loopTerminal := v :: x.loopTerminal } b (v :: t) := by
  obtain ⟨⟨l, h₁⟩, h₂, h₃⟩ := h
  exact ⟨⟨l, h₁⟩, h₂, by simp [h₃]⟩

theorem keeps_popTerminal (v : Option TIntermTyped) (h : Keeps s x b (v :: t)) :
    Keeps s { x with loopTerminal := x.loopTerminal.tail } b t := by
  obtain ⟨⟨l, h₁⟩, h₂, h₃⟩ := h
  exact ⟨⟨l, h₁⟩, h₂, by simp [h₃]⟩

end

theorem steady_comp {f g : State → State} (hf : Steady f) (hg : Steady g) :
    Steady (fun s => g (f s)) :=
  fun s => keeps_steady hg (hf s)

theorem steady_foldl {α : Type} (f : α → State → State) (l : List α)
    (h : ∀ a ∈ l, Steady (f a)) : Steady (fun s => l.foldl (fun s a => f a s) s) := by
  induction l with
  | nil => exact fun s => keeps_refl s
  | cons a l ih =>
    simp only [List.foldl_cons]
    exact steady_comp (h a (List.mem_cons_self _ _))
      (ih (fun b hb => h b (List.mem_cons_of_mem _ hb)))

theorem traverse_typed (T : TIntermTraverser) (node : TIntermTyped) (s : State) :
    traverse T (.typed node) s = traverseTyped T node s := rfl

theorem traverse_aggregate (T : TIntermTraverser) (sequence : List TIntermNode) (s : State) :
    traverse T (.aggregate sequence) s =
      sequence.foldl (fun s node => traverse T node s) s := by
  rw [← traverseSequence_eq_foldl]
  rfl

theorem traverse_selection (T : TIntermTraverser) (basicType : TBasicType)
    (condition : TIntermTyped) (trueBlock falseBlock : Option TIntermNode) (s : State) :
    traverse T (.selection basicType condition trueBlock falseBlock) s =
      (visitSelection T basicType condition (trueBlock.map (traverse T))
        (falseBlock.map (traverse T)) s).2 := by
  cases trueBlock <;> cases falseBlock <;> rfl

theorem traverse_switch (T : TIntermTraverser) (condition : TIntermTyped)
    (body : List TIntermNode) (s : State) :
    traverse T (.switch condition body) s = (visitSwitch T condition (children T body) s).2 :=
  rfl

theorem traverse_loop (T : TIntermTraverser) (testFirst : Bool) (test : Option TIntermTyped)
    (body : Option TIntermNode) (terminal : Option TIntermTyped) (s : State) :
    traverse T (.loop testFirst test body terminal) s =
      (visitLoop T testFirst test (body.map (traverse T)) terminal s).2 := by
  cases body <;> rfl

theorem traverse_branch (T : TIntermTraverser) (flowOp : TOperator)
    (expression : Option TIntermTyped) (s : State) :
    traverse T (.branch flowOp expression) s = (visitBranch T flowOp expression s).2 := rfl

theorem steady_id : Steady (fun s => s) := fun s => keeps_refl s

theorem steady_traverseTyped (T : TIntermTraverser) (node : TIntermTyped) :
    Steady (traverseTyped T node) :=
  fun s => keeps_traverseTyped T node (keeps_refl s)

theorem visitLoop_steady (T : TIntermTraverser) (testFirst : Bool) (test : Option TIntermTyped)
    (body : Option (State → State)) (terminal : Option TIntermTyped)
    (hb : ∀ f, body = some f → Steady f) :
    Steady (fun s => (visitLoop T testFirst test body terminal s).2) := by
  intro s
  unfold visitLoop
  cases body with
  | none =>
    cases test <;> dsimp only <;>
      repeat first
        | exact keeps_refl _
        | apply keeps_popTerminal terminal
        | apply keeps_pushTerminal
        | apply keeps_call
        | apply keeps_traverseTyped
        | apply keeps_traverseLoopTerminal
        | apply keeps_accessChainLoad
        | split
  | some f =>
    cases test <;> dsimp only <;>
      repeat first
        | exact keeps_refl _
        | apply keeps_popTerminal terminal
        | apply keeps_pushTerminal
        | apply keeps_popBreak true
        | apply keeps_pushBreak
        | apply keeps_call
        | apply keeps_traverseTyped
        | apply keeps_traverseLoopTerminal
        | apply keeps_accessChainLoad
        | apply keeps_steady (hb f rfl)
        | split

theorem visitSelection_steady (T : TIntermTraverser) (basicType : TBasicType)
    (condition : TIntermTyped) (trueBlock falseBlock : Option (State → State))
    (ht : ∀ f, trueBlock = some f → Steady f) (hf : ∀ f, falseBlock = some f → Steady f) :
    Steady (fun s => (visitSelection T basicType condition trueBlock falseBlock s).2) := by
  intro s
  unfold visitSelection
  dsimp only
  cases trueBlock with
  | none =>
    cases falseBlock with
    | none =>
      dsimp only
      repeat first
        | exact keeps_refl _
        | apply keeps_call
        | apply keeps_traverseTyped
        | apply keeps_clearAccessChain
        | apply keeps_setAccessChainLValue
        | apply keeps_accessChainLoad
        | split
    | some g =>
      dsimp only
      repeat first
        | exact keeps_refl _
        | apply keeps_call
        | apply keeps_traverseTyped
        | apply keeps_clearAccessChain
        | apply keeps_setAccessChainLValue
        | apply keeps_accessChainLoad
        | apply keeps_steady (hf g rfl)
        | split
  | some f =>
    cases falseBlock with
    | none =>
      dsimp only
      repeat first
        | exact keeps_refl _
        | apply keeps_call
        | apply keeps_traverseTyped
        | apply keeps_clearAccessChain
        | apply keeps_setAccessChainLValue
        | apply keeps_accessChainLoad
        | apply keeps_steady (ht f rfl)
        | split
    | some g =>
      dsimp only
      repeat first
        | exact keeps_refl _
        | apply keeps_call
        | apply keeps_traverseTyped
        | apply keeps_clearAccessChain
        | apply keeps_setAccessChainLValue
        | apply keeps_accessChainLoad
        | apply keeps_steady (ht f rfl)
        | apply keeps_steady (hf g rfl)
        | split

theorem visitBranch_steady (T : TIntermTraverser) (flowOp : TOperator)
    (expression : Option TIntermTyped) :
    Steady (fun s => (visitBranch T flowOp expression s).2) := by
  intro s
  unfold visitBranch
  dsimp only
  have h₀ : Keeps s (match expression with
      | some e => traverseTyped T e s
      | none => s) s.breakForLoop s.loopTerminal := by
    cases expression with
    | none => exact keeps_refl s
    | some e => exact keeps_traverseTyped T e (keeps_refl s)
  revert h₀
  generalize (match expression with
      | some e => traverseTyped T e s
      | none => s) = x
  intro h₀
  cases flowOp <;> dsimp only <;>
    repeat first
      | exact h₀
      | apply keeps_call
      | apply keeps_traverseTyped
      | apply keeps_traverseLoopTerminal
      | apply keeps_clearAccessChain
      | apply keeps_accessChainLoad
      | split

theorem emitSegments_keeps (codeSegments : List (Option Child))
    (h : ∀ child, some child ∈ codeSegments → Steady child.traverse) :
    ∀ (segment : Nat) (s x : State) (b : List Bool) (t : List (Option TIntermTyped)),
      Keeps s x b t → Keeps s (emitSegments codeSegments segment x) b t := by
  induction codeSegments with
  | nil => intro segment s x b t hx; exact hx
  | cons c rest ih =>
    intro segment s x b t hx
    show Keeps s (emitSegments rest (segment + 1) _) b t
    apply ih (fun child hc => h child (List.mem_cons_of_mem _ hc))
    cases c with
    | none => exact keeps_call _ (keeps_call _ hx)
    | some child =>
      exact keeps_steady (h child (List.mem_cons_self _ _)) (keeps_call _ hx)


theorem sortChild_codeSegments (c : CodeSegments) (child : Child) :
    (sortChild c child).codeSegments =
      c.codeSegments ++ (if child.isCode then [some child] else []) := by
  unfold sortChild Child.isCode Child.isCase Child.isDefault
  by_cases hd : child.flowOp = some .EOpDefault
  · simp [hd]
  · by_cases hc : child.flowOp = some .EOpCase
    · simp [hd, hc]
    · simp [hd, hc]

theorem sortChild_caseValues (c : CodeSegments) (child : Child) :
    (sortChild c child).caseValues =
      c.caseValues ++ (if child.isCase then [child.iConst] else []) := by
  unfold sortChild Child.isCase
  by_cases hd : child.flowOp = some .EOpDefault
  · simp [hd]
  · by_cases hc : child.flowOp = some .EOpCase
    · simp [hd, hc]
    · simp [hd, hc]

theorem foldl_sortChild_codeSegments (sequence : List Child) (c : CodeSegments) :
    (sequence.foldl sortChild c).codeSegments =
      c.codeSegments ++ (sequence.filter Child.isCode).map some := by
  induction sequence generalizing c with
  | nil => simp
  | cons child rest ih =>
    rw [List.foldl_cons, ih, sortChild_codeSegments, List.filter_cons]
    by_cases h : child.isCode = true <;> simp [h]

theorem foldl_sortChild_caseValues (sequence : List Child) (c : CodeSegments) :
    (sequence.foldl sortChild c).caseValues =
      c.caseValues ++ (sequence.filter Child.isCase).map Child.iConst := by
  induction sequence generalizing c with
  | nil => simp
  | cons child rest ih =>
    rw [List.foldl_cons, ih, sortChild_caseValues, List.filter_cons]
    by_cases h : child.isCase = true <;> simp [h]

theorem sortCodeSegments_codeSegments (sequence : List Child) :
    (sortCodeSegments sequence).codeSegments = (sequence.filter Child.isCode).map some := by
  unfold sortCodeSegments
  rw [foldl_sortChild_codeSegments]
  rfl

theorem sortCodeSegments_caseValues (sequence : List Child) :
    (sortCodeSegments sequence).caseValues = (sequence.filter Child.isCase).map Child.iConst := by
  unfold sortCodeSegments
  rw [foldl_sortChild_caseValues]
  rfl

theorem addMissingSegment_codeSegments (c : CodeSegments) :
    ∃ l, (addMissingSegment c).codeSegments = c.codeSegments ++ l ∧ ∀ x ∈ l, x = none := by
  unfold addMissingSegment
  split
  · exact ⟨[none], rfl, by simp⟩
  · exact ⟨[], by simp, by simp⟩

theorem visitSwitch_steady (T : TIntermTraverser) (condition : TIntermTyped)
    (sequence : List Child) (h : ∀ child ∈ sequence, Steady child.traverse) :
    Steady (fun s => (visitSwitch T condition sequence s).2) := by
  intro s
  unfold visitSwitch
  dsimp only
  apply keeps_call
  apply keeps_popBreak false
  apply emitSegments_keeps
  · intro child hc
    obtain ⟨l, hl, hn⟩ := addMissingSegment_codeSegments (sortCodeSegments sequence)
    rw [hl, sortCodeSegments_codeSegments, List.mem_append] at hc
    rcases hc with hc | hc
    · obtain ⟨c, hc₁, hc₂⟩ := List.mem_map.1 hc
      injection hc₂ with hc₂
      subst hc₂
      exact h c (List.mem_filter.1 hc₁).1
    · cases hn _ hc
  · apply keeps_pushBreak
    apply keeps_call
    apply keeps_accessChainLoad
    apply keeps_call
    apply keeps_traverseTyped
    exact keeps_refl s

/-- The traversal of a node only adds calls and leaves the context stacks as it found
them. -/
theorem traverse_steady (T : TIntermTraverser) : ∀ node, Steady (traverse T node) := by
  intro node
  induction node using TIntermNode.induction with
  | h node ih =>
    cases node with
    | typed e => exact steady_traverseTyped T e
    | aggregate sequence =>
      intro s
      rw [traverse_aggregate]
      exact steady_foldl (fun node => traverse T node) sequence
        (fun n hn => ih n (by simpa [TIntermNode.childNodes] using hn)) s
    | selection basicType condition trueBlock falseBlock =>
      intro s
      rw [traverse_selection]
      refine visitSelection_steady T basicType condition _ _ ?_ ?_ s
      · intro f hf
        obtain ⟨n, rfl, rfl⟩ := Option.map_eq_some'.1 hf
        exact ih n (by simp [TIntermNode.childNodes])
      · intro f hf
        obtain ⟨n, rfl, rfl⟩ := Option.map_eq_some'.1 hf
        exact ih n (by simp [TIntermNode.childNodes])
    | switch condition body =>
      intro s
      rw [traverse_switch, children_eq_map]
      refine visitSwitch_steady T condition _ ?_ s
      intro child hc
      obtain ⟨n, hn, rfl⟩ := List.mem_map.1 hc
      exact ih n (by simpa [TIntermNode.childNodes] using hn)
    | loop testFirst test body terminal =>
      intro s
      rw [traverse_loop]
      refine visitLoop_steady T testFirst test _ terminal ?_ s
      intro f hf
      obtain ⟨n, rfl, rfl⟩ := Option.map_eq_some'.1 hf
      exact ih n (by simp [TIntermNode.childNodes])
    | branch flowOp expression =>
      intro s
      rw [traverse_branch]
      exact visitBranch_steady T flowOp expression s

end Lowering

/-! ## Control flow: the calls of one kind that a traversal adds -/

namespace Lowering

section
variable {P : Event → Bool} {s x : State} {b : List Bool} {t : List (Option TIntermTyped)}
  {l : List Event}

theorem obs_refl (P : Event → Bool) (s : State) :
    Obs P s s s.breakForLoop s.loopTerminal [] :=
  ⟨by simp, rfl, rfl⟩

theorem obs_call (e : Event) (h : Obs P s x b t l) :
    Obs P s (call e x).2 b t (l ++ [e].filter P) := by
  obtain ⟨h₁, h₂, h₃⟩ := h
  refine ⟨?_, h₂, h₃⟩
  rw [call_trace, List.filter_append, h₁, List.append_assoc]

theorem obs_quiet (hP : ∀ e, Event.isQuiet e = true → P e = false) (e : Event)
    (hq : Event.isQuiet e = true) (h : Obs P s x b t l) : Obs P s (call e x).2 b t l := by
  have h' := obs_call e h
  simpa [List.filter_cons, hP e hq] using h'

theorem obs_traverseTyped (T : TIntermTraverser) (node : TIntermTyped) (h : Obs P s x b t l) :
    Obs P s (traverseTyped T node x) b t (l ++ (traversal (some node)).filter P) :=
  obs_call (.traverse node.id) h

theorem obs_clearAccessChain (hP : ∀ e, Event.isQuiet e = true → P e = false)
    (h : Obs P s x b t l) : Obs P s (clearAccessChain x) b t l :=
  obs_quiet hP .clearAccessChain rfl h

theorem obs_setAccessChainLValue (hP : ∀ e, Event.isQuiet e = true → P e = false)
    (lValue : Nat) (h : Obs P s x b t l) : Obs P s (setAccessChainLValue lValue x) b t l :=
  obs_quiet hP (.setAccessChainLValue lValue) rfl h

theorem obs_accessChainLoad (hP : ∀ e, Event.isQuiet e = true → P e = false)
    (type : Nat) (h : Obs P s x b t l) : Obs P s (accessChainLoad type x).2 b t l :=
  obs_quiet hP (.accessChainLoad x.accessChain type) rfl h

theorem obs_emits {f : State → State} {E : List Bool → List (Option TIntermTyped) → List Event}
    (hf : Emits P f E) (h : Obs P s x b t l) : Obs P s (f x) b t (l ++ E b t) := by
  obtain ⟨h₁, h₂, h₃⟩ := h
  obtain ⟨g₁, g₂, g₃⟩ := hf x
  exact ⟨by rw [g₁, h₁, List.append_assoc, h₂, h₃], by rw [g₂, h₂], by rw [g₃, h₃]⟩

theorem obs_traverseLoopTerminal (T : TIntermTraverser) (h : Obs P s x b t l) :
    Obs P s (traverseLoopTerminal T x) b t (l ++ (traversal (top t none)).filter P) := by
  unfold traverseLoopTerminal
  rw [h.2.2]
  cases top t none with
  | none => simpa [traversal] using h
  | some terminal => exact obs_traverseTyped T terminal h

theorem obs_pushBreak (v : Bool) (h : Obs P s x b t l) :
    Obs P s { x with breakForLoop := v :: x.breakForLoop } (v :: b) t l := by
  obtain ⟨h₁, h₂, h₃⟩ := h
  exact ⟨h₁, by simp [h₂], h₃⟩

theorem obs_popBreak (v : Bool) (h : Obs P s x (v :: b) t l) :
    Obs P s { x with breakForLoop := x.breakForLoop.tail } b t l := by
  obtain ⟨h₁, h₂, h₃⟩ := h
  exact ⟨h₁, by simp [h₂], h₃⟩

theorem obs_pushTerminal (v : Option TIntermTyped) (h : Obs P s x b t l) :
    Obs P s { x with loopTerminal := v :: x.loopTerminal } b (v :: t) l := by
  obtain ⟨h₁, h₂, h₃⟩ := h
  exact ⟨h₁, h₂, by simp [h₃]⟩

theorem obs_popTerminal (v : Option TIntermTyped) (h : Obs P s x b (v :: t) l) :
    Obs P s { x with loopTerminal := x.loopTerminal.tail } b t l := by
  obtain ⟨h₁, h₂, h₃⟩ := h
  exact ⟨h₁, h₂, by simp [h₃]⟩

theorem obs_list (l : List Event) {l' : List Event} (h : Obs P s x b t l) (e : l = l') :
    Obs P s x b t l' :=
  e ▸ h

end

theorem emits_id (P : Event → Bool) : Emits P (fun s => s) (fun _ _ => []) :=
  fun s => obs_refl P s

theorem emits_comp {P : Event → Bool} {f g : State → State}
    {E F : List Bool → List (Option TIntermTyped) → List Event}
    (hf : Emits P f E) (hg : Emits P g F) :
    Emits P (fun s => g (f s)) (fun b t => E b t ++ F b t) := by
  intro s
  have h := obs_emits hg (hf s)
  exact h

/-- The calls of one kind made by `visitLoop`: those of the test, of the body, which is
traversed with the loop on top of both stacks, and of the terminal. -/
theorem visitLoop_emits (T : TIntermTraverser) {P : Event → Bool}
    (hP : ∀ e, Event.isQuiet e = true → P e = false) (testFirst : Bool)
    (test : Option TIntermTyped) (body : Option (State → State))
    (terminal : Option TIntermTyped)
    (E : List Bool → List (Option TIntermTyped) → List Event)
    (hb : ∀ f, body = some f → Emits P f E) :
    Emits P (fun s => (visitLoop T testFirst test body terminal s).2)
      (fun b t => (traversal test).filter P ++
        ((if body.isSome then E (true :: b) (terminal :: t) else []) ++
          (traversal terminal).filter P)) := by
  intro s
  unfold visitLoop
  cases body with
  | none =>
    cases test with
    | none =>
      dsimp only
      apply obs_list
      · repeat first
          | exact obs_refl P s
          | apply obs_popTerminal terminal
          | apply obs_pushTerminal
          | apply obs_quiet hP _ (by rfl)
          | apply obs_accessChainLoad hP
          | apply obs_traverseLoopTerminal
          | apply obs_traverseTyped
      · simp [traversal, top]
    | some test =>
      dsimp only
      apply obs_list
      · repeat first
          | exact obs_refl P s
          | apply obs_popTerminal terminal
          | apply obs_pushTerminal
          | apply obs_quiet hP _ (by rfl)
          | apply obs_accessChainLoad hP
          | apply obs_traverseLoopTerminal
          | apply obs_traverseTyped
      · simp [traversal, top]
  | some f =>
    cases test with
    | none =>
      dsimp only
      apply obs_list
      · repeat first
          | exact obs_refl P s
          | apply obs_popTerminal terminal
          | apply obs_pushTerminal
          | apply obs_popBreak true
          | apply obs_pushBreak
          | apply obs_quiet hP _ (by rfl)
          | apply obs_accessChainLoad hP
          | apply obs_traverseLoopTerminal
          | apply obs_traverseTyped
          | apply obs_emits (hb f rfl)
      · simp [traversal, top]
    | some test =>
      dsimp only
      apply obs_list
      · repeat first
          | exact obs_refl P s
          | apply obs_popTerminal terminal
          | apply obs_pushTerminal
          | apply obs_popBreak true
          | apply obs_pushBreak
          | apply obs_quiet hP _ (by rfl)
          | apply obs_accessChainLoad hP
          | apply obs_traverseLoopTerminal
          | apply obs_traverseTyped
          | apply obs_emits (hb f rfl)
      · simp [traversal, top]

/-- The calls of one kind made by `visitSelection`: those of the condition, then those
of the arms. -/
theorem visitSelection_emits (T : TIntermTraverser) {P : Event → Bool}
    (hP : ∀ e, Event.isQuiet e = true → P e = false) (basicType : TBasicType)
    (condition : TIntermTyped) (trueBlock falseBlock : Option (State → State))
    (E F : List Bool → List (Option TIntermTyped) → List Event)
    (ht : ∀ f, trueBlock = some f → Emits P f E)
    (hf : ∀ f, falseBlock = some f → Emits P f F) :
    Emits P (fun s => (visitSelection T basicType condition trueBlock falseBlock s).2)
      (fun b t => (traversal (some condition)).filter P ++
        ((if trueBlock.isSome then E b t else []) ++
          (if falseBlock.isSome then F b t else []))) := by
  intro s
  unfold visitSelection
  dsimp only
  cases trueBlock with
  | none =>
    cases falseBlock with
    | none =>
      dsimp only
      apply obs_list
      · repeat first
          | exact obs_refl P s
          | apply obs_quiet hP _ (by rfl)
          | apply obs_traverseTyped
          | apply obs_clearAccessChain hP
          | apply obs_setAccessChainLValue hP
          | apply obs_accessChainLoad hP
          | split
      · simp [traversal]
    | some g =>
      dsimp only
      apply obs_list
      · repeat first
          | exact obs_refl P s
          | apply obs_quiet hP _ (by rfl)
          | apply obs_traverseTyped
          | apply obs_clearAccessChain hP
          | apply obs_setAccessChainLValue hP
          | apply obs_accessChainLoad hP
          | apply obs_emits (hf g rfl)
          | split
      · simp [traversal]
  | some f =>
    cases falseBlock with
    | none =>
      dsimp only
      apply obs_list
      · repeat first
          | exact obs_refl P s
          | apply obs_quiet hP _ (by rfl)
          | apply obs_traverseTyped
          | apply obs_clearAccessChain hP
          | apply obs_setAccessChainLValue hP
          | apply obs_accessChainLoad hP
          | apply obs_emits (ht f rfl)
          | split
      · simp [traversal]
    | some g =>
      dsimp only
      apply obs_list
      · repeat first
          | exact obs_refl P s
          | apply obs_quiet hP _ (by rfl)
          | apply obs_traverseTyped
          | apply obs_clearAccessChain hP
          | apply obs_setAccessChainLValue hP
          | apply obs_accessChainLoad hP
          | apply obs_emits (ht f rfl)
          | apply obs_emits (hf g rfl)
          | split
      · simp [traversal]

/-- The calls of one kind made by `visitBranch`: those of the expression, then the
lowering of a `break` by the top of `breakForLoop`, or the terminal on top of
`loopTerminal` for a `continue`. -/
theorem visitBranch_emits (T : TIntermTraverser) {P : Event → Bool}
    (hP : ∀ e, Event.isQuiet e = true → P e = false) (flowOp : TOperator)
    (expression : Option TIntermTyped) :
    Emits P (fun s => (visitBranch T flowOp expression s).2)
      (fun b t => (traversal expression).filter P ++
        (if flowOp = .EOpBreak then [breakLowering (top b false)].filter P
         else if flowOp = .EOpContinue then (traversal (top t none)).filter P
         else [])) := by
  intro s
  unfold visitBranch
  dsimp only
  have h₀ : Obs P s (match expression with
      | some e => traverseTyped T e s
      | none => s) s.breakForLoop s.loopTerminal ((traversal expression).filter P) := by
    cases expression with
    | none => exact obs_refl P s
    | some e => simpa using obs_traverseTyped T e (obs_refl P s)
  revert h₀
  generalize (match expression with
      | some e => traverseTyped T e s
      | none => s) = x
  intro h₀
  by_cases hb : flowOp = .EOpBreak
  · subst hb
    dsimp only
    rw [h₀.2.1]
    cases top s.breakForLoop false
    · simpa [breakLowering] using obs_call .addSwitchBreak h₀
    · simpa [breakLowering] using obs_call .createLoopExit h₀
  · by_cases hc : flowOp = .EOpContinue
    · subst hc
      dsimp only
      have h := obs_quiet hP .createLoopContinue rfl (obs_traverseLoopTerminal T h₀)
      simpa using h
    · cases flowOp <;> first | exact absurd rfl hb | exact absurd rfl hc | skip
      all_goals dsimp only
      all_goals simp only [hb, hc, if_false, List.append_nil]
      all_goals
        repeat first
          | exact h₀
          | apply obs_quiet hP _ (by rfl)
          | apply obs_clearAccessChain hP
          | apply obs_accessChainLoad hP
          | split

end Lowering

/-! ## Control flow: the code segments of a switch -/

namespace Lowering

theorem child_kind (child : Child) :
    (child.isDefault = true ∧ child.isCase = false ∧ child.isCode = false) ∨
    (child.isDefault = false ∧ child.isCase = true ∧ child.isCode = false) ∨
    (child.isDefault = false ∧ child.isCase = false ∧ child.isCode = true) := by
  unfold Child.isCode Child.isCase Child.isDefault
  by_cases hd : child.flowOp = some .EOpDefault
  · simp [hd]
  · by_cases hc : child.flowOp = some .EOpCase
    · simp [hc]
    · simp [hd, hc]

theorem sortChild_of_isDefault (c : CodeSegments) (child : Child)
    (h : child.isDefault = true) :
    sortChild c child = { c with defaultSegment := c.codeSegments.length } := by
  unfold Child.isDefault at h
  unfold sortChild
  rw [if_pos (by simpa using h)]

theorem sortChild_of_isCase (c : CodeSegments) (child : Child) (h : child.isCase = true) :
    sortChild c child =
      { c with
        valueIndexToSegment :=
          c.valueIndexToSegment.set c.caseValues.length (c.codeSegments.length : Int)
        caseValues := c.caseValues ++ [child.iConst] } := by
  unfold Child.isCase at h
  have h' : child.flowOp = some .EOpCase := by simpa using h
  unfold sortChild
  rw [if_neg (by rw [h']; decide), if_pos h']

theorem sortChild_of_isCode (c : CodeSegments) (child : Child) (h : child.isCode = true) :
    sortChild c child = { c with codeSegments := c.codeSegments ++ [some child] } := by
  unfold Child.isCode Child.isCase Child.isDefault at h
  simp only [Bool.and_eq_true, Bool.not_eq_eq_eq_not, Bool.not_true, beq_eq_false_iff_ne,
    ne_eq] at h
  unfold sortChild
  rw [if_neg h.2, if_neg h.1]

theorem append_singleton_eq_append_cons {α : Type} {done pre post : List α} {x child : α}
    (h : done ++ [x] = pre ++ child :: post) :
    (post = [] ∧ pre = done ∧ child = x) ∨
      ∃ post', post = post' ++ [x] ∧ done = pre ++ child :: post' := by
  have hpost : post = [] ∨ ∃ L b, post = L ++ [b] := by
    rcases List.eq_nil_or_concat post with h | ⟨L, b, h⟩
    · exact Or.inl h
    · exact Or.inr ⟨L, b, by rw [h, List.concat_eq_append]⟩
  rcases hpost with rfl | ⟨L, b, rfl⟩
  · left
    have h' : done ++ [x] = pre ++ [child] := h
    obtain ⟨h₁, h₂⟩ := List.append_inj' h' rfl
    exact ⟨rfl, h₁.symm, by simpa using h₂.symm⟩
  · right
    have h' : done ++ [x] = (pre ++ child :: L) ++ [b] := by simpa using h
    obtain ⟨h₁, h₂⟩ := List.append_inj' h' rfl
    have hb : x = b := by simpa using h₂
    subst hb
    exact ⟨L, rfl, h₁⟩

/-- What the loop that sorts the children has computed after the children `done`, out
of `n` children in all. -/
theorem foldl_sortChild_sorted (n : Nat) (done : List Child) (hn : done.length ≤ n) :
    let c := done.foldl sortChild { valueIndexToSegment := List.replicate n 0 }
    c.valueIndexToSegment.length = n ∧
    c.caseValues.length = done.countP Child.isCase ∧
    c.codeSegments.length = done.countP Child.isCode ∧
    (∀ pre child post, done = pre ++ child :: post → child.isCase = true →
      c.valueIndexToSegment.getD (pre.countP Child.isCase) 0 =
        (pre.countP Child.isCode : Int)) ∧
    ((∀ x ∈ done, Child.isDefault x = false) → c.defaultSegment = -1) ∧
    (∀ pre child post, done = pre ++ child :: post → child.isDefault = true →
      (∀ x ∈ post, Child.isDefault x = false) →
      c.defaultSegment = (pre.countP Child.isCode : Int)) := by
  induction done using List.reverseRecOn with
  | nil =>
    refine ⟨by simp, by simp, by simp, ?_, ?_, ?_⟩
    · intro pre child post h
      simp at h
    · intro _
      rfl
    · intro pre child post h
      simp at h
  | append_singleton done x ih =>
    have hlt : done.length < n := by
      rw [List.length_append, List.length_singleton] at hn
      omega
    obtain ⟨h₁, h₂, h₃, h₄, h₅, h₆⟩ := ih (Nat.le_of_lt hlt)
    rw [List.foldl_append, List.foldl_cons, List.foldl_nil]
    generalize done.foldl sortChild { valueIndexToSegment := List.replicate n 0 } = c
      at h₁ h₂ h₃ h₄ h₅ h₆
    dsimp only
    have hcase : done.countP Child.isCase ≤ done.length := List.countP_le_length _
    rcases child_kind x with ⟨hd, hc, hk⟩ | ⟨hd, hc, hk⟩ | ⟨hd, hc, hk⟩
    · -- a default label
      rw [sortChild_of_isDefault c x hd]
      refine ⟨h₁, ?_, ?_, ?_, ?_, ?_⟩
      · simp [List.countP_append, List.countP_cons, hc, h₂]
      · simp [List.countP_append, List.countP_cons, hk, h₃]
      · intro pre child post h hch
        rcases append_singleton_eq_append_cons h with ⟨_, _, rfl⟩ | ⟨post', _, hdone⟩
        · rw [hc] at hch
          cases hch
        · exact h₄ pre child post' hdone hch
      · intro hall
        have := hall x (by simp)
        rw [hd] at this
        cases this
      · intro pre child post h _ hpost
        rcases append_singleton_eq_append_cons h with ⟨_, rfl, rfl⟩ | ⟨post', rfl, _⟩
        · simp [h₃]
        · have := hpost x (by simp)
          rw [hd] at this
          cases this
    · -- a case label
      rw [sortChild_of_isCase c x hc]
      refine ⟨by simp [h₁], ?_, ?_, ?_, ?_, ?_⟩
      · simp [List.countP_append, List.countP_cons, hc, h₂]
      · simp [List.countP_append, List.countP_cons, hk, h₃]
      · intro pre child post h hch
        rcases append_singleton_eq_append_cons h with ⟨_, rfl, rfl⟩ | ⟨post', _, hdone⟩
        · simp only [List.getD_eq_getElem?_getD, h₂, h₃]
          rw [List.getElem?_set_self (by omega)]
          rfl
        · have hlt' : pre.countP Child.isCase < c.caseValues.length := by
            rw [h₂, hdone]
            simp [List.countP_append, List.countP_cons, hch]
          have := h₄ pre child post' hdone hch
          simp only [List.getD_eq_getElem?_getD] at this ⊢
          rw [List.getElem?_set_ne (by omega)]
          exact this
      · intro hall
        exact h₅ (fun y hy => hall y (by simp [hy]))
      · intro pre child post h hch hpost
        rcases append_singleton_eq_append_cons h with ⟨_, _, rfl⟩ | ⟨post', rfl, hdone⟩
        · rw [hd] at hch
          cases hch
        · exact h₆ pre child post' hdone hch (fun y hy => hpost y (by simp [hy]))
    · -- code
      rw [sortChild_of_isCode c x hk]
      refine ⟨h₁, ?_, ?_, ?_, ?_, ?_⟩
      · simp [List.countP_append, List.countP_cons, hc, h₂]
      · simp [List.countP_append, List.countP_cons, hk, h₃]
      · intro pre child post h hch
        rcases append_singleton_eq_append_cons h with ⟨_, _, rfl⟩ | ⟨post', _, hdone⟩
        · rw [hc] at hch
          cases hch
        · exact h₄ pre child post' hdone hch
      · intro hall
        exact h₅ (fun y hy => hall y (by simp [hy]))
      · intro pre child post h hch hpost
        rcases append_singleton_eq_append_cons h with ⟨_, _, rfl⟩ | ⟨post', rfl, hdone⟩
        · rw [hd] at hch
          cases hch
        · exact h₆ pre child post' hdone hch (fun y hy => hpost y (by simp [hy]))

theorem exists_last {α : Type} (p : α → Bool) (l : List α) :
    (∀ x ∈ l, p x = false) ∨
      ∃ pre child post, l = pre ++ child :: post ∧ p child = true ∧ ∀ x ∈ post, p x = false := by
  induction l with
  | nil => left; simp
  | cons a l ih =>
    rcases ih with h | ⟨pre, child, post, rfl, hc, hp⟩
    · by_cases ha : p a = true
      · exact Or.inr ⟨[], a, l, rfl, ha, h⟩
      · left
        intro x hx
        rcases List.mem_cons.1 hx with rfl | hx
        · simpa using ha
        · exact h x hx
    · exact Or.inr ⟨a :: pre, child, post, rfl, hc, hp⟩

theorem countP_eq_zero_of_forall {α : Type} (p : α → Bool) (l : List α)
    (h : ∀ x ∈ l, p x = false) : l.countP p = 0 := by
  rw [List.countP_eq_zero]
  intro x hx
  simp [h x hx]

theorem sortCodeSegments_sorted (sequence : List Child) :
    let c := sortCodeSegments sequence
    c.valueIndexToSegment.length = sequence.length ∧
    c.caseValues.length = sequence.countP Child.isCase ∧
    c.codeSegments.length = sequence.countP Child.isCode ∧
    (∀ pre child post, sequence = pre ++ child :: post → child.isCase = true →
      c.valueIndexToSegment.getD (pre.countP Child.isCase) 0 =
        (pre.countP Child.isCode : Int)) ∧
    ((∀ x ∈ sequence, Child.isDefault x = false) → c.defaultSegment = -1) ∧
    (∀ pre child post, sequence = pre ++ child :: post → child.isDefault = true →
      (∀ x ∈ post, Child.isDefault x = false) →
      c.defaultSegment = (pre.countP Child.isCode : Int)) :=
  foldl_sortChild_sorted sequence.length sequence (Nat.le_refl _)

/-- The fix-up adds the null segment exactly when the children end with a label. -/
theorem addMissingSegment_sortCodeSegments (sequence : List Child) :
    addMissingSegment (sortCodeSegments sequence) =
      { sortCodeSegments sequence with
        codeSegments := (sortCodeSegments sequence).codeSegments ++
          (if Child.endsWithLabel sequence then [none] else []) } := by
  obtain ⟨_, h₂, h₃, h₄, h₅, h₆⟩ := sortCodeSegments_sorted sequence
  generalize sortCodeSegments sequence = c at h₂ h₃ h₄ h₅ h₆
  unfold addMissingSegment
  have hpost : sequence = [] ∨ ∃ L b, sequence = L ++ [b] := by
    rcases List.eq_nil_or_concat sequence with h | ⟨L, b, h⟩
    · exact Or.inl h
    · exact Or.inr ⟨L, b, by rw [h, List.concat_eq_append]⟩
  rcases hpost with rfl | ⟨done, x, rfl⟩
  · have hd := h₅ (by simp)
    have hc : c.caseValues.length = 0 := by simpa using h₂
    have hk : c.codeSegments.length = 0 := by simpa using h₃
    rw [if_neg]
    · simp [Child.endsWithLabel]
    · rw [hd, hk, hc]
      simp
  · have hend : Child.endsWithLabel (done ++ [x]) = !x.isCode := by
      simp [Child.endsWithLabel]
    rw [hend]
    have hcases : c.caseValues.length = done.countP Child.isCase + (if x.isCase then 1 else 0) := by
      rw [h₂, List.countP_append]
      simp [List.countP_cons]
    have hcode : c.codeSegments.length = done.countP Child.isCode + (if x.isCode then 1 else 0) := by
      rw [h₃, List.countP_append]
      simp [List.countP_cons]
    rcases child_kind x with ⟨hd, hc, hk⟩ | ⟨hd, hc, hk⟩ | ⟨hd, hc, hk⟩
    · rw [if_pos, hk]
      · rfl
      · right
        rw [h₆ done x [] rfl hd (by simp), hcode, hk]
        simp
    · rw [if_pos, hk]
      · rfl
      · left
        have := h₄ done x [] rfl hc
        rw [hcases, hc, hcode, hk]
        simp only [if_true, Nat.add_sub_cancel, this]
        simp
    · rw [if_neg, hk]
      · simp
      · rw [hcode, hk]
        simp only [if_true]
        intro hor
        rcases hor with ⟨hne, heq⟩ | heq
        · rcases exists_last Child.isCase done with hall | ⟨pre, child, post, rfl, hch, hp⟩
          · rw [hcases, hc, countP_eq_zero_of_forall _ _ hall] at hne
            simp at hne
          · have hv := h₄ pre child (post ++ [x]) (by simp) hch
            have hcp : c.caseValues.length - 1 = pre.countP Child.isCase := by
              rw [hcases, hc]
              simp [List.countP_append, List.countP_cons, hch,
                countP_eq_zero_of_forall _ _ hp]
            rw [hcp, hv] at heq
            have hle : pre.countP Child.isCode ≤ (pre ++ child :: post).countP Child.isCode := by
              rw [List.countP_append]
              omega
            omega
        · rcases exists_last Child.isDefault done with hall | ⟨pre, child, post, rfl, hch, hp⟩
          · have hdv := h₅ (by
              intro y hy
              rcases List.mem_append.1 hy with hy | hy
              · exact hall y hy
              · simp only [List.mem_singleton] at hy
                rw [hy, hd])
            rw [hdv] at heq
            omega
          · have hv := h₆ pre child (post ++ [x]) (by simp) hch (by
              intro y hy
              rcases List.mem_append.1 hy with hy | hy
              · exact hp y hy
              · simp only [List.mem_singleton] at hy
                rw [hy, hd])
            rw [hv] at heq
            have hle : pre.countP Child.isCode ≤ (pre ++ child :: post).countP Child.isCode := by
              rw [List.countP_append]
              omega
            omega

theorem emitSegments_append (l₁ l₂ : List (Option Child)) (segment : Nat) (s : State) :
    emitSegments (l₁ ++ l₂) segment s =
      emitSegments l₂ (segment + l₁.length) (emitSegments l₁ segment s) := by
  induction l₁ generalizing segment s with
  | nil => rfl
  | cons c rest ih =>
    show emitSegments (rest ++ l₂) (segment + 1) _ = _
    rw [ih]
    have h : segment + 1 + rest.length = segment + (c :: rest).length := by
      rw [List.length_cons]
      omega
    rw [h]
    rfl

theorem emitSegments_obs {P : Event → Bool} (hP : ∀ e, Event.isQuiet e = true → P e = false)
    {α : Type} (mk : α → Child)
    (EN : α → List Bool → List (Option TIntermTyped) → List Event) (nodes : List α)
    (h : ∀ n ∈ nodes, Emits P (mk n).traverse (EN n)) :
    ∀ (segment : Nat) (s x : State) (b : List Bool) (t : List (Option TIntermTyped))
      (l : List Event), Obs P s x b t l →
      Obs P s (emitSegments (nodes.map fun n => some (mk n)) segment x) b t
        (l ++ nodes.flatMap (fun n => EN n b t)) := by
  induction nodes with
  | nil =>
    intro segment s x b t l hx
    simpa [emitSegments] using hx
  | cons n rest ih =>
    intro segment s x b t l hx
    show Obs P s (emitSegments (rest.map fun n => some (mk n)) (segment + 1) _) b t _
    have h₁ := obs_emits (h n (List.mem_cons_self _ _))
      (obs_quiet hP (.nextSwitchSegment segment) rfl hx)
    have h₂ := ih (fun m hm => h m (List.mem_cons_of_mem _ hm)) (segment + 1) _ _ _ _ _ h₁
    refine obs_list _ h₂ ?_
    simp [List.flatMap_cons]

theorem emitSegments_none_obs {P : Event → Bool}
    (hP : ∀ e, Event.isQuiet e = true → P e = false) (segment : Nat) {s x : State}
    {b : List Bool} {t : List (Option TIntermTyped)} {l : List Event} (h : Obs P s x b t l) :
    Obs P s (emitSegments [none] segment x) b t (l ++ [Event.addSwitchBreak].filter P) :=
  obs_call .addSwitchBreak (obs_quiet hP (.nextSwitchSegment segment) rfl h)

theorem emitSegments_nil_obs {P : Event → Bool} (segment : Nat) {s x : State}
    {b : List Bool} {t : List (Option TIntermTyped)} {l : List Event} (h : Obs P s x b t l) :
    Obs P s (emitSegments [] segment x) b t l :=
  h

theorem isCode_child (T : TIntermTraverser) (node : TIntermNode) :
    Child.isCode (Child.mk node.getFlowOp node.getIConst (traverse T node)) =
      !node.isLabel := by
  simp [Child.isCode, Child.isCase, Child.isDefault, TIntermNode.isLabel]

theorem endsWithLabel_children (T : TIntermTraverser) (body : List TIntermNode) :
    Child.endsWithLabel (children T body) = TIntermNode.endsWithLabel body := by
  rw [children_eq_map]
  unfold Child.endsWithLabel TIntermNode.endsWithLabel
  rw [List.getLast?_map]
  cases body.getLast? with
  | none => rfl
  | some node => simp [isCode_child]

theorem codeSegments_children (T : TIntermTraverser) (body : List TIntermNode) :
    (sortCodeSegments (children T body)).codeSegments =
      (body.filter fun n => !n.isLabel).map fun n =>
        some (Child.mk n.getFlowOp n.getIConst (traverse T n)) := by
  rw [sortCodeSegments_codeSegments, children_eq_map, List.filter_map, List.map_map]
  congr 1
  apply List.filter_congr
  intro n _
  exact isCode_child T n

/-- The calls of one kind made by `visitSwitch`: those of the condition, then those of
the children that are code, each traversed with the switch on top of `breakForLoop`,
then a switch break when the body ends with a label. -/
theorem visitSwitch_emits (T : TIntermTraverser) {P : Event → Bool}
    (hP : ∀ e, Event.isQuiet e = true → P e = false) (condition : TIntermTyped)
    (body : List TIntermNode)
    (EN : TIntermNode → List Bool → List (Option TIntermTyped) → List Event)
    (h : ∀ n ∈ body, Emits P (traverse T n) (EN n)) :
    Emits P (fun s => (visitSwitch T condition (children T body) s).2)
      (fun b t => (traversal (some condition)).filter P ++
        ((body.filter fun n => !n.isLabel).flatMap (fun n => EN n (false :: b) t) ++
          (if TIntermNode.endsWithLabel body then [Event.addSwitchBreak].filter P else []))) := by
  intro s
  unfold visitSwitch
  dsimp only
  rw [addMissingSegment_sortCodeSegments]
  dsimp only
  rw [codeSegments_children, endsWithLabel_children, emitSegments_append]
  have hk : ∀ n ∈ body.filter (fun n => !n.isLabel), Emits P
      (Child.mk n.getFlowOp n.getIConst (traverse T n)).traverse (EN n) :=
    fun n hn => h n (List.mem_filter.1 hn).1
  by_cases he : TIntermNode.endsWithLabel body = true
  · simp only [he, if_true]
    apply obs_list
    · apply obs_quiet hP _ (by rfl)
      apply obs_popBreak false
      apply emitSegments_none_obs hP
      apply emitSegments_obs hP _ EN _ hk
      apply obs_pushBreak
      apply obs_quiet hP _ (by rfl)
      apply obs_accessChainLoad hP
      apply obs_quiet hP _ (by rfl)
      apply obs_traverseTyped
      exact obs_refl P s
    · simp [traversal]
  · simp only [he, if_false, Bool.false_eq_true]
    apply obs_list
    · apply obs_quiet hP _ (by rfl)
      apply obs_popBreak false
      apply emitSegments_nil_obs
      apply emitSegments_obs hP _ EN _ hk
      apply obs_pushBreak
      apply obs_quiet hP _ (by rfl)
      apply obs_accessChainLoad hP
      apply obs_quiet hP _ (by rfl)
      apply obs_traverseTyped
      exact obs_refl P s
    · simp [traversal]

end Lowering

/-! ## Control flow: breaks and loop terminals over a whole tree -/

namespace Lowering

theorem emits_congr {P : Event → Bool} {f : State → State}
    {E F : List Bool → List (Option TIntermTyped) → List Event} (h : Emits P f E)
    (e : ∀ b t, E b t = F b t) : Emits P f F := by
  intro s
  rw [← e]
  exact h s

theorem emits_fun {P : Event → Bool} {f g : State → State}
    {E : List Bool → List (Option TIntermTyped) → List Event} (h : Emits P f E)
    (e : ∀ s, g s = f s) : Emits P g E := by
  intro s
  rw [e]
  exact h s

theorem emits_foldl {P : Event → Bool} {α : Type} (f : α → State → State)
    (EN : α → List Bool → List (Option TIntermTyped) → List Event) (l : List α)
    (h : ∀ a ∈ l, Emits P (f a) (EN a)) :
    Emits P (fun s => l.foldl (fun s a => f a s) s) (fun b t => l.flatMap fun a => EN a b t) := by
  induction l with
  | nil => exact fun s => obs_refl P s
  | cons a l ih =>
    have h₁ := emits_comp (h a (List.mem_cons_self _ _))
      (ih (fun b hb => h b (List.mem_cons_of_mem _ hb)))
    refine emits_congr (emits_fun h₁ (fun s => by simp)) ?_
    intro b t
    simp [List.flatMap_cons]

theorem isBreak_of_isQuiet (e : Event) (h : Event.isQuiet e = true) : Event.isBreak e = false := by
  cases e <;> first | rfl | cases h

theorem isTraverseOf_of_isQuiet (id : Nat) (e : Event) (h : Event.isQuiet e = true) :
    Event.isTraverseOf id e = false := by
  cases e <;> first | rfl | cases h

theorem breakLoweringsIn_eq_flatMap (enclosing : Bool) (sequence : List TIntermNode) :
    breakLoweringsIn enclosing sequence = sequence.flatMap (breakLowerings enclosing) := by
  induction sequence with
  | nil => simp [breakLoweringsIn]
  | cons n rest ih => simp [breakLoweringsIn, ih, List.flatMap_cons]

theorem breakLoweringsOfSegments_eq_flatMap (body : List TIntermNode) :
    breakLoweringsOfSegments body =
      (body.filter fun n => !n.isLabel).flatMap (breakLowerings false) := by
  induction body with
  | nil => simp [breakLoweringsOfSegments]
  | cons n rest ih =>
    by_cases h : n.isLabel = true
    · simp [breakLoweringsOfSegments, ih, h, List.filter_cons]
    · simp [breakLoweringsOfSegments, ih, h, List.filter_cons, List.flatMap_cons]

theorem filter_isBreak_traversal (node : Option TIntermTyped) :
    (traversal node).filter Event.isBreak = [] := by
  cases node <;> rfl

/-- The loop exits and switch breaks that the traversal of a node adds are those
expected from its structure, by the top of `breakForLoop` it is started with. -/
theorem traverse_emits_breaks (T : TIntermTraverser) :
    ∀ node, Emits Event.isBreak (traverse T node)
      (fun b _ => breakLowerings (top b false) node) := by
  intro node
  induction node using TIntermNode.induction with
  | h node ih =>
    cases node with
    | typed e =>
      intro s
      simpa [Event.isBreak, breakLowerings, traversal] using
        obs_traverseTyped T e (obs_refl Event.isBreak s)
    | aggregate sequence =>
      have h := emits_foldl (fun node => traverse T node)
        (fun node b _ => breakLowerings (top b false) node) sequence
        (fun n hn => ih n (by simpa [TIntermNode.childNodes] using hn))
      refine emits_congr (emits_fun h (fun s => traverse_aggregate T sequence s)) ?_
      intro b t
      simp [breakLowerings, breakLoweringsIn_eq_flatMap]
    | selection basicType condition trueBlock falseBlock =>
      have h := visitSelection_emits T isBreak_of_isQuiet basicType condition
        (trueBlock.map (traverse T)) (falseBlock.map (traverse T))
        (fun b _ => match trueBlock with
          | some n => breakLowerings (top b false) n
          | none => [])
        (fun b _ => match falseBlock with
          | some n => breakLowerings (top b false) n
          | none => [])
        (by
          intro f hf
          obtain ⟨n, rfl, rfl⟩ := Option.map_eq_some'.1 hf
          exact ih n (by simp [TIntermNode.childNodes]))
        (by
          intro f hf
          obtain ⟨n, rfl, rfl⟩ := Option.map_eq_some'.1 hf
          exact ih n (by simp [TIntermNode.childNodes]))
      refine emits_congr (emits_fun h (fun s => traverse_selection T _ _ _ _ s)) ?_
      intro b t
      cases trueBlock <;> cases falseBlock <;>
        simp [breakLowerings, traversal, Event.isBreak]
    | switch condition body =>
      have h := visitSwitch_emits T isBreak_of_isQuiet condition body
        (fun n b _ => breakLowerings (top b false) n)
        (fun n hn => ih n (by simpa [TIntermNode.childNodes] using hn))
      refine emits_congr (emits_fun h (fun s => traverse_switch T _ _ s)) ?_
      intro b t
      simp [breakLowerings, breakLoweringsOfSegments_eq_flatMap, traversal, Event.isBreak, top]
    | loop testFirst test body terminal =>
      have h := visitLoop_emits T isBreak_of_isQuiet testFirst test
        (body.map (traverse T)) terminal
        (fun b _ => match body with
          | some n => breakLowerings (top b false) n
          | none => [])
        (by
          intro f hf
          obtain ⟨n, rfl, rfl⟩ := Option.map_eq_some'.1 hf
          exact ih n (by simp [TIntermNode.childNodes]))
      refine emits_congr (emits_fun h (fun s => traverse_loop T _ _ _ _ s)) ?_
      intro b t
      cases body <;> simp [breakLowerings, filter_isBreak_traversal, top]
    | branch flowOp expression =>
      have h := visitBranch_emits T isBreak_of_isQuiet flowOp expression
      refine emits_congr (emits_fun h (fun s => traverse_branch T _ _ s)) ?_
      intro b t
      by_cases hb : flowOp = .EOpBreak
      · cases hx : top b false <;>
          simp [breakLowerings, filter_isBreak_traversal, hb, hx, breakLowering, Event.isBreak]
      · simp [breakLowerings, filter_isBreak_traversal, hb]

theorem filter_isTraverseOf_traversal (id : Nat) (node : Option TIntermTyped) :
    (traversal node).filter (Event.isTraverseOf id) =
      List.replicate (if node.map TIntermTyped.id = some id then 1 else 0) (.traverse id) := by
  cases node with
  | none => simp [traversal]
  | some e =>
    by_cases h : e.id = id
    · simp [traversal, Event.isTraverseOf, h]
    · simp [traversal, Event.isTraverseOf, h]

theorem filter_isTraverseOf_traversal_of_ne (id : Nat) (node : Option TIntermTyped)
    (h : id ∉ (node.map TIntermTyped.id).toList) :
    (traversal node).filter (Event.isTraverseOf id) = [] := by
  cases node with
  | none => simp [traversal]
  | some e =>
    have h' : ¬ e.id = id := by
      intro he
      exact h (by simp [he])
    simp [traversal, Event.isTraverseOf, h']

theorem flatMap_replicate {α : Type} (c : Prop) [Decidable c] (k : α → Nat) (e : Event)
    (l : List α) :
    (l.flatMap fun a => List.replicate (if c then k a else 0) e) =
      List.replicate (if c then (l.map k).sum else 0) e := by
  induction l with
  | nil => simp
  | cons a l ih =>
    rw [List.flatMap_cons, ih]
    by_cases h : c
    · simp only [if_pos h, List.map_cons, List.sum_cons]
      rw [List.replicate_add]
    · simp [h]

theorem continuesOutsideLoopsIn_eq_sum (sequence : List TIntermNode) :
    TIntermNode.continuesOutsideLoopsIn sequence =
      (sequence.map TIntermNode.continuesOutsideLoops).sum := by
  induction sequence with
  | nil => simp [TIntermNode.continuesOutsideLoopsIn]
  | cons n rest ih => simp [TIntermNode.continuesOutsideLoopsIn, ih]

theorem continuesOutsideLoops_of_isLabel (node : TIntermNode) (h : node.isLabel = true) :
    node.continuesOutsideLoops = 0 := by
  cases node with
  | branch flowOp expression =>
    cases flowOp <;> first | rfl | simp [TIntermNode.isLabel, TIntermNode.getFlowOp] at h
  | _ => simp [TIntermNode.isLabel, TIntermNode.getFlowOp] at h

theorem sum_continuesOutsideLoops_filter (body : List TIntermNode) :
    ((body.filter fun n => !n.isLabel).map TIntermNode.continuesOutsideLoops).sum =
      (body.map TIntermNode.continuesOutsideLoops).sum := by
  induction body with
  | nil => simp
  | cons n rest ih =>
    by_cases h : n.isLabel = true
    · simp [List.filter_cons, h, ih, continuesOutsideLoops_of_isLabel n h]
    · simp [List.filter_cons, h, ih]

theorem operandIdsIn_eq_flatMap (sequence : List TIntermNode) :
    TIntermNode.operandIdsIn sequence = sequence.flatMap TIntermNode.operandIds := by
  induction sequence with
  | nil => simp [TIntermNode.operandIdsIn]
  | cons n rest ih => simp [TIntermNode.operandIdsIn, ih, List.flatMap_cons]

theorem operandIds_selection (basicType : TBasicType) (condition : TIntermTyped)
    (trueBlock falseBlock : Option TIntermNode) :
    TIntermNode.operandIds (.selection basicType condition trueBlock falseBlock) =
      condition.id ::
        ((match trueBlock with
          | some node => TIntermNode.operandIds node
          | none => []) ++
        (match falseBlock with
          | some node => TIntermNode.operandIds node
          | none => [])) := by
  cases trueBlock <;> cases falseBlock <;> rfl

theorem operandIds_switch (condition : TIntermTyped) (body : List TIntermNode) :
    TIntermNode.operandIds (.switch condition body) =
      condition.id :: TIntermNode.operandIdsIn body := rfl

theorem operandIds_loop (testFirst : Bool) (test : Option TIntermTyped)
    (body : Option TIntermNode) (terminal : Option TIntermTyped) :
    TIntermNode.operandIds (.loop testFirst test body terminal) =
      (test.map TIntermTyped.id).toList ++
        ((match body with
          | some node => TIntermNode.operandIds node
          | none => []) ++
        (terminal.map TIntermTyped.id).toList) := by
  cases body <;> rfl

theorem continuesOutsideLoops_selection (basicType : TBasicType) (condition : TIntermTyped)
    (trueBlock falseBlock : Option TIntermNode) :
    TIntermNode.continuesOutsideLoops (.selection basicType condition trueBlock falseBlock) =
      (match trueBlock with
        | some node => TIntermNode.continuesOutsideLoops node
        | none => 0) +
      (match falseBlock with
        | some node => TIntermNode.continuesOutsideLoops node
        | none => 0) := by
  cases trueBlock <;> cases falseBlock <;> rfl

theorem continuesOutsideLoops_switch (condition : TIntermTyped) (body : List TIntermNode) :
    TIntermNode.continuesOutsideLoops (.switch condition body) =
      TIntermNode.continuesOutsideLoopsIn body := rfl

theorem continuesOutsideLoops_loop (testFirst : Bool) (test : Option TIntermTyped)
    (body : Option TIntermNode) (terminal : Option TIntermTyped) :
    TIntermNode.continuesOutsideLoops (.loop testFirst test body terminal) = 0 := by
  cases body <;> rfl

/-- The traversals of a typed node that occurs nowhere in `node` which the traversal
of `node` adds: one per `continue` statement outside the loops nested in `node`, when
the typed node is the terminal on top of `loopTerminal`. -/
theorem traverse_emits_terminal (T : TIntermTraverser) (id : Nat) :
    ∀ node, id ∉ TIntermNode.operandIds node →
      Emits (Event.isTraverseOf id) (traverse T node)
        (fun _ t => List.replicate
          (if (top t none).map TIntermTyped.id = some id then node.continuesOutsideLoops
           else 0) (.traverse id)) := by
  intro node
  induction node using TIntermNode.induction with
  | h node ih =>
    intro hid
    cases node with
    | typed e =>
      intro s
      have h := obs_traverseTyped T e (obs_refl (Event.isTraverseOf id) s)
      rw [filter_isTraverseOf_traversal_of_ne id (some e)
        (by simpa [TIntermNode.operandIds] using hid)] at h
      simpa [TIntermNode.continuesOutsideLoops] using h
    | aggregate sequence =>
      have hid' : ∀ n ∈ sequence, id ∉ TIntermNode.operandIds n := by
        intro n hn hmem
        apply hid
        simp only [TIntermNode.operandIds, operandIdsIn_eq_flatMap, List.mem_flatMap]
        exact ⟨n, hn, hmem⟩
      have h := emits_foldl (fun node => traverse T node)
        (fun node _ t => List.replicate
          (if (top t none).map TIntermTyped.id = some id then node.continuesOutsideLoops
           else 0) (.traverse id)) sequence
        (fun n hn => ih n (by simpa [TIntermNode.childNodes] using hn) (hid' n hn))
      refine emits_congr (emits_fun h (fun s => traverse_aggregate T sequence s)) ?_
      intro b t
      rw [flatMap_replicate, TIntermNode.continuesOutsideLoops,
        continuesOutsideLoopsIn_eq_sum]
    | selection basicType condition trueBlock falseBlock =>
      rw [operandIds_selection] at hid
      simp only [List.mem_cons, List.mem_append, not_or] at hid
      obtain ⟨hc, ht, hf⟩ := hid
      have h := visitSelection_emits T (isTraverseOf_of_isQuiet id) basicType condition
        (trueBlock.map (traverse T)) (falseBlock.map (traverse T))
        (fun _ t => List.replicate
          (if (top t none).map TIntermTyped.id = some id then
            (match trueBlock with
              | some n => n.continuesOutsideLoops
              | none => 0)
           else 0) (.traverse id))
        (fun _ t => List.replicate
          (if (top t none).map TIntermTyped.id = some id then
            (match falseBlock with
              | some n => n.continuesOutsideLoops
              | none => 0)
           else 0) (.traverse id))
        (by
          intro f hf'
          obtain ⟨n, rfl, rfl⟩ := Option.map_eq_some'.1 hf'
          exact ih n (by simp [TIntermNode.childNodes]) ht)
        (by
          intro f hf'
          obtain ⟨n, rfl, rfl⟩ := Option.map_eq_some'.1 hf'
          exact ih n (by simp [TIntermNode.childNodes]) hf)
      refine emits_congr (emits_fun h (fun s => traverse_selection T _ _ _ _ s)) ?_
      intro b t
      rw [filter_isTraverseOf_traversal_of_ne id (some condition) (by simpa using hc)]
      by_cases hx : (top t none).map TIntermTyped.id = some id
      · rw [continuesOutsideLoops_selection]
        cases trueBlock <;> cases falseBlock <;>
          simp only [hx, if_true, Option.map_some', Option.map_none', Option.isSome_some,
            Option.isSome_none, List.nil_append, List.append_nil, Nat.add_zero, Nat.zero_add,
            List.replicate_add, List.replicate_zero, Bool.false_eq_true, if_false]
      · cases trueBlock <;> cases falseBlock <;> simp [hx]
    | switch condition body =>
      rw [operandIds_switch] at hid
      simp only [List.mem_cons, not_or] at hid
      obtain ⟨hc, hbody⟩ := hid
      have hid' : ∀ n ∈ body, id ∉ TIntermNode.operandIds n := by
        intro n hn hmem
        apply hbody
        simp only [operandIdsIn_eq_flatMap, List.mem_flatMap]
        exact ⟨n, hn, hmem⟩
      have h := visitSwitch_emits T (isTraverseOf_of_isQuiet id) condition body
        (fun node _ t => List.replicate
          (if (top t none).map TIntermTyped.id = some id then node.continuesOutsideLoops
           else 0) (.traverse id))
        (fun n hn => ih n (by simpa [TIntermNode.childNodes] using hn) (hid' n hn))
      refine emits_congr (emits_fun h (fun s => traverse_switch T _ _ s)) ?_
      intro b t
      rw [filter_isTraverseOf_traversal_of_ne id (some condition) (by simpa using hc),
        flatMap_replicate, sum_continuesOutsideLoops_filter, continuesOutsideLoops_switch,
        continuesOutsideLoopsIn_eq_sum]
      simp [Event.isTraverseOf]
    | loop testFirst test body terminal =>
      rw [operandIds_loop] at hid
      simp only [List.mem_append, not_or] at hid
      obtain ⟨htest, hbody, hterm⟩ := hid
      have h := visitLoop_emits T (isTraverseOf_of_isQuiet id) testFirst test
        (body.map (traverse T)) terminal
        (fun _ t => List.replicate
          (if (top t none).map TIntermTyped.id = some id then
            (match body with
              | some n => n.continuesOutsideLoops
              | none => 0)
           else 0) (.traverse id))
        (by
          intro f hf'
          obtain ⟨n, rfl, rfl⟩ := Option.map_eq_some'.1 hf'
          exact ih n (by simp [TIntermNode.childNodes]) hbody)
      refine emits_congr (emits_fun h (fun s => traverse_loop T _ _ _ _ s)) ?_
      intro b t
      have hx : ¬ terminal.map TIntermTyped.id = some id := by
        intro he
        apply hterm
        simp [he]
      rw [filter_isTraverseOf_traversal_of_ne id test htest,
        filter_isTraverseOf_traversal_of_ne id terminal hterm]
      rw [continuesOutsideLoops_loop]
      cases body <;> simp [top, hx]
    | branch flowOp expression =>
      have hexpr : id ∉ (expression.map TIntermTyped.id).toList := by
        simpa [TIntermNode.operandIds] using hid
      have h := visitBranch_emits T (isTraverseOf_of_isQuiet id) flowOp expression
      refine emits_congr (emits_fun h (fun s => traverse_branch T _ _ s)) ?_
      intro b t
      rw [filter_isTraverseOf_traversal_of_ne id expression hexpr,
        filter_isTraverseOf_traversal]
      by_cases hb : flowOp = .EOpBreak
      · subst hb
        cases hx : top b false <;>
          simp [breakLowering, Event.isTraverseOf, TIntermNode.continuesOutsideLoops]
      · by_cases hc : flowOp = .EOpContinue
        · subst hc
          simp [TIntermNode.continuesOutsideLoops]
        · simp [hb, hc, TIntermNode.continuesOutsideLoops]

theorem count_traverse_eq_length_filter (id : Nat) (l : List Event) :
    l.count (.traverse id) = (l.filter (Event.isTraverseOf id)).length := by
  rw [List.count, List.countP_eq_length_filter]
  congr 1
  apply List.filter_congr
  intro e _
  cases e with
  | traverse n => by_cases h : n = id <;> simp [Event.isTraverseOf, h]
  | _ => simp [Event.isTraverseOf]

end Lowering

/-! ## Short circuit: which nodes are trivial -/

namespace Lowering

theorem isTrivial_unary (id : Nat) (op : TOperator) (operand : TIntermTyped) :
    isTrivial (some (.unary id op operand)) = (isTrivialLeaf (some operand) && op.isSimple) := by
  have h₀ : isTrivialLeaf (some (.unary id op operand)) = false := rfl
  cases h : isTrivialLeaf (some operand)
  · simp [isTrivial, h₀, TIntermTyped.getAsBinaryNode, TIntermTyped.getAsUnaryNode, h]
  · simp only [isTrivial, h₀, TIntermTyped.getAsBinaryNode, TIntermTyped.getAsUnaryNode, h,
      TIntermTyped.getOp]
    simp only [Bool.false_eq_true, ↓reduceIte, Option.isNone_none, Option.isNone_some, Bool.and_false,
      Bool.not_true, Bool.true_and]
    cases op <;> rfl

theorem isTrivial_binary (id : Nat) (op : TOperator) (left right : TIntermTyped) :
    isTrivial (some (.binary id op left right)) =
      (isTrivialLeaf (some left) && isTrivialLeaf (some right) && op.isSimple) := by
  have h₀ : isTrivialLeaf (some (.binary id op left right)) = false := rfl
  cases hl : isTrivialLeaf (some left)
  · simp [isTrivial, h₀, TIntermTyped.getAsBinaryNode, TIntermTyped.getAsUnaryNode, hl]
  · cases hr : isTrivialLeaf (some right)
    · simp [isTrivial, h₀, TIntermTyped.getAsBinaryNode, TIntermTyped.getAsUnaryNode, hl, hr]
    · simp only [isTrivial, h₀, TIntermTyped.getAsBinaryNode, TIntermTyped.getAsUnaryNode, hl, hr,
        TIntermTyped.getOp]
      simp only [Bool.false_eq_true, ↓reduceIte, Option.isNone_none, Option.isNone_some,
        Bool.and_false, Bool.false_and, Bool.not_true, Bool.true_and, Bool.or_self]
      cases op <;> rfl

theorem not_hasEffect_of_isSimple (op : TOperator) (h : op.isSimple = true) :
    op.hasEffect = false := by
  cases op <;> first | rfl | cases h
theorem isLeaf_of_isTrivialLeaf (leaf : TIntermTyped) (h : isTrivialLeaf (some leaf) = true) :
    leaf.isLeaf = true := by
  cases leaf <;> first | rfl | cases h

theorem containsEffect_of_isTrivialLeaf (leaf : TIntermTyped)
    (h : isTrivialLeaf (some leaf) = true) : leaf.containsEffect = false := by
  cases leaf <;> first | rfl | cases h

theorem isTrivial_of_not_operator (node : TIntermTyped)
    (hu : node.getAsUnaryNode = none) (hb : node.getAsBinaryNode = none) :
    isTrivial (some node) = isTrivialLeaf (some node) := by
  cases h : isTrivialLeaf (some node)
  · simp [isTrivial, h, hu, hb]
  · simp [isTrivial, h]

end Lowering

/-! ## Control flow: the order of the calls of a loop and of a selection -/

namespace Lowering

theorem visitLoop_some (T : TIntermTraverser) (testFirst : Bool) (test : Option TIntermTyped)
    (f : State → State) (terminal : Option TIntermTyped) (s : State) :
    (visitLoop T testFirst test (some f) terminal s).2.trace =
      (traverseLoopTerminal T
        { f (loopEntry T testFirst test terminal s) with
          breakForLoop := (f (loopEntry T testFirst test terminal s)).breakForLoop.tail }).trace ++
        [.closeLoop] := by
  cases test <;> rfl

theorem loopEntry_trace (T : TIntermTraverser) (testFirst : Bool) (test : Option TIntermTyped)
    (terminal : Option TIntermTyped) (s : State) :
    (loopEntry T testFirst test terminal s).trace =
      s.trace ++ [.makeNewLoop testFirst] ++ testCalls T test (s.trace.length + 1) := by
  cases test <;> simp [loopEntry, testCalls, traverseTyped, call, accessChainLoad]

theorem loopEntry_breakForLoop (T : TIntermTraverser) (testFirst : Bool)
    (test : Option TIntermTyped) (terminal : Option TIntermTyped) (s : State) :
    (loopEntry T testFirst test terminal s).breakForLoop = true :: s.breakForLoop := by
  cases test <;> rfl

theorem loopEntry_loopTerminal (T : TIntermTraverser) (testFirst : Bool)
    (test : Option TIntermTyped) (terminal : Option TIntermTyped) (s : State) :
    (loopEntry T testFirst test terminal s).loopTerminal = terminal :: s.loopTerminal := by
  cases test <;> rfl

theorem traverseLoopTerminal_trace (T : TIntermTraverser) (s : State) :
    (traverseLoopTerminal T s).trace = s.trace ++ traversal (top s.loopTerminal none) := by
  unfold traverseLoopTerminal
  cases top s.loopTerminal none <;> simp [traversal, traverseTyped, call]

theorem isCode_eq_not_isLabel (node : TIntermNode) : node.isCode = !node.isLabel := by
  simp [TIntermNode.isCode, TIntermNode.isLabel, TIntermNode.isCase, TIntermNode.isDefault]

theorem countP_children (T : TIntermTraverser) (nodes : List TIntermNode) :
    (children T nodes).countP Child.isCase = nodes.countP TIntermNode.isCase ∧
    (children T nodes).countP Child.isCode = nodes.countP TIntermNode.isCode := by
  rw [children_eq_map, List.countP_map, List.countP_map]
  exact ⟨rfl, rfl⟩

theorem children_append (T : TIntermTraverser) (pre post : List TIntermNode) :
    children T (pre ++ post) = children T pre ++ children T post := by
  simp [children_eq_map]

theorem children_cons (T : TIntermTraverser) (node : TIntermNode) (post : List TIntermNode) :
    children T (node :: post) =
      Child.mk node.getFlowOp node.getIConst (traverse T node) :: children T post := by
  simp [children_eq_map]

theorem mem_children (T : TIntermTraverser) (nodes : List TIntermNode) (child : Child)
    (h : child ∈ children T nodes) :
    ∃ node ∈ nodes, child = Child.mk node.getFlowOp node.getIConst (traverse T node) := by
  rw [children_eq_map] at h
  obtain ⟨node, hn, rfl⟩ := List.mem_map.1 h
  exact ⟨node, hn, rfl⟩

theorem getElem?_filter_map_append {α β : Type} (p : α → Bool) (f : α → β) (pre post : List α)
    (a : α) (h : p a = true) :
    (((pre ++ a :: post).filter p).map f)[pre.countP p]? = some (f a) := by
  rw [List.filter_append, List.filter_cons, if_pos h, List.map_append, List.map_cons,
    List.countP_eq_length_filter]
  have hlen : (List.filter p pre).length = (List.map f (List.filter p pre)).length := by simp
  rw [hlen, List.getElem?_append_right (Nat.le_refl _)]
  simp

end Lowering

/-! ## Straight-line code: the calls made and the names of their results -/

namespace Lowering

theorem call_eq (e : Event) (s : State) : call e s = (s.trace.length + 1, s.after [e]) := rfl

theorem call_snd (e : Event) (s : State) : (call e s).2 = s.after [e] := rfl

theorem after_after (s : State) (l l' : List Event) :
    (s.after l).after l' = s.after (l ++ l') := by
  simp [State.after]

theorem after_nil (s : State) : s.after [] = s := by
  simp [State.after]

theorem after_trace (s : State) (l : List Event) : (s.after l).trace = s.trace ++ l := rfl

theorem after_trace_length (s : State) (l : List Event) :
    (s.after l).trace.length = s.trace.length + l.length := by
  simp [State.after]

theorem atomicOpCode_eq_compareExchange (op : TOperator) (typeProxy : TBasicType) :
    atomicOpCode op typeProxy = .OpAtomicCompareExchange ↔
      (op = .EOpAtomicCompSwap ∨ op = .EOpImageAtomicCompSwap) := by
  cases op <;> simp only [atomicOpCode] <;> first | decide | (split <;> decide)

end Lowering

/-! ## The column loop of the component-wise matrix operations -/

namespace Lowering

theorem columnEvents_length (op : Op) (vecType left right smearVec : Nat)
    (leftMat rightMat : Bool) (n c : Nat) :
    (columnEvents op vecType left right smearVec leftMat rightMat n c).length =
      columnCalls leftMat rightMat := by
  cases leftMat <;> cases rightMat <;> rfl

theorem flatMap_columnEvents_length (op : Op) (vecType left right smearVec : Nat)
    (leftMat rightMat : Bool) (n c : Nat) :
    ((List.range c).flatMap
        (columnEvents op vecType left right smearVec leftMat rightMat n)).length =
      c * columnCalls leftMat rightMat := by
  induction c with
  | zero => simp
  | succ c ih =>
    rw [List.range_succ, List.flatMap_append, List.length_append, ih, List.flatMap_singleton,
      columnEvents_length, Nat.succ_mul]

theorem columnOperation_eq (op : Op) (vecType left right smearVec : Nat)
    (leftMat rightMat : Bool) (c : Nat) (results : List Nat) (s : State) (n : Nat)
    (hn : s.trace.length = n + c * columnCalls leftMat rightMat) :
    columnOperation op vecType left right smearVec leftMat rightMat c (results, s) =
      (results ++ [columnResult leftMat rightMat n c],
        s.after (columnEvents op vecType left right smearVec leftMat rightMat n c)) := by
  cases leftMat <;> cases rightMat <;>
    simp only [columnOperation, columnEvents, columnResult, call_eq, after_after,
      after_trace_length, hn, if_true, if_false, Bool.false_eq_true,
      List.length_cons, List.length_nil, List.cons_append, List.nil_append, List.append_nil,
      Nat.zero_add, Nat.add_zero, Nat.add_assoc, Nat.reduceAdd]

theorem columns_fold (op : Op) (vecType left right smearVec : Nat)
    (leftMat rightMat : Bool) (c : Nat) (s : State) :
    (List.range c).foldl
        (fun r j => columnOperation op vecType left right smearVec leftMat rightMat j r)
        ([], s) =
      ((List.range c).map (columnResult leftMat rightMat s.trace.length),
        s.after ((List.range c).flatMap
          (columnEvents op vecType left right smearVec leftMat rightMat s.trace.length))) := by
  induction c with
  | zero => simp [after_nil]
  | succ c ih =>
    rw [List.range_succ, List.foldl_append, ih, List.foldl_cons, List.foldl_nil,
      columnOperation_eq op vecType left right smearVec leftMat rightMat c _ _ s.trace.length
        (by rw [after_trace_length, flatMap_columnEvents_length]),
      after_after, List.map_append, List.flatMap_append, List.flatMap_singleton,
      List.map_singleton]

end Lowering

/-! ## Texture calls: the roles of the trailing arguments -/

namespace Lowering

theorem role_setRole (params : TextureParameters) (r r' : Role) (value : Nat) :
    (params.setRole r value).role r' = if r' = r then value else params.role r' := by
  cases r <;> cases r' <;> rfl

theorem setRole_fixed (params : TextureParameters) (r : Role) (value : Nat) :
    (params.setRole r value).sampler = params.sampler ∧
      (params.setRole r value).coords = params.coords ∧
      (params.setRole r value).Dref = params.Dref ∧
      (params.setRole r value).sample = params.sample := by
  cases r <;> exact ⟨rfl, rfl, rfl, rfl⟩

theorem assignRoles_fixed (arguments : List Nat) (l : List Role) (i : Nat)
    (params : TextureParameters) :
    (assignRoles arguments l i params).sampler = params.sampler ∧
      (assignRoles arguments l i params).coords = params.coords ∧
      (assignRoles arguments l i params).Dref = params.Dref ∧
      (assignRoles arguments l i params).sample = params.sample := by
  induction l generalizing i params with
  | nil => exact ⟨rfl, rfl, rfl, rfl⟩
  | cons r rest ih =>
    obtain ⟨h₁, h₂, h₃, h₄⟩ := ih (i + 1) (params.setRole r (arguments.getD i 0))
    obtain ⟨e₁, e₂, e₃, e₄⟩ := setRole_fixed params r (arguments.getD i 0)
    exact ⟨h₁.trans e₁, h₂.trans e₂, h₃.trans e₃, h₄.trans e₄⟩

theorem assignRoles_not_mem (arguments : List Nat) (l : List Role) (i : Nat)
    (params : TextureParameters) (r : Role) (h : r ∉ l) :
    (assignRoles arguments l i params).role r = params.role r := by
  induction l generalizing i params with
  | nil => rfl
  | cons r' rest ih =>
    rw [List.mem_cons, not_or] at h
    rw [assignRoles, ih _ _ h.2, role_setRole, if_neg h.1]

theorem assignRoles_mem (arguments : List Nat) (l : List Role) (i : Nat)
    (params : TextureParameters) (r : Role) (hl : l.Nodup) (h : r ∈ l) :
    (assignRoles arguments l i params).role r = arguments.getD (i + l.indexOf r) 0 := by
  induction l generalizing i params with
  | nil => cases h
  | cons r' rest ih =>
    rw [List.nodup_cons] at hl
    by_cases e : r = r'
    · subst e
      rw [assignRoles, assignRoles_not_mem _ _ _ _ _ hl.1, role_setRole, if_pos rfl,
        List.indexOf_cons_self, Nat.add_zero]
    · have h' : r ∈ rest := (List.mem_cons.1 h).resolve_left e
      rw [assignRoles, ih _ _ hl.2 h', List.indexOf_cons_ne _ (fun e' => e e'.symm),
        Nat.add_assoc, Nat.add_comm 1]

theorem roles_nodup (cracked : TCrackedTextureOp) (n : Nat) : (roles cracked n).Nodup := by
  obtain ⟨query, proj, lod, fetch, offset, offsets, gather, grad⟩ := cracked
  cases lod <;> cases grad <;> cases offset <;> cases offsets <;> cases gather <;>
    cases fetch <;>
    simp only [roles, leadingRoles, hasBias, hasComponent, Bool.false_eq_true, if_false,
      if_true, Bool.not_false, Bool.not_true, Bool.and_true, Bool.true_and, Bool.and_false,
      Bool.false_and, List.cons_append, List.nil_append, List.append_nil] <;>
    (try split_ifs) <;> decide

set_option maxHeartbeats 1000000 in
theorem textureFunction_plain (B : Queries) (sampler : TSampler) (cracked : TCrackedTextureOp)
    (arguments : List Nat) (params : TextureParameters) (s : State)
    (hshadow : sampler.shadow = false) (hms : sampler.ms = false) :
    textureFunction B sampler cracked arguments params s =
      if cracked.gather = true ∧ hasComponent cracked arguments.length = false then
        (s.trace.length + 3,
          s.after [.makeIntConstant 0, .convertGlslangToSpvType .node,
            .createTextureCall (s.trace.length + 2) cracked.fetch cracked.proj cracked.gather
              ((assignRoles arguments (roles cracked arguments.length) 2
                { params with coords := arguments.getD 1 0 }).setRole .comp
                  (s.trace.length + 1))])
      else
        (s.trace.length + 2,
          s.after [.convertGlslangToSpvType .node,
            .createTextureCall (s.trace.length + 1) cracked.fetch cracked.proj cracked.gather
              (assignRoles arguments (roles cracked arguments.length) 2
                { params with coords := arguments.getD 1 0 })]) := by
  obtain ⟨query, proj, lod, fetch, offset, offsets, gather, grad⟩ := cracked
  cases lod <;> cases grad <;> cases offset <;> cases offsets <;> cases gather <;>
    cases fetch <;>
    simp only [textureFunction, hshadow, hms, hasBias, roles, leadingRoles, hasComponent,
      call_eq, after_after, after_trace_length, Bool.false_eq_true, if_false, if_true,
      and_false, false_and, and_true, true_and, not_false_eq_true, not_true_eq_false,
      Bool.not_false, Bool.not_true, Bool.and_true, Bool.true_and, Bool.and_false,
      Bool.false_and, decide_False, decide_True, decide_eq_true_eq, decide_eq_false_iff_not,
      List.length_cons, List.length_nil, List.cons_append, List.nil_append, List.append_nil,
      Nat.zero_add, Nat.add_zero, Nat.add_assoc, Nat.reduceAdd] <;>
    (try split_ifs) <;> first
      | rfl
      | simp only [after_after, after_trace_length, assignRoles, TextureParameters.setRole,
          List.length_cons, List.length_nil, List.cons_append, List.nil_append,
          Nat.zero_add, Nat.add_assoc, Nat.reduceAdd]

end Lowering

namespace Lowering

theorem translateArguments_length (T : TIntermTraverser) (op : TOperator) (i : Nat)
    (l : List TIntermTyped) (r : List Nat × State) :
    (translateArguments T op i l r).1.length = r.1.length + l.length := by
  induction l generalizing i r with
  | nil => rfl
  | cons a rest ih =>
    rw [translateArguments, ih, List.length_append, List.length_cons, List.length_cons,
      List.length_nil]
    omega

theorem getElem?_eq_some_getD (l : List Nat) (k : Nat) (h : k < l.length) :
    l[k]? = some (l.getD k 0) := by
  rw [List.getD_eq_getElem?_getD, List.getElem?_eq_getElem h, Option.getD_some]

theorem leadingRoles_length_le (cracked : TCrackedTextureOp) (n : Nat) :
    (roles cracked n).length ≤ (leadingRoles cracked n).length + 1 := by
  unfold roles
  split_ifs <;> simp

theorem roles_index_lt (cracked : TCrackedTextureOp) (n i : Nat)
    (hlen : 2 + (leadingRoles cracked n).length ≤ n) (hi : i < (roles cracked n).length) :
    2 + i < n := by
  unfold roles at hi
  by_cases hc : hasComponent cracked n = true
  · rw [if_pos hc, List.length_append, List.length_singleton] at hi
    have := hc
    simp only [hasComponent, Bool.and_eq_true, decide_eq_true_eq] at this
    omega
  · rw [if_neg hc, List.append_nil] at hi
    omega

end Lowering

namespace Lowering

theorem comp_not_mem_leadingRoles (cracked : TCrackedTextureOp) (n : Nat) :
    Role.comp ∉ leadingRoles cracked n := by
  unfold leadingRoles
  simp only [List.mem_append, not_or]
  refine ⟨⟨⟨?_, ?_⟩, ?_⟩, ?_⟩ <;> split_ifs <;> simp

theorem comp_mem_roles (cracked : TCrackedTextureOp) (n : Nat) :
    Role.comp ∈ roles cracked n ↔ hasComponent cracked n = true := by
  unfold roles
  rw [List.mem_append]
  constructor
  · rintro (h | h)
    · exact absurd h (comp_not_mem_leadingRoles cracked n)
    · by_contra hc
      rw [if_neg hc] at h
      cases h
  · intro h
    rw [if_pos h]
    exact Or.inr (List.mem_singleton.2 rfl)

theorem roles_getElem?_index (cracked : TCrackedTextureOp) (n i : Nat) (r : Role)
    (h : (roles cracked n)[i]? = some r) :
    r ∈ roles cracked n ∧ (roles cracked n).indexOf r = i ∧ i < (roles cracked n).length := by
  obtain ⟨hi, e⟩ := List.getElem?_eq_some.1 h
  subst e
  exact ⟨List.getElem_mem _, List.indexOf_getElem (roles_nodup cracked n) i hi, hi⟩

end Lowering

/-! ## The member-index remapper of a block and the fields of its struct -/

namespace TGlslangToSpvTraverser

theorem remapFrom_length (k : Nat) (ms : List TType) : (remapFrom k ms).length = ms.length := by
  induction ms generalizing k with
  | nil => rfl
  | cons t ts ih =>
    rw [remapFrom]
    split <;> simp [ih]

theorem remapFrom_getElem? (k : Nat) (ms : List TType) (i : Nat) (h : i < ms.length) :
    (remapFrom k ms)[i]? =
      some (if (ms.get ⟨i, h⟩).hiddenMember = true then -1
        else ((k + ((ms.take i).filter (fun t => !t.hiddenMember)).length : Nat) : Int)) := by
  induction ms generalizing k i with
  | nil => cases h
  | cons t ts ih =>
    rw [remapFrom]
    cases i with
    | zero =>
      by_cases ht : t.hiddenMember = true
      · simp [ht]
      · simp [ht]
    | succ i =>
      have h' : i < ts.length := by simpa using h
      by_cases ht : t.hiddenMember = true
      · rw [if_pos ht, List.getElem?_cons_succ, ih k i h']
        simp [ht]
      · rw [if_neg ht, List.getElem?_cons_succ, ih (k + 1) i h']
        simp [ht, Nat.add_assoc, Nat.add_comm 1]

theorem remapFrom_filter (k : Nat) (ms : List TType) :
    (remapFrom k ms).filter (fun x => decide (x ≠ -1)) =
      (List.range' k (ms.filter (fun t => !t.hiddenMember)).length).map Int.ofNat := by
  induction ms generalizing k with
  | nil => rfl
  | cons t ts ih =>
    rw [remapFrom]
    by_cases ht : t.hiddenMember = true
    · rw [if_pos ht, List.filter_cons_of_neg (by simp), ih,
        List.filter_cons_of_neg (by simp [ht])]
    · rw [if_neg ht, List.filter_cons_of_pos (by simp), ih,
        List.filter_cons_of_pos (by simp [ht]), List.length_cons, List.range'_succ,
        List.map_cons]
      rfl

theorem fields_length (I : TIntermediate) (basicType : TBasicType) (glslangStruct : Nat)
    (explicitLayout : TLayoutPacking) (matrixLayout : TLayoutMatrix) (members : List TType) :
    ∀ (i : Nat) (memberDelta : Int) (structFields : List spv.Id)
      (self : TGlslangToSpvTraverser),
      (convertStructFields I basicType glslangStruct explicitLayout matrixLayout members i
        memberDelta structFields self).1.length =
        structFields.length + (members.filter (fun t => !t.hiddenMember)).length := by
  induction members with
  | nil => intro i d f self; simp [convertStructFields]
  | cons t rest ih =>
    intro i d f self
    rw [convertStructFields]
    by_cases ht : t.hiddenMember = true
    · simp only [ht, if_true]
      rw [ih, List.filter_cons_of_neg (by simp [ht])]
    · simp only [ht, if_false, Bool.false_eq_true]
      rw [ih, List.filter_cons_of_pos (by simp [ht]), List.length_append, List.length_cons,
        List.length_cons, List.length_nil]
      omega

theorem fieldsLowered_length (I : TIntermediate) (type : TType)
    (explicitLayout : TLayoutPacking) (matrixLayout : TLayoutMatrix)
    (self : TGlslangToSpvTraverser) :
    (fieldsLowered I type explicitLayout matrixLayout self).1.length =
      (type.getStruct.filter (fun t => !t.hiddenMember)).length := by
  unfold fieldsLowered
  rw [fields_length, List.length_nil, Nat.zero_add]

theorem convert_miss_struct (I : TIntermediate) (type : TType) (explicitLayout : TLayoutPacking)
    (matrixLayout : TLayoutMatrix) (self : TGlslangToSpvTraverser)
    (hs : type.getBasicType = .EbtStruct ∨ type.getBasicType = .EbtBlock)
    (miss : self.structMap explicitLayout matrixLayout type.getStructId = 0) :
    (spv.TypeRequest.OpTypeStruct (fieldsLowered I type explicitLayout matrixLayout self).1
        type.getTypeName, newStructId I type explicitLayout matrixLayout self) ∈
      (convertGlslangToSpvType I type explicitLayout matrixLayout self).2.builder.types := by
  rw [convert_miss I type explicitLayout matrixLayout self hs miss]
  apply (wrapType_ext I type explicitLayout matrixLayout _ _).types
  rw [emit_types]
  exact List.mem_cons_self _ _

theorem convert_miss_remapper (I : TIntermediate) (type : TType)
    (explicitLayout : TLayoutPacking) (matrixLayout : TLayoutMatrix)
    (self : TGlslangToSpvTraverser) (hb : type.getBasicType = .EbtBlock)
    (hc : anyContainsBlock type.getStruct = false)
    (miss : self.structMap explicitLayout matrixLayout type.getStructId = 0) :
    (convertGlslangToSpvType I type explicitLayout matrixLayout self).2.memberRemapper
        type.getStructId = remapFrom 0 type.getStruct := by
  rw [convert_miss I type explicitLayout matrixLayout self (Or.inr hb) miss,
    wrapType_memberRemapper, emit_memberRemapper, structCached_memberRemapper,
    fieldsLowered_remap I type explicitLayout matrixLayout self hb hc]

theorem convert_hit_remapper (I : TIntermediate) (type : TType)
    (explicitLayout : TLayoutPacking) (matrixLayout : TLayoutMatrix)
    (self : TGlslangToSpvTraverser)
    (hs : type.getBasicType = .EbtStruct ∨ type.getBasicType = .EbtBlock)
    (hit : self.structMap explicitLayout matrixLayout type.getStructId ≠ 0) :
    (convertGlslangToSpvType I type explicitLayout matrixLayout self).2.memberRemapper =
      self.memberRemapper := by
  rw [convert_hit I type explicitLayout matrixLayout self hs hit, wrapType_memberRemapper]

end TGlslangToSpvTraverser

/-! ## The interface set -/

namespace Lowering

theorem mem_insert (id x : Nat) (set : List Nat) : x ∈ insert id set ↔ x = id ∨ x ∈ set := by
  unfold insert
  split
  · constructor
    · exact Or.inr
    · rintro (h | h)
      · subst h
        assumption
      · exact h
  · rw [List.mem_orderedInsert]

theorem nodup_insert (id : Nat) (set : List Nat) (h : set.Nodup) : (insert id set).Nodup := by
  unfold insert
  split
  · exact h
  · next hid =>
    exact ((List.perm_orderedInsert _ id set).nodup_iff).2 (List.nodup_cons.2 ⟨hid, h⟩)

theorem sorted_insert (id : Nat) (set : List Nat) (h : set.Sorted (fun a b => a ≤ b)) :
    (insert id set).Sorted (fun a b => a ≤ b) := by
  unfold insert
  split
  · exact h
  · exact h.orderedInsert id set

theorem addDecoration_iOSet (id : Nat) (dec : spv.Decoration) (s : State) :
    (addDecoration id dec s).iOSet = s.iOSet := by
  unfold addDecoration
  split <;> rfl

theorem addDecorationIf_iOSet (c : Bool) (id : Nat) (dec : spv.Decoration) (num : Int)
    (s : State) : (addDecorationIf c id dec num s).iOSet = s.iOSet := by
  unfold addDecorationIf
  split <;> rfl

theorem createSpvVariable_iOSet (node : TIntermSymbol) (s : State) :
    (createSpvVariable node s).2.iOSet = s.iOSet := by
  unfold createSpvVariable
  split <;> rfl

theorem getSymbolId_iOSet (I : TIntermediate) (symbol : TIntermSymbol) (s : State) :
    (getSymbolId I symbol s).2.iOSet = s.iOSet := by
  unfold getSymbolId
  split
  · rfl
  · simp only [addDecoration_iOSet, addDecorationIf_iOSet]
    split_ifs <;>
      simp only [addDecoration_iOSet, addDecorationIf_iOSet, call, createSpvVariable_iOSet]

theorem visitSymbol_iOSet (I : TIntermediate) (B : Queries) (symbol : TIntermSymbol)
    (s : State) :
    (visitSymbol I B symbol s).iOSet =
      if B.isInterface (getSymbolId I symbol s).1 = true then
        insert (getSymbolId I symbol s).1 s.iOSet
      else s.iOSet := by
  have h := getSymbolId_iOSet I symbol s
  unfold visitSymbol Queries.isInterface
  simp only [clearAccessChain, setAccessChainRValue, setAccessChainLValue, call]
  split_ifs <;> simp_all

end Lowering

namespace Lowering

theorem visitAll_cons (I : TIntermediate) (B : Queries) (v : Visit) (rest : List Visit)
    (s : State) : visitAll I B (v :: rest) s = visitAll I B rest (v.run I B s) := rfl

theorem visitAll_iOSet (I : TIntermediate) (B : Queries) (visits : List Visit) :
    ∀ s : State, (∀ v ∈ visits, v.keepsInterface) → s.iOSet.Nodup →
      (visitAll I B visits s).iOSet.Nodup ∧
      ∀ id, id ∈ (visitAll I B visits s).iOSet ↔
        id ∈ s.iOSet ∨ (id ∈ visitedIds I B visits s ∧ B.isInterface id = true) := by
  induction visits with
  | nil =>
    intro s _ hs
    exact ⟨hs, fun id => by simp [visitAll, visitedIds]⟩
  | cons v rest ih =>
    intro s hv hs
    have hrest : ∀ v ∈ rest, v.keepsInterface := fun v' h => hv v' (List.mem_cons_of_mem _ h)
    rw [visitAll_cons]
    cases v with
    | symbol node =>
      have hn : (visitSymbol I B node s).iOSet.Nodup := by
        rw [visitSymbol_iOSet]
        split
        · exact nodup_insert _ _ hs
        · exact hs
      obtain ⟨h₁, h₂⟩ := ih (visitSymbol I B node s) hrest hn
      refine ⟨h₁, fun id => ?_⟩
      rw [Visit.run, h₂ id, visitSymbol_iOSet, visitedIds, List.mem_cons]
      by_cases hi : B.isInterface (getSymbolId I node s).1 = true
      · rw [if_pos hi, mem_insert]
        constructor
        · rintro ((h | h) | h)
          · exact Or.inr ⟨Or.inl h, h ▸ hi⟩
          · exact Or.inl h
          · exact Or.inr ⟨Or.inr h.1, h.2⟩
        · rintro (h | ⟨h | h, h'⟩)
          · exact Or.inl (Or.inr h)
          · exact Or.inl (Or.inl h)
          · exact Or.inr ⟨h, h'⟩
      · rw [if_neg hi]
        constructor
        · rintro (h | h)
          · exact Or.inl h
          · exact Or.inr ⟨Or.inr h.1, h.2⟩
        · rintro (h | ⟨h | h, h'⟩)
          · exact Or.inl h
          · exact absurd (h ▸ h') hi
          · exact Or.inr ⟨h, h'⟩
    | other step =>
      have hk : (step s).iOSet = s.iOSet := hv (.other step) (List.mem_cons_self _ _) s
      obtain ⟨h₁, h₂⟩ := ih (step s) hrest (hk ▸ hs)
      refine ⟨h₁, fun id => ?_⟩
      rw [Visit.run, h₂ id, hk, visitedIds]

theorem foldl_addIdOperand (l : List Nat) (s : State) :
    l.foldl (fun s it => (call (.addIdOperand it) s).2) s = s.after (l.map .addIdOperand) := by
  induction l generalizing s with
  | nil => exact (after_nil s).symm
  | cons id rest ih =>
    rw [List.foldl_cons, ih, call_eq, after_after, List.map_cons, List.singleton_append]

theorem dumpSpv_eq (s : State) :
    dumpSpv s = s.after (s.iOSet.map .addIdOperand ++ [.dump]) := by
  show (call .dump (s.iOSet.foldl (fun s it => (call (.addIdOperand it) s).2) s)).2 = _
  rw [foldl_addIdOperand, call_eq, after_after]

theorem isInterface_iff (B : Queries) (id : Nat) :
    B.isInterface id = true ↔
      B.isPointer id = true ∧
        (B.getStorageClass id = .Input ∨ B.getStorageClass id = .Output) := by
  simp [Queries.isInterface]

theorem count_addIdOperand (l : List Nat) (id : Nat) :
    (l.map Event.addIdOperand ++ [Event.dump]).count (.addIdOperand id) = l.count id := by
  rw [List.count_append, List.count_singleton]
  simp only [beq_iff_eq, reduceCtorEq, if_false, Nat.add_zero]
  exact List.count_map_of_injective l _ (fun a b h => by injection h) id

end Lowering

/-! ## Function declarations -/

namespace Lowering

theorem makeParamTypes_tables (p : Nat) (parameters : List TIntermSymbol)
    (r : List Nat × State) :
    (makeParamTypes p parameters r).2.functionMap = r.2.functionMap ∧
      (makeParamTypes p parameters r).2.symbolValues = r.2.symbolValues := by
  induction parameters generalizing p r with
  | nil => exact ⟨rfl, rfl⟩
  | cons parameter rest ih =>
    rw [makeParamTypes]
    obtain ⟨h₁, h₂⟩ := ih (p + 1)
      (r.1 ++ [(if parameter.getType.getQualifier.storage ≠ .EvqConstReadOnly then
          call (.makePointer .Function (call (.convertGlslangToSpvType (.parameter p)) r.2).1)
            (call (.convertGlslangToSpvType (.parameter p)) r.2).2
        else
          ((call (.convertGlslangToSpvType (.parameter p)) r.2).1,
            { (call (.convertGlslangToSpvType (.parameter p)) r.2).2 with
              constReadOnlyParameters := parameter.getId ::
                (call (.convertGlslangToSpvType (.parameter p)) r.2).2.constReadOnlyParameters
                  })).1],
        (if parameter.getType.getQualifier.storage ≠ .EvqConstReadOnly then
          call (.makePointer .Function (call (.convertGlslangToSpvType (.parameter p)) r.2).1)
            (call (.convertGlslangToSpvType (.parameter p)) r.2).2
        else
          ((call (.convertGlslangToSpvType (.parameter p)) r.2).1,
            { (call (.convertGlslangToSpvType (.parameter p)) r.2).2 with
              constReadOnlyParameters := parameter.getId ::
                (call (.convertGlslangToSpvType (.parameter p)) r.2).2.constReadOnlyParameters
                  })).2)
    refine ⟨h₁.trans ?_, h₂.trans ?_⟩ <;> split_ifs <;> rfl

theorem setParamIds_functionMap (B : Queries) (function p : Nat)
    (parameters : List TIntermSymbol) (s : State) :
    (setParamIds B function p parameters s).functionMap = s.functionMap := by
  induction parameters generalizing p s with
  | nil => rfl
  | cons parameter rest ih =>
    rw [setParamIds, ih]
    rfl

theorem setParamIds_keeps (B : Queries) (function p : Nat) (parameters : List TIntermSymbol)
    (s : State) (id : Nat) (h : s.symbolValues id ≠ none) :
    (setParamIds B function p parameters s).symbolValues id ≠ none := by
  induction parameters generalizing p s with
  | nil => exact h
  | cons parameter rest ih =>
    rw [setParamIds]
    apply ih
    show (if id = parameter.getId then some (B.getParamId function p) else s.symbolValues id)
      ≠ none
    split
    · exact Option.some_ne_none _
    · exact h

theorem setParamIds_sets (B : Queries) (function p : Nat) (parameters : List TIntermSymbol)
    (s : State) (q : TIntermSymbol) (h : q ∈ parameters) :
    (setParamIds B function p parameters s).symbolValues q.getId ≠ none := by
  induction parameters generalizing p s with
  | nil => cases h
  | cons parameter rest ih =>
    rw [setParamIds]
    rcases List.mem_cons.1 h with e | h'
    · apply setParamIds_keeps
      show (if q.getId = parameter.getId then some (B.getParamId function p)
        else s.symbolValues q.getId) ≠ none
      rw [e, if_pos rfl]
      exact Option.some_ne_none _
    · exact ih _ _ h'

theorem makeFunction_keeps (B : Queries) (d : Definition) (s : State) :
    (∀ name, s.functionMap name ≠ none → (makeFunction B d s).functionMap name ≠ none) ∧
      (∀ id, s.symbolValues id ≠ none → (makeFunction B d s).symbolValues id ≠ none) := by
  unfold makeFunction
  split
  · exact ⟨fun _ h => h, fun _ h => h⟩
  · constructor
    · intro name h
      rw [setParamIds_functionMap]
      show (if name = d.getName then some _ else
        (makeParamTypes 0 d.parameters ([], s)).2.functionMap name) ≠ none
      split
      · exact Option.some_ne_none _
      · rw [(makeParamTypes_tables 0 d.parameters ([], s)).1]
        exact h
    · intro id h
      apply setParamIds_keeps
      show (makeParamTypes 0 d.parameters ([], s)).2.symbolValues id ≠ none
      rw [(makeParamTypes_tables 0 d.parameters ([], s)).2]
      exact h

theorem makeFunction_declares (B : Queries) (d : Definition) (s : State)
    (hd : d.isUserFunction = true) :
    (makeFunction B d s).functionMap d.getName ≠ none ∧
      ∀ p ∈ d.parameters, (makeFunction B d s).symbolValues p.getId ≠ none := by
  have hc : ¬ (d.getOp ≠ some .EOpFunction ∨ isShaderEntrypoint d = true) := by
    simp only [Definition.isUserFunction, Bool.and_eq_true, beq_iff_eq, Bool.not_eq_true',
      ] at hd
    rintro (h | h)
    · exact h hd.1
    · rw [hd.2] at h
      cases h
  unfold makeFunction
  rw [if_neg hc]
  constructor
  · rw [setParamIds_functionMap]
    show (if d.getName = d.getName then some _ else _) ≠ none
    rw [if_pos rfl]
    exact Option.some_ne_none _
  · intro p hp
    exact setParamIds_sets _ _ _ _ _ p hp

theorem makeFunctions_keeps (B : Queries) (sequence : List Definition) (s : State) :
    (∀ name, s.functionMap name ≠ none →
      (makeFunctions B sequence s).functionMap name ≠ none) ∧
    (∀ id, s.symbolValues id ≠ none → (makeFunctions B sequence s).symbolValues id ≠ none) := by
  induction sequence generalizing s with
  | nil => exact ⟨fun _ h => h, fun _ h => h⟩
  | cons d rest ih =>
    rw [makeFunctions]
    obtain ⟨h₁, h₂⟩ := makeFunction_keeps B d s
    obtain ⟨k₁, k₂⟩ := ih (makeFunction B d s)
    exact ⟨fun name h => k₁ name (h₁ name h), fun id h => k₂ id (h₂ id h)⟩

theorem makeFunctions_declared (B : Queries) (sequence : List Definition) (s : State) :
    Declared sequence (makeFunctions B sequence s) := by
  induction sequence generalizing s with
  | nil =>
    intro d hd
    cases hd
  | cons d rest ih =>
    intro d' hd' hu
    rw [makeFunctions]
    rcases List.mem_cons.1 hd' with e | h
    · subst e
      obtain ⟨h₁, h₂⟩ := makeFunction_declares B d' s hu
      obtain ⟨k₁, k₂⟩ := makeFunctions_keeps B rest (makeFunction B d' s)
      exact ⟨k₁ _ h₁, fun p hp => k₂ _ (h₂ p hp)⟩
    · exact ih (makeFunction B d s) d' h hu

theorem makeFunctions_traverse (B : Queries) (g : Definition → State → State)
    (sequence : List Definition) (s : State) :
    makeFunctions B (sequence.map (fun d => { d with traverse := g d })) s =
      makeFunctions B sequence s := by
  induction sequence generalizing s with
  | nil => rfl
  | cons d rest ih =>
    rw [List.map_cons, makeFunctions, makeFunctions, ih]
    rfl

theorem declared_of_keeps (sequence : List Definition) (s s' : State)
    (h₁ : ∀ name, s.functionMap name ≠ none → s'.functionMap name ≠ none)
    (h₂ : ∀ id, s.symbolValues id ≠ none → s'.symbolValues id ≠ none)
    (h : Declared sequence s) : Declared sequence s' :=
  fun d hd hu => ⟨h₁ _ (h d hd hu).1, fun p hp => h₂ _ ((h d hd hu).2 p hp)⟩

theorem traverseInitializers_declared (sequence children : List Definition) (s : State)
    (hk : ∀ d ∈ children, d.keepsDeclarations) (h : Declared sequence s) :
    Declared sequence (traverseInitializers children s) := by
  induction children generalizing s with
  | nil => exact h
  | cons d rest ih =>
    rw [traverseInitializers]
    apply ih _ (fun d' hd' => hk d' (List.mem_cons_of_mem _ hd'))
    have hd := hk d (List.mem_cons_self _ _)
    split
    · split
      · exact declared_of_keeps sequence s _ (hd s).1 (hd s).2 h
      · exact h
    · exact h

theorem visitFunctions_declared (sequence children : List Definition) (s : State)
    (hk : ∀ d ∈ children, d.keepsDeclarations) (h : Declared sequence s) :
    Declared sequence (visitFunctions children s) := by
  induction children generalizing s with
  | nil => exact h
  | cons d rest ih =>
    rw [visitFunctions]
    apply ih _ (fun d' hd' => hk d' (List.mem_cons_of_mem _ hd'))
    have hd := hk d (List.mem_cons_self _ _)
    split
    · split
      · exact declared_of_keeps sequence s _ (hd s).1 (hd s).2 h
      · exact h
    · exact h

theorem handleUserFunctionCall_found (functionMap : String → Option Nat)
    (node : UserCall.TIntermAggregate) (h : functionMap node.name ≠ none) :
    (UserCall.handleUserFunctionCall functionMap node).1 ≠ none := by
  unfold UserCall.handleUserFunctionCall
  split
  · next e => exact absurd e h
  · exact Option.some_ne_none _

end Lowering

namespace Lowering

theorem traverseInitializers_append (l₁ l₂ : List Definition) (s : State) :
    traverseInitializers (l₁ ++ l₂) s = traverseInitializers l₂ (traverseInitializers l₁ s) := by
  induction l₁ generalizing s with
  | nil => rfl
  | cons d rest ih => rw [List.cons_append, traverseInitializers, traverseInitializers, ih]

theorem visitFunctions_append (l₁ l₂ : List Definition) (s : State) :
    visitFunctions (l₁ ++ l₂) s = visitFunctions l₂ (visitFunctions l₁ s) := by
  induction l₁ generalizing s with
  | nil => rfl
  | cons d rest ih => rw [List.cons_append, visitFunctions, visitFunctions, ih]

end Lowering

/-! ## Type lowering as a wrap of the element type; smeared constants -/

namespace TGlslangToSpvTraverser

theorem convert_eq_wrap_element (I : TIntermediate) (type : TType)
    (explicitLayout : TLayoutPacking) (matrixLayout : TLayoutMatrix)
    (self : TGlslangToSpvTraverser) :
    convertGlslangToSpvType I type explicitLayout matrixLayout self =
      wrapType I type explicitLayout matrixLayout
        (elementLowered I type explicitLayout matrixLayout self).1
        (elementLowered I type explicitLayout matrixLayout self).2 := by
  unfold elementLowered
  by_cases hs : type.getBasicType = .EbtStruct ∨ type.getBasicType = .EbtBlock
  · by_cases hit : self.structMap explicitLayout matrixLayout type.getStructId = 0
    · rw [if_pos hs, if_pos hit]
      exact convert_miss I type explicitLayout matrixLayout self hs hit
    · rw [if_pos hs, if_neg hit]
      exact convert_hit I type explicitLayout matrixLayout self hs hit
  · rw [if_neg hs]
    exact convert_basic I type explicitLayout matrixLayout self (fun h => hs (Or.inl h))
      (fun h => hs (Or.inr h))

end TGlslangToSpvTraverser

namespace Lowering

theorem makeSmearedConstant_zero (B : Queries) (constant : Nat) (s : State) :
    makeSmearedConstant B constant 0 s = (constant, s) := rfl

theorem makeSmearedConstant_pos (B : Queries) (constant vectorSize : Nat) (s : State)
    (h : vectorSize ≠ 0) :
    makeSmearedConstant B constant vectorSize s =
      (s.trace.length + 2,
        s.after [.makeVectorType (B.getTypeId constant) vectorSize,
          .makeCompositeConstant (s.trace.length + 1) (List.replicate vectorSize constant)]) := by
  simp only [makeSmearedConstant, if_neg h, call_eq, after_after, after_trace_length,
    List.length_cons, List.length_nil, List.cons_append, List.nil_append, Nat.zero_add,
    Nat.add_assoc, Nat.reduceAdd]

end Lowering

/-! ## Segment indices of a switch and the context stacks -/

namespace Lowering

theorem exists_nth {α : Type} (p : α → Bool) (l : List α) (i : Nat) (h : i < l.countP p) :
    ∃ pre x post, l = pre ++ x :: post ∧ p x = true ∧ pre.countP p = i := by
  induction l generalizing i with
  | nil => simp at h
  | cons a l ih =>
    by_cases ha : p a = true
    · cases i with
      | zero => exact ⟨[], a, l, rfl, ha, rfl⟩
      | succ i =>
        rw [List.countP_cons_of_pos _ _ ha] at h
        obtain ⟨pre, x, post, rfl, hx, hc⟩ := ih i (by omega)
        exact ⟨a :: pre, x, post, rfl, hx, by rw [List.countP_cons_of_pos _ _ ha, hc]⟩
    · rw [List.countP_cons_of_neg _ _ ha] at h
      obtain ⟨pre, x, post, rfl, hx, hc⟩ := ih i h
      exact ⟨a :: pre, x, post, rfl, hx, by rw [List.countP_cons_of_neg _ _ ha, hc]⟩

/-- The code children before a label are fewer than the code segments after the
fix-up. -/
theorem countP_isCode_lt (pre post : List Child) (label : Child) (hl : label.isCode = false) :
    pre.countP Child.isCode <
      ((pre ++ label :: post).countP Child.isCode +
        (if Child.endsWithLabel (pre ++ label :: post) then [none] else
          ([] : List (Option Child))).length) := by
  rw [List.countP_append, List.countP_cons_of_neg _ _ (by simp [hl])]
  by_cases hp : post.countP Child.isCode = 0
  · have hend : Child.endsWithLabel (pre ++ label :: post) = true := by
      unfold Child.endsWithLabel
      rw [List.getLast?_append, List.getLast?_cons]
      rw [List.countP_eq_zero] at hp
      cases hlast : post.getLast? with
      | none => simp [hl]
      | some x =>
        have hx : x ∈ post := List.mem_of_getLast?_eq_some hlast
        simpa using hp x hx
    rw [hend]
    simp only [if_true, List.length_cons, List.length_nil]
    omega
  · omega

theorem sortCodeSegments_bounds (sequence : List Child) :
    (∀ i, i < (addMissingSegment (sortCodeSegments sequence)).caseValues.length →
      0 ≤ (addMissingSegment (sortCodeSegments sequence)).valueIndexToSegment.getD i 0 ∧
      (addMissingSegment (sortCodeSegments sequence)).valueIndexToSegment.getD i 0 <
        (addMissingSegment (sortCodeSegments sequence)).codeSegments.length) ∧
    ((∃ x ∈ sequence, Child.isDefault x = true) →
      0 ≤ (addMissingSegment (sortCodeSegments sequence)).defaultSegment ∧
      (addMissingSegment (sortCodeSegments sequence)).defaultSegment <
        (addMissingSegment (sortCodeSegments sequence)).codeSegments.length) ∧
    ((addMissingSegment (sortCodeSegments sequence)).defaultSegment = -1 ↔
      ∀ x ∈ sequence, Child.isDefault x = false) := by
  obtain ⟨_, h₂, h₃, h₄, h₅, h₆⟩ := sortCodeSegments_sorted sequence
  rw [addMissingSegment_sortCodeSegments]
  dsimp only
  have hdef : (∃ x ∈ sequence, Child.isDefault x = true) →
      0 ≤ (sortCodeSegments sequence).defaultSegment ∧
      (sortCodeSegments sequence).defaultSegment <
        (((sortCodeSegments sequence).codeSegments ++
          (if Child.endsWithLabel sequence then [none] else [])).length : Int) := by
    rintro ⟨x, hx, hd⟩
    rcases exists_last Child.isDefault sequence with hall | ⟨pre, label, post, hs, hl, hpost⟩
    · rw [hall x hx] at hd
      cases hd
    · rw [h₆ pre label post hs hl hpost, List.length_append, h₃]
      have hcode : label.isCode = false := by
        rcases child_kind label with h | h | h
        · exact h.2.2
        · rw [h.1] at hl
          cases hl
        · rw [h.1] at hl
          cases hl
      have := countP_isCode_lt pre post label hcode
      rw [← hs] at this
      constructor
      · positivity
      · exact_mod_cast this
  refine ⟨?_, hdef, ?_⟩
  · intro i hi
    rw [h₂] at hi
    obtain ⟨pre, label, post, hs, hl, hc⟩ := exists_nth Child.isCase sequence i hi
    have h := h₄ pre label post hs hl
    rw [hc] at h
    rw [h, List.length_append, h₃]
    have hcode : label.isCode = false := by
      rcases child_kind label with h | h | h
      · exact h.2.2
      · exact h.2.2
      · rw [h.2.1] at hl
        cases hl
    have := countP_isCode_lt pre post label hcode
    rw [← hs] at this
    constructor
    · positivity
    · exact_mod_cast this
  · constructor
    · intro h x hx
      by_contra hd
      have := (hdef ⟨x, hx, by simpa using hd⟩).1
      rw [h] at this
      exact absurd this (by decide)
    · exact h₅

/-- A write into the table of `visitSwitch` is within the table: when a `case` label is
reached, the case values seen so far are fewer than the children. -/
theorem sortChild_write_in_range (n : Nat) (pre post : List Child) (label : Child)
    (hn : (pre ++ label :: post).length = n) :
    (pre.foldl sortChild { valueIndexToSegment := List.replicate n 0 }).caseValues.length <
      (pre.foldl sortChild
        { valueIndexToSegment := List.replicate n 0 }).valueIndexToSegment.length := by
  have hlen : pre.length < n := by
    rw [← hn, List.length_append, List.length_cons]
    omega
  obtain ⟨h₁, h₂, _⟩ := foldl_sortChild_sorted n pre (Nat.le_of_lt hlen)
  rw [h₁, h₂]
  exact lt_of_le_of_lt (List.countP_le_length _) hlen

/-- The first calls of the traversal of a switch: the condition is traversed and loaded,
and `makeSwitch` is given the locals as they are after the fix-up. -/
theorem traverse_switch_trace (T : TIntermTraverser) (condition : TIntermTyped)
    (body : List TIntermNode) (s : State) :
    ∃ rest : List Event,
      (traverse T (.switch condition body) s).trace =
        s.trace ++
          [.traverse condition.id, .convertGlslangToSpvType .condition,
            .accessChainLoad (T.accessChainAfter condition.id (s.trace.length + 1))
              (s.trace.length + 2),
            .makeSwitch (s.trace.length + 3)
              (addMissingSegment (sortCodeSegments (children T body))).codeSegments.length
              (addMissingSegment (sortCodeSegments (children T body))).caseValues
              (addMissingSegment (sortCodeSegments (children T body))).valueIndexToSegment
              (addMissingSegment (sortCodeSegments (children T body))).defaultSegment] ++
          rest := by
  have h : ∃ x : State,
      Keeps x (traverse T (.switch condition body) s) s.breakForLoop s.loopTerminal ∧
      x.trace = s.trace ++
        [.traverse condition.id, .convertGlslangToSpvType .condition,
          .accessChainLoad (T.accessChainAfter condition.id (s.trace.length + 1))
            (s.trace.length + 2),
          .makeSwitch (s.trace.length + 3)
            (addMissingSegment (sortCodeSegments (children T body))).codeSegments.length
            (addMissingSegment (sortCodeSegments (children T body))).caseValues
            (addMissingSegment (sortCodeSegments (children T body))).valueIndexToSegment
            (addMissingSegment (sortCodeSegments (children T body))).defaultSegment] := by
    apply Exists.intro
    apply And.intro
    · rw [traverse_switch]
      unfold visitSwitch
      dsimp only
      apply keeps_call
      apply keeps_popBreak false
      apply emitSegments_keeps
      · intro child hc
        rw [addMissingSegment_sortCodeSegments, sortCodeSegments_codeSegments] at hc
        simp only [List.mem_append, List.mem_map, List.mem_filter] at hc
        rcases hc with ⟨child', ⟨hmem, _⟩, heq⟩ | hc
        · injection heq with heq
          subst heq
          obtain ⟨node, _, rfl⟩ := mem_children T body child' hmem
          exact traverse_steady T node
        · split at hc <;> simp at hc
      · exact keeps_refl _
    · simp [traverseTyped, call, accessChainLoad]
  obtain ⟨x, ⟨⟨l, hl⟩, _, _⟩, hx⟩ := h
  exact ⟨l, by rw [hl, hx]⟩

/-- A code segment of a switch is a child of its body. -/
theorem mem_codeSegments (T : TIntermTraverser) (body : List TIntermNode) (child : Child)
    (h : some child ∈ (addMissingSegment (sortCodeSegments (children T body))).codeSegments) :
    ∃ node ∈ body, child = Child.mk node.getFlowOp node.getIConst (traverse T node) := by
  rw [addMissingSegment_sortCodeSegments, sortCodeSegments_codeSegments] at h
  simp only [List.mem_append, List.mem_map, List.mem_filter] at h
  rcases h with ⟨child', ⟨hmem, _⟩, heq⟩ | h
  · injection heq with heq
    subst heq
    exact mem_children T body child' hmem
  · split at h <;> simp at h

theorem switchEntry_breakForLoop (T : TIntermTraverser) (condition : TIntermTyped)
    (sequence : List Child) (s : State) :
    (switchEntry T condition sequence s).breakForLoop = false :: s.breakForLoop := rfl

theorem switchEntry_loopTerminal (T : TIntermTraverser) (condition : TIntermTyped)
    (sequence : List Child) (s : State) :
    (switchEntry T condition sequence s).loopTerminal = s.loopTerminal := rfl

/-- The traversal of a switch, cut at the traversal of one of its segments. -/
theorem visitSwitch_segment (T : TIntermTraverser) (condition : TIntermTyped)
    (sequence : List Child) (s : State) (k : Nat) (child : Child)
    (h : (addMissingSegment (sortCodeSegments sequence)).codeSegments[k]? = some (some child)) :
    (visitSwitch T condition sequence s).2 =
      switchExit
        (emitSegments ((addMissingSegment (sortCodeSegments sequence)).codeSegments.drop (k + 1))
          (k + 1)
          (child.traverse
            (segmentEntry (addMissingSegment (sortCodeSegments sequence)).codeSegments k
              (switchEntry T condition sequence s)))) := by
  have hk : k < (addMissingSegment (sortCodeSegments sequence)).codeSegments.length := by
    by_contra hn
    rw [List.getElem?_eq_none (by omega)] at h
    cases h
  have hsplit : (addMissingSegment (sortCodeSegments sequence)).codeSegments =
      (addMissingSegment (sortCodeSegments sequence)).codeSegments.take k ++
        some child ::
          (addMissingSegment (sortCodeSegments sequence)).codeSegments.drop (k + 1) := by
    have h' := List.getElem?_eq_some_iff.1 h
    obtain ⟨hk', hget⟩ := h'
    rw [← hget]
    exact (List.take_append_drop k _).symm.trans (by rw [List.drop_eq_getElem_cons hk'])
  have hlen : ((addMissingSegment (sortCodeSegments sequence)).codeSegments.take k).length = k :=
    List.length_take_of_le (Nat.le_of_lt hk)
  show switchExit (emitSegments (addMissingSegment (sortCodeSegments sequence)).codeSegments 0
      (switchEntry T condition sequence s)) = _
  conv_lhs => rw [hsplit]
  rw [emitSegments_append, hlen, Nat.zero_add]
  rfl

/-- The state in which a segment of a switch is traversed has the stacks of the start of
the switch, with `false` pushed on `breakForLoop`. -/
theorem segmentEntry_stacks (codeSegments : List (Option Child)) (k : Nat) (entry : State)
    (h : ∀ child, some child ∈ codeSegments → Steady child.traverse) :
    (segmentEntry codeSegments k entry).breakForLoop = entry.breakForLoop ∧
    (segmentEntry codeSegments k entry).loopTerminal = entry.loopTerminal := by
  have hk := emitSegments_keeps (codeSegments.take k)
    (fun child hc => h child (List.mem_of_mem_take hc)) 0 entry entry entry.breakForLoop
    entry.loopTerminal (keeps_refl entry)
  exact ⟨hk.2.1, hk.2.2⟩

theorem visitLoop_body (T : TIntermTraverser) (testFirst : Bool) (test : Option TIntermTyped)
    (f : State → State) (terminal : Option TIntermTyped) (s : State) :
    (visitLoop T testFirst test (some f) terminal s).2 =
      loopExit T (f (loopEntry T testFirst test terminal s)) := by
  cases test <;> rfl

end Lowering

/-! ## Binary operations -/

namespace Lowering

theorem binaryLocals_plain (B : Queries) (op : TOperator) (left right : Nat)
    (typeProxy : TBasicType) :
    binaryLocals B op.plain left right typeProxy = binaryLocals B op left right typeProxy := by
  cases op <;> rfl

theorem isCompoundAssignment_iff (op : TOperator) :
    op.isCompoundAssignment = true ↔
      op = .EOpAddAssign ∨ op = .EOpSubAssign ∨ op = .EOpMulAssign ∨
      op = .EOpVectorTimesMatrixAssign ∨ op = .EOpVectorTimesScalarAssign ∨
      op = .EOpMatrixTimesScalarAssign ∨ op = .EOpMatrixTimesMatrixAssign ∨
      op = .EOpDivAssign ∨ op = .EOpModAssign ∨ op = .EOpAndAssign ∨
      op = .EOpInclusiveOrAssign ∨ op = .EOpExclusiveOrAssign ∨ op = .EOpLeftShiftAssign ∨
      op = .EOpRightShiftAssign := by
  cases op <;> decide

theorem binaryLocals_binOp (B : Queries) (op : TOperator) (left right : Nat)
    (typeProxy : TBasicType) (h : op.isCompoundAssignment = true) :
    (binaryLocals B op left right typeProxy).binOp ≠ .OpNop := by
  rcases (isCompoundAssignment_iff op).1 h with
    h | h | h | h | h | h | h | h | h | h | h | h | h | h <;>
  subst h <;> unfold binaryLocals <;> dsimp only <;> repeat' split
  all_goals exact fun e => Op.noConfusion e

theorem binaryLocals_operands (B : Queries) (op : TOperator) (left right : Nat)
    (typeProxy : TBasicType) (h : op.isCompoundAssignment = true) :
    ((binaryLocals B op left right typeProxy).left = left ∧
        (binaryLocals B op left right typeProxy).right = right) ∨
      ((binaryLocals B op left right typeProxy).needMatchingVectors = false ∧
        (binaryLocals B op left right typeProxy).left = right ∧
        (binaryLocals B op left right typeProxy).right = left) := by
  rcases (isCompoundAssignment_iff op).1 h with
    h | h | h | h | h | h | h | h | h | h | h | h | h | h <;>
  subst h <;> unfold binaryLocals <;> dsimp only <;> repeat' split
  all_goals first
    | exact Or.inl ⟨rfl, rfl⟩
    | exact Or.inr ⟨rfl, rfl, rfl⟩

end Lowering

/-! ## Members that do not overlap, and the member indices of names and decorations -/

namespace TGlslangToSpvTraverser

theorem decoratedInstrs_id (I : TIntermediate) (type : TType) (explicitLayout : TLayoutPacking)
    (matrixLayout : TLayoutMatrix) (spvType : spv.Id) (members : List TType) (k : Nat)
    (offset : Int) :
    ∀ d ∈ decoratedInstrs I type explicitLayout matrixLayout spvType k members offset,
      d.id = spvType ∧ d.isMember = true := by
  induction members generalizing k offset with
  | nil => intro d hd; simp [decoratedInstrs] at hd
  | cons t rest ih =>
    intro d hd
    rw [decoratedInstrs] at hd
    rcases List.mem_append.1 hd with hd | hd
    · exact memberInstrs_id _ _ _ _ _ _ _ _ d hd
    · exact ih _ _ d hd

theorem memberInstrs_member (I : TIntermediate) (type : TType) (explicitLayout : TLayoutPacking)
    (matrixLayout : TLayoutMatrix) (spvType : spv.Id) (member : Int) (glslangType : TType)
    (offset : Int) :
    ∀ d ∈ memberInstrs I type explicitLayout matrixLayout spvType member glslangType offset,
      d.member? = some member := by
  intro d hd
  simp only [memberInstrs, optMemberDecorate, List.mem_append, List.mem_singleton] at hd
  rcases hd with ((((((((hd | hd) | hd) | hd) | hd) | hd) | hd) | hd) | hd) | hd
  · subst hd; rfl
  all_goals (split at hd <;> simp at hd; subst hd; rfl)

/-- Every name and decoration issued for the decorated members carries the index of one
of them, counted from `k`, and is among those issued for that member. -/
theorem decoratedInstrs_member (I : TIntermediate) (type : TType)
    (explicitLayout : TLayoutPacking) (matrixLayout : TLayoutMatrix) (spvType : spv.Id)
    (members : List TType) (k : Nat) (offset : Int) :
    ∀ d ∈ decoratedInstrs I type explicitLayout matrixLayout spvType k members offset,
      ∃ (j : Nat) (t : TType) (o : Int), members[j]? = some t ∧
        d.member? = some ((k + j : Nat) : Int) ∧
        d ∈ memberInstrs I type explicitLayout matrixLayout spvType ((k + j : Nat) : Int) t o := by
  induction members generalizing k offset with
  | nil => intro d hd; simp [decoratedInstrs] at hd
  | cons t rest ih =>
    intro d hd
    rw [decoratedInstrs] at hd
    rcases List.mem_append.1 hd with hd | hd
    · exact ⟨0, t, offset, by simp, memberInstrs_member _ _ _ _ _ _ _ _ d hd, hd⟩
    · obtain ⟨j, t', o, hj, hm, hd'⟩ := ih _ _ d hd
      refine ⟨j + 1, t', o, by simpa using hj, ?_, ?_⟩
      · rw [hm]
        congr 2
        omega
      · have e : k + (j + 1) = k + 1 + j := by omega
        rw [e]
        exact hd'

/-- The names and decorations a cache miss leaves for the members of the new struct
handle are exactly those issued for the decorated members. -/
theorem lowered_memberInstructions (I : TIntermediate) (type : TType)
    (explicitLayout : TLayoutPacking) (matrixLayout : TLayoutMatrix)
    (self : TGlslangToSpvTraverser)
    (hs : type.getBasicType = .EbtStruct ∨ type.getBasicType = .EbtBlock)
    (hw : self.WF)
    (miss : self.structMap explicitLayout matrixLayout type.getStructId = 0)
    (hc : type.getBasicType = .EbtBlock → anyContainsBlock type.getStruct = false) :
    (convertGlslangToSpvType I type explicitLayout matrixLayout self).2.builder.memberInstructions
        (newStructId I type explicitLayout matrixLayout self) =
      decoratedInstrs I type explicitLayout matrixLayout
        (newStructId I type explicitLayout matrixLayout self) 0 (decoratedMembers type) (-1) := by
  obtain ⟨-, tail, ht, h2⟩ := convert_miss_state I type explicitLayout matrixLayout self hs miss hc
  unfold spv.Builder.memberInstructions
  rw [h2, List.filter_append, List.filter_append]
  have hpre : (fieldsLowered I type explicitLayout matrixLayout self).2.builder.decorations.filter
      (fun d => d.isMember && decide (d.id = newStructId I type explicitLayout matrixLayout self)) =
      [] := by
    rw [List.filter_eq_nil_iff]
    intro d hd
    have hf := (fieldsLowered_ext I type explicitLayout matrixLayout self
      (fun t _ p m s => convert_ext I t p m s)).wf hw
    have hlt : d.id < newStructId I type explicitLayout matrixLayout self :=
      Nat.lt_succ_of_le (hf.builder.decorations d hd)
    simp [Nat.ne_of_lt hlt]
  have htail : tail.filter
      (fun d => d.isMember && decide (d.id = newStructId I type explicitLayout matrixLayout self)) =
      [] := by
    rw [List.filter_eq_nil_iff]
    intro d hd
    simp [ht d hd]
  have hmid : (decoratedInstrs I type explicitLayout matrixLayout
      (newStructId I type explicitLayout matrixLayout self) 0 (decoratedMembers type) (-1)).filter
      (fun d => d.isMember && decide (d.id = newStructId I type explicitLayout matrixLayout self)) =
      decoratedInstrs I type explicitLayout matrixLayout
        (newStructId I type explicitLayout matrixLayout self) 0 (decoratedMembers type) (-1) := by
    rw [List.filter_eq_self]
    intro d hd
    obtain ⟨h₁, h₂⟩ := decoratedInstrs_id _ _ _ _ _ _ _ _ d hd
    simp [h₁, h₂]
  rw [hpre, htail, hmid, List.nil_append, List.append_nil]

/-- When no member that is decorated is hidden, the decorated members are the members
for which a field was made. -/
theorem decoratedMembers_eq_filter (type : TType)
    (h : type.getBasicType = .EbtBlock ∨ ∀ t ∈ type.getStruct, t.hiddenMember = false) :
    decoratedMembers type = type.getStruct.filter (fun t => !t.hiddenMember) := by
  unfold decoratedMembers
  by_cases hb : type.getBasicType = .EbtBlock
  · rw [if_pos hb]
  · rw [if_neg hb]
    rcases h with h | h
    · exact absurd h hb
    · rw [List.filter_eq_self.2]
      intro t ht
      simp [h t ht]

end TGlslangToSpvTraverser

/-! ## The scalar constants of a constant -/

namespace Lowering

end Lowering
namespace glslang
end glslang

namespace Lowering

end Lowering

namespace Lowering

end Lowering

/-! ## The pass over the root sequence runs once -/

namespace Lowering

/-- Induction over a node of the tree and over a list of nodes at once. -/
theorem Node.induction_nodes {P : Node → Prop} {Q : List Node → Prop}
    (hseq : ∀ children, Q children → P (.sequence children))
    (hother : ∀ op name ps enter children leave, Q children →
      P (.other op name ps enter children leave))
    (hnil : Q []) (hcons : ∀ node rest, P node → Q rest → Q (node :: rest)) :
    (∀ node, P node) ∧ (∀ nodes, Q nodes) :=
  ⟨fun node => Node.rec (motive_1 := P) (motive_2 := Q) hseq hother hnil hcons node,
    fun nodes => Node.rec_1 (motive_1 := P) (motive_2 := Q) hseq hother hnil hcons nodes⟩

theorem traverseNode_sequence (v : List Definition → State → Bool × State)
    (children : List Node) (s : State) :
    traverseNode v (.sequence children) s =
      if (v (definitions v children) s).1 then
        (v (definitions v children)
          (traverseNodes v children (v (definitions v children) s).2)).2
      else (v (definitions v children) s).2 := by
  rw [traverseNode]

theorem traverseNode_other (v : List Definition → State → Bool × State)
    (op : Option TOperator) (name : String) (ps : List TIntermSymbol) (enter : State → State)
    (children : List Node) (leave : State → State) (s : State) :
    traverseNode v (.other op name ps enter children leave) s =
      leave (traverseNodes v children (enter s)) := by
  rw [traverseNode]

theorem traverseNodes_cons (v : List Definition → State → Bool × State)
    (node : Node) (rest : List Node) (s : State) :
    traverseNodes v (node :: rest) s = traverseNodes v rest (traverseNode v node s) := by
  rw [traverseNodes]

theorem traverseNodes_nil (v : List Definition → State → Bool × State) (s : State) :
    traverseNodes v [] s = s := by
  rw [traverseNodes]

theorem definitions_cons (v : List Definition → State → Bool × State)
    (node : Node) (rest : List Node) :
    definitions v (node :: rest) =
      { getOp := node.getOp, getName := node.getName, parameters := node.parameters,
        traverse := traverseNode v node } :: definitions v rest := by
  rw [definitions]

theorem definitions_nil (v : List Definition → State → Bool × State) :
    definitions v [] = [] := by
  rw [definitions]

/-- A traversal that only counts the sequences raises the depth by two for each
sequence, once before and once after its children. -/
theorem countingVisit_depth :
    (∀ node : Node, node.KeepsDepth → ∀ x : State,
      (traverseNode countingVisit node x).sequenceDepth =
        x.sequenceDepth + 2 * (node.sequences : Int)) ∧
    (∀ nodes : List Node, KeepsDepthAll nodes → ∀ x : State,
      (traverseNodes countingVisit nodes x).sequenceDepth =
        x.sequenceDepth + 2 * (sequencesIn nodes : Int)) := by
  apply Node.induction_nodes
  · intro children ih hk x
    rw [Node.KeepsDepth] at hk
    rw [traverseNode_sequence]
    simp only [countingVisit, if_true, ih hk, Node.sequences]
    push_cast
    ring
  · intro op name ps enter children leave ih hk x
    rw [Node.KeepsDepth] at hk
    rw [traverseNode_other, hk.2.1, ih hk.2.2, hk.1, Node.sequences]
  · intro _ x
    rw [traverseNodes_nil, sequencesIn]
    simp
  · intro node rest ihn ihr hk x
    rw [KeepsDepthAll] at hk
    rw [traverseNodes_cons, ihr hk.2, ihn hk.1, sequencesIn]
    push_cast
    ring

theorem visitSequence_deep (B : Queries) (sequence sequence' : List Definition) (x : State)
    (hx : 1 ≤ x.sequenceDepth) : visitSequence B sequence x = countingVisit sequence' x := by
  have h : ¬ (x.sequenceDepth + 1 = 1) := by omega
  simp only [visitSequence, visitAggregateSequence, preVisit, if_true, h, if_false, countingVisit]

/-- Below the root, the traversal runs no pass: from a depth of one or more it is the
traversal that only counts the sequences. -/
theorem traverseNode_deep (B : Queries) :
    (∀ node : Node, node.KeepsDepth → ∀ x : State, 1 ≤ x.sequenceDepth →
      traverseNode (visitSequence B) node x = traverseNode countingVisit node x) ∧
    (∀ nodes : List Node, KeepsDepthAll nodes → ∀ x : State, 1 ≤ x.sequenceDepth →
      traverseNodes (visitSequence B) nodes x = traverseNodes countingVisit nodes x) := by
  apply Node.induction_nodes
  · intro children ih hk x hx
    rw [Node.KeepsDepth] at hk
    have h1 := visitSequence_deep B (definitions (visitSequence B) children)
      (definitions countingVisit children) x hx
    have hx2 : 1 ≤ ({ x with sequenceDepth := x.sequenceDepth + 1 } : State).sequenceDepth := by
      show 1 ≤ x.sequenceDepth + 1
      omega
    have h3 : 1 ≤ (traverseNodes countingVisit children
        { x with sequenceDepth := x.sequenceDepth + 1 }).sequenceDepth := by
      rw [countingVisit_depth.2 children hk]
      show 1 ≤ x.sequenceDepth + 1 + 2 * (sequencesIn children : Int)
      omega
    rw [traverseNode_sequence, traverseNode_sequence, h1]
    simp only [countingVisit, if_true]
    rw [ih hk _ hx2, visitSequence_deep B _ (definitions countingVisit children) _ h3]
    rfl
  · intro op name ps enter children leave ih hk x hx
    rw [Node.KeepsDepth] at hk
    rw [traverseNode_other, traverseNode_other, ih hk.2.2 _ (by rw [hk.1]; exact hx)]
  · intro _ x _
    rw [traverseNodes_nil, traverseNodes_nil]
  · intro node rest ihn ihr hk x hx
    rw [KeepsDepthAll] at hk
    rw [traverseNodes_cons, traverseNodes_cons, ihn hk.1 x hx]
    apply ihr hk.2
    rw [countingVisit_depth.1 node hk.1]
    omega

end Lowering

namespace Lowering

theorem makeParamTypes_depth (parameters : List TIntermSymbol) (p : Nat) (r : List Nat × State) :
    (makeParamTypes p parameters r).2.sequenceDepth = r.2.sequenceDepth := by
  induction parameters generalizing p r with
  | nil => rfl
  | cons parameter rest ih =>
    rw [makeParamTypes, ih]
    dsimp only
    split <;> rfl

theorem setParamIds_depth (B : Queries) (function : Nat) (parameters : List TIntermSymbol)
    (p : Nat) (s : State) :
    (setParamIds B function p parameters s).sequenceDepth = s.sequenceDepth := by
  induction parameters generalizing p s with
  | nil => rfl
  | cons parameter rest ih =>
    rw [setParamIds, ih]
    rfl

theorem makeFunction_depth (B : Queries) (glslFunction : Definition) (s : State) :
    (makeFunction B glslFunction s).sequenceDepth = s.sequenceDepth := by
  unfold makeFunction
  split
  · rfl
  · dsimp only
    rw [setParamIds_depth]
    exact makeParamTypes_depth _ _ _

theorem makeFunctions_depth (B : Queries) (sequence : List Definition) (s : State) :
    (makeFunctions B sequence s).sequenceDepth = s.sequenceDepth := by
  induction sequence generalizing s with
  | nil => rfl
  | cons d rest ih => rw [makeFunctions, ih, makeFunction_depth]

/-- The pass `makeFunctions` reads the operator, the name and the parameters of the
definitions, and traverses none of them. -/
theorem makeFunctions_definitions (B : Queries) (v w : List Definition → State → Bool × State)
    (children : List Node) (s : State) :
    makeFunctions B (definitions v children) s = makeFunctions B (definitions w children) s := by
  induction children generalizing s with
  | nil => rw [definitions_nil, definitions_nil]
  | cons node rest ih =>
    rw [definitions_cons, definitions_cons, makeFunctions, makeFunctions, ih]
    rfl

theorem traverseInitializers_deep (B : Queries) (children : List Node)
    (hk : KeepsDepthAll children) (x : State) (hx : 1 ≤ x.sequenceDepth) :
    traverseInitializers (definitions (visitSequence B) children) x =
        traverseInitializers (definitions countingVisit children) x ∧
      1 ≤ (traverseInitializers (definitions countingVisit children) x).sequenceDepth := by
  induction children generalizing x with
  | nil =>
    rw [definitions_nil, definitions_nil]
    exact ⟨rfl, hx⟩
  | cons node rest ih =>
    rw [KeepsDepthAll] at hk
    rw [definitions_cons, definitions_cons, traverseInitializers, traverseInitializers]
    dsimp only
    have hn := (traverseNode_deep B).1 node hk.1 x hx
    have hd := countingVisit_depth.1 node hk.1 x
    cases node.getOp with
    | none => exact ih hk.2 x hx
    | some op =>
      dsimp only
      split
      · rw [hn]
        exact ih hk.2 _ (by rw [hd]; omega)
      · exact ih hk.2 x hx

theorem visitFunctions_deep (B : Queries) (children : List Node)
    (hk : KeepsDepthAll children) (x : State) (hx : 1 ≤ x.sequenceDepth) :
    visitFunctions (definitions (visitSequence B) children) x =
      visitFunctions (definitions countingVisit children) x := by
  induction children generalizing x with
  | nil => rw [definitions_nil, definitions_nil]
  | cons node rest ih =>
    rw [KeepsDepthAll] at hk
    rw [definitions_cons, definitions_cons, visitFunctions, visitFunctions]
    dsimp only
    have hn := (traverseNode_deep B).1 node hk.1 x hx
    have hd := countingVisit_depth.1 node hk.1 x
    cases node.getOp with
    | none => exact ih hk.2 x hx
    | some op =>
      dsimp only
      split
      · rw [hn]
        exact ih hk.2 _ (by rw [hd]; omega)
      · exact ih hk.2 x hx

end Lowering

/-! ## Texture parameters take different arguments -/

namespace Lowering

end Lowering

/-! ## Offsets without explicit layout, matrix columns, and the loop region -/

namespace TGlslangToSpvTraverser

/-- Without explicit layout the `Offset` decorations are those of the members that carry
a transform-feedback offset, with that offset as their value. -/
theorem offsetDecorations_none (I : TIntermediate) (type : TType)
    (matrixLayout : TLayoutMatrix) (members : List TType) (k : Nat) (offset : Int) :
    offsetDecorations I type .ElpNone matrixLayout k members offset =
      ((members.enumFrom k).filter (fun e => e.2.getQualifier.hasXfbOffset)).map
        (fun e => ((e.1 : Int), spv.Operand.num e.2.getQualifier.layoutXfbOffset)) := by
  induction members generalizing k offset with
  | nil => rfl
  | cons t rest ih =>
    rw [offsetDecorations, List.enumFrom_cons]
    by_cases hx : t.getQualifier.hasXfbOffset = true
    · rw [List.filter_cons_of_pos (by simpa using hx)]
      simp only [offsetStep, hx, if_true, ih, List.map_cons, List.singleton_append]
    · rw [List.filter_cons_of_neg (by simpa using hx)]
      simp only [offsetStep, hx, Bool.false_eq_true, if_false, ne_eq, not_true_eq_false, ih,
        List.nil_append]

end TGlslangToSpvTraverser

namespace Lowering

theorem splitTest_testCalls (T : TIntermTraverser) (test : Option TIntermTyped) (n : Nat)
    (rest : List Event) :
    splitTest (testCalls T test n ++ rest) = (testCalls T test n, rest) := by
  cases test <;> simp [testCalls, splitTest, Event.isTestBranch]

/-- A component-wise operation other than a matrix divided by a scalar is taken apart
into columns. -/
theorem createBinaryMatrixOperation_columns (B : Queries) (op : Op) (typeId left right : Nat) (s : State)
    (hop : op.isComponentWise = true)
    (hshape :
      (B.isMatrix left = true ∧ B.isMatrix right = true ∧
        B.isScalar left = false ∧ B.isScalar right = false) ∨
      (B.isMatrix left = true ∧ B.isScalar right = true ∧
        B.isScalar left = false ∧ B.isMatrix right = false ∧ op ≠ .OpFDiv) ∨
      (B.isScalar left = true ∧ B.isMatrix right = true ∧
        B.isMatrix left = false ∧ B.isScalar right = false)) :
    createBinaryMatrixOperation B op typeId left right s =
      (s.trace.length + 1 + (if B.isScalar left || B.isScalar right then 1 else 0) +
          (if B.isMatrix left then B.getNumColumns left else B.getNumColumns right) *
            columnCalls (B.isMatrix left) (B.isMatrix right) + 1,
        s.after
          ([.makeVectorType (B.getScalarTypeId typeId)
              (if B.isMatrix left then B.getNumRows left else B.getNumRows right)] ++
            (if B.isScalar left then [.smearScalar left (s.trace.length + 1)]
              else if B.isScalar right then [.smearScalar right (s.trace.length + 1)]
              else []) ++
            (List.range (if B.isMatrix left then B.getNumColumns left
                else B.getNumColumns right)).flatMap
              (columnEvents op (s.trace.length + 1) left right
                (if B.isScalar left || B.isScalar right then s.trace.length + 2 else NoResult)
                (B.isMatrix left) (B.isMatrix right)
                (s.trace.length + 1 + (if B.isScalar left || B.isScalar right then 1 else 0))) ++
            [.createCompositeConstruct typeId
                ((List.range (if B.isMatrix left then B.getNumColumns left
                    else B.getNumColumns right)).map
                  (columnResult (B.isMatrix left) (B.isMatrix right)
                    (s.trace.length + 1 +
                      (if B.isScalar left || B.isScalar right then 1 else 0)))),
              .setPrecision
                (s.trace.length + 1 + (if B.isScalar left || B.isScalar right then 1 else 0) +
                  (if B.isMatrix left then B.getNumColumns left else B.getNumColumns right) *
                    columnCalls (B.isMatrix left) (B.isMatrix right) + 1)])) := by
  have e₁ : ∀ x : Nat, 1 + (x + 1) = x + 2 := fun x => by omega
  have e₂ : ∀ x : Nat, 2 + (x + 1) = x + 3 := fun x => by omega
  rcases hshape with ⟨h₁, h₂, h₃, h₄⟩ | ⟨h₁, h₂, h₃, h₄, h₅⟩ | ⟨h₁, h₂, h₃, h₄⟩
  · cases op <;> first
      | exact absurd hop (by decide)
      | simp only [createBinaryMatrixOperation, h₁, h₂, h₃, h₄, columns_fold, call_eq,
          after_after, after_trace_length, flatMap_columnEvents_length, NoResult,
          if_true, if_false, Bool.false_eq_true, and_false, and_true, Bool.or_false,
          Bool.or_true, List.length_cons, List.length_nil, List.cons_append, List.nil_append,
          List.append_nil, List.append_assoc, Nat.zero_add, Nat.add_zero, Nat.add_assoc,
          Nat.reduceAdd, e₁, e₂]
  · cases op <;> first
      | exact absurd hop (by decide)
      | exact absurd rfl h₅
      | simp only [createBinaryMatrixOperation, h₁, h₂, h₃, h₄, columns_fold, call_eq,
          after_after, after_trace_length, flatMap_columnEvents_length, NoResult,
          if_true, if_false, Bool.false_eq_true, and_false, and_true, Bool.or_false,
          Bool.or_true, List.length_cons, List.length_nil, List.cons_append, List.nil_append,
          List.append_nil, List.append_assoc, Nat.zero_add, Nat.add_zero, Nat.add_assoc,
          Nat.reduceAdd, e₁, e₂]
  · cases op <;> first
      | exact absurd hop (by decide)
      | simp only [createBinaryMatrixOperation, h₁, h₂, h₃, h₄, columns_fold, call_eq,
          after_after, after_trace_length, flatMap_columnEvents_length, NoResult,
          if_true, if_false, Bool.false_eq_true, and_false, and_true, false_and, Bool.or_false,
          Bool.or_true, Bool.true_or, List.length_cons, List.length_nil, List.cons_append,
          List.nil_append, List.append_nil, List.append_assoc, Nat.zero_add, Nat.add_zero,
          Nat.add_assoc, Nat.reduceAdd, e₁, e₂]

end Lowering

/-! ## Layout engine: offsets and strides of lowered structs -/

namespace TGlslangToSpvTraverser

/-- C2, as stated, fails: in the std140 block `{ float a; layout(offset = 4) vec4 b; }`
member `b` carries the explicit offset `4`, and the `Offset` decoration it gets is `16`
(`4` rounded up to the alignment `16` of a `vec4`), not `4`. -/
theorem c2_explicit_offset_counterexample :
    ¬ (∀ e ∈ (decoratedMembers Example.misalignedOffsetBlock).enum,
        e.2.getQualifier.hasOffset = true →
        ((e.1 : Int), spv.Operand.num e.2.getQualifier.layoutOffset) ∈
          loweredMemberDecorations Example.intermediate Example.misalignedOffsetBlock
            .ElpStd140 .ElmNone {} .Offset) := by
  decide

/-- C2, amended: when a struct or block is lowered (cache miss) under std140 or std430,
a decorated member that carries an explicit offset `o` and no transform-feedback offset
gets exactly one `Offset` decoration, whose value is `o` (raised to `0` when negative)
rounded up to the member's base alignment, whatever the members before it and the
running offset were; it is exactly `o` when `o` is non-negative and a multiple of the
alignment. -/
theorem c2_explicit_offset_rounded (I : TIntermediate) (type : TType)
    (explicitLayout : TLayoutPacking) (matrixLayout : TLayoutMatrix)
    (self : TGlslangToSpvTraverser)
    (hp : explicitLayout = .ElpStd140 ∨ explicitLayout = .ElpStd430)
    (hs : type.getBasicType = .EbtStruct ∨ type.getBasicType = .EbtBlock)
    (hw : self.WF)
    (miss : self.structMap explicitLayout matrixLayout type.getStructId = 0)
    (hc : type.getBasicType = .EbtBlock → anyContainsBlock type.getStruct = false)
    (pre post : List TType) (t : TType)
    (hm : decoratedMembers type = pre ++ t :: post)
    (ho : t.getQualifier.hasOffset = true) (hx : t.getQualifier.hasXfbOffset = false)
    (ha : 0 < memberAlignment I explicitLayout matrixLayout t) :
    (loweredMemberDecorations I type explicitLayout matrixLayout self .Offset).filter
        (fun e => e.1 = (pre.length : Int)) =
      [((pre.length : Int), spv.Operand.num (RoundToPow2 (max t.getQualifier.layoutOffset 0)
        (memberAlignment I explicitLayout matrixLayout t)))] ∧
    (0 ≤ t.getQualifier.layoutOffset →
      memberAlignment I explicitLayout matrixLayout t ∣ t.getQualifier.layoutOffset →
      RoundToPow2 (max t.getQualifier.layoutOffset 0)
        (memberAlignment I explicitLayout matrixLayout t) = t.getQualifier.layoutOffset) := by
  have hp' : explicitLayout ≠ .ElpNone := by rcases hp with h | h <;> simp [h]
  constructor
  · rw [lowered_offsets I type explicitLayout matrixLayout self hs hw miss hc, hm]
    obtain ⟨o₁, h₁⟩ := offsetDecorations_append I type explicitLayout matrixLayout pre
      (t :: post) 0 (-1)
    rw [h₁, offsetDecorations, offsetStep_std I type explicitLayout matrixLayout t o₁ hp' hx ha]
    simp only [ho, if_true, Nat.zero_add, List.filter_append]
    have hpre : (offsetDecorations I type explicitLayout matrixLayout 0 pre (-1)).filter
        (fun e => e.1 = (pre.length : Int)) = [] := by
      rw [List.filter_eq_nil_iff]
      intro e he
      have := offsetDecorations_index I type explicitLayout matrixLayout pre 0 (-1) e he
      simp only [decide_eq_true_eq]
      push_cast at this
      omega
    have hpost : ∀ o, (offsetDecorations I type explicitLayout matrixLayout (pre.length + 1) post
        o).filter (fun e => e.1 = (pre.length : Int)) = [] := by
      intro o
      rw [List.filter_eq_nil_iff]
      intro e he
      have := offsetDecorations_index I type explicitLayout matrixLayout post (pre.length + 1) o
        e he
      simp only [decide_eq_true_eq]
      push_cast at this
      omega
    rw [hpre, hpost]
    simp
  · intro h0 hd
    rw [max_eq_left h0]
    exact RoundToPow2_of_dvd _ _ ha hd

/-- Witness for the amended C2: member `b` of `{ float a; layout(offset = 4) vec4 b; }`
under std140 gets the single `Offset` decoration `16`. -/
theorem c2_explicit_offset_rounded_witness :
    (loweredMemberDecorations Example.intermediate Example.misalignedOffsetBlock .ElpStd140
        .ElmNone {} .Offset).filter (fun e => e.1 = 1) = [(1, spv.Operand.num 16)] :=
  (c2_explicit_offset_rounded Example.intermediate Example.misalignedOffsetBlock .ElpStd140
    .ElmNone {} (Or.inl rfl) (Or.inr rfl) WF_init rfl (fun _ => rfl)
    [Example.vec 1 "a" {}] [] (Example.vec 4 "b" { hasOffset := true, layoutOffset := 4 })
    rfl rfl rfl (by decide)).1

/-- C3, as stated, fails: in the std140 block
`{ vec2 a; layout(row_major) mat3x4 b; float c; }` the row-major matrix `b` has base
alignment `16` and four rows, and its `MatrixStride` decoration is `16`, not
`16 * 4`. -/
theorem c3_matrix_stride_counterexample :
    ¬ (∀ e ∈ (decoratedMembers Example.vecMatBlock).enum, e.2.isMatrix = true →
        ((e.1 : Int), spv.Operand.num
          (memberAlignment Example.intermediate .ElpStd140 .ElmNone e.2 *
            (if subMatrixLayout e.2 .ElmNone = .ElmRowMajor then (e.2.getMatrixRows : Int)
              else (e.2.getMatrixCols : Int)))) ∈
          loweredMemberDecorations Example.intermediate Example.vecMatBlock .ElpStd140 .ElmNone
            {} .MatrixStride) := by
  decide

/-- C3, amended: when a struct or block is lowered (cache miss) under std140 or std430,
the `MatrixStride` decorations on the new struct type are one per decorated matrix
member, in member order, and the value of each is the base alignment
`getBaseAlignment` reports for that member under the orientation in force for it
(its own when it declares one, the inherited one otherwise), not multiplied by the
row or column count. -/
theorem c3_matrix_stride_is_alignment (I : TIntermediate) (type : TType)
    (explicitLayout : TLayoutPacking) (matrixLayout : TLayoutMatrix)
    (self : TGlslangToSpvTraverser)
    (hp : explicitLayout = .ElpStd140 ∨ explicitLayout = .ElpStd430)
    (hs : type.getBasicType = .EbtStruct ∨ type.getBasicType = .EbtBlock)
    (hw : self.WF)
    (miss : self.structMap explicitLayout matrixLayout type.getStructId = 0)
    (hc : type.getBasicType = .EbtBlock → anyContainsBlock type.getStruct = false) :
    loweredMemberDecorations I type explicitLayout matrixLayout self .MatrixStride =
      ((decoratedMembers type).enum.filter (fun e => e.2.isMatrix)).map
        (fun e => ((e.1 : Int), spv.Operand.num
          (I.getBaseAlignment e.2 (explicitLayout == .ElpStd140)
            (subMatrixLayout e.2 matrixLayout == .ElmRowMajor)).1)) := by
  have hp' : explicitLayout ≠ .ElpNone := by rcases hp with h | h <;> simp [h]
  unfold loweredMemberDecorations
  rw [lowered_memberDecorations I type explicitLayout matrixLayout self _ hs hw miss hc,
    decoratedInstrs_matrixStride I type explicitLayout matrixLayout _ hp']
  rfl

/-- Witness for the amended C3: the row-major `mat3x4` member of
`{ vec2 a; layout(row_major) mat3x4 b; float c; }` gets `MatrixStride 16`. -/
theorem c3_matrix_stride_is_alignment_witness :
    loweredMemberDecorations Example.intermediate Example.vecMatBlock .ElpStd140 .ElmNone {}
      .MatrixStride = [(1, spv.Operand.num 16)] :=
  c3_matrix_stride_is_alignment Example.intermediate Example.vecMatBlock .ElpStd140 .ElmNone {}
    (Or.inl rfl) (Or.inr rfl) WF_init rfl (fun _ => rfl)

/-- C4, as stated, fails: in the std140 block
`{ float a; float b; layout(offset = 0) float c; }` the offsets are `0, 4, 0`; member
`c` is placed below member `b`, and `b`, the member it follows, carries no explicit
offset. -/
theorem c4_monotone_counterexample :
    ¬ (∀ offsets : List Int,
        loweredMemberDecorations Example.intermediate Example.backwardOffsetBlock .ElpStd140
            .ElmNone {} .Offset =
          offsets.enum.map (fun e => ((e.1 : Int), spv.Operand.num e.2)) →
        List.Chain' (fun a b : TType × Int => a.1.getQualifier.hasOffset = false → a.2 ≤ b.2)
          ((decoratedMembers Example.backwardOffsetBlock).zip offsets)) := by
  intro h
  have h' := h [0, 4, 0] (by decide)
  have hz : (decoratedMembers Example.backwardOffsetBlock).zip [(0 : Int), 4, 0] =
      [(Example.vec 1 "a" {}, 0), (Example.vec 1 "b" {}, 4),
        (Example.vec 1 "c" { hasOffset := true, layoutOffset := 0 }, 0)] := rfl
  rw [hz] at h'
  have h2 := (List.chain'_cons.1 (List.chain'_cons.1 h').2).1
  exact absurd (h2 rfl) (by decide)

/-- C4, amended: when a struct or block is lowered (cache miss) under std140 or std430
and no decorated member carries a transform-feedback offset, the `Offset` decorations
are one per decorated member, in member order, and a member that does not itself carry
an explicit offset is never placed below the member before it (alignments positive,
sizes non-negative, and the end of every member below `2^31`, so that no sum
`currentOffset + memberSize` overflows its `int`); this covers the member that follows
an explicit offset. Only a member that carries an explicit offset can be placed below
its predecessor. -/
theorem c4_offsets_monotone (I : TIntermediate) (type : TType)
    (explicitLayout : TLayoutPacking) (matrixLayout : TLayoutMatrix)
    (self : TGlslangToSpvTraverser)
    (hp : explicitLayout = .ElpStd140 ∨ explicitLayout = .ElpStd430)
    (hs : type.getBasicType = .EbtStruct ∨ type.getBasicType = .EbtBlock)
    (hw : self.WF)
    (miss : self.structMap explicitLayout matrixLayout type.getStructId = 0)
    (hc : type.getBasicType = .EbtBlock → anyContainsBlock type.getStruct = false)
    (hx : ∀ t ∈ decoratedMembers type, t.getQualifier.hasXfbOffset = false)
    (hal : ∀ t ∈ decoratedMembers type, 0 < memberAlignment I explicitLayout matrixLayout t ∧
      0 ≤ memberSize I explicitLayout matrixLayout t)
    (hfit : ∀ p ∈ (decoratedMembers type).zip
        (layoutOffsets I explicitLayout matrixLayout (decoratedMembers type) (-1)),
      p.2 + memberSize I explicitLayout matrixLayout p.1 < 2147483648) :
    ∃ offsets : List Int,
      loweredMemberDecorations I type explicitLayout matrixLayout self .Offset =
        offsets.enum.map (fun e => ((e.1 : Int), spv.Operand.num e.2)) ∧
      offsets.length = (decoratedMembers type).length ∧
      List.Chain' (fun a b : TType × Int => b.1.getQualifier.hasOffset = false → a.2 ≤ b.2)
        ((decoratedMembers type).zip offsets) := by
  have hp' : explicitLayout ≠ .ElpNone := by rcases hp with h | h <;> simp [h]
  refine ⟨layoutOffsets I explicitLayout matrixLayout (decoratedMembers type) (-1), ?_,
    layoutOffsets_length _ _ _ _ _, layoutOffsets_monotone _ _ _ _ hal _⟩
  rw [lowered_offsets I type explicitLayout matrixLayout self hs hw miss hc,
    offsetDecorations_eq_layoutOffsets I type explicitLayout matrixLayout hp' _
      (fun t ht => ⟨hx t ht, (hal t ht).1⟩) 0 (-1)
      (layoutOffsets_fit I explicitLayout matrixLayout _ hal _ hfit)]
  rfl

/-- Witness for the amended C4: the block `{ float a; float b; layout(offset = 0) float c; }`
lowered under std140 from the initial traverser. -/
theorem c4_offsets_monotone_witness :
    ∃ offsets : List Int,
      loweredMemberDecorations Example.intermediate Example.backwardOffsetBlock .ElpStd140
          .ElmNone {} .Offset =
        offsets.enum.map (fun e => ((e.1 : Int), spv.Operand.num e.2)) ∧
      offsets.length = (decoratedMembers Example.backwardOffsetBlock).length ∧
      List.Chain' (fun a b : TType × Int => b.1.getQualifier.hasOffset = false → a.2 ≤ b.2)
        ((decoratedMembers Example.backwardOffsetBlock).zip offsets) :=
  c4_offsets_monotone Example.intermediate Example.backwardOffsetBlock .ElpStd140 .ElmNone {}
    (Or.inl rfl) (Or.inr rfl) WF_init rfl (fun _ => rfl) (by decide) (by decide) (by decide)

/-- C5: `getArrayStride` returns the base alignment `getBaseAlignment` reports for the
array type (queried with the std140 and row-major flags of the layout in force),
multiplied by the matrix row count when the type is a matrix and the orientation is
row-major, by the matrix column count when it is a matrix and the orientation is not
row-major, and unmultiplied when it is not a matrix. -/
theorem c5_array_stride (I : TIntermediate) (arrayType : TType)
    (explicitLayout : TLayoutPacking) (matrixLayout : TLayoutMatrix) :
    getArrayStride I arrayType explicitLayout matrixLayout =
      (I.getBaseAlignment arrayType (explicitLayout == .ElpStd140)
          (matrixLayout == .ElmRowMajor)).1 *
        (if arrayType.isMatrix = true then
          (if matrixLayout = .ElmRowMajor then (arrayType.getMatrixRows : Int)
            else (arrayType.getMatrixCols : Int))
        else 1) := by
  unfold getArrayStride
  split_ifs <;> simp

/-- C6: `getExplicitLayout` returns the type's own packing, std140 or std430, when the
type is a block with uniform or buffer storage whose declared packing is std140 or
std430, and returns none for every other type; so its result is not none exactly in
that case. -/
theorem c6_explicit_layout (type : TType) :
    ((type.getBasicType = .EbtBlock ∧
        (type.getQualifier.storage = .EvqUniform ∨ type.getQualifier.storage = .EvqBuffer) ∧
        (type.getQualifier.layoutPacking = .ElpStd140 ∨
          type.getQualifier.layoutPacking = .ElpStd430)) ↔
      (getExplicitLayout type = type.getQualifier.layoutPacking ∧
        (getExplicitLayout type = .ElpStd140 ∨ getExplicitLayout type = .ElpStd430))) ∧
    ((type.getBasicType = .EbtBlock ∧
        (type.getQualifier.storage = .EvqUniform ∨ type.getQualifier.storage = .EvqBuffer) ∧
        (type.getQualifier.layoutPacking = .ElpStd140 ∨
          type.getQualifier.layoutPacking = .ElpStd430)) ∨
      getExplicitLayout type = .ElpNone) := by
  unfold getExplicitLayout
  by_cases hb : type.getBasicType = .EbtBlock
  · by_cases hst : type.getQualifier.storage = .EvqUniform ∨
        type.getQualifier.storage = .EvqBuffer
    · have hst' : ¬ (type.getQualifier.storage ≠ .EvqUniform ∧
          type.getQualifier.storage ≠ .EvqBuffer) := by
        rintro ⟨h1, h2⟩
        rcases hst with h | h
        · exact h1 h
        · exact h2 h
      cases hpk : type.getQualifier.layoutPacking <;> simp [hb, hst, hst']
    · have hst' : type.getQualifier.storage ≠ .EvqUniform ∧
          type.getQualifier.storage ≠ .EvqBuffer :=
        ⟨fun h => hst (Or.inl h), fun h => hst (Or.inr h)⟩
      cases hpk : type.getQualifier.layoutPacking <;> simp [hb, hst, hst']
  · cases hpk : type.getQualifier.layoutPacking <;> simp [hb]

/-- C7, as stated, fails: the output block `{ layout(xfb_offset = 16) vec4 a; }` gets no
explicit layout (`getExplicitLayout` is none for it), yet lowering it under packing
none issues an `Offset` member decoration, with the transform-feedback offset `16`. -/
theorem c7_no_layout_counterexample :
    getExplicitLayout Example.xfbBlock = .ElpNone ∧
    ¬ (∀ d ∈ (convertGlslangToSpvType Example.intermediate Example.xfbBlock .ElpNone .ElmNone
          {}).2.builder.decorations,
        d.decoration ≠ .Offset ∧ d.decoration ≠ .MatrixStride ∧ d.decoration ≠ .ArrayStride) := by
  decide

/-- C7, amended: when the packing policy passed to `convertGlslangToSpvType` is none,
lowering any type (at every depth, whatever the traverser state) issues no
`MatrixStride` member decoration and no `ArrayStride` decoration, and it issues an
`Offset` decoration only for a member that carries a transform-feedback offset, with
that offset as its value. Every such member gets that decoration: when a struct or
block is lowered on a cache miss, the `Offset` decorations on the new struct type are
exactly those of the decorated members that carry a transform-feedback offset, one for
each, in member order, under the index of the member and with its transform-feedback
offset as value. -/
theorem c7_no_layout (I : TIntermediate) (type : TType) (matrixLayout : TLayoutMatrix)
    (self : TGlslangToSpvTraverser) :
    (∃ issued : List spv.Instruction,
      (convertGlslangToSpvType I type .ElpNone matrixLayout self).2.builder.decorations =
        self.builder.decorations ++ issued ∧
      ∀ d ∈ issued, d.decoration ≠ .MatrixStride ∧ d.decoration ≠ .ArrayStride ∧
        (d.decoration = .Offset →
          ∃ t ∈ type.descendants, t.getQualifier.hasXfbOffset = true ∧
            d.operand = .num t.getQualifier.layoutXfbOffset)) ∧
    ((type.getBasicType = .EbtStruct ∨ type.getBasicType = .EbtBlock) → self.WF →
      self.structMap .ElpNone matrixLayout type.getStructId = 0 →
      (type.getBasicType = .EbtBlock → anyContainsBlock type.getStruct = false) →
      loweredMemberDecorations I type .ElpNone matrixLayout self .Offset =
        ((decoratedMembers type).enum.filter (fun e => e.2.getQualifier.hasXfbOffset)).map
          (fun e => ((e.1 : Int), spv.Operand.num e.2.getQualifier.layoutXfbOffset))) := by
  refine ⟨convert_noLayout I type matrixLayout self, fun hs hw miss hc => ?_⟩
  rw [lowered_offsets I type .ElpNone matrixLayout self hs hw miss hc, offsetDecorations_none]
  rfl

/-- Witness for the amended C7: the output block `{ layout(xfb_offset = 16) vec4 a; }`
lowered under packing none gets the one `Offset` decoration `16`, on member `0`. -/
theorem c7_no_layout_witness :
    loweredMemberDecorations Example.intermediate Example.xfbBlock .ElpNone .ElmNone {} .Offset =
      [(0, spv.Operand.num 16)] :=
  ((c7_no_layout Example.intermediate Example.xfbBlock .ElmNone {}).2 (Or.inr rfl) WF_init rfl
    (fun _ => rfl)).trans rfl

/-! ## Type cache -/

/-- C8: lowering a struct or block type a second time, with the same packing policy and
the same matrix orientation, creates no new struct type, issues no further name or
decoration (member or struct level) for it, and leaves the struct cache and the
member-index remapper as they were; the second lowering returns the same handle and
changes nothing at all. When the type is an array of such structs, the only thing the
second lowering may issue is the array's own `ArrayStride`, and the handle is the
same unless the array is runtime-sized (the builder declares those anew). -/
theorem c8_second_lowering_hits_cache (I : TIntermediate) (type : TType)
    (explicitLayout : TLayoutPacking) (matrixLayout : TLayoutMatrix)
    (self : TGlslangToSpvTraverser)
    (hs : type.getBasicType = .EbtStruct ∨ type.getBasicType = .EbtBlock) :
    ((convertGlslangToSpvType I type explicitLayout matrixLayout
        (convertGlslangToSpvType I type explicitLayout matrixLayout self).2).2.builder.types.filter
        (fun e => e.1.isStruct) =
      (convertGlslangToSpvType I type explicitLayout matrixLayout self).2.builder.types.filter
        (fun e => e.1.isStruct)) ∧
    (∃ extra, (convertGlslangToSpvType I type explicitLayout matrixLayout
        (convertGlslangToSpvType I type explicitLayout matrixLayout
          self).2).2.builder.decorations =
      (convertGlslangToSpvType I type explicitLayout matrixLayout
        self).2.builder.decorations ++ extra ∧
      ∀ d ∈ extra, d.isMember = false ∧ d.decoration = .ArrayStride ∧ type.isArray = true) ∧
    ((convertGlslangToSpvType I type explicitLayout matrixLayout
        (convertGlslangToSpvType I type explicitLayout matrixLayout self).2).2.structMap =
      (convertGlslangToSpvType I type explicitLayout matrixLayout self).2.structMap) ∧
    ((convertGlslangToSpvType I type explicitLayout matrixLayout
        (convertGlslangToSpvType I type explicitLayout matrixLayout self).2).2.memberRemapper =
      (convertGlslangToSpvType I type explicitLayout matrixLayout self).2.memberRemapper) ∧
    (type.isRuntimeSizedArray = false →
      (convertGlslangToSpvType I type explicitLayout matrixLayout
        (convertGlslangToSpvType I type explicitLayout matrixLayout self).2).1 =
      (convertGlslangToSpvType I type explicitLayout matrixLayout self).1) ∧
    (type.isArray = false →
      convertGlslangToSpvType I type explicitLayout matrixLayout
        (convertGlslangToSpvType I type explicitLayout matrixLayout self).2 =
      convertGlslangToSpvType I type explicitLayout matrixLayout self) := by
  obtain ⟨s, h0, he⟩ := convert_struct_eq_wrap I type explicitLayout matrixLayout self hs
  have hit : (wrapType I type explicitLayout matrixLayout
      (s.structMap explicitLayout matrixLayout type.getStructId) s).2.structMap explicitLayout
      matrixLayout type.getStructId ≠ 0 := by
    rw [wrapType_structMap]; exact h0
  rw [he, convert_hit I type explicitLayout matrixLayout _ hs hit, wrapType_structMap]
  have h2 := wrapType_twice I type explicitLayout matrixLayout
    (s.structMap explicitLayout matrixLayout type.getStructId) s
  have h3 := wrapType_decorations I type explicitLayout matrixLayout
    (s.structMap explicitLayout matrixLayout type.getStructId)
    (wrapType I type explicitLayout matrixLayout
      (s.structMap explicitLayout matrixLayout type.getStructId) s).2
  exact ⟨h3.2, h3.1, by simp only [wrapType_structMap], by simp only [wrapType_memberRemapper],
    fun hr => (h2.1 hr).1, h2.2⟩

/-- Witness for C8: the block `{ vec2 a; layout(row_major) mat3x4 b; float c; }` lowered
twice under std140 returns the same handle and the same traverser. -/
theorem c8_second_lowering_hits_cache_witness :
    convertGlslangToSpvType Example.intermediate Example.vecMatBlock .ElpStd140 .ElmNone
        (convertGlslangToSpvType Example.intermediate Example.vecMatBlock .ElpStd140 .ElmNone
          {}).2 =
      convertGlslangToSpvType Example.intermediate Example.vecMatBlock .ElpStd140 .ElmNone {} :=
  (c8_second_lowering_hits_cache Example.intermediate Example.vecMatBlock .ElpStd140 .ElmNone {}
    (Or.inr rfl)).2.2.2.2.2 rfl

/-- C9: lowering the same struct or block type (an array of it included) under two
different (packing policy, matrix orientation) pairs, from a well-formed traverser,
returns two different handles, and leaves two different non-zero struct handles in the
cache, one per pair; the first is not disturbed by the second lowering. The builder's
struct-type constructor returns a fresh handle on each call. -/
theorem c9_distinct_handles (I : TIntermediate) (type : TType)
    (p₁ p₂ : TLayoutPacking) (m₁ m₂ : TLayoutMatrix) (self : TGlslangToSpvTraverser)
    (hs : type.getBasicType = .EbtStruct ∨ type.getBasicType = .EbtBlock)
    (hw : self.WF) (hne : p₁ ≠ p₂ ∨ m₁ ≠ m₂) :
    (convertGlslangToSpvType I type p₂ m₂
        (convertGlslangToSpvType I type p₁ m₁ self).2).2.structMap p₁ m₁ type.getStructId ≠ 0 ∧
    (convertGlslangToSpvType I type p₂ m₂
        (convertGlslangToSpvType I type p₁ m₁ self).2).2.structMap p₂ m₂ type.getStructId ≠ 0 ∧
    (convertGlslangToSpvType I type p₂ m₂
        (convertGlslangToSpvType I type p₁ m₁ self).2).2.structMap p₁ m₁ type.getStructId ≠
      (convertGlslangToSpvType I type p₂ m₂
        (convertGlslangToSpvType I type p₁ m₁ self).2).2.structMap p₂ m₂ type.getStructId ∧
    (convertGlslangToSpvType I type p₂ m₂
        (convertGlslangToSpvType I type p₁ m₁ self).2).2.structMap p₁ m₁ type.getStructId =
      (convertGlslangToSpvType I type p₁ m₁ self).2.structMap p₁ m₁ type.getStructId ∧
    (convertGlslangToSpvType I type p₁ m₁ self).1 ≠
      (convertGlslangToSpvType I type p₂ m₂
        (convertGlslangToSpvType I type p₁ m₁ self).2).1 := by
  have h1 := convert_struct_cached I type p₁ m₁ self hs
  have e1 := convert_ext I type p₁ m₁ self
  have e2 := convert_ext I type p₂ m₂ (convertGlslangToSpvType I type p₁ m₁ self).2
  have h2 := convert_struct_cached I type p₂ m₂ (convertGlslangToSpvType I type p₁ m₁ self).2 hs
  have hkeep := e2.structMap p₁ m₁ type.getStructId h1
  have hw2 := e2.wf (e1.wf hw)
  have hdiff : (convertGlslangToSpvType I type p₂ m₂
        (convertGlslangToSpvType I type p₁ m₁ self).2).2.structMap p₁ m₁ type.getStructId ≠
      (convertGlslangToSpvType I type p₂ m₂
        (convertGlslangToSpvType I type p₁ m₁ self).2).2.structMap p₂ m₂ type.getStructId := by
    intro heq
    have := hw2.structMap_inj p₁ m₁ type.getStructId p₂ m₂ type.getStructId
      (by rw [hkeep]; exact h1) heq
    rcases hne with h | h
    · exact h this.1
    · exact h this.2.1
  exact ⟨by rw [hkeep]; exact h1, h2, hdiff, hkeep,
    convert_struct_distinct I type p₁ p₂ m₁ m₂ self hs hw hne⟩

/-- Witness for C9: the block `{ vec2 a; layout(row_major) mat3x4 b; float c; }` lowered
under std140 and then under std430 gets two different handles. -/
theorem c9_distinct_handles_witness :
    (convertGlslangToSpvType Example.intermediate Example.vecMatBlock .ElpStd140 .ElmNone {}).1 ≠
      (convertGlslangToSpvType Example.intermediate Example.vecMatBlock .ElpStd430 .ElmNone
        (convertGlslangToSpvType Example.intermediate Example.vecMatBlock .ElpStd140 .ElmNone
          {}).2).1 :=
  (c9_distinct_handles Example.intermediate Example.vecMatBlock .ElpStd140 .ElpStd430 .ElmNone
    .ElmNone {} (Or.inr rfl) WF_init (Or.inl (by decide))).2.2.2.2

end TGlslangToSpvTraverser

/-! ## User function calls -/

namespace UserCall

/-- C10: for a call whose callee is in the function table, as it is for every call
`visitAggregate` hands over (`makeFunctions` enters every user function before a body is
traversed, and the caller asserts a result that is not `0`), `handleUserFunctionCall`
traverses every argument expression exactly once, in left-to-right order, and finishes
all argument traversals before it allocates any parameter storage or makes the call:
its calls split into a first part holding the traversals of arguments `0, 1, ..., n-1`
in that order and no allocation or call, and a second part, which holds the call, with
no traversal. Only for a callee that is not in the table does it return `0`, making no
call at all. -/
theorem c10_arguments_traversed_first (functionMap : String → Option Nat)
    (node : TIntermAggregate) :
    (∀ function, functionMap node.name = some function →
      ∃ evaluation rest args,
        (handleUserFunctionCall functionMap node).2 = evaluation ++ rest ∧
        evaluation.filterMap Event.traverse? = List.range node.numArgs ∧
        (∀ e ∈ evaluation, e.allocatesOrCalls = false) ∧
        (∀ e ∈ rest, e.traverse? = none) ∧
        Event.createFunctionCall function args ∈ rest) ∧
    (functionMap node.name = none → handleUserFunctionCall functionMap node = (none, [])) := by
  constructor
  · intro function hf
    obtain ⟨s₁, hs₁⟩ : ∃ s₁, s₁ = evaluateArguments node.qualifierList node.numArgs 0 {} :=
      ⟨_, rfl⟩
    obtain ⟨s₂, hs₂⟩ : ∃ s₂, s₂ = copyIn node.qualifierList node.numArgs 0
        { s₁ with lValueCount := 0, rValueCount := 0 } := ⟨_, rfl⟩
    have hmain : (handleUserFunctionCall functionMap node).2 =
        (copyOut node.qualifierList node.numArgs 0
          { (call (.createFunctionCall function s₂.spvArgs) s₂).2 with lValueCount := 0 }).trace := by
      simp only [handleUserFunctionCall, hf, hs₂, hs₁]
    obtain ⟨l₁, e1, f1, q1⟩ := evaluateArguments_trace node.qualifierList node.numArgs 0 {}
    obtain ⟨l₂, e2, q2⟩ := copyIn_trace node.qualifierList node.numArgs 0
      { s₁ with lValueCount := 0, rValueCount := 0 }
    obtain ⟨l₃, e3, q3⟩ := copyOut_trace node.qualifierList node.numArgs 0
      { (call (.createFunctionCall function s₂.spvArgs) s₂).2 with lValueCount := 0 }
    rw [← hs₁] at e1
    rw [← hs₂] at e2
    refine ⟨l₁, l₂ ++ [.createFunctionCall function s₂.spvArgs] ++ l₃, s₂.spvArgs,
      ?_, ?_, q1, ?_, ?_⟩
    · rw [hmain, e3]
      simp only [call, e2, e1]
      simp [State.trace]
    · rw [f1, List.range_eq_range']
    · intro e he
      rcases List.mem_append.1 he with he | he
      · rcases List.mem_append.1 he with he | he
        · exact q2 e he
        · rw [List.mem_singleton.1 he]; rfl
      · exact q3 e he
    · exact List.mem_append_left _ (List.mem_append_right _ (List.mem_singleton.2 rfl))
  · intro hf
    simp only [handleUserFunctionCall, hf]

/-- Witness for C10: a call of a registered function with arguments
qualified `const in`, `out`, `inout`. -/
theorem c10_arguments_traversed_first_witness :
    ∃ evaluation rest args,
      (handleUserFunctionCall (fun _ => some 7)
        { name := "f", numArgs := 3,
          qualifierList := [.EvqConstReadOnly, .EvqOut, .EvqInOut] }).2 = evaluation ++ rest ∧
      evaluation.filterMap Event.traverse? = List.range 3 ∧
      (∀ e ∈ evaluation, e.allocatesOrCalls = false) ∧
      (∀ e ∈ rest, e.traverse? = none) ∧
      Event.createFunctionCall 7 args ∈ rest :=
  (c10_arguments_traversed_first (fun _ => some 7)
    { name := "f", numArgs := 3,
      qualifierList := [.EvqConstReadOnly, .EvqOut, .EvqInOut] }).1 7 rfl

end UserCall

/-! ## User function calls: copy-in and copy-out -/

namespace UserCall

/-- C11: for a call whose callee is in the function table, as it is for every call
`visitAggregate` hands over (`makeFunctions` enters every user function before a body is
traversed, and the caller asserts a result that is not `0`), the calls made by
`handleUserFunctionCall` are some calls `pre`, then the function call with the actual
arguments `args`, then some calls `post`, where `args` has one entry per source
argument, in order, and each argument is passed as `Passed` says: an argument that is
not `const` read-only as a variable created in `pre`, into which the argument's value
(loaded through the l-value captured for that argument) is stored in `pre` exactly
when it is `in` or `inout`, no call storing into it otherwise; a `const` read-only
argument as the value loaded after its traversal. Different arguments get different
variables, and there are as many `createVariable` calls as arguments that are not
`const` read-only. -/
theorem c11_arguments_passed (functionMap : String → Option Nat) (node : TIntermAggregate)
    (function : Nat) (hf : functionMap node.name = some function) :
    ∃ (pre : List Event) (args : List Nat) (post : List Event),
      (handleUserFunctionCall functionMap node).2 =
        pre ++ [Event.createFunctionCall function args] ++ post ∧
      args.length = node.numArgs ∧
      (∀ a v : Nat, args[a]? = some v →
        Passed node.qualifierList pre (pre ++ [Event.createFunctionCall function args] ++ post) a v) ∧
      (∀ a b v w : Nat, a < b → needsVariable node.qualifierList a = true →
        needsVariable node.qualifierList b = true → args[a]? = some v → args[b]? = some w →
        v < w) ∧
      (pre ++ [Event.createFunctionCall function args] ++ post).countP Event.isCreateVariable =
        ((List.range node.numArgs).filter (needsVariable node.qualifierList)).length := by
  refine ⟨_, _, _, handleUserFunctionCall_eq functionMap node function hf,
    copyInArgs_length _ _ _ _, ?_, ?_, ?_⟩
  · intro a v hv
    have ha : a < node.numArgs := by
      have := (List.getElem?_eq_some.1 hv).1
      rwa [copyInArgs_length] at this
    exact passed_closed node.qualifierList node.numArgs function a v _ _ ha hv
  · intro a b v w hab hqa hqb hv hw
    have hb : b < node.numArgs := by
      have := (List.getElem?_eq_some.1 hw).1
      rwa [copyInArgs_length] at this
    exact copyInArgs_lt node.qualifierList node.numArgs 0 _ a b v w hab hb
      (by rw [Nat.zero_add]; exact hqa) (by rw [Nat.zero_add]; exact hqb) hv hw
  · rw [List.countP_append, List.countP_append, List.countP_append, copyInTrace_countP,
      List.range_eq_range']
    have h₁ : ((List.range' 0 node.numArgs).flatMap
        (evaluationEvents node.qualifierList)).countP Event.isCreateVariable = 0 := by
      rw [List.countP_eq_zero]
      intro e he
      simp [(flatMap_evaluationEvents_mem _ _ _ e he).2]
    have h₂ : ∀ outs p, (copyBacks (copyInArgs node.qualifierList node.numArgs 0
        (4 * node.numArgs)) outs p).countP Event.isCreateVariable = 0 := by
      intro outs p
      rw [List.countP_eq_zero]
      intro e he
      simp [(copyBacks_mem _ _ _ e he).2]
    rw [h₁, h₂]
    simp [Event.isCreateVariable]

/-- Witness for C11: a call of a registered function with arguments
qualified `in`, `const in`, `out`, `inout`. -/
theorem c11_arguments_passed_witness :
    ∃ (pre : List Event) (args : List Nat) (post : List Event),
      (handleUserFunctionCall (fun _ => some 7)
        { name := "f", numArgs := 4,
          qualifierList := [.EvqIn, .EvqConstReadOnly, .EvqOut, .EvqInOut] }).2 =
        pre ++ [Event.createFunctionCall 7 args] ++ post ∧
      args.length = 4 ∧
      (∀ a v : Nat, args[a]? = some v →
        Passed [.EvqIn, .EvqConstReadOnly, .EvqOut, .EvqInOut] pre
          (pre ++ [Event.createFunctionCall 7 args] ++ post) a v) ∧
      (∀ a b v w : Nat, a < b →
        needsVariable [.EvqIn, .EvqConstReadOnly, .EvqOut, .EvqInOut] a = true →
        needsVariable [.EvqIn, .EvqConstReadOnly, .EvqOut, .EvqInOut] b = true →
        args[a]? = some v → args[b]? = some w → v < w) ∧
      (pre ++ [Event.createFunctionCall 7 args] ++ post).countP Event.isCreateVariable =
        ((List.range 4).filter
          (needsVariable [.EvqIn, .EvqConstReadOnly, .EvqOut, .EvqInOut])).length :=
  c11_arguments_passed (fun _ => some 7)
    { name := "f", numArgs := 4,
      qualifierList := [.EvqIn, .EvqConstReadOnly, .EvqOut, .EvqInOut] } 7 rfl

/-- C12: for a call whose callee is in the function table, as it is for every call
`visitAggregate` hands over (`makeFunctions` enters every user function before a body is
traversed, and the caller asserts a result that is not `0`), the calls
`handleUserFunctionCall` makes after the function call are exactly the copy-backs of
the arguments qualified `out` or `inout`, in argument order and for no other argument:
for each, a load of the variable passed for that argument, the access chain set to the
l-value captured for that same argument during evaluation (the result `4 * a + 3` of the
`getAccessChain` made after the traversal of argument `a`), and a store of the loaded
value through it. -/
theorem c12_copy_out (functionMap : String → Option Nat) (node : TIntermAggregate)
    (function : Nat) (hf : functionMap node.name = some function) :
    ∃ (pre : List Event) (args : List Nat),
      (handleUserFunctionCall functionMap node).2 =
        pre ++ [Event.createFunctionCall function args] ++
          copyBacks args ((List.range node.numArgs).filter (copiesOut node.qualifierList))
            (pre.length + 1) ∧
      args.length = node.numArgs ∧
      ∀ a : Nat, a < node.numArgs → copiesOut node.qualifierList a = true →
        pre[4 * a + 1]? = some (.traverse a) ∧
        pre[4 * a + 3]? = some .getAccessChain ∧
        ∃ (v : Nat) (type : Nat), args[a]? = some v ∧ pre[v]? = some (.createVariable type) := by
  refine ⟨(List.range' 0 node.numArgs).flatMap (evaluationEvents node.qualifierList) ++
      copyInTrace node.qualifierList node.numArgs 0 (4 * node.numArgs),
    copyInArgs node.qualifierList node.numArgs 0 (4 * node.numArgs), ?_,
    copyInArgs_length _ _ _ _, ?_⟩
  · rw [handleUserFunctionCall_eq functionMap node function hf, List.range_eq_range',
      List.length_append, flatMap_evaluationEvents_length]
  · intro a ha hc
    have hq := copiesOut_needsVariable _ _ hc
    obtain ⟨v, hv⟩ : ∃ v, (copyInArgs node.qualifierList node.numArgs 0
        (4 * node.numArgs))[a]? = some v :=
      ⟨_, List.getElem?_eq_getElem (by rw [copyInArgs_length]; exact ha)⟩
    have hp := passed_closed node.qualifierList node.numArgs function a v [] 0 ha hv
    unfold Passed at hp
    rw [if_pos hq] at hp
    obtain ⟨h₁, -, h₃, ⟨type, h₄⟩, -⟩ := hp
    exact ⟨h₁, h₃, v, type, hv, h₄⟩

/-- Witness for C12: a call of a registered function with arguments
qualified `in`, `const in`, `out`, `inout`. -/
theorem c12_copy_out_witness :
    ∃ (pre : List Event) (args : List Nat),
      (handleUserFunctionCall (fun _ => some 7)
        { name := "f", numArgs := 4,
          qualifierList := [.EvqIn, .EvqConstReadOnly, .EvqOut, .EvqInOut] }).2 =
        pre ++ [Event.createFunctionCall 7 args] ++
          copyBacks args
            ((List.range 4).filter (copiesOut [.EvqIn, .EvqConstReadOnly, .EvqOut, .EvqInOut]))
            (pre.length + 1) ∧
      args.length = 4 ∧
      ∀ a : Nat, a < 4 → copiesOut [.EvqIn, .EvqConstReadOnly, .EvqOut, .EvqInOut] a = true →
        pre[4 * a + 1]? = some (.traverse a) ∧
        pre[4 * a + 3]? = some .getAccessChain ∧
        ∃ (v : Nat) (type : Nat), args[a]? = some v ∧ pre[v]? = some (.createVariable type) :=
  c12_copy_out (fun _ => some 7)
    { name := "f", numArgs := 4,
      qualifierList := [.EvqIn, .EvqConstReadOnly, .EvqOut, .EvqInOut] } 7 rfl

end UserCall

/-! ## Claims C13 to C20: control flow -/

namespace Lowering

/-- C13: a logical-and or logical-or whose right operand is not trivial is lowered by
`visitBinary` with the right operand emitted only between the `makeIf` that follows the
evaluation of the left operand and its `makeEndIf`. With `n` calls made before, the left
value is the result `n + 4` of the load that follows the traversal of the left operand;
the condition of the `if` is that value for `&&`, and for `||` the result `n + 6` of
`OpLogicalNot` applied to it. -/
theorem c13_short_circuit (T : TIntermTraverser) (left right : TIntermTyped) (s : State)
    (hright : isTrivial (some right) = false) :
    (∃ s', visitBinary T .EOpLogicalAnd left right s = some (false, s') ∧
      s'.trace = s.trace ++
        [.makeBoolType, .clearAccessChain, .traverse left.id,
          .accessChainLoad (T.accessChainAfter left.id (s.trace.length + 3))
            (s.trace.length + 1),
          .getBuildPoint,
          .makeIf (s.trace.length + 4),
          .clearAccessChain, .traverse right.id,
          .accessChainLoad (T.accessChainAfter right.id (s.trace.length + 8))
            (s.trace.length + 1),
          .getBuildPoint,
          .makeEndIf,
          .createOp .OpPhi (s.trace.length + 1)
            [s.trace.length + 4, s.trace.length + 5, s.trace.length + 9,
              s.trace.length + 10],
          .clearAccessChain, .setAccessChainRValue (s.trace.length + 12)]) ∧
    (∃ s', visitBinary T .EOpLogicalOr left right s = some (false, s') ∧
      s'.trace = s.trace ++
        [.makeBoolType, .clearAccessChain, .traverse left.id,
          .accessChainLoad (T.accessChainAfter left.id (s.trace.length + 3))
            (s.trace.length + 1),
          .getBuildPoint,
          .createUnaryOp .OpLogicalNot (s.trace.length + 1) (s.trace.length + 4),
          .makeIf (s.trace.length + 6),
          .clearAccessChain, .traverse right.id,
          .accessChainLoad (T.accessChainAfter right.id (s.trace.length + 9))
            (s.trace.length + 1),
          .getBuildPoint,
          .makeEndIf,
          .createOp .OpPhi (s.trace.length + 1)
            [s.trace.length + 4, s.trace.length + 5, s.trace.length + 10,
              s.trace.length + 11],
          .clearAccessChain, .setAccessChainRValue (s.trace.length + 13)]) := by
  constructor
  · refine ⟨_, by simp only [visitBinary, hright]; rfl, ?_⟩
    simp [createShortCircuit, traverseTyped, call, clearAccessChain, accessChainLoad,
      setAccessChainRValue]
  · refine ⟨_, by simp only [visitBinary, hright]; rfl, ?_⟩
    simp [createShortCircuit, traverseTyped, call, clearAccessChain, accessChainLoad,
      setAccessChainRValue]

/-- C14: `isTrivial` returns true exactly for a constant or symbol that is a trivial
leaf and for a unary or binary node whose operator is in the fixed list (`isSimple`) and
whose operands are all trivial leaves; trivial leaves are constant or symbol leaves.
Hence a node that contains an assignment, an increment or decrement, or a function
call is not trivial, and as the right operand of a logical-and or logical-or it is
lowered by `createShortCircuit`. -/
theorem c14_trivial_nodes (T : TIntermTraverser) (op : TOperator) (left node : TIntermTyped)
    (s : State) :
    (isTrivial (some node) = true ↔
      (isTrivialLeaf (some node) = true ∨
        (∃ id op operand, node = .unary id op operand ∧ op.isSimple = true ∧
          isTrivialLeaf (some operand) = true) ∨
        (∃ id op left right, node = .binary id op left right ∧ op.isSimple = true ∧
          isTrivialLeaf (some left) = true ∧ isTrivialLeaf (some right) = true))) ∧
    (∀ leaf, isTrivialLeaf (some leaf) = true → leaf.isLeaf = true) ∧
    (node.containsEffect = true → isTrivial (some node) = false) ∧
    (node.containsEffect = true → op = .EOpLogicalOr ∨ op = .EOpLogicalAnd →
      visitBinary T op left node s =
        some (false, setAccessChainRValue (createShortCircuit T op left node s).1
          (clearAccessChain (createShortCircuit T op left node s).2))) := by
  have hshape : isTrivial (some node) = true ↔
      (isTrivialLeaf (some node) = true ∨
        (∃ id op operand, node = .unary id op operand ∧ op.isSimple = true ∧
          isTrivialLeaf (some operand) = true) ∨
        (∃ id op left right, node = .binary id op left right ∧ op.isSimple = true ∧
          isTrivialLeaf (some left) = true ∧ isTrivialLeaf (some right) = true)) := by
    cases node with
    | constantUnion id iConst =>
      rw [isTrivial_of_not_operator (.constantUnion id iConst) rfl rfl]
      simp
    | symbol id storage =>
      rw [isTrivial_of_not_operator (.symbol id storage) rfl rfl]
      simp
    | unary id op operand =>
      have h₀ : isTrivialLeaf (some (.unary id op operand)) = false := rfl
      rw [isTrivial_unary, h₀]
      simp only [Bool.and_eq_true, Bool.false_eq_true, false_or, reduceCtorEq, false_and,
        exists_false, or_false]
      constructor
      · rintro ⟨h, hop⟩
        exact ⟨id, op, operand, rfl, hop, h⟩
      · rintro ⟨_, _, _, heq, hop, h⟩
        cases heq
        exact ⟨h, hop⟩
    | binary id op l r =>
      have h₀ : isTrivialLeaf (some (.binary id op l r)) = false := rfl
      rw [isTrivial_binary, h₀]
      simp only [Bool.and_eq_true, Bool.false_eq_true, false_or, reduceCtorEq, false_and,
        exists_false]
      constructor
      · rintro ⟨⟨hl, hr⟩, hop⟩
        exact ⟨id, op, l, r, rfl, hop, hl, hr⟩
      · rintro ⟨_, _, _, _, heq, hop, hl, hr⟩
        cases heq
        exact ⟨⟨hl, hr⟩, hop⟩
    | aggregate id op sequence =>
      rw [isTrivial_of_not_operator (.aggregate id op sequence) rfl rfl]
      simp
    | selection id c t f =>
      rw [isTrivial_of_not_operator (.selection id c t f) rfl rfl]
      simp
  have heffect : node.containsEffect = true → isTrivial (some node) = false := by
    intro he
    by_contra hne
    have ht : isTrivial (some node) = true := by simpa using hne
    rcases hshape.1 ht with h | ⟨id, op', operand, rfl, hop, h⟩ |
      ⟨id, op', l, r, rfl, hop, hl, hr⟩
    · rw [containsEffect_of_isTrivialLeaf node h] at he
      cases he
    · simp [TIntermTyped.containsEffect, not_hasEffect_of_isSimple op' hop,
        containsEffect_of_isTrivialLeaf operand h] at he
    · simp [TIntermTyped.containsEffect, not_hasEffect_of_isSimple op' hop,
        containsEffect_of_isTrivialLeaf l hl, containsEffect_of_isTrivialLeaf r hr] at he
  refine ⟨hshape, isLeaf_of_isTrivialLeaf, heffect, ?_⟩
  intro he hop
  rcases hop with rfl | rfl <;> simp [visitBinary, heffect he]

/-- Case of C13: for `x && i++` and `x || i++` the right operand `i++` is not trivial
and is emitted inside the `if`. -/
theorem c13_short_circuit_witness :
    isTrivial (some Example.increment) = false ∧
    ((∃ s', visitBinary Example.traverser .EOpLogicalAnd (.symbol 1 .EvqTemporary)
        Example.increment {} = some (false, s') ∧
      s'.trace = ({} : State).trace ++
        [.makeBoolType, .clearAccessChain, .traverse 1,
          .accessChainLoad (Example.traverser.accessChainAfter 1 3) 1, .getBuildPoint,
          .makeIf 4,
          .clearAccessChain, .traverse 2,
          .accessChainLoad (Example.traverser.accessChainAfter 2 8) 1, .getBuildPoint,
          .makeEndIf, .createOp .OpPhi 1 [4, 5, 9, 10],
          .clearAccessChain, .setAccessChainRValue 12]) ∧
    (∃ s', visitBinary Example.traverser .EOpLogicalOr (.symbol 1 .EvqTemporary)
        Example.increment {} = some (false, s') ∧
      s'.trace = ({} : State).trace ++
        [.makeBoolType, .clearAccessChain, .traverse 1,
          .accessChainLoad (Example.traverser.accessChainAfter 1 3) 1, .getBuildPoint,
          .createUnaryOp .OpLogicalNot 1 4,
          .makeIf 6,
          .clearAccessChain, .traverse 2,
          .accessChainLoad (Example.traverser.accessChainAfter 2 9) 1, .getBuildPoint,
          .makeEndIf, .createOp .OpPhi 1 [4, 5, 10, 11],
          .clearAccessChain, .setAccessChainRValue 13])) :=
  ⟨by decide,
    c13_short_circuit Example.traverser (.symbol 1 .EvqTemporary) Example.increment {}
      (by decide)⟩

/-- C15: a `continue` statement traverses the terminal on top of `loopTerminal`, when
there is one, once and then makes the loop-continue branch; and in the lowering of a
loop with a terminal, a typed node that occurs nowhere else in the loop, the terminal is
traversed once for each `continue` statement of the body outside the loops nested in it,
and once more after the body. -/
theorem c15_terminal_replayed (T : TIntermTraverser) (testFirst : Bool)
    (test : Option TIntermTyped) (body : Option TIntermNode) (terminal : TIntermTyped)
    (s : State) (htest : terminal.id ∉ (test.map TIntermTyped.id).toList)
    (hbody : ∀ node, body = some node → terminal.id ∉ node.operandIds) :
    (∀ x, (traverse T (.branch .EOpContinue none) x).trace =
      x.trace ++ traversal (top x.loopTerminal none) ++ [.createLoopContinue]) ∧
    (traverse T (.loop testFirst test body (some terminal)) s).trace.count
        (.traverse terminal.id) =
      s.trace.count (.traverse terminal.id) +
        ((body.map TIntermNode.continuesOutsideLoops).getD 0 + 1) := by
  constructor
  · intro x
    rw [traverse_branch]
    cases h : top x.loopTerminal none <;>
      simp [visitBranch, traverseLoopTerminal, traverseTyped, call, h, traversal]
  · have h := visitLoop_emits T (isTraverseOf_of_isQuiet terminal.id) testFirst test
      (body.map (traverse T)) (some terminal)
      (fun _ t => List.replicate
        (if (top t none).map TIntermTyped.id = some terminal.id then
          (body.map TIntermNode.continuesOutsideLoops).getD 0
         else 0) (.traverse terminal.id))
      (by
        intro f hf
        obtain ⟨n, rfl, rfl⟩ := Option.map_eq_some'.1 hf
        exact traverse_emits_terminal T terminal.id n (hbody n rfl))
    have h' := (emits_fun h
      (fun s => traverse_loop T testFirst test body (some terminal) s) s).1
    dsimp only at h'
    rw [count_traverse_eq_length_filter, count_traverse_eq_length_filter, h',
      filter_isTraverseOf_traversal_of_ne terminal.id test htest,
      filter_isTraverseOf_traversal]
    cases body <;> simp [top]

/-- Case of C15: the loop `for (; test; terminal) { if (c) continue; x; continue; }`
traverses its terminal three times. -/
theorem c15_terminal_replayed_witness :
    (∀ x, (traverse Example.traverser (.branch .EOpContinue none) x).trace =
      x.trace ++ traversal (top x.loopTerminal none) ++ [.createLoopContinue]) ∧
    (traverse Example.traverser
        (.loop true (some (.symbol 1 .EvqTemporary)) (some Example.body)
          (some (.symbol 3 .EvqTemporary))) {}).trace.count (.traverse 3) =
      ({} : State).trace.count (.traverse 3) + (2 + 1) :=
  c15_terminal_replayed Example.traverser true (some (.symbol 1 .EvqTemporary))
    (some Example.body) (.symbol 3 .EvqTemporary) {} (by decide)
    (by
      intro node h
      cases h
      decide)

/-- C16: `visitLoop` opens the loop with `makeNewLoop`, to which it passes the
test-first flag of the loop, then makes the calls of the test and its branch (the branch
to the body when there is no test), then those of the body, traversed with the loop on
top of both stacks, then those of the terminal, and closes the loop. In the loop region
the builder makes of these calls, the order in which their code runs in an iteration
entered at the header is: for a test-first loop the test and its branch, then the body,
then the terminal; for a loop that is not test-first the body, then the terminal, and
only then the test and its branch. -/
theorem c16_loop_order (T : TIntermTraverser) (testFirst : Bool) (test : Option TIntermTyped)
    (body : Option TIntermNode) (terminal : Option TIntermTyped) (s : State) :
    ∃ bodyCalls : List Event,
      (traverse T (.loop testFirst test body terminal) s).trace =
        s.trace ++ [.makeNewLoop testFirst] ++ testCalls T test (s.trace.length + 1) ++
          bodyCalls ++ traversal terminal ++ [.closeLoop] ∧
      (body = none → bodyCalls = []) ∧
      (∀ node, body = some node → ∃ x : State,
        x.trace = s.trace ++ [.makeNewLoop testFirst] ++ testCalls T test (s.trace.length + 1) ∧
        x.breakForLoop = true :: s.breakForLoop ∧
        x.loopTerminal = terminal :: s.loopTerminal ∧
        (traverse T node x).trace = x.trace ++ bodyCalls) ∧
      loopIteration ((traverse T (.loop testFirst test body terminal) s).trace.drop
          s.trace.length) =
        (if testFirst then
          testCalls T test (s.trace.length + 1) ++ (bodyCalls ++ traversal terminal)
        else bodyCalls ++ traversal terminal ++ testCalls T test (s.trace.length + 1)) := by
  have key : ∀ bodyCalls : List Event,
      (traverse T (.loop testFirst test body terminal) s).trace =
        s.trace ++ [.makeNewLoop testFirst] ++ testCalls T test (s.trace.length + 1) ++
          bodyCalls ++ traversal terminal ++ [.closeLoop] →
      loopIteration ((traverse T (.loop testFirst test body terminal) s).trace.drop
          s.trace.length) =
        (if testFirst then
          testCalls T test (s.trace.length + 1) ++ (bodyCalls ++ traversal terminal)
        else bodyCalls ++ traversal terminal ++ testCalls T test (s.trace.length + 1)) := by
    intro bodyCalls h
    have e : s.trace ++ [.makeNewLoop testFirst] ++ testCalls T test (s.trace.length + 1) ++
          bodyCalls ++ traversal terminal ++ [.closeLoop] =
        s.trace ++ (.makeNewLoop testFirst ::
          ((testCalls T test (s.trace.length + 1) ++ (bodyCalls ++ traversal terminal)) ++
            [.closeLoop])) := by
      simp
    rw [h, e, List.drop_left, loopIteration, List.dropLast_concat, splitTest_testCalls]
  rw [traverse_loop] at key ⊢
  cases body with
  | none =>
    have h : (visitLoop T testFirst test (Option.map (traverse T) none) terminal s).2.trace =
        s.trace ++ [.makeNewLoop testFirst] ++ testCalls T test (s.trace.length + 1) ++
          [] ++ traversal terminal ++ [.closeLoop] := by
      unfold visitLoop
      cases test <;> cases terminal <;>
        simp [traverseLoopTerminal, top, traverseTyped, call, accessChainLoad, traversal,
          testCalls]
    exact ⟨[], h, fun _ => rfl, fun node h => (by cases h), key [] h⟩
  | some n =>
    obtain ⟨⟨l, hl⟩, _, ht⟩ := traverse_steady T n (loopEntry T testFirst test terminal s)
    have h : (visitLoop T testFirst test (Option.map (traverse T) (some n)) terminal s).2.trace =
        s.trace ++ [.makeNewLoop testFirst] ++ testCalls T test (s.trace.length + 1) ++
          l ++ traversal terminal ++ [.closeLoop] := by
      rw [Option.map_some', visitLoop_some]
      simp only [call_trace, traverseLoopTerminal_trace, ht, loopEntry_loopTerminal, hl,
        loopEntry_trace, top, List.headD_cons]
    refine ⟨l, h, fun h => (by cases h), ?_, key l h⟩
    intro node h
    cases h
    exact ⟨_, loopEntry_trace T testFirst test terminal s,
      loopEntry_breakForLoop T testFirst test terminal s,
      loopEntry_loopTerminal T testFirst test terminal s, hl⟩

/-- The loop `do x; while (test)` with a terminal, which is not test-first: the calls
are made in the order test (1), body (2), terminal (3), and the loop region runs the
body and the terminal before the test and its branch. -/
theorem doWhile_order :
    (traverse Example.traverser Example.doWhile {}).trace =
      [.makeNewLoop false, .traverse 1, .convertGlslangToSpvType .test,
        .accessChainLoad { base := some 2, selectors := [], isRValue := true } 3,
        .createLoopTestBranch 4, .traverse 2, .traverse 3, .closeLoop] ∧
    loopIteration (traverse Example.traverser Example.doWhile {}).trace =
      [.traverse 2, .traverse 3, .traverse 1, .convertGlslangToSpvType .test,
        .accessChainLoad { base := some 2, selectors := [], isRValue := true } 3,
        .createLoopTestBranch 4] :=
  ⟨rfl, rfl⟩

/-- C17: `visitSwitch` passes to `makeSwitch` the case values in source order, and for
each `case` label, and for the last `default` label, the number of children that are
code before the label; the code segments are the children that are code, in order,
followed by a null segment when the body ends with a label, so that this number is the
index of the segment formed by the first child that is code after the label. -/
theorem c17_switch_segments (T : TIntermTraverser) (condition : TIntermTyped)
    (body : List TIntermNode) (s : State) :
    ∃ (c : CodeSegments) (rest : List Event),
      (traverse T (.switch condition body) s).trace =
        s.trace ++
          [.traverse condition.id, .convertGlslangToSpvType .condition,
            .accessChainLoad (T.accessChainAfter condition.id (s.trace.length + 1))
              (s.trace.length + 2),
            .makeSwitch (s.trace.length + 3) c.codeSegments.length c.caseValues
              c.valueIndexToSegment c.defaultSegment] ++ rest ∧
      c.caseValues = (body.filter TIntermNode.isCase).map TIntermNode.getIConst ∧
      c.codeSegments.map (Option.map Child.traverse) =
        (body.filter TIntermNode.isCode).map (fun node => some (traverse T node)) ++
          (if TIntermNode.endsWithLabel body then [none] else []) ∧
      (∀ pre label post, body = pre ++ label :: post → label.isCase = true →
        c.caseValues[pre.countP TIntermNode.isCase]? = some label.getIConst ∧
        c.valueIndexToSegment.getD (pre.countP TIntermNode.isCase) 0 =
          (pre.countP TIntermNode.isCode : Int)) ∧
      (∀ pre label post, body = pre ++ label :: post → label.isDefault = true →
        (∀ node ∈ post, node.isDefault = false) →
        c.defaultSegment = (pre.countP TIntermNode.isCode : Int)) ∧
      ((∀ node ∈ body, node.isDefault = false) → c.defaultSegment = -1) := by
  obtain ⟨_, _, _, h₄, h₅, h₆⟩ := sortCodeSegments_sorted (children T body)
  have hcase : (sortCodeSegments (children T body)).caseValues =
      (body.filter TIntermNode.isCase).map TIntermNode.getIConst := by
    rw [sortCodeSegments_caseValues, children_eq_map, List.filter_map, List.map_map]
    rfl
  refine ⟨addMissingSegment (sortCodeSegments (children T body)),
    (traverse T (.switch condition body) s).trace.drop (s.trace.length + 4), ?_, ?_, ?_, ?_,
    ?_, ?_⟩
  · have h : ∃ x : State,
        Keeps x (traverse T (.switch condition body) s) s.breakForLoop s.loopTerminal ∧
        x.trace = s.trace ++
          [.traverse condition.id, .convertGlslangToSpvType .condition,
            .accessChainLoad (T.accessChainAfter condition.id (s.trace.length + 1))
              (s.trace.length + 2),
            .makeSwitch (s.trace.length + 3)
              (addMissingSegment (sortCodeSegments (children T body))).codeSegments.length
              (addMissingSegment (sortCodeSegments (children T body))).caseValues
              (addMissingSegment (sortCodeSegments (children T body))).valueIndexToSegment
              (addMissingSegment (sortCodeSegments (children T body))).defaultSegment] := by
      apply Exists.intro
      apply And.intro
      · rw [traverse_switch]
        unfold visitSwitch
        dsimp only
        apply keeps_call
        apply keeps_popBreak false
        apply emitSegments_keeps
        · intro child hc
          rw [addMissingSegment_sortCodeSegments, sortCodeSegments_codeSegments] at hc
          simp only [List.mem_append, List.mem_map, List.mem_filter] at hc
          rcases hc with ⟨child', ⟨hmem, _⟩, heq⟩ | hc
          · injection heq with heq
            subst heq
            obtain ⟨node, _, rfl⟩ := mem_children T body child' hmem
            exact traverse_steady T node
          · split at hc <;> simp at hc
        · exact keeps_refl _
      · simp [traverseTyped, call, accessChainLoad]
    obtain ⟨x, ⟨⟨l, hl⟩, _, _⟩, hx⟩ := h
    rw [hl, hx]
    simp
  · rw [addMissingSegment_sortCodeSegments]
    exact hcase
  · rw [addMissingSegment_sortCodeSegments, endsWithLabel_children]
    dsimp only
    rw [codeSegments_children]
    have hf : (body.filter fun n => !n.isLabel) = body.filter TIntermNode.isCode := by
      apply List.filter_congr
      intro n _
      rw [isCode_eq_not_isLabel]
    rw [hf]
    split <;> simp
  · intro pre label post hb hl
    rw [addMissingSegment_sortCodeSegments]
    dsimp only
    constructor
    · rw [hcase, hb]
      exact getElem?_filter_map_append TIntermNode.isCase TIntermNode.getIConst pre post label hl
    · have := h₄ (children T pre) (Child.mk label.getFlowOp label.getIConst (traverse T label))
        (children T post) (by rw [hb, children_append, children_cons]) hl
      rw [(countP_children T pre).1, (countP_children T pre).2] at this
      exact this
  · intro pre label post hb hl hpost
    rw [addMissingSegment_sortCodeSegments]
    dsimp only
    have := h₆ (children T pre) (Child.mk label.getFlowOp label.getIConst (traverse T label))
      (children T post) (by rw [hb, children_append, children_cons]) hl (by
        intro child hc
        obtain ⟨node, hn, rfl⟩ := mem_children T post child hc
        exact hpost node hn)
    rw [(countP_children T pre).2] at this
    exact this
  · intro hall
    rw [addMissingSegment_sortCodeSegments]
    dsimp only
    apply h₅
    intro child hc
    obtain ⟨node, hn, rfl⟩ := mem_children T body child hc
    exact hall node hn

/-- C18: the loop exits and switch breaks made by the traversal of a node are, in
order, those of `breakLowerings`: a loop exit for each `break` statement whose innermost
enclosing construct among loop bodies and switch bodies is a loop body, a switch break
for each one for which it is a switch body (and for the empty last segment of a switch),
the top of `breakForLoop` deciding for a `break` outside any construct of the node. In
particular a `break` in a switch nested in a loop makes a switch break, and a `break` in
a loop nested in a switch makes a loop exit. -/
theorem c18_break_lowering (T : TIntermTraverser) (node : TIntermNode) (s : State) :
    ((traverse T node s).trace.filter Event.isBreak =
      s.trace.filter Event.isBreak ++ breakLowerings (top s.breakForLoop false) node) ∧
    (∀ testFirst test terminal condition label,
      (traverse T (.loop testFirst test
          (some (.switch condition [.branch .EOpCase label, .branch .EOpBreak none]))
          terminal) s).trace.filter Event.isBreak =
        s.trace.filter Event.isBreak ++ [.addSwitchBreak]) ∧
    (∀ testFirst test terminal condition label,
      (traverse T (.switch condition
          [.branch .EOpCase label,
            .loop testFirst test (some (.branch .EOpBreak none)) terminal]) s).trace.filter
          Event.isBreak =
        s.trace.filter Event.isBreak ++ [.createLoopExit]) :=
  ⟨(traverse_emits_breaks T node s).1,
    fun testFirst test terminal condition label =>
      (traverse_emits_breaks T (.loop testFirst test
        (some (.switch condition [.branch .EOpCase label, .branch .EOpBreak none]))
        terminal) s).1,
    fun testFirst test terminal condition label =>
      (traverse_emits_breaks T (.switch condition
        [.branch .EOpCase label,
          .loop testFirst test (some (.branch .EOpBreak none)) terminal]) s).1⟩

/-- C19: for a selection node with a non-void type, `visitSelection` creates the
temporary (call `n + 2` after `n` calls) before it traverses the condition; each arm
that is present is followed by the load of the chain the arm left and the store of the
loaded value into the temporary; and afterwards the access chain is the l-value chain
based at the temporary, with no selectors. -/
theorem c19_selection_temporary (T : TIntermTraverser) (basicType : TBasicType)
    (condition : TIntermTyped) (trueBlock falseBlock : Option TIntermNode) (s : State)
    (h : basicType ≠ .EbtVoid) :
    let result := s.trace.length + 2
    let entry : State :=
      { s with
        trace := s.trace ++
          [.convertGlslangToSpvType .node, .createVariable (s.trace.length + 1),
            .traverse condition.id, .convertGlslangToSpvType .condition,
            .accessChainLoad (T.accessChainAfter condition.id (s.trace.length + 3))
              (s.trace.length + 4),
            .makeIf (s.trace.length + 5)]
        accessChain := T.accessChainAfter condition.id (s.trace.length + 3) }
    let store (arm : Operand) (x : State) : State :=
      { x with
        trace := x.trace ++
          [.convertGlslangToSpvType arm, .accessChainLoad x.accessChain (x.trace.length + 1),
            .createStore (x.trace.length + 2) result] }
    let afterThen : State :=
      match trueBlock with
      | some node => store .trueBlock (traverse T node entry)
      | none => entry
    let afterElse : State :=
      match falseBlock with
      | some node =>
        store .falseBlock
          (traverse T node { afterThen with trace := afterThen.trace ++ [.makeBeginElse] })
      | none => afterThen
    traverse T (.selection basicType condition trueBlock falseBlock) s =
      { afterElse with
        trace := afterElse.trace ++
          [.makeEndIf, .clearAccessChain, .setAccessChainLValue result]
        accessChain := { base := some result, selectors := [], isRValue := false } } := by
  rw [traverse_selection]
  cases trueBlock <;> cases falseBlock <;>
    simp [visitSelection, h, traverseTyped, call, accessChainLoad, clearAccessChain,
      setAccessChainLValue]

/-- Case of C19: the conditional expression `c ? a : b` of type float creates its
temporary as call 2, stores both arms into it and leaves the l-value chain based at it. -/
theorem c19_selection_temporary_witness :
    TBasicType.EbtFloat ≠ TBasicType.EbtVoid ∧
    traverse Example.traverser Example.conditional {} =
      { trace :=
          [.convertGlslangToSpvType .node, .createVariable 1, .traverse 6,
            .convertGlslangToSpvType .condition,
            .accessChainLoad { base := some 3, selectors := [], isRValue := true } 4,
            .makeIf 5,
            .traverse 7, .convertGlslangToSpvType .trueBlock,
            .accessChainLoad { base := some 7, selectors := [], isRValue := true } 8,
            .createStore 9 2,
            .makeBeginElse,
            .traverse 8, .convertGlslangToSpvType .falseBlock,
            .accessChainLoad { base := some 12, selectors := [], isRValue := true } 13,
            .createStore 14 2,
            .makeEndIf, .clearAccessChain, .setAccessChainLValue 2]
        accessChain := { base := some 2, selectors := [], isRValue := false }
        breakForLoop := []
        loopTerminal := [] } :=
  ⟨by decide,
    c19_selection_temporary Example.traverser .EbtFloat (.symbol 6 .EvqTemporary)
      (some (.typed (.symbol 7 .EvqTemporary))) (some (.typed (.symbol 8 .EvqTemporary))) {}
      (by decide)⟩

/-- C20, the claim fails: after the statement `if (c) (c ? a : b);` the access chain is
the l-value chain based at the temporary of the conditional expression in its arm, and
not the empty chain. -/
theorem c20_void_selection_counterexample :
    (traverse Example.traverser Example.ifStatement {}).accessChain =
      { base := some 6, selectors := [], isRValue := false } ∧
    (traverse Example.traverser Example.ifStatement {}).accessChain ≠ {} := by
  constructor
  · rfl
  · decide

/-- C20, amended: for a selection node of void type `visitSelection` neither clears nor
sets the access chain: the state afterwards is the one left by the last part emitted
(the else arm, otherwise the then arm, otherwise the condition) with `makeEndIf` added
to the calls, so the access chain is whatever that part left in it. -/
theorem c20_void_selection (T : TIntermTraverser) (condition : TIntermTyped)
    (trueBlock falseBlock : Option TIntermNode) (s : State) :
    let entry : State :=
      { s with
        trace := s.trace ++
          [.traverse condition.id, .convertGlslangToSpvType .condition,
            .accessChainLoad (T.accessChainAfter condition.id (s.trace.length + 1))
              (s.trace.length + 2),
            .makeIf (s.trace.length + 3)]
        accessChain := T.accessChainAfter condition.id (s.trace.length + 1) }
    let afterThen : State :=
      match trueBlock with
      | some node => traverse T node entry
      | none => entry
    let afterElse : State :=
      match falseBlock with
      | some node =>
        traverse T node { afterThen with trace := afterThen.trace ++ [.makeBeginElse] }
      | none => afterThen
    traverse T (.selection .EbtVoid condition trueBlock falseBlock) s =
        { afterElse with trace := afterElse.trace ++ [.makeEndIf] } ∧
      (traverse T (.selection .EbtVoid condition trueBlock falseBlock) s).accessChain =
        afterElse.accessChain := by
  have h : traverse T (.selection .EbtVoid condition trueBlock falseBlock) s =
      (visitSelection T .EbtVoid condition (trueBlock.map (traverse T))
        (falseBlock.map (traverse T)) s).2 := traverse_selection T _ _ _ _ s
  rw [h]
  cases trueBlock <;> cases falseBlock <;>
    simp [visitSelection, traverseTyped, call, accessChainLoad]

end Lowering

/-! ## Assignments, indexing, arrays, symbols, functions and operators: the properties -/

namespace Lowering

/-- C21: for a simple or compound assignment, the left operand is traversed exactly
once and before the right operand; for a compound assignment the load of the left value
and the final store both go through the access chain saved after that single traversal
of the left operand; afterwards the access chain is an r-value holding the stored
value. -/
theorem c21_assignment (T : TIntermTraverser) (op : TOperator) (left right : TIntermTyped)
    (s : State) (hop : op.isAssignment = true) :
    visitBinary T op left right s =
      some (false,
        { s with
          trace := s.trace ++
            [.clearAccessChain, .traverse left.id, .getAccessChain,
              .clearAccessChain, .traverse right.id, .convertGlslangToSpvType .right,
              .accessChainLoad (T.accessChainAfter right.id (s.trace.length + 5))
                (s.trace.length + 6)] ++
            (if op = .EOpAssign then []
              else
                [.setAccessChain (T.accessChainAfter left.id (s.trace.length + 2)),
                  .convertGlslangToSpvType .left,
                  .accessChainLoad (T.accessChainAfter left.id (s.trace.length + 2))
                    (s.trace.length + 9),
                  .convertGlslangToSpvType .node,
                  .createBinaryOperation op (s.trace.length + 11) (s.trace.length + 10)
                    (s.trace.length + 7)]) ++
            [.setAccessChain (T.accessChainAfter left.id (s.trace.length + 2)),
              .accessChainStore (T.accessChainAfter left.id (s.trace.length + 2))
                (if op = .EOpAssign then s.trace.length + 7 else s.trace.length + 12),
              .clearAccessChain,
              .setAccessChainRValue
                (if op = .EOpAssign then s.trace.length + 7 else s.trace.length + 12)]
          accessChain :=
            { base := some (if op = .EOpAssign then s.trace.length + 7 else s.trace.length + 12)
              selectors := []
              isRValue := true } }) := by
  cases op <;> first
    | exact absurd hop (by decide)
    | simp [visitBinary, clearAccessChain, traverseTyped, getAccessChain, setAccessChain,
        accessChainStore, setAccessChainRValue, accessChainLoad, call]

/-- C21, at a concrete input: the compound assignment `a += b`. -/
theorem c21_assignment_witness :
    visitBinary Example.traverser .EOpAddAssign (.symbol 1 .EvqTemporary)
        (.symbol 2 .EvqTemporary) {} =
      some (false,
        { trace :=
            [.clearAccessChain, .traverse 1, .getAccessChain, .clearAccessChain, .traverse 2,
              .convertGlslangToSpvType .right,
              .accessChainLoad { base := some 5, selectors := [], isRValue := true } 6,
              .setAccessChain { base := some 2, selectors := [], isRValue := true },
              .convertGlslangToSpvType .left,
              .accessChainLoad { base := some 2, selectors := [], isRValue := true } 9,
              .convertGlslangToSpvType .node,
              .createBinaryOperation .EOpAddAssign 11 10 7,
              .setAccessChain { base := some 2, selectors := [], isRValue := true },
              .accessChainStore { base := some 2, selectors := [], isRValue := true } 12,
              .clearAccessChain, .setAccessChainRValue 12]
          accessChain := { base := some 12, selectors := [], isRValue := true } }) :=
  (c21_assignment Example.traverser .EOpAddAssign (.symbol 1 .EvqTemporary)
    (.symbol 2 .EvqTemporary) {} rfl).trans rfl

end Lowering

namespace TGlslangToSpvTraverser

/-- C22: when a block type is lowered on a cache miss, the member-index remapper of its
member list afterwards maps each hidden member to -1 and each non-hidden member `i` to
the number of non-hidden members with source index smaller than `i`, so that the
remapped indices of the non-hidden members are exactly `0..k-1` in source order, `k`
being the number of fields of the struct type that was created; a lowering that hits the
cache leaves the remapper as it is. A constant struct-member index `i` into a block
pushes the constant made from entry `i` of the remapper onto the access chain the left
operand leaves. -/
theorem c22_member_remapper (I : TIntermediate) (type : TType)
    (explicitLayout : TLayoutPacking) (matrixLayout : TLayoutMatrix)
    (self : TGlslangToSpvTraverser) (T : Lowering.TIntermTraverser) (left right : TIntermTyped)
    (s : Lowering.State) (hb : type.getBasicType = .EbtBlock)
    (hc : anyContainsBlock type.getStruct = false) :
    (self.structMap explicitLayout matrixLayout type.getStructId = 0 →
      (spv.TypeRequest.OpTypeStruct (fieldsLowered I type explicitLayout matrixLayout self).1
          type.getTypeName, newStructId I type explicitLayout matrixLayout self) ∈
        (convertGlslangToSpvType I type explicitLayout matrixLayout self).2.builder.types ∧
      ((convertGlslangToSpvType I type explicitLayout matrixLayout self).2.memberRemapper
        type.getStructId).length = type.getStruct.length ∧
      (∀ i (h : i < type.getStruct.length),
        ((convertGlslangToSpvType I type explicitLayout matrixLayout self).2.memberRemapper
          type.getStructId)[i]? =
          some (if (type.getStruct.get ⟨i, h⟩).hiddenMember = true then -1
            else ((((type.getStruct.take i).filter (fun t => !t.hiddenMember)).length : Nat) :
              Int))) ∧
      ((convertGlslangToSpvType I type explicitLayout matrixLayout self).2.memberRemapper
          type.getStructId).filter (fun x => decide (x ≠ -1)) =
        (List.range (fieldsLowered I type explicitLayout matrixLayout self).1.length).map
          Int.ofNat) ∧
    (self.structMap explicitLayout matrixLayout type.getStructId ≠ 0 →
      (convertGlslangToSpvType I type explicitLayout matrixLayout self).2.memberRemapper =
        self.memberRemapper) ∧
    (∀ (memberRemapper : Nat → List Int) (i : Nat) (v : Int),
      right.getIConst = (i : Int) → (memberRemapper type.getStructId)[i]? = some v →
      Lowering.visitBinaryIndexDirect T memberRemapper .EOpIndexDirectStruct left type right s =
        (false,
          { s with
            trace := s.trace ++
              [.traverse left.id, .makeIntConstant v, .accessChainPush (s.trace.length + 2)]
            accessChain :=
              { T.accessChainAfter left.id (s.trace.length + 1) with
                selectors := (T.accessChainAfter left.id (s.trace.length + 1)).selectors ++
                  [.index (s.trace.length + 2)] } })) := by
  refine ⟨fun miss => ⟨?_, ?_, ?_, ?_⟩, ?_, ?_⟩
  · exact convert_miss_struct I type explicitLayout matrixLayout self (Or.inr hb) miss
  · rw [convert_miss_remapper I type explicitLayout matrixLayout self hb hc miss,
      remapFrom_length]
  · intro i h
    rw [convert_miss_remapper I type explicitLayout matrixLayout self hb hc miss,
      remapFrom_getElem? 0 _ i h, Nat.zero_add]
  · rw [convert_miss_remapper I type explicitLayout matrixLayout self hb hc miss,
      remapFrom_filter, fieldsLowered_length, List.range_eq_range']
  · exact convert_hit_remapper I type explicitLayout matrixLayout self (Or.inr hb)
  · intro memberRemapper i v hi hv
    simp [Lowering.visitBinaryIndexDirect, hb, hi, hv, Lowering.traverseTyped,
      Lowering.accessChainPush, Lowering.call]

/-- C22, at a concrete input: the block `{ float a; (hidden) h; float c; }`, whose
remapper is `[0, -1, 1]` and whose struct has two fields; the index of member `c`, 2 in
the source, is pushed as the constant 1. -/
theorem c22_member_remapper_witness :
    ((convertGlslangToSpvType Example.intermediate Example.hiddenMemberBlock
          .ElpStd140 .ElmNone {}).2.memberRemapper
        Example.hiddenMemberBlock.getStructId).filter (fun x => decide (x ≠ -1)) =
      (List.range (fieldsLowered Example.intermediate Example.hiddenMemberBlock
        .ElpStd140 .ElmNone {}).1.length).map Int.ofNat ∧
    Lowering.visitBinaryIndexDirect Lowering.Example.traverser (fun _ => [0, -1, 1])
        .EOpIndexDirectStruct (.symbol 1 .EvqUniform) Example.hiddenMemberBlock
        (.constantUnion 2 2) {} =
      (false,
        { trace := [.traverse 1, .makeIntConstant 1, .accessChainPush 2]
          accessChain := { base := some 1, selectors := [.index 2], isRValue := true } }) :=
  ⟨((c22_member_remapper Example.intermediate Example.hiddenMemberBlock
      .ElpStd140 .ElmNone {} Lowering.Example.traverser (.symbol 1 .EvqUniform)
      (.constantUnion 2 2) {} rfl rfl).1 rfl).2.2.2,
    ((c22_member_remapper Example.intermediate Example.hiddenMemberBlock
      .ElpStd140 .ElmNone {} Lowering.Example.traverser (.symbol 1 .EvqUniform)
      (.constantUnion 2 2) {} rfl rfl).2.2 (fun _ => [0, -1, 1]) 2 1 rfl rfl).trans rfl⟩

/-- C23, the claim fails: lowering `float a[2][3]` under std140 creates two array types,
`3` for the outer dimension and `2` for the inner one, and decorates only the outer one
with ArrayStride. -/
theorem c23_inner_dimension_counterexample :
    (convertGlslangToSpvType Example.intermediate Example.floatArray2D .ElpStd140 .ElmNone
        {}).2.builder.types =
      [(.OpTypeArray 2 2, 3), (.OpTypeArray 1 3, 2), (.OpTypeFloat 32, 1)] ∧
    (convertGlslangToSpvType Example.intermediate Example.floatArray2D .ElpStd140 .ElmNone
        {}).2.builder.decorations = [.OpDecorate 3 .ArrayStride (.num 4)] := by
  constructor <;> rfl

/-- C23, as the code has it: when an array type with one or more dimensions is lowered
under std140 or std430, the only decoration made after the element type is lowered is
one ArrayStride on the handle returned, the array type of the outermost dimension, when
the element is not a block, and none when the element is a block; the array types of
the inner dimensions receive no ArrayStride. -/
theorem c23_array_stride (I : TIntermediate) (type : TType) (explicitLayout : TLayoutPacking)
    (matrixLayout : TLayoutMatrix) (self : TGlslangToSpvTraverser)
    (ha : type.isArray = true)
    (hp : explicitLayout = .ElpStd140 ∨ explicitLayout = .ElpStd430) :
    convertGlslangToSpvType I type explicitLayout matrixLayout self =
      wrapType I type explicitLayout matrixLayout
        (elementLowered I type explicitLayout matrixLayout self).1
        (elementLowered I type explicitLayout matrixLayout self).2 ∧
    (convertGlslangToSpvType I type explicitLayout matrixLayout self).2.builder.decorations =
      (elementLowered I type explicitLayout matrixLayout self).2.builder.decorations ++
        (if type.getBasicType = .EbtBlock then []
          else
            [.OpDecorate (convertGlslangToSpvType I type explicitLayout matrixLayout self).1
              .ArrayStride (.num (getArrayStride I type explicitLayout matrixLayout))]) := by
  have hne : explicitLayout ≠ .ElpNone := by
    rcases hp with h | h <;> rw [h] <;> decide
  refine ⟨convert_eq_wrap_element I type explicitLayout matrixLayout self, ?_⟩
  rw [convert_eq_wrap_element, wrapType_eq, emit_decorations,
    (wrapResult_ext _ _ _).decorations]
  unfold arrayStrideInstrs
  by_cases hb : type.getBasicType = .EbtBlock
  · simp [hb]
  · simp [hb, ha, hne]

/-- C23, at a concrete input: the one-dimensional array `float a[3]` under std140. -/
theorem c23_array_stride_witness :
    (convertGlslangToSpvType Example.intermediate
        (.mk .EbtFloat {} {} 1 0 0 [3] false "a" "" 0 []) .ElpStd140 .ElmNone
        {}).2.builder.decorations = [.OpDecorate 2 .ArrayStride (.num 4)] :=
  (c23_array_stride Example.intermediate (.mk .EbtFloat {} {} 1 0 0 [3] false "a" "" 0 [])
    .ElpStd140 .ElmNone {} rfl (Or.inl rfl)).2

end TGlslangToSpvTraverser

namespace Lowering

/-- C24: in a traversal that starts with an empty interface set, the handles `dumpSpv`
attaches to the entry point are exactly the handles of the symbols visited, in ordinary
code or in the linker objects, that are pointers in the Input or the Output storage
class; each of them is attached exactly once however often its symbol is visited, and
no handle of another storage class is attached. -/
theorem c24_interface_set (I : TIntermediate) (B : Queries) (visits : List Visit) (s : State)
    (hframe : ∀ v ∈ visits, v.keepsInterface) (hinit : s.iOSet = []) :
    dumpSpv (visitAll I B visits s) =
      (visitAll I B visits s).after
        ((visitAll I B visits s).iOSet.map .addIdOperand ++ [.dump]) ∧
    (∀ id, id ∈ (visitAll I B visits s).iOSet ↔
      id ∈ visitedIds I B visits s ∧ B.isPointer id = true ∧
        (B.getStorageClass id = .Input ∨ B.getStorageClass id = .Output)) ∧
    (∀ id, id ∈ (visitAll I B visits s).iOSet →
      ((visitAll I B visits s).iOSet.map Event.addIdOperand ++ [Event.dump]).count
        (Event.addIdOperand id) = 1) := by
  obtain ⟨h₁, h₂⟩ := visitAll_iOSet I B visits s hframe (hinit ▸ List.nodup_nil)
  refine ⟨dumpSpv_eq _, fun id => ?_, fun id hid => ?_⟩
  · rw [h₂ id, hinit, isInterface_iff]
    simp
  · rw [count_addIdOperand]
    exact List.count_eq_one_of_mem h₁ hid

/-- C24, at a concrete input: `position` is visited twice, once in the linker objects,
and its handle 2 is attached once; the handle 6 of the local variable is not attached. -/
theorem c24_interface_set_witness :
    (visitAll Example.intermediate Example.queries Example.visits {}).iOSet = [2] ∧
    ((visitAll Example.intermediate Example.queries Example.visits {}).iOSet.map
        Event.addIdOperand ++ [Event.dump]).count (Event.addIdOperand 2) = 1 :=
  ⟨rfl,
    (c24_interface_set Example.intermediate Example.queries Example.visits {}
      (by
        intro v hv
        simp only [Example.visits, List.mem_cons, List.mem_singleton, List.not_mem_nil,
          or_false] at hv
        rcases hv with rfl | rfl | rfl | rfl
        · trivial
        · trivial
        · intro s
          rfl
        · trivial)
      rfl).2.2 2 (List.mem_singleton.2 rfl)⟩

/-- C25: when the root sequence is visited, `makeFunctions` runs first and traverses no
child; after it every function definition of the sequence other than the entry point is
in the function table, with each of its parameters in the symbol table. The global
initializers and then the functions are traversed afterwards, and, as a traversal takes
nothing out of the two tables, each child is traversed from a state in which all these
functions are declared: a call of any of them, defined earlier or later in the sequence,
finds its function object. -/
theorem c25_functions_declared_first (B : Queries) (sequence : List Definition) (s : State)
    (hroot : s.sequenceDepth = 0) :
    visitAggregateSequence preVisit B sequence s =
      (false,
        visitFunctions sequence
          (makeGlobalInitializers sequence
            (makeFunctions B sequence { s with sequenceDepth := 1 }))) ∧
    (∀ g : Definition → State → State,
      makeFunctions B (sequence.map (fun d => { d with traverse := g d }))
          { s with sequenceDepth := 1 } =
        makeFunctions B sequence { s with sequenceDepth := 1 }) ∧
    Declared sequence (makeFunctions B sequence { s with sequenceDepth := 1 }) ∧
    ((∀ d ∈ sequence, d.keepsDeclarations) →
      ∀ i : Nat,
        makeGlobalInitializers sequence (makeFunctions B sequence { s with sequenceDepth := 1 }) =
          traverseInitializers (sequence.drop i)
            (traverseInitializers (sequence.take i)
              (call .setBuildPointLastBlock
                (makeFunctions B sequence { s with sequenceDepth := 1 })).2) ∧
        visitFunctions sequence
            (makeGlobalInitializers sequence
              (makeFunctions B sequence { s with sequenceDepth := 1 })) =
          visitFunctions (sequence.drop i)
            (visitFunctions (sequence.take i)
              (makeGlobalInitializers sequence
                (makeFunctions B sequence { s with sequenceDepth := 1 }))) ∧
        ∀ d ∈ sequence, d.isUserFunction = true →
          ∀ node : UserCall.TIntermAggregate, node.name = d.getName →
            (UserCall.handleUserFunctionCall
                (traverseInitializers (sequence.take i)
                  (call .setBuildPointLastBlock
                    (makeFunctions B sequence { s with sequenceDepth := 1 })).2).functionMap
                node).1 ≠ none ∧
            (UserCall.handleUserFunctionCall
                (visitFunctions (sequence.take i)
                  (makeGlobalInitializers sequence
                    (makeFunctions B sequence { s with sequenceDepth := 1 }))).functionMap
                node).1 ≠ none) := by
  have h₀ := makeFunctions_declared B sequence { s with sequenceDepth := 1 }
  refine ⟨?_, fun g => makeFunctions_traverse B g sequence _, h₀, fun hk i => ⟨?_, ?_, ?_⟩⟩
  · simp [visitAggregateSequence, preVisit, hroot]
  · conv_lhs => rw [← List.take_append_drop i sequence]
    rw [makeGlobalInitializers, traverseInitializers_append, List.take_append_drop]
  · conv_lhs => rw [← List.take_append_drop i sequence, visitFunctions_append,
      List.take_append_drop]
  · have hk' : ∀ d ∈ sequence.take i, d.keepsDeclarations :=
      fun d hd => hk d (List.mem_of_mem_take hd)
    have h₁ : Declared sequence
        (call .setBuildPointLastBlock
          (makeFunctions B sequence { s with sequenceDepth := 1 })).2 := h₀
    have h₂ := traverseInitializers_declared sequence (sequence.take i) _ hk' h₁
    have h₃ : Declared sequence (makeGlobalInitializers sequence
        (makeFunctions B sequence { s with sequenceDepth := 1 })) :=
      traverseInitializers_declared sequence sequence _ hk h₁
    have h₄ := visitFunctions_declared sequence (sequence.take i) _ hk' h₃
    intro d hd hu node hn
    exact ⟨handleUserFunctionCall_found _ node (hn ▸ (h₂ d hd hu).1),
      handleUserFunctionCall_found _ node (hn ▸ (h₄ d hd hu).1)⟩

/-- C25, at a concrete input: in `void main() { f(x); }  void f(float a) { }` the
function `f`, defined after its caller, is declared before `main` is traversed. -/
theorem c25_functions_declared_first_witness :
    (UserCall.handleUserFunctionCall
        (visitFunctions (Example.functions.take 0)
          (makeGlobalInitializers Example.functions
            (makeFunctions Example.queries Example.functions
              { ({} : State) with sequenceDepth := 1 }))).functionMap
        { name := "f(f1;", numArgs := 1, qualifierList := [.EvqIn] }).1 ≠ none :=
  (((c25_functions_declared_first Example.queries Example.functions {} rfl).2.2.2
    (by
      intro d hd
      simp only [Example.functions, List.mem_cons, List.mem_singleton, List.not_mem_nil,
        or_false] at hd
      rcases hd with rfl | rfl <;> exact fun s => ⟨fun _ h => h, fun _ h => h⟩)
    0).2.2 _ (List.mem_cons_of_mem _ (List.mem_singleton.2 rfl)) rfl
      { name := "f(f1;", numArgs := 1, qualifierList := [.EvqIn] } rfl).2

/-- C26: `createAtomicOperation` passes `createOp` the operands [pointer, scope Device,
semantics None, remaining source operands in order] for every operator other than the
two compare-exchange operators, with an opcode that is not compare-exchange; for
compare-exchange with source operands [pointer, comparator, newValue] it passes
[pointer, Device, None, None, newValue, comparator]. The constants are the results of
the calls of `makeUintConstant` made just before, in this order. -/
theorem c26_atomic_operands (typeId pointer : Nat) (typeProxy : TBasicType) (s : State) :
    (∀ op rest, op ≠ .EOpAtomicCompSwap → op ≠ .EOpImageAtomicCompSwap →
      atomicOpCode op typeProxy ≠ .OpAtomicCompareExchange ∧
        createAtomicOperation op typeId (pointer :: rest) typeProxy s =
          (s.trace.length + 3,
            s.after [.makeUintConstant .ScopeDevice,
              .makeUintConstant .MemorySemanticsMaskNone,
              .createOp (atomicOpCode op typeProxy) typeId
                ([pointer, s.trace.length + 1, s.trace.length + 2] ++ rest)])) ∧
    (∀ op comparator newValue, op = .EOpAtomicCompSwap ∨ op = .EOpImageAtomicCompSwap →
      createAtomicOperation op typeId [pointer, comparator, newValue] typeProxy s =
        (s.trace.length + 4,
          s.after [.makeUintConstant .ScopeDevice,
            .makeUintConstant .MemorySemanticsMaskNone,
            .makeUintConstant .MemorySemanticsMaskNone,
            .createOp .OpAtomicCompareExchange typeId
              [pointer, s.trace.length + 1, s.trace.length + 2, s.trace.length + 3,
                newValue, comparator]])) := by
  constructor
  · intro op rest h₁ h₂
    have h : atomicOpCode op typeProxy ≠ .OpAtomicCompareExchange := fun h =>
      ((atomicOpCode_eq_compareExchange op typeProxy).1 h).elim h₁ h₂
    refine ⟨h, ?_⟩
    simp only [createAtomicOperation, if_neg h, call_eq, after_after,
      after_trace_length, List.getD_cons_zero, List.drop_succ_cons, List.drop_zero,
      List.length_cons, List.length_nil, List.cons_append, List.nil_append, List.append_assoc,
      Nat.zero_add, Nat.add_assoc, Nat.reduceAdd]
  · intro op comparator newValue h
    have h := (atomicOpCode_eq_compareExchange op typeProxy).2 h
    simp only [createAtomicOperation, h, if_true, call_eq, after_after,
      after_trace_length, List.getD_cons_zero, List.getD_cons_succ, List.drop_succ_cons,
      List.drop_zero, List.drop_nil, List.append_nil,
      List.length_cons, List.length_nil, List.cons_append, List.nil_append, List.append_assoc,
      Nat.zero_add, Nat.add_assoc, Nat.reduceAdd]

/-- C26, at a concrete input: an atomic add with one value operand and a compare-exchange. -/
theorem c26_atomic_operands_witness :
    createAtomicOperation .EOpAtomicAdd 7 [10, 11] .EbtInt {} =
        (3, State.after {} [.makeUintConstant .ScopeDevice,
          .makeUintConstant .MemorySemanticsMaskNone,
          .createOp .OpAtomicIAdd 7 [10, 1, 2, 11]]) ∧
      createAtomicOperation .EOpAtomicCompSwap 7 [10, 11, 12] .EbtInt {} =
        (4, State.after {} [.makeUintConstant .ScopeDevice,
          .makeUintConstant .MemorySemanticsMaskNone,
          .makeUintConstant .MemorySemanticsMaskNone,
          .createOp .OpAtomicCompareExchange 7 [10, 1, 2, 3, 12, 11]]) :=
  ⟨((c26_atomic_operands 7 10 .EbtInt {}).1 .EOpAtomicAdd [11] (by decide) (by decide)).2,
    (c26_atomic_operands 7 10 .EbtInt {}).2 .EOpAtomicCompSwap 11 12 (Or.inl rfl)⟩

/-- C27: for add-with-carry and subtract-with-borrow with operands [a, b, out], the
instruction is issued on exactly [a, b] with a two-member struct result, member 1 is
stored to `out` and member 0 is the returned value; for extended multiply with operands
[a, b, msb, lsb], member 0 is stored to `lsb` and member 1 to `msb`; for frexp with
operands [x, exp], the library call takes only `x`, member 1 is stored to `exp` and
member 0 is returned. -/
theorem c27_multi_result (B : Queries) (typeId : Nat) (typeProxy : TBasicType) (s : State) :
    (∀ op a b out, op = .EOpAddCarry ∨ op = .EOpSubBorrow →
      createMiscOperation B op typeId [a, b, out] typeProxy s =
        (s.trace.length + 5,
          s.after [.makeStructResultType (B.getTypeId a) (B.getTypeId a),
            .createBinOp (if op = .EOpAddCarry then .OpIAddCarry else .OpISubBorrow)
              (s.trace.length + 1) a b,
            .createCompositeExtract (s.trace.length + 2) (B.getTypeId a) 1,
            .createStore (s.trace.length + 3) out,
            .createCompositeExtract (s.trace.length + 2) (B.getTypeId a) 0,
            .setPrecision (s.trace.length + 5)])) ∧
    (∀ op a b msb lsb, op = .EOpUMulExtended ∨ op = .EOpIMulExtended →
      createMiscOperation B op typeId [a, b, msb, lsb] typeProxy s =
        (s.trace.length + 2,
          s.after [.makeStructResultType (B.getTypeId a) (B.getTypeId a),
            .createBinOp (if op = .EOpUMulExtended then .OpUMulExtended else .OpSMulExtended)
              (s.trace.length + 1) a b,
            .createCompositeExtract (s.trace.length + 2) (B.getTypeId a) 0,
            .createStore (s.trace.length + 3) lsb,
            .createCompositeExtract (s.trace.length + 2) (B.getTypeId a) 1,
            .createStore (s.trace.length + 5) msb,
            .setPrecision (s.trace.length + 2)])) ∧
    (∀ x exp,
      createMiscOperation B .EOpFrexp typeId [x, exp] typeProxy s =
        if B.getNumComponents x = 1 then
          (s.trace.length + 6,
            s.after [.makeIntegerType 32 true,
              .makeStructResultType (B.getTypeId x) (s.trace.length + 1),
              .createBuiltinCall (s.trace.length + 2) .FrexpStruct [x],
              .createCompositeExtract (s.trace.length + 3) (s.trace.length + 1) 1,
              .createStore (s.trace.length + 4) exp,
              .createCompositeExtract (s.trace.length + 3) (B.getTypeId x) 0,
              .setPrecision (s.trace.length + 6)])
        else
          (s.trace.length + 7,
            s.after [.makeIntegerType 32 true,
              .makeVectorType (s.trace.length + 1) (B.getNumComponents x),
              .makeStructResultType (B.getTypeId x) (s.trace.length + 2),
              .createBuiltinCall (s.trace.length + 3) .FrexpStruct [x],
              .createCompositeExtract (s.trace.length + 4) (s.trace.length + 2) 1,
              .createStore (s.trace.length + 5) exp,
              .createCompositeExtract (s.trace.length + 4) (B.getTypeId x) 0,
              .setPrecision (s.trace.length + 7)])) := by
  refine ⟨?_, ?_, ?_⟩
  · rintro op a b out (h | h) <;> subst h <;>
      simp only [createMiscOperation, call_eq, after_after, after_trace_length,
        List.getD_cons_zero, List.getD_cons_succ, List.length_cons, List.length_nil,
        List.cons_append, List.nil_append, Nat.zero_add, Nat.add_assoc, Nat.reduceAdd,
        gt_iff_lt, Nat.zero_lt_succ, if_true, Nat.lt_add_one, reduceCtorEq, if_false]
  · rintro op a b msb lsb (h | h) <;> subst h <;>
      simp only [createMiscOperation, call_eq, after_after, after_trace_length,
        List.getD_cons_zero, List.getD_cons_succ, List.length_cons, List.length_nil,
        List.cons_append, List.nil_append, Nat.zero_add, Nat.add_assoc, Nat.reduceAdd,
        gt_iff_lt, Nat.zero_lt_succ, if_true, Nat.lt_add_one, reduceCtorEq, if_false]
  · intro x exp
    by_cases h : B.getNumComponents x = 1
    · simp only [createMiscOperation, call_eq, after_after, after_trace_length,
        List.getD_cons_zero, List.getD_cons_succ, List.length_cons, List.length_nil,
        List.cons_append, List.nil_append, Nat.zero_add, Nat.add_assoc, Nat.reduceAdd,
        gt_iff_lt, Nat.zero_lt_succ, if_true, Nat.lt_add_one, h, List.take_succ_cons,
        List.take_zero]
    · simp only [createMiscOperation, call_eq, after_after, after_trace_length,
        List.getD_cons_zero, List.getD_cons_succ, List.length_cons, List.length_nil,
        List.cons_append, List.nil_append, Nat.zero_add, Nat.add_assoc, Nat.reduceAdd,
        gt_iff_lt, Nat.zero_lt_succ, if_true, Nat.lt_add_one, h, if_false, List.take_succ_cons,
        List.take_zero]

/-- C27, at a concrete input: an add-with-carry on operands 10 and 11 with the carry
stored to 12. -/
theorem c27_multi_result_witness :
    createMiscOperation Example.queries .EOpAddCarry 7 [10, 11, 12] .EbtUint {} =
      (5, State.after {} [.makeStructResultType 20 20, .createBinOp .OpIAddCarry 1 10 11,
        .createCompositeExtract 2 20 1, .createStore 3 12, .createCompositeExtract 2 20 0,
        .setPrecision 5]) :=
  (c27_multi_result Example.queries 7 .EbtUint {}).1 .EOpAddCarry 10 11 12 (Or.inl rfl)

/-- C28, as the code has it: for every component-wise `+`, `-`, `*` or `/` in which at
least one operand is a matrix with `c` columns (matrix with matrix, matrix with scalar,
scalar with matrix), except a matrix divided by a scalar, `createBinaryMatrixOperation`
makes the column vector type, smears a scalar operand to it, then for `j = 0..c-1`
extracts column `j` of each matrix operand and makes exactly one vector operation, in
column order, and composes the `c` results into the matrix result. A matrix divided by
a scalar is lowered as one division of the constant `1.0` by the scalar followed by one
`OpMatrixTimesScalar` of the matrix by the quotient. -/
theorem c28_component_wise (B : Queries) (op : Op) (typeId left right : Nat) (s : State)
    (hop : op.isComponentWise = true)
    (hshape :
      (B.isMatrix left = true ∧ B.isMatrix right = true ∧
        B.isScalar left = false ∧ B.isScalar right = false) ∨
      (B.isMatrix left = true ∧ B.isScalar right = true ∧
        B.isScalar left = false ∧ B.isMatrix right = false) ∨
      (B.isScalar left = true ∧ B.isMatrix right = true ∧
        B.isMatrix left = false ∧ B.isScalar right = false)) :
    createBinaryMatrixOperation B op typeId left right s =
      if op = .OpFDiv ∧ B.isMatrix left = true ∧ B.isScalar right = true then
        (s.trace.length + 3,
          s.after [.makeFloatConstant 1,
            .createBinOp .OpFDiv (B.getTypeId right) (s.trace.length + 1) right,
            .createBinOp .OpMatrixTimesScalar typeId left (s.trace.length + 2),
            .setPrecision (s.trace.length + 3)])
      else
        (s.trace.length + 1 + (if B.isScalar left || B.isScalar right then 1 else 0) +
            (if B.isMatrix left then B.getNumColumns left else B.getNumColumns right) *
              columnCalls (B.isMatrix left) (B.isMatrix right) + 1,
          s.after
            ([.makeVectorType (B.getScalarTypeId typeId)
                (if B.isMatrix left then B.getNumRows left else B.getNumRows right)] ++
              (if B.isScalar left then [.smearScalar left (s.trace.length + 1)]
                else if B.isScalar right then [.smearScalar right (s.trace.length + 1)]
                else []) ++
              (List.range (if B.isMatrix left then B.getNumColumns left
                  else B.getNumColumns right)).flatMap
                (columnEvents op (s.trace.length + 1) left right
                  (if B.isScalar left || B.isScalar right then s.trace.length + 2 else NoResult)
                  (B.isMatrix left) (B.isMatrix right)
                  (s.trace.length + 1 + (if B.isScalar left || B.isScalar right then 1 else 0))) ++
              [.createCompositeConstruct typeId
                  ((List.range (if B.isMatrix left then B.getNumColumns left
                      else B.getNumColumns right)).map
                    (columnResult (B.isMatrix left) (B.isMatrix right)
                      (s.trace.length + 1 +
                        (if B.isScalar left || B.isScalar right then 1 else 0)))),
                .setPrecision
                  (s.trace.length + 1 + (if B.isScalar left || B.isScalar right then 1 else 0) +
                    (if B.isMatrix left then B.getNumColumns left else B.getNumColumns right) *
                      columnCalls (B.isMatrix left) (B.isMatrix right) + 1)])) := by
  by_cases hdiv : op = .OpFDiv ∧ B.isMatrix left = true ∧ B.isScalar right = true
  · rw [if_pos hdiv]
    obtain ⟨rfl, h₁, h₂⟩ := hdiv
    simp only [createBinaryMatrixOperation, h₁, h₂, and_self, if_true, call_eq, after_after,
      after_trace_length, List.length_cons, List.length_nil, List.cons_append, List.nil_append,
      Nat.zero_add, Nat.add_assoc, Nat.reduceAdd]
  · rw [if_neg hdiv]
    apply createBinaryMatrixOperation_columns B op typeId left right s hop
    rcases hshape with h | ⟨h₁, h₂, h₃, h₄⟩ | h
    · exact Or.inl h
    · exact Or.inr (Or.inl ⟨h₁, h₂, h₃, h₄, fun h => hdiv ⟨h, h₁, h₂⟩⟩)
    · exact Or.inr (Or.inr h)

/-- C28, at a concrete input: a matrix of two columns plus a scalar. -/
theorem c28_component_wise_witness :
    createBinaryMatrixOperation Example.queries .OpFAdd 30 10 12 {} =
      (9, State.after {} [.makeVectorType 21 3, .smearScalar 12 1,
        .createCompositeExtract 10 1 0, .createBinOp .OpFAdd 1 3 2, .setPrecision 4,
        .createCompositeExtract 10 1 1, .createBinOp .OpFAdd 1 6 2, .setPrecision 7,
        .createCompositeConstruct 30 [4, 7], .setPrecision 9]) :=
  (c28_component_wise Example.queries .OpFAdd 30 10 12 {} rfl
    (Or.inr (Or.inl ⟨rfl, rfl, rfl, rfl⟩))).trans rfl

/-- C28 fails as stated: a matrix divided by a scalar is not taken apart into columns.
The scalar is inverted and the matrix is multiplied by the inverse in one operation;
no column is extracted, no scalar is smeared and no result is composed. -/
theorem c28_matrix_by_scalar_counterexample :
    Example.queries.isMatrix 10 = true ∧ Example.queries.isScalar 12 = true ∧
      Example.queries.getNumColumns 10 = 2 ∧
      createBinaryMatrixOperation Example.queries .OpFDiv 30 10 12 {} =
        (3, State.after {} [.makeFloatConstant 1, .createBinOp .OpFDiv 20 1 12,
          .createBinOp .OpMatrixTimesScalar 30 10 2, .setPrecision 3]) :=
  ⟨rfl, rfl, rfl, rfl⟩

/-- C29, as the code has it: `createConversion` lowers every numeric-to-boolean
conversion to a not-equal comparison of the operand against a zero constant, smeared to
the vector width of the result type; the zero is a float zero for float and a double
zero for double, and an unsigned zero both for uint and for int. -/
theorem c29_conversion_to_bool (B : Queries) (op : TOperator) (destType operand : Nat)
    (s : State) (hop : op.isConversionToBool = true) :
    createConversion B op destType operand s =
      if B.isVectorType destType = true ∧ B.getNumTypeComponents destType ≠ 0 then
        (s.trace.length + 4,
          s.after [zeroConstant op,
            .makeVectorType (B.getTypeId (s.trace.length + 1)) (B.getNumTypeComponents destType),
            .makeCompositeConstant (s.trace.length + 2)
              (List.replicate (B.getNumTypeComponents destType) (s.trace.length + 1)),
            .createBinOp (notEqual op) destType operand (s.trace.length + 3)])
      else
        (s.trace.length + 2,
          s.after [zeroConstant op,
            .createBinOp (notEqual op) destType operand (s.trace.length + 1)]) := by
  by_cases hv : B.isVectorType destType = true ∧ B.getNumTypeComponents destType ≠ 0
  · rw [if_pos hv]
    cases op <;> first
      | exact absurd hop (by decide)
      | simp only [createConversion, if_pos hv.1, makeSmearedConstant_pos _ _ _ _ hv.2,
          call_eq, after_after, after_trace_length, zeroConstant, notEqual,
          List.length_cons, List.length_nil, List.cons_append, List.nil_append,
          Nat.zero_add, Nat.add_assoc, Nat.reduceAdd]
  · rw [if_neg hv]
    have hz : (if B.isVectorType destType = true then B.getNumTypeComponents destType else 0)
        = 0 := by
      by_cases h : B.isVectorType destType = true
      · rw [if_pos h]
        by_contra h'
        exact hv ⟨h, h'⟩
      · rw [if_neg h]
    cases op <;> first
      | exact absurd hop (by decide)
      | simp only [createConversion, hz, makeSmearedConstant_zero,
          call_eq, after_after, after_trace_length, zeroConstant, notEqual,
          List.length_cons, List.length_nil, List.cons_append, List.nil_append,
          Nat.zero_add, Nat.add_assoc, Nat.reduceAdd]

/-- C29, at a concrete input: a float converted to a vector of three booleans. -/
theorem c29_conversion_to_bool_witness :
    createConversion Example.queries .EOpConvFloatToBool 7 8 {} =
      (4, State.after {} [.makeFloatConstant 0, .makeVectorType 20 3,
        .makeCompositeConstant 2 [1, 1, 1], .createBinOp .OpFOrdNotEqual 7 8 3]) :=
  c29_conversion_to_bool Example.queries .EOpConvFloatToBool 7 8 {} rfl

/-- C29 fails as stated: the conversion of an int to bool compares with the result of
`makeUintConstant(0)`, an unsigned zero; no int constant is made. -/
theorem c29_int_zero_counterexample :
    (createConversion Example.queries .EOpConvIntToBool 5 8 {}).2.trace =
        [.makeUintConstant (.value 0), .createBinOp .OpINotEqual 5 8 1] ∧
      Event.makeIntConstant 0 ∉
        (createConversion Example.queries .EOpConvIntToBool 5 8 {}).2.trace := by
  constructor
  · rfl
  · decide

/-- C30: for a texture sampling call on a non-shadow, non-multisample sampler, the
arguments after the sampler and the coordinate are assigned in the fixed order LOD,
gradient X, gradient Y, offset or offsets, bias, gather component: the role at position
`i` among the roles that are present takes argument `2 + i`, a role that is not present
is not set, and a gather with no explicit component argument uses the result of
`makeIntConstant(0)` as its component. The arguments are the values `translateArguments`
loads, and the call has at least the arguments its leading roles need. -/
theorem c30_texture_arguments (T : TIntermTraverser) (B : Queries) (node : TIntermOperator)
    (sampler : TSampler) (cracked : TCrackedTextureOp) (s : State)
    (htex : node.isTexture = true) (himg : node.isImage = false)
    (hagg : node.isAggregate = true) (hq : cracked.query = false)
    (hshadow : sampler.shadow = false) (hms : sampler.ms = false)
    (hlen : 2 + (leadingRoles cracked node.arguments.length).length ≤ node.arguments.length) :
    ∃ params : TextureParameters,
      createImageTextureFunctionCall T B node sampler cracked s =
        (if cracked.gather = true ∧ hasComponent cracked node.arguments.length = false then
          ((translateArguments T node.getOp 0 node.arguments ([], s)).2.trace.length + 3,
            (translateArguments T node.getOp 0 node.arguments ([], s)).2.after
              [.makeIntConstant 0, .convertGlslangToSpvType .node,
                .createTextureCall
                  ((translateArguments T node.getOp 0 node.arguments ([], s)).2.trace.length + 2)
                  cracked.fetch cracked.proj cracked.gather params])
        else
          ((translateArguments T node.getOp 0 node.arguments ([], s)).2.trace.length + 2,
            (translateArguments T node.getOp 0 node.arguments ([], s)).2.after
              [.convertGlslangToSpvType .node,
                .createTextureCall
                  ((translateArguments T node.getOp 0 node.arguments ([], s)).2.trace.length + 1)
                  cracked.fetch cracked.proj cracked.gather params])) ∧
      (translateArguments T node.getOp 0 node.arguments ([], s)).1[0]? = some params.sampler ∧
      (translateArguments T node.getOp 0 node.arguments ([], s)).1[1]? = some params.coords ∧
      params.Dref = 0 ∧ params.sample = 0 ∧
      (∀ i r, (roles cracked node.arguments.length)[i]? = some r →
        (translateArguments T node.getOp 0 node.arguments ([], s)).1[2 + i]? =
          some (params.role r)) ∧
      (∀ r, r ∉ roles cracked node.arguments.length →
        params.role r =
          if r = .comp ∧ cracked.gather = true then
            (translateArguments T node.getOp 0 node.arguments ([], s)).2.trace.length + 1
          else 0) := by
  have hl : (translateArguments T node.getOp 0 node.arguments ([], s)).1.length =
      node.arguments.length := by
    rw [translateArguments_length, List.length_nil, Nat.zero_add]
  have hcall : createImageTextureFunctionCall T B node sampler cracked s =
      textureFunction B sampler cracked
        (translateArguments T node.getOp 0 node.arguments ([], s)).1
        { sampler := (translateArguments T node.getOp 0 node.arguments ([], s)).1.getD 0 0 }
        (translateArguments T node.getOp 0 node.arguments ([], s)).2 := by
    simp only [createImageTextureFunctionCall, htex, himg, hagg, hq, Bool.false_eq_true,
      not_false_eq_true, not_true_eq_false, and_false, if_false, if_true]
  rw [hcall, textureFunction_plain B sampler cracked _ _ _ hshadow hms, hl]
  generalize translateArguments T node.getOp 0 node.arguments ([], s) = a at hl
  have h0 : 0 < a.1.length := by omega
  have h1 : 1 < a.1.length := by omega
  have hp : ∀ r, ({ sampler := a.1.getD 0 0, coords := a.1.getD 1 0 } :
      TextureParameters).role r = 0 := by
    intro r
    cases r <;> rfl
  obtain ⟨f₁, f₂, f₃, f₄⟩ := assignRoles_fixed a.1 (roles cracked node.arguments.length) 2
    { sampler := a.1.getD 0 0, coords := a.1.getD 1 0 }
  have hmem : ∀ i r, (roles cracked node.arguments.length)[i]? = some r →
      a.1[2 + i]? = some ((assignRoles a.1 (roles cracked node.arguments.length) 2
        { sampler := a.1.getD 0 0, coords := a.1.getD 1 0 }).role r) := by
    intro i r h
    obtain ⟨hr, hi, hlt⟩ := roles_getElem?_index cracked _ i r h
    rw [assignRoles_mem _ _ _ _ _ (roles_nodup cracked _) hr, hi]
    exact getElem?_eq_some_getD _ _
      (by rw [hl]; exact roles_index_lt cracked _ i hlen hlt)
  by_cases hg : cracked.gather = true ∧ hasComponent cracked node.arguments.length = false
  · have hc : Role.comp ∉ roles cracked node.arguments.length := fun h => by
      rw [comp_mem_roles, hg.2] at h
      cases h
    obtain ⟨e₁, e₂, e₃, e₄⟩ := setRole_fixed
      (assignRoles a.1 (roles cracked node.arguments.length) 2
        { sampler := a.1.getD 0 0, coords := a.1.getD 1 0 }) .comp (a.2.trace.length + 1)
    refine ⟨(assignRoles a.1 (roles cracked node.arguments.length) 2
      { sampler := a.1.getD 0 0, coords := a.1.getD 1 0 }).setRole .comp
        (a.2.trace.length + 1), by rw [if_pos hg, if_pos hg], ?_, ?_, ?_, ?_, ?_, ?_⟩
    · rw [e₁, f₁]
      exact getElem?_eq_some_getD _ _ h0
    · rw [e₂, f₂]
      exact getElem?_eq_some_getD _ _ h1
    · rw [e₃, f₃]
    · rw [e₄, f₄]
    · intro i r h
      have hr := (roles_getElem?_index cracked _ i r h).1
      have hne : r ≠ .comp := fun e => hc (e ▸ hr)
      rw [role_setRole, if_neg hne]
      exact hmem i r h
    · intro r hr
      rw [role_setRole]
      by_cases e : r = .comp
      · rw [if_pos e, if_pos ⟨e, hg.1⟩]
      · rw [if_neg e, if_neg (fun h => e h.1), assignRoles_not_mem _ _ _ _ _ hr]
        exact hp r
  · refine ⟨assignRoles a.1 (roles cracked node.arguments.length) 2
      { sampler := a.1.getD 0 0, coords := a.1.getD 1 0 }, by rw [if_neg hg, if_neg hg],
      ?_, ?_, f₃, f₄, hmem, ?_⟩
    · rw [f₁]
      exact getElem?_eq_some_getD _ _ h0
    · rw [f₂]
      exact getElem?_eq_some_getD _ _ h1
    · intro r hr
      rw [assignRoles_not_mem _ _ _ _ _ hr, hp r, if_neg]
      rintro ⟨e, hgather⟩
      subst e
      rw [comp_mem_roles] at hr
      exact hg ⟨hgather, by simpa using hr⟩

/-- C30, at a concrete input: in `textureLodOffset(sampler, coord, lod, offset)` the
level of detail is argument 2 and the offset argument 3. -/
theorem c30_texture_arguments_witness :
    ∃ params : TextureParameters,
      (createImageTextureFunctionCall Example.traverser Example.queries
          Example.textureLodOffset {} Example.lodOffset {}).2.trace.getLast? =
        some (.createTextureCall 17 false false false params) ∧
      params.sampler = 4 ∧ params.coords = 8 ∧ params.lod = 12 ∧ params.offset = 16 := by
  obtain ⟨params, h, h₀, h₁, -, -, hr, -⟩ :=
    c30_texture_arguments Example.traverser Example.queries Example.textureLodOffset {}
      Example.lodOffset {} rfl rfl rfl rfl rfl rfl (by decide)
  refine ⟨params, ?_, ?_, ?_, ?_, ?_⟩
  · rw [h]
    rfl
  · exact (Option.some.inj h₀).symm
  · exact (Option.some.inj h₁).symm
  · exact (Option.some.inj (hr 0 .lod rfl)).symm
  · exact (Option.some.inj (hr 1 .offset rfl)).symm

end Lowering

/-! ## Switches, short circuits, dynamic indices, constants, sequences, textures and
compound assignments -/

namespace Lowering

/-- C31: in the traversal of a switch, `makeSwitch` is handed the locals of
`visitSwitch` as they are after the fix-up for a trailing label: the target of every
case value, and the default segment when the body has a `default` label, is a segment
index from 0 up to, and not including, the number of code segments; the default segment
is -1 exactly when the body has no `default` label; and each write into the
value-to-segment table, made when a `case` label is reached, has an index below the
size of the table. -/
theorem c31_segment_indices (T : TIntermTraverser) (condition : TIntermTyped)
    (body : List TIntermNode) (s : State) :
    ∃ (c : CodeSegments) (rest : List Event),
      (traverse T (.switch condition body) s).trace =
        s.trace ++
          [.traverse condition.id, .convertGlslangToSpvType .condition,
            .accessChainLoad (T.accessChainAfter condition.id (s.trace.length + 1))
              (s.trace.length + 2),
            .makeSwitch (s.trace.length + 3) c.codeSegments.length c.caseValues
              c.valueIndexToSegment c.defaultSegment] ++ rest ∧
      c.caseValues.length = body.countP TIntermNode.isCase ∧
      (∀ i, i < c.caseValues.length →
        0 ≤ c.valueIndexToSegment.getD i 0 ∧
        c.valueIndexToSegment.getD i 0 < c.codeSegments.length) ∧
      ((∃ node ∈ body, node.isDefault = true) →
        0 ≤ c.defaultSegment ∧ c.defaultSegment < c.codeSegments.length) ∧
      (c.defaultSegment = -1 ↔ ∀ node ∈ body, node.isDefault = false) ∧
      (∀ pre label post, body = pre ++ label :: post → label.isCase = true →
        ((children T pre).foldl sortChild
            { valueIndexToSegment := List.replicate (children T body).length 0 }).caseValues.length <
          ((children T pre).foldl sortChild
            { valueIndexToSegment :=
                List.replicate (children T body).length 0 }).valueIndexToSegment.length) := by
  obtain ⟨rest, hrest⟩ := traverse_switch_trace T condition body s
  obtain ⟨h₁, h₂, h₃⟩ := sortCodeSegments_bounds (children T body)
  have hdefault : ∀ node : TIntermNode,
      Child.isDefault (Child.mk node.getFlowOp node.getIConst (traverse T node)) =
        node.isDefault := fun _ => rfl
  refine ⟨addMissingSegment (sortCodeSegments (children T body)), rest, hrest, ?_, h₁, ?_, ?_, ?_⟩
  · rw [addMissingSegment_sortCodeSegments]
    dsimp only
    rw [(sortCodeSegments_sorted (children T body)).2.1, (countP_children T body).1]
  · rintro ⟨node, hn, hd⟩
    apply h₂
    refine ⟨Child.mk node.getFlowOp node.getIConst (traverse T node), ?_, ?_⟩
    · rw [children_eq_map]
      exact List.mem_map.2 ⟨node, hn, rfl⟩
    · rw [hdefault]
      exact hd
  · rw [h₃]
    constructor
    · intro h node hn
      rw [← hdefault]
      apply h
      rw [children_eq_map]
      exact List.mem_map.2 ⟨node, hn, rfl⟩
    · intro h child hc
      obtain ⟨node, hn, rfl⟩ := mem_children T body child hc
      rw [hdefault]
      exact h node hn
  · intro pre label post hb _
    exact sortChild_write_in_range _ (children T pre)
      (children T post) (Child.mk label.getFlowOp label.getIConst (traverse T label))
      (by rw [hb, children_append, children_cons])

/-- C32: `createShortCircuit` returns the result of one `OpPhi` whose operands are
exactly two (value, block) pairs, in this order: the value loaded right after the
traversal of the left operand, not negated, with the build point read right after that
load, and the value loaded right after the traversal of the right operand with the build
point read right after that load. With `n` calls made before, the left pair is the
results `n + 4` and `n + 5`; for `||` the `OpLogicalNot` of the left value (result
`n + 6`) is the condition of the `if` only, and the right pair comes one call later than
for the other operators. -/
theorem c32_phi_operands (T : TIntermTraverser) (op : TOperator) (left right : TIntermTyped)
    (s : State) :
    (createShortCircuit T op left right s).1 =
      (createShortCircuit T op left right s).2.trace.length ∧
    (createShortCircuit T op left right s).2.trace.getLast? =
      some (.createOp .OpPhi (s.trace.length + 1)
        [s.trace.length + 4, s.trace.length + 5,
          s.trace.length + 9 + (if op = .EOpLogicalOr then 1 else 0),
          s.trace.length + 10 + (if op = .EOpLogicalOr then 1 else 0)]) ∧
    (createShortCircuit T op left right s).2.trace[s.trace.length + 2]? =
      some (.traverse left.id) ∧
    (createShortCircuit T op left right s).2.trace[s.trace.length + 3]? =
      some (.accessChainLoad (T.accessChainAfter left.id (s.trace.length + 3))
        (s.trace.length + 1)) ∧
    (createShortCircuit T op left right s).2.trace[s.trace.length + 4]? =
      some .getBuildPoint ∧
    (createShortCircuit T op left right s).2.trace[
        s.trace.length + 7 + (if op = .EOpLogicalOr then 1 else 0)]? =
      some (.traverse right.id) ∧
    (createShortCircuit T op left right s).2.trace[
        s.trace.length + 8 + (if op = .EOpLogicalOr then 1 else 0)]? =
      some (.accessChainLoad
        (T.accessChainAfter right.id
          (s.trace.length + 8 + (if op = .EOpLogicalOr then 1 else 0)))
        (s.trace.length + 1)) ∧
    (createShortCircuit T op left right s).2.trace[
        s.trace.length + 9 + (if op = .EOpLogicalOr then 1 else 0)]? =
      some .getBuildPoint ∧
    (op = .EOpLogicalOr →
      (createShortCircuit T op left right s).2.trace[s.trace.length + 5]? =
        some (.createUnaryOp .OpLogicalNot (s.trace.length + 1) (s.trace.length + 4)) ∧
      (createShortCircuit T op left right s).2.trace[s.trace.length + 6]? =
        some (.makeIf (s.trace.length + 6))) ∧
    (op ≠ .EOpLogicalOr →
      (createShortCircuit T op left right s).2.trace[s.trace.length + 5]? =
        some (.makeIf (s.trace.length + 4))) := by
  by_cases hop : op = .EOpLogicalOr
  · have h : (createShortCircuit T op left right s).2.trace = s.trace ++
        [.makeBoolType, .clearAccessChain, .traverse left.id,
          .accessChainLoad (T.accessChainAfter left.id (s.trace.length + 3))
            (s.trace.length + 1),
          .getBuildPoint,
          .createUnaryOp .OpLogicalNot (s.trace.length + 1) (s.trace.length + 4),
          .makeIf (s.trace.length + 6),
          .clearAccessChain, .traverse right.id,
          .accessChainLoad (T.accessChainAfter right.id (s.trace.length + 9))
            (s.trace.length + 1),
          .getBuildPoint,
          .makeEndIf,
          .createOp .OpPhi (s.trace.length + 1)
            [s.trace.length + 4, s.trace.length + 5, s.trace.length + 10,
              s.trace.length + 11]] := by
      simp [createShortCircuit, hop, traverseTyped, call, clearAccessChain, accessChainLoad]
    have h₁ : (createShortCircuit T op left right s).1 = s.trace.length + 13 := by
      simp [createShortCircuit, hop, traverseTyped, call, clearAccessChain, accessChainLoad]
    rw [h₁, h]
    simp only [hop, if_true, if_false, Nat.add_zero, Nat.add_assoc, Nat.reduceAdd,
      UserCall.getElem?_append_add, List.getLast?_append, List.length_append]
    simp
  · have h : (createShortCircuit T op left right s).2.trace = s.trace ++
        [.makeBoolType, .clearAccessChain, .traverse left.id,
          .accessChainLoad (T.accessChainAfter left.id (s.trace.length + 3))
            (s.trace.length + 1),
          .getBuildPoint,
          .makeIf (s.trace.length + 4),
          .clearAccessChain, .traverse right.id,
          .accessChainLoad (T.accessChainAfter right.id (s.trace.length + 8))
            (s.trace.length + 1),
          .getBuildPoint,
          .makeEndIf,
          .createOp .OpPhi (s.trace.length + 1)
            [s.trace.length + 4, s.trace.length + 5, s.trace.length + 9,
              s.trace.length + 10]] := by
      simp [createShortCircuit, hop, traverseTyped, call, clearAccessChain, accessChainLoad]
    have h₁ : (createShortCircuit T op left right s).1 = s.trace.length + 12 := by
      simp [createShortCircuit, hop, traverseTyped, call, clearAccessChain, accessChainLoad]
    rw [h₁, h]
    simp only [hop, if_true, if_false, Nat.add_zero, Nat.add_assoc, Nat.reduceAdd,
      UserCall.getElem?_append_add, List.getLast?_append, List.length_append]
    simp

/-- C33: when a dynamic index `a[i]` is lowered, the access chain after the node is the
chain the traversal of `a` left, with one more selector at its end: the value loaded
for `i` (the result `n + 6` of the load that follows the traversal of `i`, `n` calls
having been made before), as a component when `a` is a vector that is no array and as
an index otherwise. The chain the traversal of `i` leaves plays no part: the statement
holds for every traverser. -/
theorem c33_dynamic_index (T : TIntermTraverser) (left : TIntermTyped) (leftType : TType)
    (right : TIntermTyped) (s : State) :
    (visitBinaryIndexIndirect T left leftType right s).2.accessChain =
      { (traverseTyped T left s).accessChain with
        selectors := (traverseTyped T left s).accessChain.selectors ++
          [if leftType.isArray = false ∧ leftType.isVector = true then
            .component (s.trace.length + 6)
          else .index (s.trace.length + 6)] } ∧
    (visitBinaryIndexIndirect T left leftType right s).2.trace[s.trace.length + 3]? =
      some (.traverse right.id) ∧
    (visitBinaryIndexIndirect T left leftType right s).2.trace[s.trace.length + 5]? =
      some (.accessChainLoad (T.accessChainAfter right.id (s.trace.length + 4))
        (s.trace.length + 5)) ∧
    (visitBinaryIndexIndirect T left leftType right s).1 = false := by
  by_cases h : leftType.isArray = false ∧ leftType.isVector = true
  · have h' : ¬ leftType.isArray = true ∧ leftType.isVector = true := by simpa using h
    simp only [visitBinaryIndexIndirect, h', traverseTyped, call, clearAccessChain,
      accessChainLoad, getAccessChain, setAccessChain, accessChainPush,
      accessChainPushComponent, if_true, if_false, List.append_assoc, List.cons_append,
      List.nil_append, List.length_append, List.length_cons, List.length_nil, Nat.add_assoc,
      Nat.reduceAdd, Nat.zero_add]
    simp only [h, Bool.false_eq_true, not_false_eq_true, true_and, and_true, and_self, if_true,
      if_false, not_true_eq_false, UserCall.getElem?_append_add]
    simp
  · have h' : ¬ (¬ leftType.isArray = true ∧ leftType.isVector = true) := by simpa using h
    simp only [visitBinaryIndexIndirect, h', traverseTyped, call, clearAccessChain,
      accessChainLoad, getAccessChain, setAccessChain, accessChainPush,
      accessChainPushComponent, if_true, if_false, List.append_assoc, List.cons_append,
      List.nil_append, List.length_append, List.length_cons, List.length_nil, Nat.add_assoc,
      Nat.reduceAdd, Nat.zero_add]
    simp only [h, Bool.false_eq_true, not_false_eq_true, true_and, and_true, and_self, if_true,
      if_false, not_true_eq_false, UserCall.getElem?_append_add]
    simp

/-- C36: the traversal of any node, a loop or a switch with any subtree in particular,
leaves the stacks `breakForLoop` and `loopTerminal` as it found them. The body of a loop
is traversed from the state `loopEntry`, in which `true` is on top of `breakForLoop`
and the terminal of the loop on top of `loopTerminal`; each code segment of a switch is
traversed from the state `segmentEntry`, in which `false` is on top of `breakForLoop`;
what follows the body or the segment is the rest of the visit, whose last steps pop what
was pushed. Since a traversal inside the body or the segment restores the stacks, the
top stays as it is until the body or the segment ends. -/
theorem c36_context_stacks (T : TIntermTraverser) :
    (∀ node s,
      (traverse T node s).breakForLoop = s.breakForLoop ∧
      (traverse T node s).loopTerminal = s.loopTerminal) ∧
    (∀ testFirst test body terminal s,
      traverse T (.loop testFirst test (some body) terminal) s =
        loopExit T (traverse T body (loopEntry T testFirst test terminal s)) ∧
      (loopEntry T testFirst test terminal s).breakForLoop = true :: s.breakForLoop ∧
      top (loopEntry T testFirst test terminal s).breakForLoop false = true ∧
      (loopEntry T testFirst test terminal s).loopTerminal = terminal :: s.loopTerminal) ∧
    (∀ condition body k child s,
      (addMissingSegment (sortCodeSegments (children T body))).codeSegments[k]? =
        some (some child) →
      traverse T (.switch condition body) s =
        switchExit
          (emitSegments
            ((addMissingSegment (sortCodeSegments (children T body))).codeSegments.drop (k + 1))
            (k + 1)
            (child.traverse
              (segmentEntry (addMissingSegment (sortCodeSegments (children T body))).codeSegments
                k (switchEntry T condition (children T body) s)))) ∧
      (segmentEntry (addMissingSegment (sortCodeSegments (children T body))).codeSegments k
          (switchEntry T condition (children T body) s)).breakForLoop =
        false :: s.breakForLoop ∧
      top (segmentEntry (addMissingSegment (sortCodeSegments (children T body))).codeSegments k
          (switchEntry T condition (children T body) s)).breakForLoop true = false ∧
      (segmentEntry (addMissingSegment (sortCodeSegments (children T body))).codeSegments k
          (switchEntry T condition (children T body) s)).loopTerminal = s.loopTerminal) := by
  refine ⟨fun node s => ⟨(traverse_steady T node s).2.1, (traverse_steady T node s).2.2⟩, ?_, ?_⟩
  · intro testFirst test body terminal s
    refine ⟨?_, loopEntry_breakForLoop T testFirst test terminal s, ?_,
      loopEntry_loopTerminal T testFirst test terminal s⟩
    · rw [traverse_loop]
      exact visitLoop_body T testFirst test (traverse T body) terminal s
    · rw [loopEntry_breakForLoop]
      rfl
  · intro condition body k child s h
    have hsteady : ∀ child,
        some child ∈ (addMissingSegment (sortCodeSegments (children T body))).codeSegments →
        Steady child.traverse := by
      intro child hc
      obtain ⟨node, _, rfl⟩ := mem_codeSegments T body child hc
      exact traverse_steady T node
    obtain ⟨h₁, h₂⟩ := segmentEntry_stacks
      (addMissingSegment (sortCodeSegments (children T body))).codeSegments k
      (switchEntry T condition (children T body) s) hsteady
    rw [switchEntry_breakForLoop] at h₁
    rw [switchEntry_loopTerminal] at h₂
    refine ⟨?_, h₁, ?_, h₂⟩
    · rw [traverse_switch]
      exact visitSwitch_segment T condition (children T body) s k child h
    · rw [h₁]
      rfl

/-- C37: in a traversal that starts with the depth counter at zero, over a tree in which
no node other than a sequence changes the counter, the first visit of the root sequence
raises the counter to one and runs `makeFunctions`, then `makeGlobalInitializers`, then
`visitFunctions` on its children, and the traversal of the root is that one run; every
traversal of a node from a counter of one or more, as all those within the run are, is
the traversal that only counts the sequences, running no pass, and it leaves the counter
raised by two for each sequence in the node, so that the counter is one at the first
visit alone. -/
theorem c37_pass_runs_once (B : Queries) (children : List Node) (s : State)
    (h0 : s.sequenceDepth = 0) (hk : KeepsDepthAll children) :
    traverseNode (visitSequence B) (.sequence children) s =
      visitFunctions (definitions countingVisit children)
        (makeGlobalInitializers (definitions countingVisit children)
          (makeFunctions B (definitions countingVisit children)
            { s with sequenceDepth := 1 })) ∧
    ∀ (node : Node) (x : State), node.KeepsDepth → 1 ≤ x.sequenceDepth →
      traverseNode (visitSequence B) node x = traverseNode countingVisit node x ∧
      (traverseNode countingVisit node x).sequenceDepth =
        x.sequenceDepth + 2 * (node.sequences : Int) := by
  refine ⟨?_, fun node x hn hx =>
    ⟨(traverseNode_deep B).1 node hn x hx, countingVisit_depth.1 node hn x⟩⟩
  have h1 : (makeFunctions B (definitions countingVisit children)
      { s with sequenceDepth := 1 }).sequenceDepth = 1 := by
    rw [makeFunctions_depth]
  have h2 : 1 ≤ (call .setBuildPointLastBlock (makeFunctions B (definitions countingVisit children)
      { s with sequenceDepth := 1 })).2.sequenceDepth := by
    show 1 ≤ (makeFunctions B (definitions countingVisit children)
      { s with sequenceDepth := 1 }).sequenceDepth
    rw [h1]
  have h3 := traverseInitializers_deep B children hk _ h2
  rw [traverseNode_sequence]
  simp only [visitSequence, visitAggregateSequence, preVisit, if_true, h0, Int.zero_add,
    Bool.false_eq_true, if_false, makeGlobalInitializers]
  rw [makeFunctions_definitions B _ countingVisit]
  erw [h3.1, visitFunctions_deep B children hk _ h3.2]

/-- Witness for C37: the root sequence that holds the definition `void main() { { } }`,
traversed from the initial state. -/
theorem c37_pass_runs_once_witness :
    traverseNode (visitSequence Example.queries) (.sequence [Example.mainFunction]) {} =
      visitFunctions (definitions countingVisit [Example.mainFunction])
        (makeGlobalInitializers (definitions countingVisit [Example.mainFunction])
          (makeFunctions Example.queries (definitions countingVisit [Example.mainFunction])
            { ({} : State) with sequenceDepth := 1 })) ∧
    ∀ (node : Node) (x : State), node.KeepsDepth → 1 ≤ x.sequenceDepth →
      traverseNode (visitSequence Example.queries) node x = traverseNode countingVisit node x ∧
      (traverseNode countingVisit node x).sequenceDepth =
        x.sequenceDepth + 2 * (node.sequences : Int) :=
  c37_pass_runs_once Example.queries [Example.mainFunction] {} rfl
    ⟨⟨fun _ => rfl, fun _ => rfl, ⟨⟨trivial, trivial⟩, trivial⟩⟩, trivial⟩

/-- C39: for each of the fourteen compound-assignment operators handled by
`visitBinary`, and operands that are no matrices, `createBinaryOperation` selects an
opcode in its first `switch`, makes one `createBinOp` call with that opcode (after
`promoteScalar` when the operands have to match) and returns the result of that call,
which is not `NoResult`; the opcode selected, and the whole lowering, is that of the
plain counterpart of the operator for the same operand type. -/
theorem c39_compound_assignment (B : Queries) (op : TOperator) (typeId left right : Nat)
    (typeProxy : TBasicType) (reduceComparison : Bool) (s : State)
    (hop : op.isCompoundAssignment = true)
    (hl : B.isMatrix left = false) (hr : B.isMatrix right = false) :
    ∃ (pre : List Event) (operand1 operand2 : Nat),
      (pre = [] ∨ pre = [.promoteScalar left right]) ∧
      createBinaryOperation B op typeId left right typeProxy reduceComparison s =
        (s.trace.length + pre.length + 1,
          s.after (pre ++
            [.createBinOp (binaryLocals B op left right typeProxy).binOp typeId operand1
                operand2,
              .setPrecision (s.trace.length + pre.length + 1)])) ∧
      (binaryLocals B op left right typeProxy).binOp ≠ .OpNop ∧
      (createBinaryOperation B op typeId left right typeProxy reduceComparison s).1 ≠
        NoResult ∧
      (binaryLocals B op.plain left right typeProxy).binOp =
        (binaryLocals B op left right typeProxy).binOp ∧
      createBinaryOperation B op.plain typeId left right typeProxy reduceComparison s =
        createBinaryOperation B op typeId left right typeProxy reduceComparison s := by
  have hb := binaryLocals_binOp B op left right typeProxy hop
  have ho := binaryLocals_operands B op left right typeProxy hop
  have hplain : createBinaryOperation B op.plain typeId left right typeProxy reduceComparison s =
      createBinaryOperation B op typeId left right typeProxy reduceComparison s := by
    unfold createBinaryOperation
    simp only [binaryLocals_plain, hb, ne_eq, not_false_eq_true, if_true]
  have hm : ¬ (B.isMatrix (binaryLocals B op left right typeProxy).left = true ∨
      B.isMatrix (binaryLocals B op left right typeProxy).right = true) := by
    rcases ho with ⟨h₁, h₂⟩ | ⟨_, h₁, h₂⟩ <;> rw [h₁, h₂] <;> simp [hl, hr]
  by_cases hn : (binaryLocals B op left right typeProxy).needMatchingVectors = true
  · have hsame : (binaryLocals B op left right typeProxy).left = left ∧
        (binaryLocals B op left right typeProxy).right = right := by
      rcases ho with h | ⟨h, _⟩
      · exact h
      · rw [hn] at h
        cases h
    have hval : createBinaryOperation B op typeId left right typeProxy reduceComparison s =
        (s.trace.length + 2,
          s.after [.promoteScalar left right,
            .createBinOp (binaryLocals B op left right typeProxy).binOp typeId
              (B.promoteScalar (s.trace.length + 1) left right).1
              (B.promoteScalar (s.trace.length + 1) left right).2,
            .setPrecision (s.trace.length + 2)]) := by
      unfold createBinaryOperation
      simp only [hb, hm, hn, hsame.1, hsame.2, hl, hr, ne_eq, not_false_eq_true, if_true,
        if_false, or_self, Bool.false_eq_true, call_eq, after_after, after_trace_length,
        List.length_cons, List.length_nil, List.cons_append, List.nil_append, Nat.zero_add,
        Nat.add_assoc, Nat.reduceAdd]
    refine ⟨[.promoteScalar left right], _, _, Or.inr rfl, hval, hb, ?_,
      by rw [binaryLocals_plain], hplain⟩
    rw [hval]
    exact Nat.succ_ne_zero _
  · have hval : createBinaryOperation B op typeId left right typeProxy reduceComparison s =
        (s.trace.length + 1,
          s.after [.createBinOp (binaryLocals B op left right typeProxy).binOp typeId
              (binaryLocals B op left right typeProxy).left
              (binaryLocals B op left right typeProxy).right,
            .setPrecision (s.trace.length + 1)]) := by
      unfold createBinaryOperation
      simp only [hb, hm, hn, ne_eq, not_false_eq_true, if_true, if_false,
        call_eq, after_after, after_trace_length, List.length_cons, List.length_nil,
        List.cons_append, List.nil_append, Nat.zero_add, Nat.add_assoc, Nat.reduceAdd,
        Bool.false_eq_true]
    refine ⟨[], _, _, Or.inl rfl, hval, hb, ?_, by rw [binaryLocals_plain], hplain⟩
    rw [hval]
    exact Nat.succ_ne_zero _

/-- C39, at a concrete input: `a *= b` for a float vector `a` (handle 2) and a float
scalar `b` (handle 1) is one `OpVectorTimesScalar` of the vector by the scalar, as for
`a * b`. -/
theorem c39_compound_assignment_witness :
    ∃ (pre : List Event) (operand1 operand2 : Nat),
      (pre = [] ∨ pre = [.promoteScalar 1 2]) ∧
      createBinaryOperation Example.vectors .EOpVectorTimesScalarAssign 7 1 2 .EbtFloat true {} =
        (0 + pre.length + 1,
          State.after {} (pre ++
            [.createBinOp
                (binaryLocals Example.vectors .EOpVectorTimesScalarAssign 1 2 .EbtFloat).binOp 7
                operand1 operand2,
              .setPrecision (0 + pre.length + 1)])) ∧
      (binaryLocals Example.vectors .EOpVectorTimesScalarAssign 1 2 .EbtFloat).binOp ≠ .OpNop ∧
      (createBinaryOperation Example.vectors .EOpVectorTimesScalarAssign 7 1 2 .EbtFloat true
        {}).1 ≠ NoResult ∧
      (binaryLocals Example.vectors (TOperator.plain .EOpVectorTimesScalarAssign) 1 2
          .EbtFloat).binOp =
        (binaryLocals Example.vectors .EOpVectorTimesScalarAssign 1 2 .EbtFloat).binOp ∧
      createBinaryOperation Example.vectors (TOperator.plain .EOpVectorTimesScalarAssign) 7 1 2
          .EbtFloat true {} =
        createBinaryOperation Example.vectors .EOpVectorTimesScalarAssign 7 1 2 .EbtFloat true
          {} :=
  c39_compound_assignment Example.vectors .EOpVectorTimesScalarAssign 7 1 2 .EbtFloat true {}
    rfl rfl rfl

end Lowering

/-! ## Members that do not overlap and the indices of member decorations -/

namespace TGlslangToSpvTraverser

/-- C40: when a block, or a struct none of whose members is hidden (hidden members
occur in blocks only), is lowered on a cache miss, an IR struct type is created whose
fields are one per member that is not hidden, and the member names and member
decorations issued for it are those of the members that are not hidden, in order, each
under the position of its member among them: every member index used is smaller than the
number of fields, and every name or decoration is one issued for a member that is not
hidden (members of a block are taken to contain no block). -/
theorem c40_member_indices (I : TIntermediate) (type : TType)
    (explicitLayout : TLayoutPacking) (matrixLayout : TLayoutMatrix)
    (self : TGlslangToSpvTraverser)
    (hs : type.getBasicType = .EbtStruct ∨ type.getBasicType = .EbtBlock)
    (hw : self.WF)
    (miss : self.structMap explicitLayout matrixLayout type.getStructId = 0)
    (hc : type.getBasicType = .EbtBlock → anyContainsBlock type.getStruct = false)
    (hh : type.getBasicType = .EbtBlock ∨ ∀ t ∈ type.getStruct, t.hiddenMember = false) :
    (spv.TypeRequest.OpTypeStruct (fieldsLowered I type explicitLayout matrixLayout self).1
        type.getTypeName, newStructId I type explicitLayout matrixLayout self) ∈
      (convertGlslangToSpvType I type explicitLayout matrixLayout self).2.builder.types ∧
    (fieldsLowered I type explicitLayout matrixLayout self).1.length =
      (type.getStruct.filter (fun t => !t.hiddenMember)).length ∧
    (convertGlslangToSpvType I type explicitLayout matrixLayout self).2.builder.memberInstructions
        (newStructId I type explicitLayout matrixLayout self) =
      decoratedInstrs I type explicitLayout matrixLayout
        (newStructId I type explicitLayout matrixLayout self) 0
        (type.getStruct.filter (fun t => !t.hiddenMember)) (-1) ∧
    ∀ d ∈ (convertGlslangToSpvType I type explicitLayout matrixLayout self).2.builder.memberInstructions
        (newStructId I type explicitLayout matrixLayout self),
      ∃ (j : Nat) (t : TType) (offset : Int),
        (type.getStruct.filter (fun t => !t.hiddenMember))[j]? = some t ∧
        t ∈ type.getStruct ∧ t.hiddenMember = false ∧
        d.member? = some (j : Int) ∧
        j < (fieldsLowered I type explicitLayout matrixLayout self).1.length ∧
        d ∈ memberInstrs I type explicitLayout matrixLayout
          (newStructId I type explicitLayout matrixLayout self) (j : Int) t offset := by
  have hm := lowered_memberInstructions I type explicitLayout matrixLayout self hs hw miss hc
  rw [decoratedMembers_eq_filter type hh] at hm
  refine ⟨convert_miss_struct I type explicitLayout matrixLayout self hs miss,
    fieldsLowered_length I type explicitLayout matrixLayout self, hm, ?_⟩
  intro d hd
  rw [hm] at hd
  obtain ⟨j, t, o, hj, hmem, hd'⟩ := decoratedInstrs_member _ _ _ _ _ _ _ _ d hd
  rw [Nat.zero_add] at hmem hd'
  obtain ⟨hlt, hget⟩ := List.getElem?_eq_some_iff.1 hj
  have ht := List.mem_filter.1 (hget ▸ List.getElem_mem hlt)
  refine ⟨j, t, o, hj, ht.1, by simpa using ht.2, hmem, ?_, hd'⟩
  rw [fieldsLowered_length]
  exact hlt

/-- Witness for C40: the block `{ float a; (hidden) h; float c; }` lowered
under std140 from the initial traverser. -/
theorem c40_member_indices_witness :
    (spv.TypeRequest.OpTypeStruct
        (fieldsLowered Example.intermediate Example.hiddenMemberBlock .ElpStd140 .ElmNone {}).1
        Example.hiddenMemberBlock.getTypeName,
        newStructId Example.intermediate Example.hiddenMemberBlock .ElpStd140 .ElmNone {}) ∈
      (convertGlslangToSpvType Example.intermediate Example.hiddenMemberBlock .ElpStd140 .ElmNone
        {}).2.builder.types ∧
    (fieldsLowered Example.intermediate Example.hiddenMemberBlock .ElpStd140 .ElmNone {}).1.length =
      (Example.hiddenMemberBlock.getStruct.filter (fun t => !t.hiddenMember)).length ∧
    (convertGlslangToSpvType Example.intermediate Example.hiddenMemberBlock .ElpStd140 .ElmNone
        {}).2.builder.memberInstructions
        (newStructId Example.intermediate Example.hiddenMemberBlock .ElpStd140 .ElmNone {}) =
      decoratedInstrs Example.intermediate Example.hiddenMemberBlock .ElpStd140 .ElmNone
        (newStructId Example.intermediate Example.hiddenMemberBlock .ElpStd140 .ElmNone {}) 0
        (Example.hiddenMemberBlock.getStruct.filter (fun t => !t.hiddenMember)) (-1) ∧
    ∀ d ∈ (convertGlslangToSpvType Example.intermediate Example.hiddenMemberBlock .ElpStd140
        .ElmNone {}).2.builder.memberInstructions
        (newStructId Example.intermediate Example.hiddenMemberBlock .ElpStd140 .ElmNone {}),
      ∃ (j : Nat) (t : TType) (offset : Int),
        (Example.hiddenMemberBlock.getStruct.filter (fun t => !t.hiddenMember))[j]? = some t ∧
        t ∈ Example.hiddenMemberBlock.getStruct ∧ t.hiddenMember = false ∧
        d.member? = some (j : Int) ∧
        j < (fieldsLowered Example.intermediate Example.hiddenMemberBlock .ElpStd140 .ElmNone
          {}).1.length ∧
        d ∈ memberInstrs Example.intermediate Example.hiddenMemberBlock .ElpStd140 .ElmNone
          (newStructId Example.intermediate Example.hiddenMemberBlock .ElpStd140 .ElmNone {})
          (j : Int) t offset :=
  c40_member_indices Example.intermediate Example.hiddenMemberBlock .ElpStd140 .ElmNone {}
    (Or.inr rfl) WF_init rfl (fun _ => rfl) (Or.inl rfl)

end TGlslangToSpvTraverser
